import Mathlib

/-!
# Plus42 core: command dispatch and small/resumable matrix algebra

A shallow embedding of `handle` (core_tables.cc) and of the matrix routines of
core_linalg1.cc, followed by theorems about them.

Conventions of the embedding
* `phloat` scalars are exact rationals; the overflow test `p_isinf`, the binary
  exponent `ilogb` and the two saturation constants are parameters collected in
  `phloat_env`, and `scalbn x e` is exact multiplication by `2 ^ e`.
* The scalars kept in matrices are numbers.  A sum, product or quotient whose exact
  value `x` is out of range (`p_isinf x ≠ 0`) leaves an infinity in the C variable, and
  the arithmetic that goes on from such a variable (the accumulation of the multiply
  workers, the division by the determinant in the small inverse) is done on `xphloat`
  values, where an infinity stays one and the sum of opposite infinities is a NaN.
* C arrays are lists; a read or call the C code would perform outside an array,
  or through a NULL pointer, makes the embedded function return `none`.
* Function pointers stored in globals are first-order tags (`completion_ref`,
  `worker_ref`); calls of the caller-supplied completion are recorded in the
  state's `log`, together with every release of an owned object.
-/

namespace Plus42

/-! ## Data model -/

/-- Modelled from the spec: the error codes are defined in core_globals.h, which is
not among the sources; only the names used by the embedded code are listed, every
other `int` a handler or completion may return is `other n`. -/
inductive Err
  | ERR_NONE
  | ERR_INTERRUPTIBLE
  | ERR_INTERRUPTED
  | ERR_TOO_FEW_ARGUMENTS
  | ERR_ALPHA_DATA_IS_INVALID
  | ERR_INVALID_TYPE
  | ERR_DIMENSION_ERROR
  | ERR_INSUFFICIENT_MEMORY
  | ERR_SINGULAR_MATRIX
  | ERR_OUT_OF_RANGE
  | ERR_DIVIDE_BY_0
  | other (code : Nat)
  deriving DecidableEq, Repr

open Err

/-- Scalars (`phloat`), modelled exactly. -/
abbrev phloat := ℚ

/-- Modelled from the spec: the Scalar primitive (core_phloat.h) is not among the
sources.  `p_isinf x` is negative, zero or positive as a result whose exact value is
`x` is minus infinity, in range, or plus infinity; `ilogb` is the binary exponent; the
two HUGE constants are the saturating extremes; `NAN_PHLOAT` is the scalar that stands
for a NaN stored in a matrix. -/
structure phloat_env where
  p_isinf : phloat → Int
  ilogb : phloat → Int
  POS_HUGE_PHLOAT : phloat
  NEG_HUGE_PHLOAT : phloat
  NAN_PHLOAT : phloat

/-- Exact model of `scalbn(x, e)`: multiplication by a power of two. -/
def scalbn (x : phloat) (e : Int) : phloat := x * (2 : ℚ) ^ e

/-- Modelled from the spec: what a C variable of type `phloat` holds after arithmetic
(core_phloat.h is not among the sources): a number, plus or minus infinity, or a NaN. -/
inductive xphloat
  | num (x : phloat)
  | inf (negative : Bool)
  | nan
  deriving DecidableEq, Repr

instance : Zero xphloat := ⟨xphloat.num 0⟩

/-- Modelled from the spec: the value an operation leaves whose exact result is `x`:
the number `x` when it is in range, the infinity of its sign when it is not. -/
def xnum (env : phloat_env) (x : phloat) : xphloat :=
  if 0 < env.p_isinf x then xphloat.inf false
  else if env.p_isinf x < 0 then xphloat.inf true
  else xphloat.num x

/-- Modelled from the spec: `p_isinf` of a C variable: the overflow test on a number,
the sign of an infinity, zero for a NaN. -/
def xisinf (env : phloat_env) : xphloat → Int
  | .num x => env.p_isinf x
  | .inf false => 1
  | .inf true => -1
  | .nan => 0

/-- Modelled from the spec: the sum of two values.  An infinity absorbs every number
and the infinity of the same sign; opposite infinities give a NaN; a NaN stays. -/
def xadd (env : phloat_env) : xphloat → xphloat → xphloat
  | .num a, .num b => xnum env (a + b)
  | .nan, _ => xphloat.nan
  | _, .nan => xphloat.nan
  | .inf s, .num _ => xphloat.inf s
  | .num _, .inf s => xphloat.inf s
  | .inf s, .inf t => if s = t then xphloat.inf s else xphloat.nan

/-- Modelled from the spec: the negative of a value. -/
def xneg : xphloat → xphloat
  | .num a => xphloat.num (-a)
  | .inf s => xphloat.inf (!s)
  | .nan => xphloat.nan

/-- Modelled from the spec: the difference of two values. -/
def xsub (env : phloat_env) (a b : xphloat) : xphloat := xadd env a (xneg b)

/-- Modelled from the spec: the product of two values.  Infinity times zero is a
NaN, any other product with an infinity is the infinity of the product of the signs. -/
def xmul (env : phloat_env) : xphloat → xphloat → xphloat
  | .num a, .num b => xnum env (a * b)
  | .nan, _ => xphloat.nan
  | _, .nan => xphloat.nan
  | .inf s, .num b => if b = 0 then xphloat.nan else xphloat.inf (s != decide (b < 0))
  | .num a, .inf s => if a = 0 then xphloat.nan else xphloat.inf (s != decide (a < 0))
  | .inf s, .inf t => xphloat.inf (s != t)

/-- Modelled from the spec: the quotient of two values.  A number divided by an
infinity is zero, infinity by infinity and zero by zero are NaN, a non-zero number
divided by zero is an infinity. -/
def xdiv (env : phloat_env) : xphloat → xphloat → xphloat
  | .num a, .num b =>
    if b = 0 then (if a = 0 then xphloat.nan else xphloat.inf (decide (a < 0)))
    else xnum env (a / b)
  | .nan, _ => xphloat.nan
  | _, .nan => xphloat.nan
  | .num _, .inf _ => xphloat.num 0
  | .inf s, .num b => xphloat.inf (s != decide (b < 0))
  | .inf _, .inf _ => xphloat.nan

/-- Real matrix: `rows * columns` scalars in row-major order, with the per-element
string marks of `array->is_string`. -/
structure vartype_realmatrix where
  rows : Nat
  columns : Nat
  data : List phloat
  is_string : List Bool
  deriving DecidableEq, Repr

/-- Complex matrix: `2 * rows * columns` scalars, interleaved re/im pairs. -/
structure vartype_complexmatrix where
  rows : Nat
  columns : Nat
  data : List phloat
  deriving DecidableEq, Repr

/-- The tagged union `vartype`.  Variants whose payload plays no part here carry
none. -/
inductive vartype
  | real (x : phloat)
  | complex (re im : phloat)
  | realmatrix (m : vartype_realmatrix)
  | complexmatrix (m : vartype_complexmatrix)
  | string (txt : List Nat)
  | list
  | equation
  | unit
  | dir_ref
  | pgm_ref
  | var_ref
  deriving DecidableEq, Repr

/-- Modelled from the spec: the TYPE_ tags are defined in core_variables.h, which is
not among the sources; the numbering is the one the `rttypes` masks of `cmd_array`
are written for (bit 0 Real, bit 1 Complex, bit 2 RealMatrix, bit 3 ComplexMatrix,
bit 4 String, ...). -/
def TYPE_REAL : Nat := 1

/-- Modelled from the spec: see `TYPE_REAL`. -/
def TYPE_COMPLEX : Nat := 2

/-- Modelled from the spec: see `TYPE_REAL`. -/
def TYPE_REALMATRIX : Nat := 3

/-- Modelled from the spec: see `TYPE_REAL`. -/
def TYPE_COMPLEXMATRIX : Nat := 4

/-- Modelled from the spec: see `TYPE_REAL`. -/
def TYPE_STRING : Nat := 5

/-- The `type` field of a value. -/
def vartype.type : vartype → Nat
  | .real _ => TYPE_REAL
  | .complex _ _ => TYPE_COMPLEX
  | .realmatrix _ => TYPE_REALMATRIX
  | .complexmatrix _ => TYPE_COMPLEXMATRIX
  | .string _ => TYPE_STRING
  | .list => 6
  | .equation => 7
  | .unit => 8
  | .dir_ref => 9
  | .pgm_ref => 10
  | .var_ref => 11

/-- Operand-argument descriptor passed through to the handler (the `val` union is
kept as its numeric member). -/
structure arg_struct where
  type : Nat
  length : Nat
  target : Int
  val_num : Int
  val_d : phloat
  deriving DecidableEq, Repr

/-- Targets of the `int (*completion)(int, vartype *)` pointers: the completion
handed in by the original caller, or the internal `small_div_completion_2`. -/
inductive completion_ref
  | caller
  | small_div_completion_2
  deriving DecidableEq, Repr

/-- Targets of the `void (*completion)(vartype *)` pointers. -/
inductive completion_v_ref
  | caller
  | small_div_completion_1
  deriving DecidableEq, Repr

/-- Values of `mode_interruptible` installed by this module. -/
inductive worker_ref
  | matrix_mul_rr_worker
  | matrix_mul_rc_worker
  | matrix_mul_cr_worker
  | matrix_mul_cc_worker
  deriving DecidableEq, Repr

/-- Heap objects owned by the matrix routines: the progress record `dat` of a
multiplication and its result, the temporary inverse of the small division, the
scalar `d` of the small inverse, the working copy `lu` handed to the decomposition
(the parameter `a` of the completions), the permutation vector, and the result
matrices `res` of the division and `inv` of the inversion. -/
inductive obj
  | dat
  | dat_result
  | small_div_res
  | d
  | lu
  | perm
  | res
  | inv
  deriving DecidableEq, Repr

/-- Observable actions: a call of the caller's completion (either signature) and
the release of an owned object. -/
inductive event
  | completion (err : Err) (res : Option vartype)
  | completion_v (res : vartype)
  | free (o : obj)
  deriving DecidableEq, Repr

/-- Progress record of the real by real multiplication. -/
structure mul_rr_data_struct where
  left : vartype_realmatrix
  right : vartype_realmatrix
  result : vartype_realmatrix
  i : Nat
  j : Nat
  k : Nat
  sum : xphloat
  completion : completion_ref
  deriving DecidableEq, Repr

/-- Progress record of the real by complex multiplication. -/
structure mul_rc_data_struct where
  left : vartype_realmatrix
  right : vartype_complexmatrix
  result : vartype_complexmatrix
  i : Nat
  j : Nat
  k : Nat
  sum_re : xphloat
  sum_im : xphloat
  completion : completion_ref
  deriving DecidableEq, Repr

/-- Progress record of the complex by real multiplication. -/
structure mul_cr_data_struct where
  left : vartype_complexmatrix
  right : vartype_realmatrix
  result : vartype_complexmatrix
  i : Nat
  j : Nat
  k : Nat
  sum_re : xphloat
  sum_im : xphloat
  completion : completion_ref
  deriving DecidableEq, Repr

/-- Progress record of the complex by complex multiplication. -/
structure mul_cc_data_struct where
  left : vartype_complexmatrix
  right : vartype_complexmatrix
  result : vartype_complexmatrix
  i : Nat
  j : Nat
  k : Nat
  sum_re : xphloat
  sum_im : xphloat
  completion : completion_ref
  deriving DecidableEq, Repr

/-- The process-wide mutable state read or written by the embedded code.
`alloc` lists the outcomes of the coming allocations (`false`: the allocator
returns NULL; an exhausted list means success). -/
structure core_state where
  big_stack : Bool
  range_error_ignore : Bool
  matrix_singularmatrix : Bool
  matrix_outofrange : Bool
  sp : Int
  stack : List vartype
  mode_interruptible : Option worker_ref
  mode_stoppable : Bool
  mul_rr_data : Option mul_rr_data_struct
  mul_rc_data : Option mul_rc_data_struct
  mul_cr_data : Option mul_cr_data_struct
  mul_cc_data : Option mul_cc_data_struct
  small_div_res : Option vartype
  small_div_completion : Option completion_ref
  small_inv_res : Option vartype
  linalg_div_completion : Option completion_ref
  linalg_div_left : Option vartype
  linalg_div_result : Option vartype
  linalg_inv_completion : Option completion_v_ref
  linalg_inv_result : Option vartype
  linalg_det_completion : Option completion_v_ref
  linalg_det_prev_sm_err : Bool
  alloc : List Bool
  log : List event
  deriving DecidableEq, Repr

/-! ## The dispatcher (core_tables.cc) -/

/-- Mask meaning all types. -/
def ALLT : Nat := 0xff

/-- Mask meaning that the function checks its operands itself. -/
def FUNC : Nat := 0xff

/-- Dummy mask of commands without operands. -/
def NA_T : Nat := 0x00

/-- A command descriptor, restricted to the fields `handle` reads; `handler` is
`none` for the entries whose handler is NULL. -/
structure command_spec where
  handler : Option (arg_struct → core_state → Err × core_state)
  argcount : Int
  rttypes : Nat

/-- The object at `cmd_array + cmd`; outside the array there is none. -/
def cmd_array_at (cmd_array : List command_spec) (cmd : Int) : Option command_spec :=
  if cmd < 0 then none else cmd_array[cmd.toNat]?

/-- The stack slot `stack[idx]`; outside the array there is none. -/
def stack_at (st : core_state) (idx : Int) : Option vartype :=
  if idx < 0 then none else st.stack[idx.toNat]?

/-- First block of `handle`: `some true` when it returns ERR_TOO_FEW_ARGUMENTS. -/
def too_few_arguments (cs : command_spec) (st : core_state) : Option Bool :=
  if st.big_stack then
    if cs.argcount = -1 then
      if st.sp = -1 then some true
      else if st.sp = 0 then
        match stack_at st st.sp with
        | none => none
        | some v => some (v.type != TYPE_COMPLEX && v.type != TYPE_COMPLEXMATRIX)
      else some false
    else
      some (decide (st.sp + 1 < cs.argcount))
  else if cs.argcount > 4 then some true
  else some false

/-- The loop of the type check, over the operand indices still to visit:
`some (some e)` when it returns the error `e`, `some none` when it runs through. -/
def check_types (st : core_state) (rttypes : Nat) : List Nat → Option (Option Err)
  | [] => some none
  | i :: rest =>
    match stack_at st (st.sp - (i : Int)) with
    | none => none
    | some v =>
      let type := 1 <<< (v.type - 1)
      if type &&& rttypes = 0 then
        if type = 1 <<< (TYPE_STRING - 1) then some (some ERR_ALPHA_DATA_IS_INVALID)
        else some (some ERR_INVALID_TYPE)
      else check_types st rttypes rest

/-- Second block of `handle`: the type check, skipped unless `argcount > 0` and
the mask is not ALLT. -/
def type_check (cs : command_spec) (st : core_state) : Option (Option Err) :=
  if cs.argcount > 0 ∧ cs.rttypes ≠ ALLT then
    check_types st cs.rttypes (List.range cs.argcount.toNat)
  else some none

/-- The dispatcher `handle(cmd, arg)`, on the state `st`. -/
def handle (cmd_array : List command_spec) (st : core_state) (cmd : Int)
    (arg : arg_struct) : Option (Err × core_state) :=
  match cmd_array_at cmd_array cmd with
  | none => none
  | some cs =>
    match too_few_arguments cs st with
    | none => none
    | some true => some (ERR_TOO_FEW_ARGUMENTS, st)
    | some false =>
      match type_check cs st with
      | none => none
      | some (some e) => some (e, st)
      | some none =>
        match cs.handler with
        | none => none
        | some h => some (h arg st)

/-! ## Allocation, release and completions -/

/-- One allocation request (`malloc`, `new_realmatrix`, ...): whether it succeeds,
and the state with that outcome consumed. -/
def alloc_next (st : core_state) : Bool × core_state :=
  (st.alloc.headD true, { st with alloc := st.alloc.tail })

/-- Record the release of an owned object (`free`, `free_vartype`). -/
def release (o : obj) (st : core_state) : core_state :=
  { st with log := st.log ++ [event.free o] }

/-- Modelled from the spec: `contains_strings` is defined in core_variables.cc, not
among the sources; a matrix contains strings when one of its elements is marked as
a string. -/
def contains_strings (m : vartype_realmatrix) : Bool :=
  m.is_string.any id

/-- Modelled from the spec: `new_realmatrix(rows, columns)` (core_variables.cc, not
among the sources) yields a zero-filled matrix without string elements. -/
def new_realmatrix (rows columns : Nat) : vartype_realmatrix :=
  { rows := rows, columns := columns,
    data := List.replicate (rows * columns) 0,
    is_string := List.replicate (rows * columns) false }

/-- Modelled from the spec: `new_complexmatrix(rows, columns)` (core_variables.cc, not
among the sources) yields a zero-filled matrix of interleaved re/im pairs. -/
def new_complexmatrix (rows columns : Nat) : vartype_complexmatrix :=
  { rows := rows, columns := columns,
    data := List.replicate (2 * (rows * columns)) 0 }

/-- A call `completion(err, res)` through an `int (*)(int, vartype *)` pointer.
The caller's completion `cb` is recorded in the log and its return value passed
back; `small_div_completion_2` releases `small_div_res` and forwards to the
pointer saved in `small_div_completion` (were that pointer itself
`small_div_completion_2` the call would not return: `none`). -/
def call_completion (cb : Err → Option vartype → Err) (c : completion_ref) (err : Err)
    (res : Option vartype) (st : core_state) : Option (Err × core_state) :=
  match c with
  | .caller => some (cb err res, { st with log := st.log ++ [event.completion err res] })
  | .small_div_completion_2 =>
    let st1 := release obj.small_div_res st
    match st1.small_div_completion with
    | some .caller =>
      some (cb err res, { st1 with log := st1.log ++ [event.completion err res] })
    | _ => none

/-! ## Matrix-matrix multiplication (core_linalg1.cc) -/

/-- The ways the `while (count++ < 1000)` loop of a multiply worker is left: the
budget is used up (with the indices, accumulator and result data reached), a
completed sum is out of range and must be reported, or the last element has been
stored. -/
inductive loop_exit (A : Type)
  | budget (i j k : Nat) (sum : A) (p : List phloat)
  | out_of_range (p : List phloat)
  | finished (p : List phloat)

/-- The overflow policy applied to a completed sum that is a number: `none` when the
worker reports ERR_OUT_OF_RANGE, otherwise the value to store (clamped when infinite). -/
def check_sum (env : phloat_env) (st : core_state) (sum : phloat) : Option phloat :=
  let inf := env.p_isinf sum
  if inf ≠ 0 then
    if st.matrix_outofrange && !st.range_error_ignore then none
    else some (if inf < 0 then env.NEG_HUGE_PHLOAT else env.POS_HUGE_PHLOAT)
  else some sum

/-- The test `if ((inf = p_isinf(sum)) != 0) ...` of the workers on the accumulator,
followed by the store: `none` when the worker reports ERR_OUT_OF_RANGE, otherwise the
scalar stored.  An infinity is replaced by the saturating extreme of its sign; a NaN
passes the test (`p_isinf` of a NaN is zero) and is stored as it is. -/
def check_acc (env : phloat_env) (st : core_state) : xphloat → Option phloat
  | .num x => check_sum env st x
  | .inf negative =>
    if st.matrix_outofrange && !st.range_error_ignore then none
    else some (if negative then env.NEG_HUGE_PHLOAT else env.POS_HUGE_PHLOAT)
  | .nan => some env.NAN_PHLOAT

/-- `matrix_mul_rr`: checks, allocation of the progress record and of the result,
installation of the worker. -/
def matrix_mul_rr (cb : Err → Option vartype → Err) (left right : vartype_realmatrix)
    (completion : completion_ref) (st : core_state) : Option (Err × core_state) :=
  if left.columns ≠ right.rows then
    call_completion cb completion ERR_DIMENSION_ERROR none st
  else if contains_strings left || contains_strings right then
    call_completion cb completion ERR_ALPHA_DATA_IS_INVALID none st
  else
    let a1 := alloc_next st
    if !a1.1 then call_completion cb completion ERR_INSUFFICIENT_MEMORY none a1.2
    else
      let a2 := alloc_next a1.2
      if !a2.1 then
        call_completion cb completion ERR_INSUFFICIENT_MEMORY none (release obj.dat a2.2)
      else
        some (ERR_INTERRUPTIBLE,
          { a2.2 with
            mul_rr_data := some
              { left := left, right := right,
                result := new_realmatrix left.rows right.columns,
                i := 0, j := 0, k := 0, sum := 0, completion := completion },
            mode_interruptible := some worker_ref.matrix_mul_rr_worker,
            mode_stoppable := false })

/-- The loop of `matrix_mul_rr_worker`, `count` iterations being left, on the local
copies of the indices, the accumulator and the result data `p`.  The product and the
sum are `phloat` operations: each leaves an infinity when its result is out of range,
and an accumulator that has become infinite stays so until the sum is completed. -/
def matrix_mul_rr_loop (env : phloat_env) (st : core_state) (dat : mul_rr_data_struct) :
    Nat → Nat → Nat → Nat → xphloat → List phloat → Option (loop_exit xphloat)
  | 0, i, j, k, sum, p => some (loop_exit.budget i j k sum p)
  | count + 1, i, j, k, sum, p =>
    let m := dat.left.rows
    let n := dat.right.columns
    let q := dat.left.columns
    match dat.left.data[i * q + k]?, dat.right.data[k * n + j]? with
    | some lv, some rv =>
      let sum1 := xadd env sum (xnum env (lv * rv))
      if k + 1 < q then matrix_mul_rr_loop env st dat count i j (k + 1) sum1 p
      else
        match check_acc env st sum1 with
        | none => some (loop_exit.out_of_range p)
        | some v =>
          if i * n + j < p.length then
            let p1 := p.set (i * n + j) v
            if j + 1 < n then matrix_mul_rr_loop env st dat count i (j + 1) 0 0 p1
            else if i + 1 < m then matrix_mul_rr_loop env st dat count (i + 1) 0 0 0 p1
            else some (loop_exit.finished p1)
          else none
    | _, _ => none

/-- `matrix_mul_rr_worker(interrupted)`.  Freeing the progress record leaves
`mul_rr_data` without a valid target. -/
def matrix_mul_rr_worker (env : phloat_env) (cb : Err → Option vartype → Err)
    (interrupted : Bool) (st : core_state) : Option (Err × core_state) :=
  match st.mul_rr_data with
  | none => none
  | some dat =>
    if interrupted then
      match call_completion cb dat.completion ERR_INTERRUPTED none st with
      | none => none
      | some r =>
        some (r.1, { release obj.dat (release obj.dat_result r.2) with mul_rr_data := none })
    else
      match matrix_mul_rr_loop env st dat 1000 dat.i dat.j dat.k dat.sum dat.result.data with
      | none => none
      | some (loop_exit.budget i j k sum p) =>
        let dat1 : mul_rr_data_struct :=
          { dat with i := i, j := j, k := k, sum := sum,
                     result := { dat.result with data := p } }
        some (ERR_INTERRUPTIBLE, { st with mul_rr_data := some dat1 })
      | some (loop_exit.out_of_range p) =>
        let dat1 : mul_rr_data_struct := { dat with result := { dat.result with data := p } }
        let st1 := { st with mul_rr_data := some dat1 }
        match call_completion cb dat.completion ERR_OUT_OF_RANGE none st1 with
        | none => none
        | some r =>
          some (r.1, { release obj.dat (release obj.dat_result r.2) with mul_rr_data := none })
      | some (loop_exit.finished p) =>
        let res : vartype_realmatrix := { dat.result with data := p }
        let dat1 : mul_rr_data_struct := { dat with result := res }
        let st1 := { st with mul_rr_data := some dat1 }
        match call_completion cb dat.completion ERR_NONE (some (vartype.realmatrix res)) st1 with
        | none => none
        | some r => some (r.1, { release obj.dat r.2 with mul_rr_data := none })

/-- `matrix_mul_rc`: checks, allocation of the progress record and of the result,
installation of the worker. -/
def matrix_mul_rc (cb : Err → Option vartype → Err) (left : vartype_realmatrix)
    (right : vartype_complexmatrix) (completion : completion_ref) (st : core_state) :
    Option (Err × core_state) :=
  if left.columns ≠ right.rows then
    call_completion cb completion ERR_DIMENSION_ERROR none st
  else if contains_strings left then
    call_completion cb completion ERR_ALPHA_DATA_IS_INVALID none st
  else
    let a1 := alloc_next st
    if !a1.1 then call_completion cb completion ERR_INSUFFICIENT_MEMORY none a1.2
    else
      let a2 := alloc_next a1.2
      if !a2.1 then
        call_completion cb completion ERR_INSUFFICIENT_MEMORY none (release obj.dat a2.2)
      else
        some (ERR_INTERRUPTIBLE,
          { a2.2 with
            mul_rc_data := some
              { left := left, right := right,
                result := new_complexmatrix left.rows right.columns,
                i := 0, j := 0, k := 0, sum_re := 0, sum_im := 0, completion := completion },
            mode_interruptible := some worker_ref.matrix_mul_rc_worker,
            mode_stoppable := false })

/-- The loop of `matrix_mul_rc_worker`, `count` iterations being left, on the local
copies of the indices, the two accumulators and the result data `p`. -/
def matrix_mul_rc_loop (env : phloat_env) (st : core_state) (dat : mul_rc_data_struct) :
    Nat → Nat → Nat → Nat → xphloat → xphloat → List phloat →
      Option (loop_exit (xphloat × xphloat))
  | 0, i, j, k, sum_re, sum_im, p => some (loop_exit.budget i j k (sum_re, sum_im) p)
  | count + 1, i, j, k, sum_re, sum_im, p =>
    let m := dat.left.rows
    let n := dat.right.columns
    let q := dat.left.columns
    match dat.left.data[i * q + k]?, dat.right.data[2 * (k * n + j)]?,
        dat.right.data[2 * (k * n + j) + 1]? with
    | some tmp, some r_re, some r_im =>
      let sum_re1 := xadd env sum_re (xnum env (tmp * r_re))
      let sum_im1 := xadd env sum_im (xnum env (tmp * r_im))
      if k + 1 < q then matrix_mul_rc_loop env st dat count i j (k + 1) sum_re1 sum_im1 p
      else
        match check_acc env st sum_re1 with
        | none => some (loop_exit.out_of_range p)
        | some v_re =>
          match check_acc env st sum_im1 with
          | none => some (loop_exit.out_of_range p)
          | some v_im =>
            if 2 * (i * n + j) + 1 < p.length then
              let p1 := (p.set (2 * (i * n + j)) v_re).set (2 * (i * n + j) + 1) v_im
              if j + 1 < n then matrix_mul_rc_loop env st dat count i (j + 1) 0 0 0 p1
              else if i + 1 < m then matrix_mul_rc_loop env st dat count (i + 1) 0 0 0 0 p1
              else some (loop_exit.finished p1)
            else none
    | _, _, _ => none

/-- `matrix_mul_rc_worker(interrupted)`.  Freeing the progress record leaves
`mul_rc_data` without a valid target. -/
def matrix_mul_rc_worker (env : phloat_env) (cb : Err → Option vartype → Err)
    (interrupted : Bool) (st : core_state) : Option (Err × core_state) :=
  match st.mul_rc_data with
  | none => none
  | some dat =>
    if interrupted then
      match call_completion cb dat.completion ERR_INTERRUPTED none st with
      | none => none
      | some r =>
        some (r.1, { release obj.dat (release obj.dat_result r.2) with mul_rc_data := none })
    else
      match matrix_mul_rc_loop env st dat 1000 dat.i dat.j dat.k dat.sum_re dat.sum_im
          dat.result.data with
      | none => none
      | some (loop_exit.budget i j k sum p) =>
        let dat1 : mul_rc_data_struct :=
          { dat with i := i, j := j, k := k, sum_re := sum.1, sum_im := sum.2,
                     result := { dat.result with data := p } }
        some (ERR_INTERRUPTIBLE, { st with mul_rc_data := some dat1 })
      | some (loop_exit.out_of_range p) =>
        let dat1 : mul_rc_data_struct := { dat with result := { dat.result with data := p } }
        let st1 := { st with mul_rc_data := some dat1 }
        match call_completion cb dat.completion ERR_OUT_OF_RANGE none st1 with
        | none => none
        | some r =>
          some (r.1, { release obj.dat (release obj.dat_result r.2) with mul_rc_data := none })
      | some (loop_exit.finished p) =>
        let res : vartype_complexmatrix := { dat.result with data := p }
        let dat1 : mul_rc_data_struct := { dat with result := res }
        let st1 := { st with mul_rc_data := some dat1 }
        match call_completion cb dat.completion ERR_NONE (some (vartype.complexmatrix res)) st1 with
        | none => none
        | some r => some (r.1, { release obj.dat r.2 with mul_rc_data := none })

/-- `matrix_mul_cr`: checks, allocation of the progress record and of the result,
installation of the worker. -/
def matrix_mul_cr (cb : Err → Option vartype → Err) (left : vartype_complexmatrix)
    (right : vartype_realmatrix) (completion : completion_ref) (st : core_state) :
    Option (Err × core_state) :=
  if left.columns ≠ right.rows then
    call_completion cb completion ERR_DIMENSION_ERROR none st
  else if contains_strings right then
    call_completion cb completion ERR_ALPHA_DATA_IS_INVALID none st
  else
    let a1 := alloc_next st
    if !a1.1 then call_completion cb completion ERR_INSUFFICIENT_MEMORY none a1.2
    else
      let a2 := alloc_next a1.2
      if !a2.1 then
        call_completion cb completion ERR_INSUFFICIENT_MEMORY none (release obj.dat a2.2)
      else
        some (ERR_INTERRUPTIBLE,
          { a2.2 with
            mul_cr_data := some
              { left := left, right := right,
                result := new_complexmatrix left.rows right.columns,
                i := 0, j := 0, k := 0, sum_re := 0, sum_im := 0, completion := completion },
            mode_interruptible := some worker_ref.matrix_mul_cr_worker,
            mode_stoppable := false })

/-- The loop of `matrix_mul_cr_worker`, `count` iterations being left, on the local
copies of the indices, the two accumulators and the result data `p`. -/
def matrix_mul_cr_loop (env : phloat_env) (st : core_state) (dat : mul_cr_data_struct) :
    Nat → Nat → Nat → Nat → xphloat → xphloat → List phloat →
      Option (loop_exit (xphloat × xphloat))
  | 0, i, j, k, sum_re, sum_im, p => some (loop_exit.budget i j k (sum_re, sum_im) p)
  | count + 1, i, j, k, sum_re, sum_im, p =>
    let m := dat.left.rows
    let n := dat.right.columns
    let q := dat.left.columns
    match dat.right.data[k * n + j]?, dat.left.data[2 * (i * q + k)]?,
        dat.left.data[2 * (i * q + k) + 1]? with
    | some tmp, some l_re, some l_im =>
      let sum_re1 := xadd env sum_re (xnum env (tmp * l_re))
      let sum_im1 := xadd env sum_im (xnum env (tmp * l_im))
      if k + 1 < q then matrix_mul_cr_loop env st dat count i j (k + 1) sum_re1 sum_im1 p
      else
        match check_acc env st sum_re1 with
        | none => some (loop_exit.out_of_range p)
        | some v_re =>
          match check_acc env st sum_im1 with
          | none => some (loop_exit.out_of_range p)
          | some v_im =>
            if 2 * (i * n + j) + 1 < p.length then
              let p1 := (p.set (2 * (i * n + j)) v_re).set (2 * (i * n + j) + 1) v_im
              if j + 1 < n then matrix_mul_cr_loop env st dat count i (j + 1) 0 0 0 p1
              else if i + 1 < m then matrix_mul_cr_loop env st dat count (i + 1) 0 0 0 0 p1
              else some (loop_exit.finished p1)
            else none
    | _, _, _ => none

/-- `matrix_mul_cr_worker(interrupted)`.  Freeing the progress record leaves
`mul_cr_data` without a valid target. -/
def matrix_mul_cr_worker (env : phloat_env) (cb : Err → Option vartype → Err)
    (interrupted : Bool) (st : core_state) : Option (Err × core_state) :=
  match st.mul_cr_data with
  | none => none
  | some dat =>
    if interrupted then
      match call_completion cb dat.completion ERR_INTERRUPTED none st with
      | none => none
      | some r =>
        some (r.1, { release obj.dat (release obj.dat_result r.2) with mul_cr_data := none })
    else
      match matrix_mul_cr_loop env st dat 1000 dat.i dat.j dat.k dat.sum_re dat.sum_im
          dat.result.data with
      | none => none
      | some (loop_exit.budget i j k sum p) =>
        let dat1 : mul_cr_data_struct :=
          { dat with i := i, j := j, k := k, sum_re := sum.1, sum_im := sum.2,
                     result := { dat.result with data := p } }
        some (ERR_INTERRUPTIBLE, { st with mul_cr_data := some dat1 })
      | some (loop_exit.out_of_range p) =>
        let dat1 : mul_cr_data_struct := { dat with result := { dat.result with data := p } }
        let st1 := { st with mul_cr_data := some dat1 }
        match call_completion cb dat.completion ERR_OUT_OF_RANGE none st1 with
        | none => none
        | some r =>
          some (r.1, { release obj.dat (release obj.dat_result r.2) with mul_cr_data := none })
      | some (loop_exit.finished p) =>
        let res : vartype_complexmatrix := { dat.result with data := p }
        let dat1 : mul_cr_data_struct := { dat with result := res }
        let st1 := { st with mul_cr_data := some dat1 }
        match call_completion cb dat.completion ERR_NONE (some (vartype.complexmatrix res)) st1 with
        | none => none
        | some r => some (r.1, { release obj.dat r.2 with mul_cr_data := none })

/-- `matrix_mul_cc`: checks, allocation of the progress record and of the result,
installation of the worker. -/
def matrix_mul_cc (cb : Err → Option vartype → Err) (left : vartype_complexmatrix)
    (right : vartype_complexmatrix) (completion : completion_ref) (st : core_state) :
    Option (Err × core_state) :=
  if left.columns ≠ right.rows then
    call_completion cb completion ERR_DIMENSION_ERROR none st
  else
    let a1 := alloc_next st
    if !a1.1 then call_completion cb completion ERR_INSUFFICIENT_MEMORY none a1.2
    else
      let a2 := alloc_next a1.2
      if !a2.1 then
        call_completion cb completion ERR_INSUFFICIENT_MEMORY none (release obj.dat a2.2)
      else
        some (ERR_INTERRUPTIBLE,
          { a2.2 with
            mul_cc_data := some
              { left := left, right := right,
                result := new_complexmatrix left.rows right.columns,
                i := 0, j := 0, k := 0, sum_re := 0, sum_im := 0, completion := completion },
            mode_interruptible := some worker_ref.matrix_mul_cc_worker,
            mode_stoppable := false })

/-- The loop of `matrix_mul_cc_worker`, `count` iterations being left, on the local
copies of the indices, the two accumulators and the result data `p`. -/
def matrix_mul_cc_loop (env : phloat_env) (st : core_state) (dat : mul_cc_data_struct) :
    Nat → Nat → Nat → Nat → xphloat → xphloat → List phloat →
      Option (loop_exit (xphloat × xphloat))
  | 0, i, j, k, sum_re, sum_im, p => some (loop_exit.budget i j k (sum_re, sum_im) p)
  | count + 1, i, j, k, sum_re, sum_im, p =>
    let m := dat.left.rows
    let n := dat.right.columns
    let q := dat.left.columns
    match dat.left.data[2 * (i * q + k)]?, dat.left.data[2 * (i * q + k) + 1]?,
        dat.right.data[2 * (k * n + j)]?, dat.right.data[2 * (k * n + j) + 1]? with
    | some l_re, some l_im, some r_re, some r_im =>
      let sum_re1 :=
        xadd env sum_re (xsub env (xnum env (l_re * r_re)) (xnum env (l_im * r_im)))
      let sum_im1 :=
        xadd env sum_im (xadd env (xnum env (l_im * r_re)) (xnum env (l_re * r_im)))
      if k + 1 < q then matrix_mul_cc_loop env st dat count i j (k + 1) sum_re1 sum_im1 p
      else
        match check_acc env st sum_re1 with
        | none => some (loop_exit.out_of_range p)
        | some v_re =>
          match check_acc env st sum_im1 with
          | none => some (loop_exit.out_of_range p)
          | some v_im =>
            if 2 * (i * n + j) + 1 < p.length then
              let p1 := (p.set (2 * (i * n + j)) v_re).set (2 * (i * n + j) + 1) v_im
              if j + 1 < n then matrix_mul_cc_loop env st dat count i (j + 1) 0 0 0 p1
              else if i + 1 < m then matrix_mul_cc_loop env st dat count (i + 1) 0 0 0 0 p1
              else some (loop_exit.finished p1)
            else none
    | _, _, _, _ => none

/-- `matrix_mul_cc_worker(interrupted)`.  Freeing the progress record leaves
`mul_cc_data` without a valid target. -/
def matrix_mul_cc_worker (env : phloat_env) (cb : Err → Option vartype → Err)
    (interrupted : Bool) (st : core_state) : Option (Err × core_state) :=
  match st.mul_cc_data with
  | none => none
  | some dat =>
    if interrupted then
      match call_completion cb dat.completion ERR_INTERRUPTED none st with
      | none => none
      | some r =>
        some (r.1, { release obj.dat (release obj.dat_result r.2) with mul_cc_data := none })
    else
      match matrix_mul_cc_loop env st dat 1000 dat.i dat.j dat.k dat.sum_re dat.sum_im
          dat.result.data with
      | none => none
      | some (loop_exit.budget i j k sum p) =>
        let dat1 : mul_cc_data_struct :=
          { dat with i := i, j := j, k := k, sum_re := sum.1, sum_im := sum.2,
                     result := { dat.result with data := p } }
        some (ERR_INTERRUPTIBLE, { st with mul_cc_data := some dat1 })
      | some (loop_exit.out_of_range p) =>
        let dat1 : mul_cc_data_struct := { dat with result := { dat.result with data := p } }
        let st1 := { st with mul_cc_data := some dat1 }
        match call_completion cb dat.completion ERR_OUT_OF_RANGE none st1 with
        | none => none
        | some r =>
          some (r.1, { release obj.dat (release obj.dat_result r.2) with mul_cc_data := none })
      | some (loop_exit.finished p) =>
        let res : vartype_complexmatrix := { dat.result with data := p }
        let dat1 : mul_cc_data_struct := { dat with result := res }
        let st1 := { st with mul_cc_data := some dat1 }
        match call_completion cb dat.completion ERR_NONE (some (vartype.complexmatrix res)) st1 with
        | none => none
        | some r => some (r.1, { release obj.dat r.2 with mul_cc_data := none })

/-- `linalg_mul`: dispatch on the operand types.  The casts assume matrices; any
other operand has no defined behaviour. -/
def linalg_mul (cb : Err → Option vartype → Err) (left right : vartype)
    (completion : completion_ref) (st : core_state) : Option (Err × core_state) :=
  match left, right with
  | .realmatrix l, .realmatrix r => matrix_mul_rr cb l r completion st
  | .realmatrix l, .complexmatrix r => matrix_mul_rc cb l r completion st
  | .complexmatrix l, .realmatrix r => matrix_mul_cr cb l r completion st
  | .complexmatrix l, .complexmatrix r => matrix_mul_cc cb l r completion st
  | _, _ => none

/-- Modelled from the spec: the host loop (not among the sources) re-invokes the
installed worker; this is one such invocation. -/
def reenter (env : phloat_env) (cb : Err → Option vartype → Err) (interrupted : Bool)
    (st : core_state) : Option (Err × core_state) :=
  match st.mode_interruptible with
  | none => none
  | some worker_ref.matrix_mul_rr_worker => matrix_mul_rr_worker env cb interrupted st
  | some worker_ref.matrix_mul_rc_worker => matrix_mul_rc_worker env cb interrupted st
  | some worker_ref.matrix_mul_cr_worker => matrix_mul_cr_worker env cb interrupted st
  | some worker_ref.matrix_mul_cc_worker => matrix_mul_cc_worker env cb interrupted st

/-- The state after `t` successive re-entries with `interrupted = false` that all
returned ERR_INTERRUPTIBLE; `none` if one of them returned anything else. -/
def suspended_after (env : phloat_env) (cb : Err → Option vartype → Err) :
    Nat → core_state → Option core_state
  | 0, st => some st
  | t + 1, st =>
    match reenter env cb false st with
    | some (ERR_INTERRUPTIBLE, st1) => suspended_after env cb t st1
    | _ => none

/-! ## The common shape of the four multiply loops (used in the proofs) -/

/-- What distinguishes the four worker loops: the dimensions, the term added for
the indices `i j k` (`none` for a read outside the operands), the accumulator, the
range policy applied to a completed sum and the store into the result data. -/
structure mul_kernel (A B : Type) where
  m : Nat
  n : Nat
  q : Nat
  term : Nat → Nat → Nat → Option A
  add : A → A → A
  zero : A
  check : A → Option B
  store : List phloat → Nat → B → Option (List phloat)

/-- The worker loop over a kernel. -/
def mul_kernel.loop {A B : Type} (K : mul_kernel A B) :
    Nat → Nat → Nat → Nat → A → List phloat → Option (loop_exit A)
  | 0, i, j, k, sum, p => some (loop_exit.budget i j k sum p)
  | count + 1, i, j, k, sum, p =>
    match K.term i j k with
    | none => none
    | some t =>
      if k + 1 < K.q then K.loop count i j (k + 1) (K.add sum t) p
      else
        match K.check (K.add sum t) with
        | none => some (loop_exit.out_of_range p)
        | some v =>
          match K.store p (i * K.n + j) v with
          | none => none
          | some p1 =>
            if j + 1 < K.n then K.loop count i (j + 1) 0 K.zero p1
            else if i + 1 < K.m then K.loop count (i + 1) 0 0 K.zero p1
            else some (loop_exit.finished p1)

/-- The sum of the first `k` terms for the result element `i j`, for a total term
function `f`. -/
def psum {A : Type} (add : A → A → A) (zero : A) (f : Nat → Nat → Nat → A)
    (i j : Nat) : Nat → A
  | 0 => zero
  | k + 1 => add (psum add zero f i j k) (f i j k)

/-- Loop state between two invocations of a worker: indices, accumulator, data. -/
structure loop_state (A : Type) where
  i : Nat
  j : Nat
  k : Nat
  sum : A
  p : List phloat

/-- The loop state after `t` invocations of 1000 iterations that all used up their
budget. -/
def mul_kernel.rounds {A B : Type} (K : mul_kernel A B) :
    Nat → loop_state A → Option (loop_state A)
  | 0, x => some x
  | t + 1, x =>
    match K.loop 1000 x.i x.j x.k x.sum x.p with
    | some (loop_exit.budget i j k sum p) => K.rounds t ⟨i, j, k, sum, p⟩
    | _ => none

/-- Kernel of `matrix_mul_rr_worker`. -/
def kernel_rr (env : phloat_env) (st : core_state) (left right : vartype_realmatrix) :
    mul_kernel xphloat phloat where
  m := left.rows
  n := right.columns
  q := left.columns
  term := fun i j k =>
    match left.data[i * left.columns + k]?, right.data[k * right.columns + j]? with
    | some lv, some rv => some (xnum env (lv * rv))
    | _, _ => none
  add := xadd env
  zero := 0
  check := check_acc env st
  store := fun p idx v => if idx < p.length then some (p.set idx v) else none

/-- Componentwise addition of re/im pairs. -/
def add2 (a b : phloat × phloat) : phloat × phloat := (a.1 + b.1, a.2 + b.2)

/-- Componentwise `phloat` addition of re/im accumulators. -/
def xadd2 (env : phloat_env) (a b : xphloat × xphloat) : xphloat × xphloat :=
  (xadd env a.1 b.1, xadd env a.2 b.2)

/-- Range policy on a pair of completed sums that are numbers, real part first. -/
def check_sum2 (env : phloat_env) (st : core_state) (s : phloat × phloat) :
    Option (phloat × phloat) :=
  match check_sum env st s.1 with
  | none => none
  | some v_re =>
    match check_sum env st s.2 with
    | none => none
    | some v_im => some (v_re, v_im)

/-- Range policy on a pair of accumulators, real part first. -/
def check_acc2 (env : phloat_env) (st : core_state) (s : xphloat × xphloat) :
    Option (phloat × phloat) :=
  match check_acc env st s.1 with
  | none => none
  | some v_re =>
    match check_acc env st s.2 with
    | none => none
    | some v_im => some (v_re, v_im)

/-- Store of a re/im pair at element `idx` of interleaved data. -/
def store2 (p : List phloat) (idx : Nat) (v : phloat × phloat) : Option (List phloat) :=
  if 2 * idx + 1 < p.length then some ((p.set (2 * idx) v.1).set (2 * idx + 1) v.2) else none

/-- Kernel of `matrix_mul_rc_worker`. -/
def kernel_rc (env : phloat_env) (st : core_state) (left : vartype_realmatrix)
    (right : vartype_complexmatrix) : mul_kernel (xphloat × xphloat) (phloat × phloat) where
  m := left.rows
  n := right.columns
  q := left.columns
  term := fun i j k =>
    match left.data[i * left.columns + k]?, right.data[2 * (k * right.columns + j)]?,
        right.data[2 * (k * right.columns + j) + 1]? with
    | some tmp, some r_re, some r_im => some (xnum env (tmp * r_re), xnum env (tmp * r_im))
    | _, _, _ => none
  add := xadd2 env
  zero := (0, 0)
  check := check_acc2 env st
  store := store2

/-- Kernel of `matrix_mul_cr_worker`. -/
def kernel_cr (env : phloat_env) (st : core_state) (left : vartype_complexmatrix)
    (right : vartype_realmatrix) : mul_kernel (xphloat × xphloat) (phloat × phloat) where
  m := left.rows
  n := right.columns
  q := left.columns
  term := fun i j k =>
    match right.data[k * right.columns + j]?, left.data[2 * (i * left.columns + k)]?,
        left.data[2 * (i * left.columns + k) + 1]? with
    | some tmp, some l_re, some l_im => some (xnum env (tmp * l_re), xnum env (tmp * l_im))
    | _, _, _ => none
  add := xadd2 env
  zero := (0, 0)
  check := check_acc2 env st
  store := store2

/-- Kernel of `matrix_mul_cc_worker`. -/
def kernel_cc (env : phloat_env) (st : core_state) (left right : vartype_complexmatrix) :
    mul_kernel (xphloat × xphloat) (phloat × phloat) where
  m := left.rows
  n := right.columns
  q := left.columns
  term := fun i j k =>
    match left.data[2 * (i * left.columns + k)]?, left.data[2 * (i * left.columns + k) + 1]?,
        right.data[2 * (k * right.columns + j)]?, right.data[2 * (k * right.columns + j) + 1]? with
    | some l_re, some l_im, some r_re, some r_im =>
      some (xsub env (xnum env (l_re * r_re)) (xnum env (l_im * r_im)),
        xadd env (xnum env (l_im * r_re)) (xnum env (l_re * r_im)))
    | _, _, _, _ => none
  add := xadd2 env
  zero := (0, 0)
  check := check_acc2 env st
  store := store2

/-- What the proofs need of a kernel: the terms are defined inside the index range,
completed sums pass the range policy with value `g idx`, and stores into data of
the right length succeed and are read back by `rd`. -/
structure kernel_ok {A B : Type} (K : mul_kernel A B) (f : Nat → Nat → Nat → A)
    (g : Nat → B) (L : Nat) (rd : List phloat → Nat → B) : Prop where
  term_eq : ∀ i j k, i < K.m → j < K.n → k < K.q → K.term i j k = some (f i j k)
  check_eq : ∀ i j, i < K.m → j < K.n →
    K.check (psum K.add K.zero f i j K.q) = some (g (i * K.n + j))
  store_ok : ∀ p idx v, p.length = L → idx < K.m * K.n →
    ∃ p1, K.store p idx v = some p1 ∧ p1.length = L ∧ rd p1 idx = v ∧
      ∀ idx1, idx1 ≠ idx → rd p1 idx1 = rd p idx1

/-- Invariant of the loop state. -/
def loop_inv {A B : Type} (K : mul_kernel A B) (f : Nat → Nat → Nat → A) (g : Nat → B)
    (L : Nat) (rd : List phloat → Nat → B) (x : loop_state A) : Prop :=
  x.i < K.m ∧ x.j < K.n ∧ x.k < K.q ∧ x.sum = psum K.add K.zero f x.i x.j x.k ∧
    x.p.length = L ∧ ∀ idx, idx < x.i * K.n + x.j → rd x.p idx = g idx

/-- Number of iterations done when the loop state is `x`. -/
def steps_done {A B : Type} (K : mul_kernel A B) (x : loop_state A) : Nat :=
  (x.i * K.n + x.j) * K.q + x.k

/-- A kernel whose range policy fails first at the element of index `N0`: the terms
are defined, the completed sums of the elements before `N0` pass the range policy with
value `g idx`, the completed sum of the element `N0` fails it, and stores succeed. -/
structure kernel_fail {A B : Type} (K : mul_kernel A B) (f : Nat → Nat → Nat → A)
    (g : Nat → B) (L : Nat) (rd : List phloat → Nat → B) (N0 : Nat) : Prop where
  bound : N0 < K.m * K.n
  term_eq : ∀ i j k, i < K.m → j < K.n → k < K.q → K.term i j k = some (f i j k)
  check_eq : ∀ i j, i < K.m → j < K.n → i * K.n + j < N0 →
    K.check (psum K.add K.zero f i j K.q) = some (g (i * K.n + j))
  check_fail : ∀ i j, i < K.m → j < K.n → i * K.n + j = N0 →
    K.check (psum K.add K.zero f i j K.q) = none
  store_ok : ∀ p idx v, p.length = L → idx < K.m * K.n →
    ∃ p1, K.store p idx v = some p1 ∧ p1.length = L ∧ rd p1 idx = v ∧
      ∀ idx1, idx1 ≠ idx → rd p1 idx1 = rd p idx1

/-- Invariant of the loop state on the way to the failing element `N0`: the elements
before the current one hold their stored values, the current one and those after it
still hold `z`, the value they were allocated with. -/
def fail_inv {A B : Type} (K : mul_kernel A B) (f : Nat → Nat → Nat → A) (g : Nat → B)
    (L : Nat) (rd : List phloat → Nat → B) (z : B) (N0 : Nat) (x : loop_state A) : Prop :=
  x.i < K.m ∧ x.j < K.n ∧ x.k < K.q ∧ x.sum = psum K.add K.zero f x.i x.j x.k ∧
    x.p.length = L ∧ x.i * K.n + x.j ≤ N0 ∧
    (∀ idx, idx < x.i * K.n + x.j → rd x.p idx = g idx) ∧
    (∀ idx, x.i * K.n + x.j ≤ idx → rd x.p idx = z)

/-- The progress record holding the loop state `y`. -/
def progress_rr (dat : mul_rr_data_struct) (y : loop_state xphloat) : mul_rr_data_struct :=
  { dat with i := y.i, j := y.j, k := y.k, sum := y.sum,
             result := { dat.result with data := y.p } }

/-- The state in which the progress record of the rr worker holds the loop state `y`. -/
def set_progress_rr (st : core_state) (dat : mul_rr_data_struct) (y : loop_state xphloat) :
    core_state :=
  { st with mul_rr_data := some (progress_rr dat y) }

/-- Term of the real dot product: `L[i,k] * R[k,j]`, reading the row-major data. -/
def term_rr (left right : vartype_realmatrix) (i j k : Nat) : phloat :=
  left.data.getD (i * left.columns + k) 0 * right.data.getD (k * right.columns + j) 0

/-- The term of the real dot product as the worker forms it. -/
def xterm_rr (env : phloat_env) (left right : vartype_realmatrix) (i j k : Nat) : xphloat :=
  xnum env (term_rr left right i j k)

/-- The accumulator of the rr worker for the element `i j` after `k` terms. -/
def acc_rr (env : phloat_env) (left right : vartype_realmatrix) (i j k : Nat) : xphloat :=
  psum (xadd env) 0 (xterm_rr env left right) i j k

/-- Reading element `idx` of real result data. -/
def read1 (p : List phloat) (idx : Nat) : phloat := p.getD idx 0

/-- The stored value of element `idx` of the result, given the completed sums `tot`:
the sum after the range policy. -/
def stored_rr (env : phloat_env) (st : core_state) (n : Nat) (tot : Nat → Nat → xphloat)
    (idx : Nat) : phloat :=
  (check_acc env st (tot (idx / n) (idx % n))).getD 0

/-- Term of the real by complex dot product. -/
def term_rc (left : vartype_realmatrix) (right : vartype_complexmatrix) (i j k : Nat) :
    phloat × phloat :=
  (left.data.getD (i * left.columns + k) 0 * right.data.getD (2 * (k * right.columns + j)) 0,
   left.data.getD (i * left.columns + k) 0 * right.data.getD (2 * (k * right.columns + j) + 1) 0)

/-- The term of the real by complex dot product as the worker forms it. -/
def xterm_rc (env : phloat_env) (left : vartype_realmatrix) (right : vartype_complexmatrix)
    (i j k : Nat) : xphloat × xphloat :=
  (xnum env (term_rc left right i j k).1, xnum env (term_rc left right i j k).2)

/-- Term of the complex by real dot product. -/
def term_cr (left : vartype_complexmatrix) (right : vartype_realmatrix) (i j k : Nat) :
    phloat × phloat :=
  (right.data.getD (k * right.columns + j) 0 * left.data.getD (2 * (i * left.columns + k)) 0,
   right.data.getD (k * right.columns + j) 0 * left.data.getD (2 * (i * left.columns + k) + 1) 0)

/-- The term of the complex by real dot product as the worker forms it. -/
def xterm_cr (env : phloat_env) (left : vartype_complexmatrix) (right : vartype_realmatrix)
    (i j k : Nat) : xphloat × xphloat :=
  (xnum env (term_cr left right i j k).1, xnum env (term_cr left right i j k).2)

/-- Term of the complex by complex dot product. -/
def term_cc (left right : vartype_complexmatrix) (i j k : Nat) : phloat × phloat :=
  (left.data.getD (2 * (i * left.columns + k)) 0 * right.data.getD (2 * (k * right.columns + j)) 0
     - left.data.getD (2 * (i * left.columns + k) + 1) 0
       * right.data.getD (2 * (k * right.columns + j) + 1) 0,
   left.data.getD (2 * (i * left.columns + k) + 1) 0 * right.data.getD (2 * (k * right.columns + j)) 0
     + left.data.getD (2 * (i * left.columns + k)) 0
       * right.data.getD (2 * (k * right.columns + j) + 1) 0)

/-- The term of the complex by complex dot product as the worker forms it: two
products and their difference for the real part, two products and their sum for the
imaginary part. -/
def xterm_cc (env : phloat_env) (left right : vartype_complexmatrix) (i j k : Nat) :
    xphloat × xphloat :=
  (xsub env
      (xnum env (left.data.getD (2 * (i * left.columns + k)) 0
        * right.data.getD (2 * (k * right.columns + j)) 0))
      (xnum env (left.data.getD (2 * (i * left.columns + k) + 1) 0
        * right.data.getD (2 * (k * right.columns + j) + 1) 0)),
   xadd env
      (xnum env (left.data.getD (2 * (i * left.columns + k) + 1) 0
        * right.data.getD (2 * (k * right.columns + j)) 0))
      (xnum env (left.data.getD (2 * (i * left.columns + k)) 0
        * right.data.getD (2 * (k * right.columns + j) + 1) 0)))

/-- The accumulators of the rc worker for the element `i j` after `k` terms. -/
def acc_rc (env : phloat_env) (left : vartype_realmatrix) (right : vartype_complexmatrix)
    (i j k : Nat) : xphloat × xphloat :=
  psum (xadd2 env) (0, 0) (xterm_rc env left right) i j k

/-- The accumulators of the cr worker for the element `i j` after `k` terms. -/
def acc_cr (env : phloat_env) (left : vartype_complexmatrix) (right : vartype_realmatrix)
    (i j k : Nat) : xphloat × xphloat :=
  psum (xadd2 env) (0, 0) (xterm_cr env left right) i j k

/-- The accumulators of the cc worker for the element `i j` after `k` terms. -/
def acc_cc (env : phloat_env) (left right : vartype_complexmatrix) (i j k : Nat) :
    xphloat × xphloat :=
  psum (xadd2 env) (0, 0) (xterm_cc env left right) i j k

/-- Reading element `idx` of interleaved complex result data. -/
def read2 (p : List phloat) (idx : Nat) : phloat × phloat :=
  (p.getD (2 * idx) 0, p.getD (2 * idx + 1) 0)

/-- The stored value of element `idx` of a complex result, given the completed sums. -/
def stored_c (env : phloat_env) (st : core_state) (n : Nat)
    (tot : Nat → Nat → xphloat × xphloat) (idx : Nat) : phloat × phloat :=
  (check_acc2 env st (tot (idx / n) (idx % n))).getD (0, 0)

/-- The progress record of the rc worker holding the loop state `y`. -/
def progress_rc (dat : mul_rc_data_struct) (y : loop_state (xphloat × xphloat)) :
    mul_rc_data_struct :=
  { dat with i := y.i, j := y.j, k := y.k, sum_re := y.sum.1, sum_im := y.sum.2,
             result := { dat.result with data := y.p } }

/-- The state in which the progress record of the rc worker holds the loop state `y`. -/
def set_progress_rc (st : core_state) (dat : mul_rc_data_struct)
    (y : loop_state (xphloat × xphloat)) : core_state :=
  { st with mul_rc_data := some (progress_rc dat y) }

/-- The progress record of the cr worker holding the loop state `y`. -/
def progress_cr (dat : mul_cr_data_struct) (y : loop_state (xphloat × xphloat)) :
    mul_cr_data_struct :=
  { dat with i := y.i, j := y.j, k := y.k, sum_re := y.sum.1, sum_im := y.sum.2,
             result := { dat.result with data := y.p } }

/-- The state in which the progress record of the cr worker holds the loop state `y`. -/
def set_progress_cr (st : core_state) (dat : mul_cr_data_struct)
    (y : loop_state (xphloat × xphloat)) : core_state :=
  { st with mul_cr_data := some (progress_cr dat y) }

/-- The progress record of the cc worker holding the loop state `y`. -/
def progress_cc (dat : mul_cc_data_struct) (y : loop_state (xphloat × xphloat)) :
    mul_cc_data_struct :=
  { dat with i := y.i, j := y.j, k := y.k, sum_re := y.sum.1, sum_im := y.sum.2,
             result := { dat.result with data := y.p } }

/-- The state in which the progress record of the cc worker holds the loop state `y`. -/
def set_progress_cc (st : core_state) (dat : mul_cc_data_struct)
    (y : loop_state (xphloat × xphloat)) : core_state :=
  { st with mul_cc_data := some (progress_cc dat y) }

/-- Number of rows of a matrix value. -/
def mat_rows : vartype → Nat
  | .realmatrix m => m.rows
  | .complexmatrix m => m.rows
  | _ => 0

/-- Number of columns of a matrix value. -/
def mat_columns : vartype → Nat
  | .realmatrix m => m.columns
  | .complexmatrix m => m.columns
  | _ => 0

/-- A well-formed numeric matrix value: at least one row and one column, data of
the size the dimensions require, no string elements. -/
def mat_wf : vartype → Prop
  | .realmatrix m =>
    0 < m.rows ∧ 0 < m.columns ∧ m.data.length = m.rows * m.columns ∧
      contains_strings m = false
  | .complexmatrix m =>
    0 < m.rows ∧ 0 < m.columns ∧ m.data.length = 2 * (m.rows * m.columns)
  | _ => False

/-- Entry `(i, j)` of a matrix value as a re/im pair. -/
def mat_entry : vartype → Nat → Nat → phloat × phloat
  | .realmatrix m, i, j => (m.data.getD (i * m.columns + j) 0, 0)
  | .complexmatrix m, i, j =>
    (m.data.getD (2 * (i * m.columns + j)) 0, m.data.getD (2 * (i * m.columns + j) + 1) 0)
  | _, _, _ => (0, 0)

/-- Complex multiplication on re/im pairs. -/
def cmul (a b : phloat × phloat) : phloat × phloat :=
  (a.1 * b.1 - a.2 * b.2, a.1 * b.2 + a.2 * b.1)

/-- Entry `(i, j)` of the matrix product: the sum over `k` of `L[i,k] * R[k,j]`. -/
def product_entry (left right : vartype) (i j : Nat) : phloat × phloat :=
  ∑ k in Finset.range (mat_columns left), cmul (mat_entry left i k) (mat_entry right k j)

/-- No dot product overflows in the multiplication of `left` by `right`: for every
element `(i, j)` of the product and every `k`, each product of two scalars the worker
forms is in range, for complex operands also the difference and the sum of two such
products that make up the real and the imaginary part of a term, and so is every
partial sum of the accumulation (the sum of the terms `0 .. k`). -/
def mul_in_range (env : phloat_env) (left right : vartype) : Prop :=
  ∀ i j k, i < mat_rows left → j < mat_columns right → k < mat_columns left →
    match left, right with
    | .realmatrix l, .realmatrix r =>
      env.p_isinf (term_rr l r i j k) = 0 ∧
      env.p_isinf (∑ k1 in Finset.range (k + 1), term_rr l r i j k1) = 0
    | .realmatrix l, .complexmatrix r =>
      env.p_isinf (term_rc l r i j k).1 = 0 ∧ env.p_isinf (term_rc l r i j k).2 = 0 ∧
      env.p_isinf (∑ k1 in Finset.range (k + 1), (term_rc l r i j k1).1) = 0 ∧
      env.p_isinf (∑ k1 in Finset.range (k + 1), (term_rc l r i j k1).2) = 0
    | .complexmatrix l, .realmatrix r =>
      env.p_isinf (term_cr l r i j k).1 = 0 ∧ env.p_isinf (term_cr l r i j k).2 = 0 ∧
      env.p_isinf (∑ k1 in Finset.range (k + 1), (term_cr l r i j k1).1) = 0 ∧
      env.p_isinf (∑ k1 in Finset.range (k + 1), (term_cr l r i j k1).2) = 0
    | .complexmatrix l, .complexmatrix r =>
      env.p_isinf (l.data.getD (2 * (i * l.columns + k)) 0
        * r.data.getD (2 * (k * r.columns + j)) 0) = 0 ∧
      env.p_isinf (l.data.getD (2 * (i * l.columns + k) + 1) 0
        * r.data.getD (2 * (k * r.columns + j) + 1) 0) = 0 ∧
      env.p_isinf (l.data.getD (2 * (i * l.columns + k) + 1) 0
        * r.data.getD (2 * (k * r.columns + j)) 0) = 0 ∧
      env.p_isinf (l.data.getD (2 * (i * l.columns + k)) 0
        * r.data.getD (2 * (k * r.columns + j) + 1) 0) = 0 ∧
      env.p_isinf (term_cc l r i j k).1 = 0 ∧ env.p_isinf (term_cc l r i j k).2 = 0 ∧
      env.p_isinf (∑ k1 in Finset.range (k + 1), (term_cc l r i j k1).1) = 0 ∧
      env.p_isinf (∑ k1 in Finset.range (k + 1), (term_cc l r i j k1).2) = 0
    | _, _ => True

/-- An environment in which nothing is out of range. -/
def env_exact : phloat_env :=
  { p_isinf := fun _ => 0, ilogb := fun _ => 0,
    POS_HUGE_PHLOAT := 1000000, NEG_HUGE_PHLOAT := -1000000, NAN_PHLOAT := 0 }

/-- An idle calculator in big-stack mode with an empty stack. -/
def st_idle : core_state :=
  { big_stack := true, range_error_ignore := false, matrix_singularmatrix := true,
    matrix_outofrange := true, sp := -1, stack := [], mode_interruptible := none,
    mode_stoppable := false, mul_rr_data := none, mul_rc_data := none, mul_cr_data := none,
    mul_cc_data := none, small_div_res := none, small_div_completion := none,
    small_inv_res := none, linalg_div_completion := none, linalg_div_left := none,
    linalg_div_result := none, linalg_inv_completion := none, linalg_inv_result := none,
    linalg_det_completion := none, linalg_det_prev_sm_err := false, alloc := [], log := [] }

/-- A completion that returns the error code it is given. -/
def cb_id : Err → Option vartype → Err := fun e _ => e

/-- The row vector `[1, 2, 3]`. -/
def row_123 : vartype :=
  vartype.realmatrix { rows := 1, columns := 3, data := [1, 2, 3], is_string := [false, false, false] }

/-- The column vector `[4, 5, 6]ᵗ`. -/
def col_456 : vartype :=
  vartype.realmatrix { rows := 3, columns := 1, data := [4, 5, 6], is_string := [false, false, false] }

/-- A descriptor of arity 1 that accepts Real only, with a handler that pops. -/
def cs_real_only : command_spec :=
  { handler := some (fun _ s => (ERR_NONE, { s with sp := s.sp - 1 })),
    argcount := 1, rttypes := 0x01 }

/-- The idle calculator with one String on the stack. -/
def st_one_string : core_state :=
  { st_idle with sp := 0, stack := [vartype.string [65]] }

/-- An argument descriptor without argument. -/
def arg_none : arg_struct :=
  { type := 0, length := 0, target := 0, val_num := 0, val_d := 0 }

/-- A descriptor of arity 2 accepting all types, such as SWAP, with a handler that
reports `other 7` and pops. -/
def cs_two_all : command_spec :=
  { handler := some (fun _ s => (Err.other 7, { s with sp := s.sp - 1 })),
    argcount := 2, rttypes := ALLT }

/-- A big-stack calculator holding one Real. -/
def st_big_one : core_state :=
  { st_idle with sp := 0, stack := [vartype.real 1] }

/-- A calculator in 4-level mode whose `sp` is 0, i.e. of depth 1. -/
def st_small_one : core_state :=
  { st_idle with big_stack := false, sp := 0, stack := [vartype.real 1] }

/-- Number of descriptors of the table declared in core_tables.h. -/
def CMD_SENTINEL : Nat := 572

/-- Pseudo-opcode: no command. -/
def CMD_NONE : Int := -1

/-- Pseudo-opcode: cancelled. -/
def CMD_CANCELLED : Int := -2

/-- Pseudo-opcode. -/
def CMD_LINGER1 : Int := -3

/-- Pseudo-opcode. -/
def CMD_LINGER2 : Int := -4

/-- A table of CMD_SENTINEL copies of one descriptor. -/
def cmd_array_uniform (cs : command_spec) : List command_spec :=
  List.replicate CMD_SENTINEL cs

/-- A descriptor of arity 2 for numeric operands (mask 0x8f) whose handler suspends. -/
def cs_suspending : command_spec :=
  { handler := some (fun _ s => (ERR_INTERRUPTIBLE, { s with sp := s.sp - 1 })),
    argcount := 2, rttypes := 0x8f }

/-- A descriptor of the sentinel arity -1, such as COMPLEX. -/
def cs_sentinel : command_spec :=
  { handler := some (fun _ s => (ERR_NONE, { s with sp := s.sp - 1 })),
    argcount := -1, rttypes := 0x00 }

/-- A big-stack calculator holding a Real and a Complex. -/
def st_big_two : core_state :=
  { st_idle with sp := 1, stack := [vartype.real 1, vartype.complex 2 3] }

/-! ## Matrix determinant (core_linalg1.cc) -/

/-- The exponent `dot_2d` scales an operand by: 0 for zero and for infinities,
otherwise `ilogb`. -/
def dot_2d_exp (env : phloat_env) (a : phloat) : Int :=
  if a = 0 ∨ env.p_isinf a ≠ 0 then 0 else env.ilogb a

/-- The body of `dot_2d` up to the final scaling: the sum or difference of the two
aligned products, and their common exponent `z1`. -/
def dot_2d_parts (env : phloat_env) (a1 a2 a3 a4 : phloat) (add : Bool) : phloat × Int :=
  let s1 := dot_2d_exp env a1
  let s2 := dot_2d_exp env a2
  let s3 := dot_2d_exp env a3
  let s4 := dot_2d_exp env a4
  let p1 := scalbn a1 (-s1) * scalbn a3 (-s3)
  let z1 := s1 + s3
  let p2 := scalbn a2 (-s2) * scalbn a4 (-s4)
  let z2 := s2 + s4
  if z1 > z2 then
    let p2 := scalbn p2 (z2 - z1)
    (if add then p1 + p2 else p1 - p2, z1)
  else if z2 > z1 then
    let p1 := scalbn p1 (z1 - z2)
    (if add then p1 + p2 else p1 - p2, z2)
  else
    (if add then p1 + p2 else p1 - p2, z1)

/-- `dot_2d(a1, a2, a3, a4, add)` called without a scale pointer. -/
def dot_2d (env : phloat_env) (a1 a2 a3 a4 : phloat) (add : Bool) : phloat :=
  let r := dot_2d_parts env a1 a2 a3 a4 add
  scalbn r.1 r.2

/-- `dot_2d(a1, a2, a3, a4, add, &scale)`: the unscaled value and the scale. -/
def dot_2d_scale (env : phloat_env) (a1 a2 a3 a4 : phloat) (add : Bool) : phloat × Int :=
  dot_2d_parts env a1 a2 a3 a4 add

/-- `ssub(a1, s1, a2, s2)`. -/
def ssub (a1 : phloat) (s1 : Int) (a2 : phloat) (s2 : Int) : phloat :=
  if s1 > s2 then scalbn (a1 - scalbn a2 (s2 - s1)) s1
  else if s2 > s1 then scalbn (scalbn a1 (s1 - s2) - a2) s2
  else scalbn (a1 - a2) s1

/-- The range test shared by the determinant routines, on the exact value `r` of the
result: an infinite result is clamped when `flags.f.range_error_ignore` is set and is
an error otherwise.  In the error case the C code has stored the infinity in the
out-parameter before it returns: the scalar returned with ERR_OUT_OF_RANGE is the
out-of-range value `r` itself, which stands for that infinity (`xnum env r` is the
infinity of its sign), and the one routine that goes on to use it, the small inverse,
passes it to `generic_div`, which divides by the infinity. -/
def det_range (env : phloat_env) (st : core_state) (r : phloat) : Err × phloat :=
  let inf := env.p_isinf r
  if inf ≠ 0 then
    if st.range_error_ignore then
      (ERR_NONE, if inf < 0 then env.NEG_HUGE_PHLOAT else env.POS_HUGE_PHLOAT)
    else (ERR_OUT_OF_RANGE, r)
  else (ERR_NONE, r)

/-- The range test of the elementary operations on the value of a result: a number
goes through `det_range`; an infinity is clamped when `flags.f.range_error_ignore` is
set and is ERR_OUT_OF_RANGE otherwise; a NaN passes (`p_isinf` of a NaN is zero) and is
stored as `NAN_PHLOAT`. -/
def x_range (env : phloat_env) (st : core_state) : xphloat → Err × phloat
  | .num x => det_range env st x
  | .inf negative =>
    (if st.range_error_ignore then ERR_NONE else ERR_OUT_OF_RANGE,
      if negative then env.NEG_HUGE_PHLOAT else env.POS_HUGE_PHLOAT)
  | .nan => (ERR_NONE, env.NAN_PHLOAT)

/-- `small_det_r(m, &r)`: the error code and the value left in `r`. -/
def small_det_r (env : phloat_env) (st : core_state) (m : vartype_realmatrix) :
    Option (Err × phloat) :=
  if m.rows = 1 then
    match m.data[0]? with
    | some x => some (ERR_NONE, x)
    | none => none
  else
    match m.data[0]?, m.data[1]?, m.data[2]?, m.data[3]? with
    | some a0, some a1, some a2, some a3 =>
      some (det_range env st (dot_2d env a0 a1 a3 a2 false))
    | _, _, _, _ => none

/-- `small_det_c(m, &dre, &dim)`: the error code and the values left in `dre`, `dim`. -/
def small_det_c (env : phloat_env) (st : core_state) (m : vartype_complexmatrix) :
    Option (Err × phloat × phloat) :=
  if m.rows = 1 then
    match m.data[0]?, m.data[1]? with
    | some x, some y => some (ERR_NONE, x, y)
    | _, _ => none
  else
    match m.data[0]?, m.data[1]?, m.data[2]?, m.data[3]?, m.data[4]?, m.data[5]?,
        m.data[6]?, m.data[7]? with
    | some a0, some a1, some a2, some a3, some a4, some a5, some a6, some a7 =>
      let r1re := dot_2d_scale env a0 a1 a6 a7 false
      let r1im := dot_2d_scale env a0 a1 a7 a6 true
      let r2re := dot_2d_scale env a2 a3 a4 a5 false
      let r2im := dot_2d_scale env a2 a3 a5 a4 true
      let dre := ssub r1re.1 r1re.2 r2re.1 r2re.2
      let dim := ssub r1im.1 r1im.2 r2im.1 r2im.2
      let cre := det_range env st dre
      if cre.1 ≠ ERR_NONE then some (ERR_OUT_OF_RANGE, dre, dim)
      else
        let cim := det_range env st dim
        if cim.1 ≠ ERR_NONE then some (ERR_OUT_OF_RANGE, cre.2, dim)
        else some (ERR_NONE, cre.2, cim.2)
    | _, _, _, _, _, _, _, _ => none

/-- A call `completion(v)` through a `void (*)(vartype *)` pointer: the caller's
completion is recorded in the log, `small_div_completion_1` stores `v` in
`small_div_res`. -/
def call_completion_v (c : completion_v_ref) (v : vartype) (st : core_state) : core_state :=
  match c with
  | .caller => { st with log := st.log ++ [event.completion_v v] }
  | .small_div_completion_1 => { st with small_div_res := some v }

/-- `det_r_completion(error, a, perm, det)`. -/
def det_r_completion (env : phloat_env) (error : Err) (det : phloat) (st : core_state) :
    Option (Err × core_state) :=
  let st1 := { st with matrix_singularmatrix := st.linalg_det_prev_sm_err }
  let st2 := release obj.perm (release obj.lu st1)
  let e1 : Err × phloat := if error = ERR_SINGULAR_MATRIX then (ERR_NONE, 0) else (error, det)
  let e2 : Err × phloat :=
    if e1.1 = ERR_NONE then
      let inf := env.p_isinf e1.2
      if inf ≠ 0 then
        if st2.range_error_ignore then
          (ERR_NONE, if inf < 0 then env.NEG_HUGE_PHLOAT else env.POS_HUGE_PHLOAT)
        else (ERR_OUT_OF_RANGE, e1.2)
      else e1
    else e1
  if e2.1 = ERR_NONE then
    let a := alloc_next st2
    if !a.1 then some (ERR_INSUFFICIENT_MEMORY, a.2)
    else
      match a.2.linalg_det_completion with
      | none => none
      | some c => some (ERR_NONE, call_completion_v c (vartype.real e2.2) a.2)
  else some (e2.1, st2)

/-- `det_c_completion(error, a, perm, det_re, det_im)`. -/
def det_c_completion (env : phloat_env) (error : Err) (det_re det_im : phloat)
    (st : core_state) : Option (Err × core_state) :=
  let st1 := { st with matrix_singularmatrix := st.linalg_det_prev_sm_err }
  let st2 := release obj.perm (release obj.lu st1)
  let e1 : Err × phloat × phloat :=
    if error = ERR_SINGULAR_MATRIX then (ERR_NONE, 0, 0) else (error, det_re, det_im)
  let e2 : Err × phloat × phloat :=
    if e1.1 = ERR_NONE then
      let inf := env.p_isinf e1.2.1
      let r1 : Err × phloat :=
        if inf ≠ 0 then
          if st2.range_error_ignore then
            (ERR_NONE, if inf < 0 then env.NEG_HUGE_PHLOAT else env.POS_HUGE_PHLOAT)
          else (ERR_OUT_OF_RANGE, e1.2.1)
        else (ERR_NONE, e1.2.1)
      let inf2 := env.p_isinf e1.2.2
      let r2 : Err × phloat :=
        if inf2 ≠ 0 then
          if st2.range_error_ignore then
            (r1.1, if inf2 < 0 then env.NEG_HUGE_PHLOAT else env.POS_HUGE_PHLOAT)
          else (ERR_OUT_OF_RANGE, e1.2.2)
        else (r1.1, e1.2.2)
      (r2.1, r1.2, r2.2)
    else e1
  if e2.1 = ERR_NONE then
    let a := alloc_next st2
    if !a.1 then some (ERR_INSUFFICIENT_MEMORY, a.2)
    else
      match a.2.linalg_det_completion with
      | none => none
      | some c => some (ERR_NONE, call_completion_v c (vartype.complex e2.2.1 e2.2.2) a.2)
  else some (e2.1, st2)

/-- The signature of a completion of `lu_decomp_r`: error, decomposed matrix,
permutation vector and determinant. -/
abbrev lu_r_completion :=
  Err → vartype_realmatrix → List Nat → phloat → core_state → Option (Err × core_state)

/-- The signature of a completion of `lu_decomp_c`. -/
abbrev lu_c_completion :=
  Err → vartype_complexmatrix → List Nat → phloat → phloat → core_state →
    Option (Err × core_state)

/-- The signature of a completion of `lu_backsubst_rr`: error, decomposed matrix,
permutation vector and the right-hand side overwritten with the solution. -/
abbrev bs_rr_completion :=
  Err → vartype_realmatrix → List Nat → vartype_realmatrix → core_state →
    Option (Err × core_state)

/-- The signature of a completion of `lu_backsubst_rc`. -/
abbrev bs_rc_completion :=
  Err → vartype_realmatrix → List Nat → vartype_complexmatrix → core_state →
    Option (Err × core_state)

/-- The signature of a completion of `lu_backsubst_cc`. -/
abbrev bs_cc_completion :=
  Err → vartype_complexmatrix → List Nat → vartype_complexmatrix → core_state →
    Option (Err × core_state)

/-- The routines of core_linalg2.cc, which is not among the sources, as parameters of
the routines that call them.  Each receives its completion as a continuation. -/
structure linalg2 where
  lu_decomp_r : vartype_realmatrix → lu_r_completion → core_state → Option (Err × core_state)
  lu_decomp_c : vartype_complexmatrix → lu_c_completion → core_state →
    Option (Err × core_state)
  lu_backsubst_rr : vartype_realmatrix → List Nat → vartype_realmatrix → bs_rr_completion →
    core_state → Option (Err × core_state)
  lu_backsubst_rc : vartype_realmatrix → List Nat → vartype_complexmatrix → bs_rc_completion →
    core_state → Option (Err × core_state)
  lu_backsubst_cc : vartype_complexmatrix → List Nat → vartype_complexmatrix →
    bs_cc_completion → core_state → Option (Err × core_state)

/-- The tail of `linalg_det` shared by both branches once the copy of the matrix is
to be made: `dup_vartype`, `disentangle`, allocation of the permutation vector, then
the forcing of the singular-matrix setting.  `inl r` is an early return of `r`. -/
def linalg_det_setup (completion : completion_v_ref) (st : core_state) :
    (Err × core_state) ⊕ core_state :=
  let a1 := alloc_next st
  if !a1.1 then Sum.inl (ERR_INSUFFICIENT_MEMORY, a1.2)
  else
    let a2 := alloc_next a1.2
    if !a2.1 then Sum.inl (ERR_INSUFFICIENT_MEMORY, release obj.lu a2.2)
    else
      let a3 := alloc_next a2.2
      if !a3.1 then Sum.inl (ERR_INSUFFICIENT_MEMORY, release obj.lu a3.2)
      else
        Sum.inr { a3.2 with
          linalg_det_prev_sm_err := a3.2.matrix_singularmatrix,
          matrix_singularmatrix := true,
          linalg_det_completion := some completion }

/-- `linalg_det(src, completion)`.  The cast of the else branch assumes a complex
matrix; any other operand has no defined behaviour. -/
def linalg_det (env : phloat_env) (L2 : linalg2) (src : vartype)
    (completion : completion_v_ref) (st : core_state) : Option (Err × core_state) :=
  match src with
  | .realmatrix ma =>
    if ma.rows ≠ ma.columns then some (ERR_DIMENSION_ERROR, st)
    else if contains_strings ma then some (ERR_ALPHA_DATA_IS_INVALID, st)
    else if ma.rows ≤ 2 then
      match small_det_r env st ma with
      | none => none
      | some r =>
        if r.1 ≠ ERR_NONE then some (r.1, st)
        else
          let a := alloc_next st
          if !a.1 then some (ERR_INSUFFICIENT_MEMORY, a.2)
          else some (ERR_NONE, call_completion_v completion (vartype.real r.2) a.2)
    else
      match linalg_det_setup completion st with
      | Sum.inl r => some r
      | Sum.inr st1 =>
        L2.lu_decomp_r ma (fun error _ _ det s => det_r_completion env error det s) st1
  | .complexmatrix ma =>
    if ma.rows ≠ ma.columns then some (ERR_DIMENSION_ERROR, st)
    else if ma.rows ≤ 2 then
      match small_det_c env st ma with
      | none => none
      | some r =>
        if r.1 ≠ ERR_NONE then some (r.1, st)
        else
          let a := alloc_next st
          if !a.1 then some (ERR_INSUFFICIENT_MEMORY, a.2)
          else some (ERR_NONE, call_completion_v completion (vartype.complex r.2.1 r.2.2) a.2)
    else
      match linalg_det_setup completion st with
      | Sum.inl r => some r
      | Sum.inr st1 =>
        L2.lu_decomp_c ma
          (fun error _ _ det_re det_im s => det_c_completion env error det_re det_im s) st1
  | _ => none

/-- The matrix `[[1, 2], [3, 4]]`. -/
def mat_1234 : vartype_realmatrix :=
  { rows := 2, columns := 2, data := [1, 2, 3, 4], is_string := [false, false, false, false] }

/-- An environment whose `ilogb` is not trivial: the number of binary digits of the
integer part. -/
def env_log : phloat_env :=
  { p_isinf := fun _ => 0, ilogb := fun x => Nat.log2 x.num.natAbs,
    POS_HUGE_PHLOAT := 1000000, NEG_HUGE_PHLOAT := -1000000, NAN_PHLOAT := 0 }

/-- Routines of core_linalg2.cc that are never reached. -/
def linalg2_none : linalg2 :=
  { lu_decomp_r := fun _ _ _ => none, lu_decomp_c := fun _ _ _ => none,
    lu_backsubst_rr := fun _ _ _ _ _ => none, lu_backsubst_rc := fun _ _ _ _ _ => none,
    lu_backsubst_cc := fun _ _ _ _ _ => none }

/-- A state as `linalg_det` leaves it for the decomposition: the singular-matrix
setting forced on, the previous setting (off) and the caller's completion saved. -/
def st_det_running : core_state :=
  { st_idle with matrix_singularmatrix := true, linalg_det_prev_sm_err := false,
                 linalg_det_completion := some completion_v_ref.caller }

/-! ## Matrix inverse (core_linalg1.cc) -/

/-- Modelled from the spec: `generic_div(x, y, completion)` is defined in
core_sto_rcl.cc, not among the sources.  For a Real `x` and a real matrix `y`, and
for a Complex `x` and a complex matrix `y` (the two uses made of it here), it divides
every element of `y` by `x`, each quotient passing the range policy of the
elementary operations (clamped when `flags.f.range_error_ignore` is set, otherwise
ERR_OUT_OF_RANGE); a matrix with string elements is ERR_ALPHA_DATA_IS_INVALID, a zero
divisor ERR_DIVIDE_BY_0, a failed allocation ERR_INSUFFICIENT_MEMORY.  The error code
and the result handed to the completion are returned.  The divisor is the scalar the
small inverse got from the determinant: when it is out of range it is an infinity
(`xnum`), and the quotients are formed in `phloat` arithmetic, so that every element
divided by an infinite real divisor is zero. -/
def generic_div (env : phloat_env) (x y : vartype) (st : core_state) :
    Option (Err × Option vartype × core_state) :=
  match x, y with
  | .real d, .realmatrix ma =>
    if contains_strings ma then some (ERR_ALPHA_DATA_IS_INVALID, none, st)
    else if d = 0 then some (ERR_DIVIDE_BY_0, none, st)
    else
      let q := ma.data.map (fun e => x_range env st (xdiv env (xphloat.num e) (xnum env d)))
      if q.any (fun r => r.1 != ERR_NONE) then some (ERR_OUT_OF_RANGE, none, st)
      else
        let a := alloc_next st
        if !a.1 then some (ERR_INSUFFICIENT_MEMORY, none, a.2)
        else some (ERR_NONE,
          some (vartype.realmatrix { ma with data := q.map (fun r => r.2) }), a.2)
  | .complex dre dim, .complexmatrix ma =>
    if dre = 0 ∧ dim = 0 then some (ERR_DIVIDE_BY_0, none, st)
    else
      let d_re := xnum env dre
      let d_im := xnum env dim
      let den := xadd env (xmul env d_re d_re) (xmul env d_im d_im)
      let quot : Nat → xphloat := fun idx =>
        let e_re := xphloat.num (ma.data.getD (2 * (idx / 2)) 0)
        let e_im := xphloat.num (ma.data.getD (2 * (idx / 2) + 1) 0)
        if idx % 2 = 0 then xdiv env (xadd env (xmul env e_re d_re) (xmul env e_im d_im)) den
        else xdiv env (xsub env (xmul env e_im d_re) (xmul env e_re d_im)) den
      let q := (List.range ma.data.length).map (fun idx => x_range env st (quot idx))
      if q.any (fun r => r.1 != ERR_NONE) then some (ERR_OUT_OF_RANGE, none, st)
      else
        let a := alloc_next st
        if !a.1 then some (ERR_INSUFFICIENT_MEMORY, none, a.2)
        else some (ERR_NONE,
          some (vartype.complexmatrix { ma with data := q.map (fun r => r.2) }), a.2)
  | _, _ => none

/-- Modelled from the spec: `math_inv(xre, xim, &zre, &zim)` is defined in core_math2.cc,
not among the sources: the reciprocal of a nonzero complex number, each component
passing the range policy of the elementary operations. -/
def math_inv (env : phloat_env) (st : core_state) (xre xim : phloat) : Err × phloat × phloat :=
  let den := xre * xre + xim * xim
  let r1 := det_range env st (xre / den)
  let r2 := det_range env st (-xim / den)
  if r1.1 ≠ ERR_NONE then (r1.1, xre, xim)
  else if r2.1 ≠ ERR_NONE then (r2.1, xre, xim)
  else (ERR_NONE, r1.2, r2.2)

/-- The value of `flags.f.range_error_ignore` the small inverse sets around its calls
of `generic_div` and `math_inv`. -/
def inv_range_error_ignore (st : core_state) : Bool :=
  !st.matrix_outofrange || st.range_error_ignore

/-- `small_inv_r(ma, completion)`. -/
def small_inv_r (env : phloat_env) (ma : vartype_realmatrix) (completion : completion_v_ref)
    (st : core_state) : Option (Err × core_state) :=
  if ma.rows = 1 then
    match ma.data[0]? with
    | none => none
    | some x0 =>
      let r : Err × phloat :=
        if x0 = 0 then
          if st.matrix_singularmatrix then (ERR_SINGULAR_MATRIX, x0)
          else (ERR_NONE, env.POS_HUGE_PHLOAT)
        else
          let x := 1 / x0
          let inf := env.p_isinf x
          if inf ≠ 0 then
            if st.matrix_outofrange && !st.range_error_ignore then (ERR_OUT_OF_RANGE, x)
            else (ERR_NONE, if inf > 0 then env.POS_HUGE_PHLOAT else env.NEG_HUGE_PHLOAT)
          else (ERR_NONE, x)
      if r.1 ≠ ERR_NONE then some (r.1, st)
      else
        let a := alloc_next st
        if !a.1 then some (ERR_INSUFFICIENT_MEMORY, a.2)
        else
          let res : vartype_realmatrix := { new_realmatrix 1 1 with data := [r.2] }
          some (ERR_NONE, call_completion_v completion (vartype.realmatrix res) a.2)
  else
    match small_det_r env st ma with
    | none => none
    | some dr =>
      let det := dr.2
      if det = 0 then
        if st.matrix_singularmatrix then some (ERR_SINGULAR_MATRIX, st)
        else
          let a := alloc_next st
          if !a.1 then some (ERR_INSUFFICIENT_MEMORY, a.2)
          else
            let sm : vartype_realmatrix :=
              { new_realmatrix 2 2 with
                data := [env.POS_HUGE_PHLOAT, 0, 0, env.POS_HUGE_PHLOAT] }
            some (ERR_NONE, call_completion_v completion (vartype.realmatrix sm) a.2)
      else
        let a := alloc_next st
        if !a.1 then some (ERR_INSUFFICIENT_MEMORY, a.2)
        else
          let saved := a.2.range_error_ignore
          let st1 := { a.2 with range_error_ignore := inv_range_error_ignore a.2 }
          match generic_div env (vartype.real det) (vartype.realmatrix ma) st1 with
          | none => none
          | some g =>
            let st2 := { g.2.2 with small_inv_res := g.2.1 }
            let st3 := release obj.d { st2 with range_error_ignore := saved }
            if g.1 ≠ ERR_NONE then some (g.1, st3)
            else
              match g.2.1 with
              | some (vartype.realmatrix r) =>
                match r.data[0]?, r.data[1]?, r.data[2]?, r.data[3]? with
                | some d0, some d1, some d2, some d3 =>
                  let res : vartype_realmatrix :=
                    { r with data := (((r.data.set 0 d3).set 3 d0).set 1 (-d1)).set 2 (-d2) }
                  let st4 := { st3 with small_inv_res := some (vartype.realmatrix res) }
                  some (ERR_NONE, call_completion_v completion (vartype.realmatrix res) st4)
                | _, _, _, _ => none
              | _ => none

/-- `small_inv_c(ma, completion)`. -/
def small_inv_c (env : phloat_env) (ma : vartype_complexmatrix) (completion : completion_v_ref)
    (st : core_state) : Option (Err × core_state) :=
  if ma.rows = 1 then
    match ma.data[0]?, ma.data[1]? with
    | some xre, some xim =>
      let r : Err × phloat × phloat :=
        if xre = 0 ∧ xim = 0 then
          if st.matrix_singularmatrix then (ERR_SINGULAR_MATRIX, xre, xim)
          else (ERR_NONE, env.POS_HUGE_PHLOAT, 0)
        else
          math_inv env { st with range_error_ignore := inv_range_error_ignore st } xre xim
      if r.1 ≠ ERR_NONE then some (r.1, st)
      else
        let a := alloc_next st
        if !a.1 then some (ERR_INSUFFICIENT_MEMORY, a.2)
        else
          let res : vartype_complexmatrix :=
            { new_complexmatrix 1 1 with data := [r.2.1, r.2.2] }
          some (ERR_NONE, call_completion_v completion (vartype.complexmatrix res) a.2)
    | _, _ => none
  else
    match small_det_c env st ma with
    | none => none
    | some dr =>
      let dre := dr.2.1
      let dim := dr.2.2
      if dre = 0 ∧ dim = 0 then
        if st.matrix_singularmatrix then some (ERR_SINGULAR_MATRIX, st)
        else
          let a := alloc_next st
          if !a.1 then some (ERR_INSUFFICIENT_MEMORY, a.2)
          else
            let sm : vartype_complexmatrix :=
              { new_complexmatrix 2 2 with
                data := [env.POS_HUGE_PHLOAT, 0, 0, 0, 0, 0, env.POS_HUGE_PHLOAT, 0] }
            some (ERR_NONE, call_completion_v completion (vartype.complexmatrix sm) a.2)
      else
        let a := alloc_next st
        if !a.1 then some (ERR_INSUFFICIENT_MEMORY, a.2)
        else
          let saved := a.2.range_error_ignore
          let st1 := { a.2 with range_error_ignore := inv_range_error_ignore a.2 }
          match generic_div env (vartype.complex dre dim) (vartype.complexmatrix ma) st1 with
          | none => none
          | some g =>
            let st2 := { g.2.2 with small_inv_res := g.2.1 }
            let st3 := release obj.d { st2 with range_error_ignore := saved }
            if g.1 ≠ ERR_NONE then some (g.1, st3)
            else
              match g.2.1 with
              | some (vartype.complexmatrix r) =>
                match r.data[0]?, r.data[1]?, r.data[2]?, r.data[3]?, r.data[4]?,
                    r.data[5]?, r.data[6]?, r.data[7]? with
                | some d0, some d1, some d2, some d3, some d4, some d5, some d6, some d7 =>
                  let res : vartype_complexmatrix :=
                    { r with data := [d6, d7, -d2, -d3, -d4, -d5, d0, d1] ++ r.data.drop 8 }
                  let st4 := { st3 with small_inv_res := some (vartype.complexmatrix res) }
                  some (ERR_NONE, call_completion_v completion (vartype.complexmatrix res) st4)
                | _, _, _, _, _, _, _, _ => none
              | _ => none

/-- Modelled from the spec: `matrix_copy(dst, src)` is defined in core_variables.cc, not
among the sources; between real matrices it copies the elements. -/
def matrix_copy_rr (dst src : vartype_realmatrix) : vartype_realmatrix :=
  { dst with data := src.data, is_string := src.is_string }

/-- Modelled from the spec: `matrix_copy` between complex matrices. -/
def matrix_copy_cc (dst src : vartype_complexmatrix) : vartype_complexmatrix :=
  { dst with data := src.data }

/-- Modelled from the spec: `matrix_copy` from a real matrix into a complex one: every
element becomes the pair of itself and a zero imaginary part. -/
def matrix_copy_cr (dst : vartype_complexmatrix) (src : vartype_realmatrix) :
    vartype_complexmatrix :=
  { dst with data := src.data.flatMap (fun x => [x, 0]) }

/-- `inv_r_completion2(error, a, perm, b)`; `b` is the object `linalg_inv_result`. -/
def inv_r_completion2 : bs_rr_completion := fun error _ _ b st =>
  let st0 := { st with linalg_inv_result := some (vartype.realmatrix b) }
  if error ≠ ERR_NONE then
    some (error, release obj.perm (release obj.lu (release obj.inv st0)))
  else
    match st0.linalg_inv_completion with
    | none => none
    | some c =>
      some (error, release obj.perm (release obj.lu
        (call_completion_v c (vartype.realmatrix b) st0)))

/-- `inv_c_completion2(error, a, perm, b)`; `b` is the object `linalg_inv_result`. -/
def inv_c_completion2 : bs_cc_completion := fun error _ _ b st =>
  let st0 := { st with linalg_inv_result := some (vartype.complexmatrix b) }
  if error ≠ ERR_NONE then
    some (error, release obj.perm (release obj.lu (release obj.inv st0)))
  else
    match st0.linalg_inv_completion with
    | none => none
    | some c =>
      some (error, release obj.perm (release obj.lu
        (call_completion_v c (vartype.complexmatrix b) st0)))

/-- The loop `for (i = 0; i < n; i++) data[i * (n + 1)] = 1` of `inv_r_completion1`. -/
def set_diagonal_r (n : Nat) (data : List phloat) : List phloat :=
  (List.range n).foldl (fun d i => d.set (i * (n + 1)) 1) data

/-- The loop `for (i = 0; i < n; i++) data[2 * (i * (n + 1))] = 1` of
`inv_c_completion1`. -/
def set_diagonal_c (n : Nat) (data : List phloat) : List phloat :=
  (List.range n).foldl (fun d i => d.set (2 * (i * (n + 1))) 1) data

/-- `inv_r_completion1(error, a, perm, det)`. -/
def inv_r_completion1 (L2 : linalg2) : lu_r_completion := fun error a perm _ st =>
  if error ≠ ERR_NONE then
    some (error, release obj.perm (release obj.lu (release obj.inv st)))
  else
    match st.linalg_inv_result with
    | some (vartype.realmatrix inv) =>
      let inv1 : vartype_realmatrix := { inv with data := set_diagonal_r a.rows inv.data }
      L2.lu_backsubst_rr a perm inv1 inv_r_completion2
        { st with linalg_inv_result := some (vartype.realmatrix inv1) }
    | _ => none

/-- `inv_c_completion1(error, a, perm, det_re, det_im)`. -/
def inv_c_completion1 (L2 : linalg2) : lu_c_completion := fun error a perm _ _ st =>
  if error ≠ ERR_NONE then
    some (error, release obj.perm (release obj.lu (release obj.inv st)))
  else
    match st.linalg_inv_result with
    | some (vartype.complexmatrix inv) =>
      let inv1 : vartype_complexmatrix := { inv with data := set_diagonal_c a.rows inv.data }
      L2.lu_backsubst_cc a perm inv1 inv_c_completion2
        { st with linalg_inv_result := some (vartype.complexmatrix inv1) }
    | _ => none

/-- The three allocations of `linalg_inv` (lu, inv, perm): `inl` is the early return
on a failed one, after the release of what had been allocated. -/
def linalg_inv_alloc (st : core_state) : (Err × core_state) ⊕ core_state :=
  let a1 := alloc_next st
  if !a1.1 then Sum.inl (ERR_INSUFFICIENT_MEMORY, a1.2)
  else
    let a2 := alloc_next a1.2
    if !a2.1 then Sum.inl (ERR_INSUFFICIENT_MEMORY, release obj.lu a2.2)
    else
      let a3 := alloc_next a2.2
      if !a3.1 then
        Sum.inl (ERR_INSUFFICIENT_MEMORY, release obj.inv (release obj.lu a3.2))
      else Sum.inr a3.2

/-- `linalg_inv(src, completion)`.  The cast of the else branch assumes a complex
matrix; any other operand has no defined behaviour. -/
def linalg_inv (env : phloat_env) (L2 : linalg2) (src : vartype)
    (completion : completion_v_ref) (st : core_state) : Option (Err × core_state) :=
  match src with
  | .realmatrix ma =>
    let n := ma.rows
    if n ≠ ma.columns then some (ERR_DIMENSION_ERROR, st)
    else if contains_strings ma then some (ERR_ALPHA_DATA_IS_INVALID, st)
    else if n ≤ 2 then small_inv_r env ma completion st
    else
      match linalg_inv_alloc st with
      | Sum.inl r => some r
      | Sum.inr st1 =>
        let lu := matrix_copy_rr (new_realmatrix n n) ma
        L2.lu_decomp_r lu (inv_r_completion1 L2)
          { st1 with linalg_inv_completion := some completion,
                     linalg_inv_result := some (vartype.realmatrix (new_realmatrix n n)) }
  | .complexmatrix ma =>
    let n := ma.rows
    if n ≠ ma.columns then some (ERR_DIMENSION_ERROR, st)
    else if n ≤ 2 then small_inv_c env ma completion st
    else
      match linalg_inv_alloc st with
      | Sum.inl r => some r
      | Sum.inr st1 =>
        let lu := matrix_copy_cc (new_complexmatrix n n) ma
        L2.lu_decomp_c lu (inv_c_completion1 L2)
          { st1 with linalg_inv_completion := some completion,
                     linalg_inv_result := some (vartype.complexmatrix (new_complexmatrix n n)) }
  | _ => none

/-! ## Matrix-matrix division (core_linalg1.cc) -/

/-- `small_div(left, right, completion)`: the inverse of `right` by the small inverse,
then the multiplication of that inverse by `left`. -/
def small_div (env : phloat_env) (cb : Err → Option vartype → Err) (left right : vartype)
    (completion : completion_ref) (st : core_state) : Option (Err × core_state) :=
  match right with
  | .realmatrix r =>
    match small_inv_r env r completion_v_ref.small_div_completion_1 st with
    | none => none
    | some e =>
      if e.1 ≠ ERR_NONE then call_completion cb completion e.1 none e.2
      else
        let st1 := { e.2 with small_div_completion := some completion }
        match st1.small_div_res, left with
        | some (vartype.realmatrix inv), .realmatrix l =>
          matrix_mul_rr cb inv l completion_ref.small_div_completion_2 st1
        | some (vartype.realmatrix inv), .complexmatrix l =>
          matrix_mul_rc cb inv l completion_ref.small_div_completion_2 st1
        | _, _ => none
  | .complexmatrix r =>
    match small_inv_c env r completion_v_ref.small_div_completion_1 st with
    | none => none
    | some e =>
      if e.1 ≠ ERR_NONE then call_completion cb completion e.1 none e.2
      else
        let st1 := { e.2 with small_div_completion := some completion }
        match st1.small_div_res, left with
        | some (vartype.complexmatrix inv), .realmatrix l =>
          matrix_mul_cr cb inv l completion_ref.small_div_completion_2 st1
        | some (vartype.complexmatrix inv), .complexmatrix l =>
          matrix_mul_cc cb inv l completion_ref.small_div_completion_2 st1
        | _, _ => none
  | _ => none

/-- The common end of the four `div_*_completion2`: release of the result on error, of
the decomposed matrix and of the permutation vector, then the call of the saved
completion with the error and the pointer `linalg_div_result`. -/
def div_completion2_end (cb : Err → Option vartype → Err) (error : Err) (b : vartype)
    (st : core_state) : Option (Err × core_state) :=
  let st0 := { st with linalg_div_result := some b }
  let st1 := if error ≠ ERR_NONE then release obj.res st0 else st0
  let st2 := release obj.perm (release obj.lu st1)
  match st2.linalg_div_completion with
  | none => none
  | some c => call_completion cb c error st2.linalg_div_result st2

/-- `div_rr_completion2(error, a, perm, b)`; `b` is the object `linalg_div_result`. -/
def div_rr_completion2 (cb : Err → Option vartype → Err) : bs_rr_completion :=
  fun error _ _ b st => div_completion2_end cb error (vartype.realmatrix b) st

/-- `div_rc_completion2(error, a, perm, b)`. -/
def div_rc_completion2 (cb : Err → Option vartype → Err) : bs_cc_completion :=
  fun error _ _ b st => div_completion2_end cb error (vartype.complexmatrix b) st

/-- `div_cr_completion2(error, a, perm, b)`. -/
def div_cr_completion2 (cb : Err → Option vartype → Err) : bs_rc_completion :=
  fun error _ _ b st => div_completion2_end cb error (vartype.complexmatrix b) st

/-- `div_cc_completion2(error, a, perm, b)`. -/
def div_cc_completion2 (cb : Err → Option vartype → Err) : bs_cc_completion :=
  fun error _ _ b st => div_completion2_end cb error (vartype.complexmatrix b) st

/-- The error branch shared by the four `div_*_completion1`. -/
def div_completion1_error (error : Err) (st : core_state) : Err × core_state :=
  (error, release obj.res (release obj.perm (release obj.lu st)))

/-- `div_rr_completion1(error, a, perm, det)`. -/
def div_rr_completion1 (L2 : linalg2) (cb : Err → Option vartype → Err) : lu_r_completion :=
  fun error a perm _ st =>
    if error ≠ ERR_NONE then some (div_completion1_error error st)
    else
      match st.linalg_div_result, st.linalg_div_left with
      | some (vartype.realmatrix res), some (vartype.realmatrix left) =>
        let b := matrix_copy_rr res left
        L2.lu_backsubst_rr a perm b (div_rr_completion2 cb)
          { st with linalg_div_result := some (vartype.realmatrix b) }
      | _, _ => none

/-- `div_rc_completion1(error, a, perm, det_re, det_im)`. -/
def div_rc_completion1 (L2 : linalg2) (cb : Err → Option vartype → Err) : lu_c_completion :=
  fun error a perm _ _ st =>
    if error ≠ ERR_NONE then some (div_completion1_error error st)
    else
      match st.linalg_div_result, st.linalg_div_left with
      | some (vartype.complexmatrix res), some (vartype.realmatrix left) =>
        let b := matrix_copy_cr res left
        L2.lu_backsubst_cc a perm b (div_rc_completion2 cb)
          { st with linalg_div_result := some (vartype.complexmatrix b) }
      | _, _ => none

/-- `div_cr_completion1(error, a, perm, det)`. -/
def div_cr_completion1 (L2 : linalg2) (cb : Err → Option vartype → Err) : lu_r_completion :=
  fun error a perm _ st =>
    if error ≠ ERR_NONE then some (div_completion1_error error st)
    else
      match st.linalg_div_result, st.linalg_div_left with
      | some (vartype.complexmatrix res), some (vartype.complexmatrix left) =>
        let b := matrix_copy_cc res left
        L2.lu_backsubst_rc a perm b (div_cr_completion2 cb)
          { st with linalg_div_result := some (vartype.complexmatrix b) }
      | _, _ => none

/-- `div_cc_completion1(error, a, perm, det_re, det_im)`. -/
def div_cc_completion1 (L2 : linalg2) (cb : Err → Option vartype → Err) : lu_c_completion :=
  fun error a perm _ _ st =>
    if error ≠ ERR_NONE then some (div_completion1_error error st)
    else
      match st.linalg_div_result, st.linalg_div_left with
      | some (vartype.complexmatrix res), some (vartype.complexmatrix left) =>
        let b := matrix_copy_cc res left
        L2.lu_backsubst_cc a perm b (div_cc_completion2 cb)
          { st with linalg_div_result := some (vartype.complexmatrix b) }
      | _, _ => none

/-- The three allocations of `linalg_div` (perm, lu, res): `inl` holds the state in
which the completion is to be called with ERR_INSUFFICIENT_MEMORY. -/
def linalg_div_alloc (st : core_state) : core_state ⊕ core_state :=
  let a1 := alloc_next st
  if !a1.1 then Sum.inl a1.2
  else
    let a2 := alloc_next a1.2
    if !a2.1 then Sum.inl (release obj.perm a2.2)
    else
      let a3 := alloc_next a2.2
      if !a3.1 then Sum.inl (release obj.lu (release obj.perm a3.2))
      else Sum.inr a3.2

/-- `linalg_div(left, right, completion)`.  The casts assume matrices; any other
operand has no defined behaviour. -/
def linalg_div (env : phloat_env) (L2 : linalg2) (cb : Err → Option vartype → Err)
    (left right : vartype) (completion : completion_ref) (st : core_state) :
    Option (Err × core_state) :=
  match left, right with
  | .realmatrix num, .realmatrix denom =>
    if denom.rows ≠ num.rows ∨ denom.columns ≠ num.rows then
      call_completion cb completion ERR_DIMENSION_ERROR none st
    else if denom.rows ≤ 2 then small_div env cb left right completion st
    else
      match linalg_div_alloc st with
      | Sum.inl st1 => call_completion cb completion ERR_INSUFFICIENT_MEMORY none st1
      | Sum.inr st1 =>
        let lu := matrix_copy_rr (new_realmatrix num.rows num.rows) denom
        L2.lu_decomp_r lu (div_rr_completion1 L2 cb)
          { st1 with linalg_div_completion := some completion,
                     linalg_div_left := some left,
                     linalg_div_result :=
                       some (vartype.realmatrix (new_realmatrix num.rows num.columns)) }
  | .realmatrix num, .complexmatrix denom =>
    if denom.rows ≠ num.rows ∨ denom.columns ≠ num.rows then
      call_completion cb completion ERR_DIMENSION_ERROR none st
    else if denom.rows ≤ 2 then small_div env cb left right completion st
    else
      match linalg_div_alloc st with
      | Sum.inl st1 => call_completion cb completion ERR_INSUFFICIENT_MEMORY none st1
      | Sum.inr st1 =>
        let lu := matrix_copy_cc (new_complexmatrix num.rows num.rows) denom
        L2.lu_decomp_c lu (div_rc_completion1 L2 cb)
          { st1 with linalg_div_completion := some completion,
                     linalg_div_left := some left,
                     linalg_div_result :=
                       some (vartype.complexmatrix (new_complexmatrix num.rows num.columns)) }
  | .complexmatrix num, .realmatrix denom =>
    if denom.rows ≠ num.rows ∨ denom.columns ≠ num.rows then
      call_completion cb completion ERR_DIMENSION_ERROR none st
    else if denom.rows ≤ 2 then small_div env cb left right completion st
    else
      match linalg_div_alloc st with
      | Sum.inl st1 => call_completion cb completion ERR_INSUFFICIENT_MEMORY none st1
      | Sum.inr st1 =>
        let lu := matrix_copy_rr (new_realmatrix num.rows num.rows) denom
        L2.lu_decomp_r lu (div_cr_completion1 L2 cb)
          { st1 with linalg_div_completion := some completion,
                     linalg_div_left := some left,
                     linalg_div_result :=
                       some (vartype.complexmatrix (new_complexmatrix num.rows num.columns)) }
  | .complexmatrix num, .complexmatrix denom =>
    if denom.rows ≠ num.rows ∨ denom.columns ≠ num.rows then
      call_completion cb completion ERR_DIMENSION_ERROR none st
    else if denom.rows ≤ 2 then small_div env cb left right completion st
    else
      match linalg_div_alloc st with
      | Sum.inl st1 => call_completion cb completion ERR_INSUFFICIENT_MEMORY none st1
      | Sum.inr st1 =>
        let lu := matrix_copy_cc (new_complexmatrix num.rows num.rows) denom
        L2.lu_decomp_c lu (div_cc_completion1 L2 cb)
          { st1 with linalg_div_completion := some completion,
                     linalg_div_left := some left,
                     linalg_div_result :=
                       some (vartype.complexmatrix (new_complexmatrix num.rows num.columns)) }
  | _, _ => none

/-- The columns `argcount` and `rttypes` of the initializer of `cmd_array`
(core_tables.cc), in table order, the masks ALLT, FUNC, NA_T and UNIM written out. -/
def cmd_array_columns : List (Int × Nat) :=
  [
    (1, 0xff), (1, 0xff), (2, 0xff), (0, 0x00), (1, 0x8f), (2, 0x8f), (2, 0x8f), (2, 0x8f),
    (2, 0x8f), (0, 0x00), (0, 0x00), (0, 0x00), (1, 0x8f), (1, 0x8f), (1, 0x8f), (1, 0x0f),
    (1, 0x0f), (1, 0x0f), (1, 0x0f), (1, 0x0f), (1, 0x0f), (1, 0x0f), (1, 0x8f), (1, 0x8f),
    (1, 0x8f), (2, 0xff), (2, 0x81), (0, 0x00), (-1, 0x00), (1, 0xff), (1, 0x8f), (1, 0x8f),
    (1, 0x8f), (1, 0x8f), (0, 0x00), (1, 0x8f), (1, 0x8f), (1, 0x8f), (1, 0x8f), (0, 0x00),
    (0, 0x00), (0, 0x00), (0, 0x00), (0, 0x00), (0, 0x00), (0, 0x00), (0, 0x00), (0, 0x00),
    (0, 0x00), (0, 0x00), (0, 0x00), (0, 0x00), (0, 0x00), (0, 0x00), (0, 0x00), (0, 0x00),
    (0, 0x00), (0, 0x00), (0, 0x00), (0, 0x00), (0, 0x00), (0, 0x00), (0, 0x00), (0, 0x00),
    (0, 0x00), (0, 0x00), (0, 0x00), (0, 0x00), (0, 0x00), (0, 0x00), (1, 0x05), (1, 0x05),
    (1, 0x05), (1, 0x05), (-1, 0x00), (-1, 0x00), (1, 0x85), (1, 0x85), (1, 0x8f), (1, 0x87),
    (1, 0x9f), (2, 0x81), (0, 0x00), (0, 0x00), (0, 0x00), (0, 0x00), (0, 0x00), (0, 0x00),
    (2, 0x01), (2, 0x01), (1, 0x05), (1, 0x05), (0, 0x00), (1, 0x01), (0, 0x00), (0, 0x00),
    (0, 0x00), (0, 0x00), (0, 0x00), (0, 0x00), (0, 0x00), (0, 0x00), (0, 0x00), (0, 0x00),
    (1, 0x01), (1, 0x15), (-1, 0x00), (-1, 0x00), (0, 0x00), (0, 0x00), (0, 0x00), (0, 0x00),
    (0, 0x00), (0, 0x00), (0, 0x00), (0, 0x00), (1, 0x81), (1, 0x81), (1, 0x81), (1, 0x81),
    (1, 0x81), (1, 0x81), (2, 0xff), (2, 0xff), (2, 0x81), (2, 0x81), (2, 0x81), (2, 0x81),
    (0, 0x00), (0, 0x00), (0, 0x00), (0, 0x00), (0, 0x00), (1, 0xff), (0, 0x00), (0, 0x00),
    (0, 0x00), (0, 0x00), (1, 0x01), (0, 0x00), (0, 0x00), (0, 0x00), (0, 0x00), (0, 0x00),
    (1, 0x05), (1, 0x05), (0, 0x00), (0, 0x00), (0, 0x00), (0, 0x00), (0, 0x00), (0, 0x00),
    (0, 0x00), (0, 0x00), (0, 0x00), (2, 0x01), (0, 0x00), (1, 0xff), (1, 0xff), (1, 0xff),
    (1, 0xff), (1, 0x0c), (0, 0x00), (0, 0x00), (0, 0x00), (0, 0x00), (0, 0x00), (0, 0x00),
    (0, 0x00), (0, 0x00), (0, 0x00), (0, 0x00), (0, 0x00), (0, 0x00), (0, 0x00), (0, 0x00),
    (0, 0x00), (0, 0x00), (0, 0x00), (0, 0x00), (0, 0x00), (0, 0x00), (0, 0x00), (0, 0x00),
    (0, 0x00), (0, 0x00), (0, 0x00), (0, 0x00), (0, 0x00), (0, 0x00), (0, 0x00), (0, 0x00),
    (0, 0x00), (0, 0x00), (0, 0x00), (0, 0x00), (0, 0x00), (0, 0x00), (0, 0x00), (0, 0x00),
    (0, 0x00), (0, 0x00), (0, 0x00), (1, 0xff), (0, 0x00), (0, 0x00), (0, 0x00), (1, 0x0f),
    (0, 0x00), (0, 0x00), (2, 0x01), (0, 0x00), (0, 0x00), (1, 0x01), (0, 0x00), (1, 0x0f),
    (1, 0x0f), (0, 0x00), (2, 0x01), (2, 0x01), (2, 0x01), (2, 0x01), (1, 0x01), (0, 0x00),
    (0, 0x00), (2, 0x01), (0, 0x00), (0, 0x00), (1, 0x0f), (2, 0xff), (0, 0x00), (0, 0x00),
    (0, 0x00), (1, 0x0c), (2, 0x01), (2, 0xff), (1, 0xff), (0, 0x00), (0, 0x00), (0, 0x00),
    (1, 0x05), (1, 0xff), (1, 0xff), (1, 0x0c), (2, 0xff), (0, 0x00), (0, 0x00), (2, 0x01),
    (2, 0x01), (0, 0x00), (0, 0x00), (0, 0x00), (0, 0x00), (0, 0x00), (1, 0x0c), (0, 0x00),
    (0, 0x00), (0, 0x00), (0, 0x00), (1, 0x05), (0, 0x00), (0, 0x00), (1, 0x01), (0, 0x00),
    (0, 0x00), (2, 0x01), (0, 0x00), (0, 0x00), (1, 0x11), (1, 0xff), (0, 0x00), (0, 0x00),
    (0, 0x00), (1, 0x0c), (2, 0x01), (1, 0x0c), (2, 0xff), (0, 0x00), (1, 0x0f), (0, 0x00),
    (1, 0xff), (1, 0xff), (2, 0xff), (0, 0x00), (1, 0x0f), (1, 0x0c), (1, 0x06), (0, 0x00),
    (0, 0x00), (1, 0xff), (2, 0x01), (0, 0x00), (1, 0x01), (1, 0x01), (0, 0xff), (0, 0xff),
    (0, 0xff), (0, 0xff), (2, 0x81), (0, 0x00), (0, 0x00), (0, 0x00), (0, 0x00), (0, 0x00),
    (0, 0x00), (0, 0x00), (0, 0x00), (0, 0x00), (0, 0x00), (1, 0xff), (0, 0x00), (0, 0x00),
    (0, 0x00), (1, 0xff), (0, 0x00), (0, 0x00), (0, 0x00), (0, 0x00), (1, 0x01), (1, 0x01),
    (1, 0x01), (0, 0x00), (0, 0x00), (0, 0x00), (2, 0x01), (2, 0x01), (0, 0x00), (1, 0x01),
    (0, 0x00), (0, 0x00), (0, 0x00), (1, 0xff), (0, 0x00), (0, 0x00), (1, 0x01), (0, 0x00),
    (0, 0x00), (0, 0x00), (0, 0x00), (0, 0x00), (0, 0x00), (0, 0x00), (0, 0x00), (0, 0x00),
    (0, 0x00), (1, 0x01), (0, 0x00), (-1, 0x00), (0, 0x00), (0, 0x00), (0, 0x00), (0, 0x00),
    (0, 0x00), (0, 0x00), (0, 0x00), (0, 0x00), (0, 0x00), (0, 0x00), (0, 0x00), (0, 0x00),
    (1, 0xff), (0, 0x00), (1, 0xff), (0, 0x00), (0, 0x00), (0, 0x00), (0, 0x00), (0, 0x00),
    (0, 0x00), (3, 0x01), (0, 0x00), (0, 0x00), (0, 0x00), (0, 0x00), (1, 0xd3), (0, 0x00),
    (0, 0x00), (-1, 0x00), (-1, 0x00), (0, 0x00), (1, 0xff), (1, 0xff), (0, 0x00), (1, 0xff),
    (0, 0x00), (0, 0x00), (0, 0x0f), (0, 0x0f), (2, 0x01), (3, 0x13), (1, 0x01), (2, 0xff),
    (0, 0x00), (0, 0x00), (0, 0x00), (0, 0x00), (0, 0x00), (0, 0x00), (1, 0x10), (2, 0xff),
    (2, 0xff), (2, 0xff), (1, 0x30), (0, 0x00), (1, 0x30), (2, 0xff), (1, 0x10), (1, 0xff),
    (1, 0xff), (1, 0x10), (1, 0x01), (1, 0xff), (0, 0x00), (1, 0x01), (1, 0x20), (1, 0xff),
    (1, 0xff), (1, 0x81), (1, 0x81), (1, 0x81), (1, 0x81), (0, 0x00), (0, 0x00), (0, 0x00),
    (0, 0x00), (0, 0x00), (0, 0x00), (0, 0x00), (0, 0x00), (0, 0x00), (0, 0x00), (0, 0x00),
    (0, 0x00), (0, 0x00), (0, 0x00), (0, 0x00), (0, 0x00), (0, 0x00), (0, 0x00), (0, 0x00),
    (1, 0x10), (1, 0x40), (1, 0x40), (1, 0xff), (0, 0x00), (0, 0x00), (0, 0x00), (0, 0x00),
    (1, 0xff), (0, 0x00), (1, 0x10), (2, 0xff), (2, 0xff), (2, 0xff), (2, 0x81), (2, 0x81),
    (2, 0x81), (2, 0x81), (2, 0x01), (2, 0x01), (2, 0x01), (1, 0x01), (1, 0x01), (1, 0x8f),
    (3, 0x01), (1, 0x10), (2, 0xff), (0, 0x00), (1, 0x01), (3, 0xff), (0, 0x00), (0, 0x00),
    (0, 0x00), (0, 0x00), (0, 0x00), (0, 0x00), (0, 0x00), (0, 0x00), (0, 0x00), (2, 0x01),
    (2, 0x01), (2, 0x01), (2, 0x01), (6, 0x01), (6, 0x01), (6, 0x01), (6, 0x01), (6, 0x01),
    (0, 0x00), (0, 0x00), (0, 0x00), (0, 0x00), (0, 0x00), (0, 0x00), (2, 0x81), (1, 0x81),
    (1, 0x81), (2, 0x81), (2, 0x91), (1, 0x81), (0, 0x00), (1, 0xff), (0, 0x00), (0, 0x00),
    (0, 0x00), (0, 0x00), (0, 0x00), (0, 0x00), (0, 0x00), (1, 0xff), (1, 0xff), (1, 0xff),
    (0, 0x00), (0, 0x00), (0, 0x00), (0, 0x00), (0, 0x00), (0, 0x00), (0, 0x00), (0, 0x00),
    (0, 0x00), (2, 0x01), (0, 0x00), (0, 0x00), (0, 0x00), (0, 0x00), (0, 0x00), (0, 0x00),
    (0, 0x00), (0, 0x00), (0, 0x00), (0, 0x00), (0, 0x00), (0, 0x00), (0, 0x00), (0, 0x00),
    (0, 0x00), (0, 0x00), (0, 0x00), (0, 0x00), (0, 0x00), (0, 0x00), (1, 0x01), (0, 0x00),
    (0, 0x00), (0, 0x00), (0, 0x00), (0, 0x00), (1, 0x01), (0, 0x00), (0, 0x00), (0, 0x00),
    (0, 0x00), (1, 0x01), (1, 0x01), (1, 0x01), (0, 0x00), (0, 0x00), (0, 0x00), (0, 0x00),
    (0, 0x00), (0, 0x00), (0, 0x00), (0, 0x00), (1, 0x81), (1, 0x81), (1, 0x81), (1, 0x81),
    (0, 0x00), (0, 0x00), (2, 0xff), (0, 0x00)
  ]

/-- The `argcount` of the descriptor of opcode `i` in the shipped table. -/
def cmd_argcount (i : Nat) : Int := (cmd_array_columns.getD i (0, 0)).1

/-- Opcode of GEN_N. -/
def CMD_GEN_N : Nat := 483

/-- Opcode of GEN_I. -/
def CMD_GEN_I : Nat := 484

/-- Opcode of GEN_PV. -/
def CMD_GEN_PV : Nat := 485

/-- Opcode of GEN_PMT. -/
def CMD_GEN_PMT : Nat := 486

/-- Opcode of GEN_FV. -/
def CMD_GEN_FV : Nat := 487

/-- The opcode CMD_SILENT_OFF of core_tables.h. -/
def CMD_SILENT_OFF : Nat := 10

/-- The descriptor of CMD_SILENT_OFF, entry 10 of `cmd_array`: no operands, the dummy
mask, and a NULL handler. -/
def cs_silent_off : command_spec :=
  { handler := none, argcount := 0, rttypes := NA_T }

/-- A descriptor of arity 6 for real operands, such as GEN_N. -/
def cs_six : command_spec :=
  { handler := some (fun _ s => (ERR_NONE, s)), argcount := 6, rttypes := 0x01 }

/-- A calculator in 4-level mode with a full stack of four reals. -/
def st_small_full : core_state :=
  { st_idle with big_stack := false, sp := 3,
                 stack := [vartype.real 1, vartype.real 2, vartype.real 3, vartype.real 4] }

/-- A big-stack calculator holding one Complex. -/
def st_big_complex : core_state :=
  { st_idle with sp := 0, stack := [vartype.complex 1 2] }

/-- The 1×1 matrix holding a string element. -/
def mat_string : vartype_realmatrix :=
  { rows := 1, columns := 1, data := [0], is_string := [true] }

/-- The 1×1 matrix `[5]`. -/
def mat_five : vartype_realmatrix :=
  { rows := 1, columns := 1, data := [5], is_string := [false] }

/-- The 1×2 matrix holding a string element. -/
def mat_string_row : vartype_realmatrix :=
  { rows := 1, columns := 2, data := [0, 1], is_string := [true, false] }

/-- The progress record of `[1,2,3]` times `[4,5,6]ᵗ` as `matrix_mul_rr` creates it. -/
def dat_started : mul_rr_data_struct :=
  { left := { rows := 1, columns := 3, data := [1, 2, 3], is_string := [false, false, false] },
    right := { rows := 3, columns := 1, data := [4, 5, 6], is_string := [false, false, false] },
    result := new_realmatrix 1 1, i := 0, j := 0, k := 0, sum := 0,
    completion := completion_ref.caller }

/-- The state in which `linalg_mul` leaves the idle calculator for that product. -/
def st_started : core_state :=
  { st_idle with mul_rr_data := some dat_started,
                 mode_interruptible := some worker_ref.matrix_mul_rr_worker }

/-- The saturation applied to a completed sum: an infinite value becomes
NEG_HUGE_PHLOAT when negative and POS_HUGE_PHLOAT otherwise. -/
def clamp (env : phloat_env) (x : phloat) : phloat :=
  if env.p_isinf x ≠ 0 then
    (if env.p_isinf x < 0 then env.NEG_HUGE_PHLOAT else env.POS_HUGE_PHLOAT)
  else x

/-- Whether a value is a real matrix. -/
def is_real_matrix : vartype → Bool
  | .realmatrix _ => true
  | _ => false

/-- The completed dot product of the element `(i, j)` as the worker for the operand
types accumulates it, term by term in `phloat` arithmetic from zero: its real and its
imaginary part (a real by real product has no imaginary part: zero). -/
def dot_acc (env : phloat_env) : vartype → vartype → Nat → Nat → xphloat × xphloat
  | .realmatrix l, .realmatrix r, i, j => (acc_rr env l r i j l.columns, 0)
  | .realmatrix l, .complexmatrix r, i, j => acc_rc env l r i j l.columns
  | .complexmatrix l, .realmatrix r, i, j => acc_cr env l r i j l.columns
  | .complexmatrix l, .complexmatrix r, i, j => acc_cc env l r i j l.columns
  | _, _, _, _ => (0, 0)

/-- A completed dot product is infinite: its real part or, for a complex result, its
imaginary part is an infinity. -/
def dot_infinite (env : phloat_env) (left right : vartype) (i j : Nat) : Prop :=
  xisinf env (dot_acc env left right i j).1 ≠ 0 ∨
    ((is_real_matrix left && is_real_matrix right) = false ∧
      xisinf env (dot_acc env left right i j).2 ≠ 0)

/-- The scalar stored for a completed sum that is not reported as an error: the
saturating extreme of its sign for an infinity, the number itself for a number in
range, `NAN_PHLOAT` for a NaN. -/
def clamp_acc (env : phloat_env) : xphloat → phloat
  | .num x => clamp env x
  | .inf negative => if negative then env.NEG_HUGE_PHLOAT else env.POS_HUGE_PHLOAT
  | .nan => env.NAN_PHLOAT

/-- The range policy of the worker on the completed dot product of the element
`(i, j)`: `none` when the worker reports ERR_OUT_OF_RANGE, otherwise the re/im pair
found in the result (the imaginary part of a real result is zero). -/
def dot_check (env : phloat_env) (st : core_state) (left right : vartype) (i j : Nat) :
    Option (phloat × phloat) :=
  if is_real_matrix left && is_real_matrix right then
    (check_acc env st (dot_acc env left right i j).1).map (fun v => (v, 0))
  else check_acc2 env st (dot_acc env left right i j)

/-- An environment in which every value above 100 counts as plus infinity and every
value below -100 as minus infinity. -/
def env_small : phloat_env :=
  { p_isinf := fun x => if x > 100 then 1 else if x < -100 then -1 else 0,
    ilogb := fun _ => 0, POS_HUGE_PHLOAT := 100, NEG_HUGE_PHLOAT := -100, NAN_PHLOAT := 0 }

/-- The idle calculator with `core_settings.matrix_outofrange` off. -/
def st_no_range_error : core_state := { st_idle with matrix_outofrange := false }

/-- The row vector `[10, 20, 30]`. -/
def row_big : vartype :=
  vartype.realmatrix
    { rows := 1, columns := 3, data := [10, 20, 30], is_string := [false, false, false] }

/-- Modelled from the spec: a complex scalar as the pair of phloats the complex matrices
store for each element. -/
@[ext]
structure cplx where
  re : phloat
  im : phloat
  deriving DecidableEq

instance : Zero cplx := ⟨⟨0, 0⟩⟩

instance : One cplx := ⟨⟨1, 0⟩⟩

instance : Add cplx := ⟨fun a b => ⟨a.re + b.re, a.im + b.im⟩⟩

instance : Neg cplx := ⟨fun a => ⟨-a.re, -a.im⟩⟩

instance : Mul cplx :=
  ⟨fun a b => ⟨a.re * b.re - a.im * b.im, a.re * b.im + a.im * b.re⟩⟩

instance : Inv cplx :=
  ⟨fun a => ⟨a.re / (a.re * a.re + a.im * a.im), -a.im / (a.re * a.re + a.im * a.im)⟩⟩

instance : Field cplx :=
  Field.ofMinimalAxioms cplx
    (fun a b c => by
      apply cplx.ext <;> simp only [show ∀ x y : cplx, (x * y).re = x.re * y.re - x.im * y.im from fun _ _ => rfl,
        show ∀ x y : cplx, (x * y).im = x.re * y.im + x.im * y.re from fun _ _ => rfl,
        show ∀ x y : cplx, (x + y).re = x.re + y.re from fun _ _ => rfl,
        show ∀ x y : cplx, (x + y).im = x.im + y.im from fun _ _ => rfl,
        show ∀ x : cplx, (-x).re = -x.re from fun _ => rfl,
        show ∀ x : cplx, (-x).im = -x.im from fun _ => rfl,
        show ∀ x : cplx, (x⁻¹).re = x.re / (x.re * x.re + x.im * x.im) from fun _ => rfl,
        show ∀ x : cplx, (x⁻¹).im = -x.im / (x.re * x.re + x.im * x.im) from fun _ => rfl,
        show (0 : cplx).re = 0 from rfl, show (0 : cplx).im = 0 from rfl,
        show (1 : cplx).re = 1 from rfl, show (1 : cplx).im = 0 from rfl] <;> ring)
    (fun a => by
      apply cplx.ext <;> simp only [show ∀ x y : cplx, (x * y).re = x.re * y.re - x.im * y.im from fun _ _ => rfl,
        show ∀ x y : cplx, (x * y).im = x.re * y.im + x.im * y.re from fun _ _ => rfl,
        show ∀ x y : cplx, (x + y).re = x.re + y.re from fun _ _ => rfl,
        show ∀ x y : cplx, (x + y).im = x.im + y.im from fun _ _ => rfl,
        show ∀ x : cplx, (-x).re = -x.re from fun _ => rfl,
        show ∀ x : cplx, (-x).im = -x.im from fun _ => rfl,
        show ∀ x : cplx, (x⁻¹).re = x.re / (x.re * x.re + x.im * x.im) from fun _ => rfl,
        show ∀ x : cplx, (x⁻¹).im = -x.im / (x.re * x.re + x.im * x.im) from fun _ => rfl,
        show (0 : cplx).re = 0 from rfl, show (0 : cplx).im = 0 from rfl,
        show (1 : cplx).re = 1 from rfl, show (1 : cplx).im = 0 from rfl] <;> ring)
    (fun a => by
      apply cplx.ext <;> simp only [show ∀ x y : cplx, (x * y).re = x.re * y.re - x.im * y.im from fun _ _ => rfl,
        show ∀ x y : cplx, (x * y).im = x.re * y.im + x.im * y.re from fun _ _ => rfl,
        show ∀ x y : cplx, (x + y).re = x.re + y.re from fun _ _ => rfl,
        show ∀ x y : cplx, (x + y).im = x.im + y.im from fun _ _ => rfl,
        show ∀ x : cplx, (-x).re = -x.re from fun _ => rfl,
        show ∀ x : cplx, (-x).im = -x.im from fun _ => rfl,
        show ∀ x : cplx, (x⁻¹).re = x.re / (x.re * x.re + x.im * x.im) from fun _ => rfl,
        show ∀ x : cplx, (x⁻¹).im = -x.im / (x.re * x.re + x.im * x.im) from fun _ => rfl,
        show (0 : cplx).re = 0 from rfl, show (0 : cplx).im = 0 from rfl,
        show (1 : cplx).re = 1 from rfl, show (1 : cplx).im = 0 from rfl] <;> ring)
    (fun a b c => by
      apply cplx.ext <;> simp only [show ∀ x y : cplx, (x * y).re = x.re * y.re - x.im * y.im from fun _ _ => rfl,
        show ∀ x y : cplx, (x * y).im = x.re * y.im + x.im * y.re from fun _ _ => rfl,
        show ∀ x y : cplx, (x + y).re = x.re + y.re from fun _ _ => rfl,
        show ∀ x y : cplx, (x + y).im = x.im + y.im from fun _ _ => rfl,
        show ∀ x : cplx, (-x).re = -x.re from fun _ => rfl,
        show ∀ x : cplx, (-x).im = -x.im from fun _ => rfl,
        show ∀ x : cplx, (x⁻¹).re = x.re / (x.re * x.re + x.im * x.im) from fun _ => rfl,
        show ∀ x : cplx, (x⁻¹).im = -x.im / (x.re * x.re + x.im * x.im) from fun _ => rfl,
        show (0 : cplx).re = 0 from rfl, show (0 : cplx).im = 0 from rfl,
        show (1 : cplx).re = 1 from rfl, show (1 : cplx).im = 0 from rfl] <;> ring)
    (fun a b => by
      apply cplx.ext <;> simp only [show ∀ x y : cplx, (x * y).re = x.re * y.re - x.im * y.im from fun _ _ => rfl,
        show ∀ x y : cplx, (x * y).im = x.re * y.im + x.im * y.re from fun _ _ => rfl,
        show ∀ x y : cplx, (x + y).re = x.re + y.re from fun _ _ => rfl,
        show ∀ x y : cplx, (x + y).im = x.im + y.im from fun _ _ => rfl,
        show ∀ x : cplx, (-x).re = -x.re from fun _ => rfl,
        show ∀ x : cplx, (-x).im = -x.im from fun _ => rfl,
        show ∀ x : cplx, (x⁻¹).re = x.re / (x.re * x.re + x.im * x.im) from fun _ => rfl,
        show ∀ x : cplx, (x⁻¹).im = -x.im / (x.re * x.re + x.im * x.im) from fun _ => rfl,
        show (0 : cplx).re = 0 from rfl, show (0 : cplx).im = 0 from rfl,
        show (1 : cplx).re = 1 from rfl, show (1 : cplx).im = 0 from rfl] <;> ring)
    (fun a => by
      apply cplx.ext <;> simp only [show ∀ x y : cplx, (x * y).re = x.re * y.re - x.im * y.im from fun _ _ => rfl,
        show ∀ x y : cplx, (x * y).im = x.re * y.im + x.im * y.re from fun _ _ => rfl,
        show ∀ x y : cplx, (x + y).re = x.re + y.re from fun _ _ => rfl,
        show ∀ x y : cplx, (x + y).im = x.im + y.im from fun _ _ => rfl,
        show ∀ x : cplx, (-x).re = -x.re from fun _ => rfl,
        show ∀ x : cplx, (-x).im = -x.im from fun _ => rfl,
        show ∀ x : cplx, (x⁻¹).re = x.re / (x.re * x.re + x.im * x.im) from fun _ => rfl,
        show ∀ x : cplx, (x⁻¹).im = -x.im / (x.re * x.re + x.im * x.im) from fun _ => rfl,
        show (0 : cplx).re = 0 from rfl, show (0 : cplx).im = 0 from rfl,
        show (1 : cplx).re = 1 from rfl, show (1 : cplx).im = 0 from rfl] <;> ring)
    (fun a h => by
      have hn : a.re * a.re + a.im * a.im ≠ 0 := by
        intro h0
        apply h
        have h1 : a.re = 0 := by nlinarith [mul_self_nonneg a.re, mul_self_nonneg a.im]
        have h2 : a.im = 0 := by nlinarith [mul_self_nonneg a.re, mul_self_nonneg a.im]
        exact cplx.ext h1 h2
      apply cplx.ext <;> simp only [show ∀ x y : cplx, (x * y).re = x.re * y.re - x.im * y.im from fun _ _ => rfl,
        show ∀ x y : cplx, (x * y).im = x.re * y.im + x.im * y.re from fun _ _ => rfl,
        show ∀ x y : cplx, (x + y).re = x.re + y.re from fun _ _ => rfl,
        show ∀ x y : cplx, (x + y).im = x.im + y.im from fun _ _ => rfl,
        show ∀ x : cplx, (-x).re = -x.re from fun _ => rfl,
        show ∀ x : cplx, (-x).im = -x.im from fun _ => rfl,
        show ∀ x : cplx, (x⁻¹).re = x.re / (x.re * x.re + x.im * x.im) from fun _ => rfl,
        show ∀ x : cplx, (x⁻¹).im = -x.im / (x.re * x.re + x.im * x.im) from fun _ => rfl,
        show (0 : cplx).re = 0 from rfl, show (0 : cplx).im = 0 from rfl,
        show (1 : cplx).re = 1 from rfl, show (1 : cplx).im = 0 from rfl] <;> field_simp <;> ring)
    (by
      apply cplx.ext <;> simp only [show ∀ x y : cplx, (x * y).re = x.re * y.re - x.im * y.im from fun _ _ => rfl,
        show ∀ x y : cplx, (x * y).im = x.re * y.im + x.im * y.re from fun _ _ => rfl,
        show ∀ x y : cplx, (x + y).re = x.re + y.re from fun _ _ => rfl,
        show ∀ x y : cplx, (x + y).im = x.im + y.im from fun _ _ => rfl,
        show ∀ x : cplx, (-x).re = -x.re from fun _ => rfl,
        show ∀ x : cplx, (-x).im = -x.im from fun _ => rfl,
        show ∀ x : cplx, (x⁻¹).re = x.re / (x.re * x.re + x.im * x.im) from fun _ => rfl,
        show ∀ x : cplx, (x⁻¹).im = -x.im / (x.re * x.re + x.im * x.im) from fun _ => rfl,
        show (0 : cplx).re = 0 from rfl, show (0 : cplx).im = 0 from rfl,
        show (1 : cplx).re = 1 from rfl, show (1 : cplx).im = 0 from rfl] <;> simp)
    (fun a b c => by
      apply cplx.ext <;> simp only [show ∀ x y : cplx, (x * y).re = x.re * y.re - x.im * y.im from fun _ _ => rfl,
        show ∀ x y : cplx, (x * y).im = x.re * y.im + x.im * y.re from fun _ _ => rfl,
        show ∀ x y : cplx, (x + y).re = x.re + y.re from fun _ _ => rfl,
        show ∀ x y : cplx, (x + y).im = x.im + y.im from fun _ _ => rfl,
        show ∀ x : cplx, (-x).re = -x.re from fun _ => rfl,
        show ∀ x : cplx, (-x).im = -x.im from fun _ => rfl,
        show ∀ x : cplx, (x⁻¹).re = x.re / (x.re * x.re + x.im * x.im) from fun _ => rfl,
        show ∀ x : cplx, (x⁻¹).im = -x.im / (x.re * x.re + x.im * x.im) from fun _ => rfl,
        show (0 : cplx).re = 0 from rfl, show (0 : cplx).im = 0 from rfl,
        show (1 : cplx).re = 1 from rfl, show (1 : cplx).im = 0 from rfl] <;> ring)
    ⟨0, 1, fun h => absurd (congrArg cplx.re h) (by show (0 : ℚ) ≠ 1; norm_num)⟩

/-- Modelled from the spec: the interchange of rows `k` and `l` of a column, the row
ordering the permutation vector records. -/
def swap_rows {K : Type} (k l : Nat) (v : Nat → K) : Nat → K :=
  fun i => if i = k then v l else if i = l then v k else v i

/-- Modelled from the spec: the row operation of elimination step `k` on one column:
the interchange of rows `k` and `l`, then the subtraction of `m i` times row `k` from
every row `i` below it. -/
def row_op {K : Type} [Field K] (k l : Nat) (m : Nat → K) (v : Nat → K) : Nat → K :=
  fun i =>
    if k < i then swap_rows k l v i - m i * swap_rows k l v k else swap_rows k l v i

/-- Modelled from the spec: partial pivoting, the row among `k .. k + c` whose element
in column `k` is largest in size (the first such row). -/
def pivot_row {K : Type} (size : K → ℚ) (a : Nat → Nat → K) (k : Nat) : Nat → Nat
  | 0 => k
  | c + 1 =>
    if size (a (pivot_row size a k c) k) < size (a (k + c + 1) k) then k + c + 1
    else pivot_row size a k c

/-- Modelled from the spec: step `k` of the LU decomposition with partial pivoting of a
matrix of order `n`, in place: the pivot row is recorded and interchanged with row `k`; a
zero pivot is ERR_SINGULAR_MATRIX (`none`) when singular matrices are reported and is
otherwise replaced by the largest number; the multipliers are stored below the
diagonal and the row operation is applied to the columns to the right. -/
def lu_step {K : Type} [Field K] [DecidableEq K] (size : K → ℚ) (huge : K) (sing : Bool)
    (n k : Nat) (a : Nat → Nat → K) : Option ((Nat → Nat → K) × Nat) :=
  let l := pivot_row size a k (n - 1 - k)
  if a l k = 0 ∧ sing = true then none
  else
    let p := if a l k = 0 then huge else a l k
    let m : Nat → K := fun i => swap_rows k l (fun r => a r k) i / p
    some (fun i j =>
      if j < k then a i j
      else if j = k then (if i < k then a i k else if i = k then p else m i)
      else row_op k l m (fun r => a r j) i, l)

/-- Modelled from the spec: the first `k` steps of the LU decomposition; the result is
the matrix holding both factors and the permutation vector. -/
def lu_steps {K : Type} [Field K] [DecidableEq K] (size : K → ℚ) (huge : K) (sing : Bool)
    (n : Nat) (a : Nat → Nat → K) : Nat → Option ((Nat → Nat → K) × List Nat)
  | 0 => some (a, [])
  | k + 1 =>
    match lu_steps size huge sing n a k with
    | none => none
    | some s =>
      match lu_step size huge sing n k s.1 with
      | none => none
      | some t => some (t.1, s.2 ++ [t.2])

/-- Modelled from the spec: the forward phase of the back-substitution on one column:
the first `k` row operations, replayed from the stored multipliers and the permutation
vector, in the order of the decomposition. -/
def lu_forward {K : Type} [Field K] (a : Nat → Nat → K) (perm : List Nat) :
    Nat → (Nat → K) → Nat → K
  | 0, v => v
  | k + 1, v => row_op k (perm.getD k 0) (fun i => a i k) (lu_forward a perm k v)

/-- Modelled from the spec: the backward phase on one column: the last `s` unknowns of
the upper triangular system of order `n`, from the last row upwards. -/
def lu_backward {K : Type} [Field K] (n : Nat) (a : Nat → Nat → K) (c : Nat → K) :
    Nat → Nat → K
  | 0 => fun _ => 0
  | s + 1 =>
    let x := lu_backward n a c s
    let i := n - (s + 1)
    Function.update x i
      ((c i - ∑ j in Finset.range n, if i < j then a i j * x j else 0) / a i i)

/-- Modelled from the spec: back-substitution of one right-hand side column against a
decomposed matrix of order `n` and its permutation vector. -/
def lu_solve {K : Type} [Field K] (n : Nat) (a : Nat → Nat → K) (perm : List Nat)
    (b : Nat → K) : Nat → K :=
  lu_backward n a (lu_forward a perm n b) n

/-- The state of the decomposition of `A` after `k` steps: the permutation vector has
`k` entries, each a row at or below its step; the stored matrix agrees with the first
`k` row operations applied to the columns of `A` on and above the diagonal and in the
columns still to be processed; below the diagonal of the processed columns those row
operations have produced zeros; the pivots are not zero. -/
def lu_inv {K : Type} [Field K] (n : Nat) (A : Nat → Nat → K) (k : Nat)
    (s : (Nat → Nat → K) × List Nat) : Prop :=
  s.2.length = k ∧
  (∀ j, j < k → j ≤ s.2.getD j 0 ∧ s.2.getD j 0 < n) ∧
  (∀ i j, i < n → j < n → (k ≤ j ∨ i ≤ j) →
    s.1 i j = lu_forward s.1 s.2 k (fun r => A r j) i) ∧
  (∀ i j, i < n → j < k → j < i → lu_forward s.1 s.2 k (fun r => A r j) i = 0) ∧
  (∀ j, j < k → s.1 j j ≠ 0)

/-- Modelled from the spec: element `(i, j)` of a real matrix, read from its row-major
data. -/
def rm_fn (m : vartype_realmatrix) : Nat → Nat → phloat :=
  fun i j => m.data.getD (i * m.columns + j) 0

/-- Modelled from the spec: element `(i, j)` of a complex matrix, read from its row-major
data of interleaved re/im pairs. -/
def cm_fn (m : vartype_complexmatrix) : Nat → Nat → cplx :=
  fun i j =>
    ⟨m.data.getD (2 * (i * m.columns + j)) 0, m.data.getD (2 * (i * m.columns + j) + 1) 0⟩

/-- Modelled from the spec: the row-major data of a real matrix with the given
elements. -/
def rm_data (rows columns : Nat) (f : Nat → Nat → phloat) : List phloat :=
  (List.range (rows * columns)).map (fun idx => f (idx / columns) (idx % columns))

/-- Modelled from the spec: the row-major data, in interleaved re/im pairs, of a complex
matrix with the given elements. -/
def cm_data (rows columns : Nat) (f : Nat → Nat → cplx) : List phloat :=
  (List.range (2 * (rows * columns))).map (fun idx =>
    if idx % 2 = 0 then (f (idx / 2 / columns) (idx / 2 % columns)).re
    else (f (idx / 2 / columns) (idx / 2 % columns)).im)

/-- Modelled from the spec: the size by which partial pivoting compares complex
elements, the squared modulus. -/
def cplx_size (x : cplx) : ℚ := x.re * x.re + x.im * x.im

/-- Modelled from the spec: the determinant accumulated during the decomposition, the
signed product of the pivots: the sign changes with every interchange of two different
rows. -/
def lu_det {K : Type} [Field K] (n : Nat) (a : Nat → Nat → K) (perm : List Nat) : K :=
  ∏ k in Finset.range n, if perm.getD k 0 = k then a k k else -a k k

/-- Modelled from the spec: the overflow policy of the matrix routines applied to the
elements of a result: `none` when an element is out of range and that is an error,
otherwise the elements with the infinite ones clamped. -/
def range_policy (env : phloat_env) (st : core_state) (l : List phloat) : Option (List phloat) :=
  if l.all (fun v => (check_sum env st v).isSome) then
    some (l.map (fun v => (check_sum env st v).getD v))
  else none

/-- Modelled from the spec: `lu_decomp_r(a, perm, completion)` is defined in
core_linalg2.cc, not among the sources: LU decomposition of `a` with partial pivoting,
in place; the completion receives the status, the decomposed matrix, the permutation
vector and the determinant.  With singular matrices reported a zero pivot is
ERR_SINGULAR_MATRIX; otherwise it is replaced by the largest number. -/
def lu_decomp_r (env : phloat_env) (a : vartype_realmatrix) (completion : lu_r_completion)
    (st : core_state) : Option (Err × core_state) :=
  match lu_steps (fun x : phloat => |x|) env.POS_HUGE_PHLOAT st.matrix_singularmatrix
      a.rows (rm_fn a) a.rows with
  | none => completion ERR_SINGULAR_MATRIX a [] 0 st
  | some s =>
    completion ERR_NONE { a with data := rm_data a.rows a.rows s.1 } s.2
      (lu_det a.rows s.1 s.2) st

/-- Modelled from the spec: `lu_decomp_c(a, perm, completion)` (core_linalg2.cc, not
among the sources): the decomposition of a complex matrix, pivots compared by their
modulus. -/
def lu_decomp_c (env : phloat_env) (a : vartype_complexmatrix) (completion : lu_c_completion)
    (st : core_state) : Option (Err × core_state) :=
  match lu_steps cplx_size ⟨env.POS_HUGE_PHLOAT, 0⟩ st.matrix_singularmatrix
      a.rows (cm_fn a) a.rows with
  | none => completion ERR_SINGULAR_MATRIX a [] 0 0 st
  | some s =>
    completion ERR_NONE { a with data := cm_data a.rows a.rows s.1 } s.2
      (lu_det a.rows s.1 s.2).re (lu_det a.rows s.1 s.2).im st

/-- Modelled from the spec: `lu_backsubst_rr(a, perm, b, completion)` (core_linalg2.cc,
not among the sources): every column of the right-hand side `b` is replaced by the
solution of the decomposed system, the row ordering being that of the permutation
vector; the elements pass the overflow policy. -/
def lu_backsubst_rr (env : phloat_env) (a : vartype_realmatrix) (perm : List Nat)
    (b : vartype_realmatrix) (completion : bs_rr_completion) (st : core_state) :
    Option (Err × core_state) :=
  match range_policy env st (rm_data b.rows b.columns
      (fun i j => lu_solve a.rows (rm_fn a) perm (fun r => rm_fn b r j) i)) with
  | none => completion ERR_OUT_OF_RANGE a perm b st
  | some d => completion ERR_NONE a perm { b with data := d } st

/-- Modelled from the spec: `lu_backsubst_rc(a, perm, b, completion)` (core_linalg2.cc,
not among the sources): a real decomposed matrix against a complex right-hand side,
the real and the imaginary parts being solved for separately. -/
def lu_backsubst_rc (env : phloat_env) (a : vartype_realmatrix) (perm : List Nat)
    (b : vartype_complexmatrix) (completion : bs_rc_completion) (st : core_state) :
    Option (Err × core_state) :=
  match range_policy env st (cm_data b.rows b.columns
      (fun i j => ⟨lu_solve a.rows (rm_fn a) perm (fun r => (cm_fn b r j).re) i,
        lu_solve a.rows (rm_fn a) perm (fun r => (cm_fn b r j).im) i⟩)) with
  | none => completion ERR_OUT_OF_RANGE a perm b st
  | some d => completion ERR_NONE a perm { b with data := d } st

/-- Modelled from the spec: `lu_backsubst_cc(a, perm, b, completion)` (core_linalg2.cc,
not among the sources): a complex decomposed matrix against a complex right-hand
side. -/
def lu_backsubst_cc (env : phloat_env) (a : vartype_complexmatrix) (perm : List Nat)
    (b : vartype_complexmatrix) (completion : bs_cc_completion) (st : core_state) :
    Option (Err × core_state) :=
  match range_policy env st (cm_data b.rows b.columns
      (fun i j => lu_solve a.rows (cm_fn a) perm (fun r => cm_fn b r j) i)) with
  | none => completion ERR_OUT_OF_RANGE a perm b st
  | some d => completion ERR_NONE a perm { b with data := d } st

/-- Modelled from the spec: the routines of core_linalg2.cc. -/
def core_linalg2 (env : phloat_env) : linalg2 :=
  { lu_decomp_r := lu_decomp_r env, lu_decomp_c := lu_decomp_c env,
    lu_backsubst_rr := lu_backsubst_rr env, lu_backsubst_rc := lu_backsubst_rc env,
    lu_backsubst_cc := lu_backsubst_cc env }

/-- Modelled from the spec: the determinant of the leading block of order `n` of a table
of elements. -/
def fn_det {K : Type} [Field K] (n : Nat) (A : Nat → Nat → K) : K :=
  Matrix.det (Matrix.of (fun (i j : Fin n) => A i j))

/-- Modelled from the spec: the determinant of a square matrix value, as a complex
number. -/
def mat_det : vartype → cplx
  | .realmatrix m => ⟨fn_det m.rows (rm_fn m), 0⟩
  | .complexmatrix m => fn_det m.rows (cm_fn m)
  | _ => 0

/-- The matrix `[[0, 2, 0], [1, 0, 0], [0, 0, 4]]`, whose decomposition has to
interchange the first two rows. -/
def mat_pivot : vartype :=
  vartype.realmatrix
    { rows := 3, columns := 3, data := [0, 2, 0, 1, 0, 0, 0, 0, 4],
      is_string := List.replicate 9 false }

/-- The agreement of a division with the multiplication by the inverse `X` of the
divisor, given the state `stI` in which the inversion of the divisor returned: the
inversion has called its completion once, with the matrix `X`; the division calls its
completion with ERR_NONE and a matrix `D` of the dimensions of the numerator, at once
or when the multiply worker it installed finishes; every entry of `D` is the entry of
the product `X × left`; and `linalg_mul(X, left)` delivers a matrix with the same
entries. -/
def div_delivers (env : phloat_env) (cb : Err → Option vartype → Err) (L2 : linalg2)
    (st : core_state) (left right : vartype) (stI : core_state) (X : vartype) : Prop :=
  ∃ (D : vartype),
    (∃ pre post, stI.log = st.log ++ pre ++ [event.completion_v X] ++ post ∧
      ∀ ev, ev ∈ pre ++ post → ∃ o, ev = event.free o) ∧
    mat_rows D = mat_rows left ∧ mat_columns D = mat_columns left ∧
    (∀ i j, i < mat_rows left → j < mat_columns left →
      mat_entry D i j = product_entry X left i j) ∧
    ((∃ stE, linalg_div env L2 cb left right completion_ref.caller st
          = some (cb ERR_NONE (some D), stE) ∧
        event.completion ERR_NONE (some D) ∈ stE.log) ∨
     (∃ st1 N stN stE, linalg_div env L2 cb left right completion_ref.caller st
          = some (ERR_INTERRUPTIBLE, st1) ∧
        suspended_after env cb N st1 = some stN ∧
        reenter env cb false stN = some (cb ERR_NONE (some D), stE) ∧
        event.completion ERR_NONE (some D) ∈ stE.log)) ∧
    ∃ (P : vartype) (st1 : core_state) (N : Nat) (stN stE : core_state),
      linalg_mul cb X left completion_ref.caller stI = some (ERR_INTERRUPTIBLE, st1) ∧
      suspended_after env cb N st1 = some stN ∧
      reenter env cb false stN = some (cb ERR_NONE (some P), stE) ∧
      event.completion ERR_NONE (some P) ∈ stE.log ∧
      mat_rows P = mat_rows D ∧ mat_columns P = mat_columns D ∧
      ∀ i j, i < mat_rows left → j < mat_columns left → mat_entry P i j = mat_entry D i j

/-- The matrix `[[1, 1], [0, 1]]`. -/
def mat_1101 : vartype_realmatrix :=
  { rows := 2, columns := 2, data := [1, 1, 0, 1], is_string := [false, false, false, false] }

/-- The inverse `[[1, -1], [0, 1]]` of `mat_1101`, as the small inverse computes it. -/
def mat_1101_inv : vartype_realmatrix :=
  { mat_1101 with
    data := [1 / (1 * 1 - 1 * 0), -(1 / (1 * 1 - 1 * 0)), -(0 / (1 * 1 - 1 * 0)),
      1 / (1 * 1 - 1 * 0)] }

/-- The state in which the inversion of `mat_1101` from the idle state returns. -/
def st_inverted : core_state :=
  { st_idle with
    log := [event.free obj.d, event.completion_v (vartype.realmatrix mat_1101_inv)],
    small_inv_res := some (vartype.realmatrix mat_1101_inv) }

/-- The number of multiply-accumulate steps the installed worker has performed so
far: the position of the indices `i, j, k` of its progress record in the iteration
order (each step advances it by one). -/
def mul_progress (st : core_state) : Option Nat :=
  match st.mode_interruptible with
  | none => none
  | some worker_ref.matrix_mul_rr_worker =>
    st.mul_rr_data.map (fun d => (d.i * d.right.columns + d.j) * d.left.columns + d.k)
  | some worker_ref.matrix_mul_rc_worker =>
    st.mul_rc_data.map (fun d => (d.i * d.right.columns + d.j) * d.left.columns + d.k)
  | some worker_ref.matrix_mul_cr_worker =>
    st.mul_cr_data.map (fun d => (d.i * d.right.columns + d.j) * d.left.columns + d.k)
  | some worker_ref.matrix_mul_cc_worker =>
    st.mul_cc_data.map (fun d => (d.i * d.right.columns + d.j) * d.left.columns + d.k)

/-- The result buffer of the progress record of the installed multiply worker. -/
def mul_result (st : core_state) : Option vartype :=
  match st.mode_interruptible with
  | none => none
  | some worker_ref.matrix_mul_rr_worker =>
    st.mul_rr_data.map (fun d => vartype.realmatrix d.result)
  | some worker_ref.matrix_mul_rc_worker =>
    st.mul_rc_data.map (fun d => vartype.complexmatrix d.result)
  | some worker_ref.matrix_mul_cr_worker =>
    st.mul_cr_data.map (fun d => vartype.complexmatrix d.result)
  | some worker_ref.matrix_mul_cc_worker =>
    st.mul_cc_data.map (fun d => vartype.complexmatrix d.result)

/-- What the installed multiply worker does after the completion has returned from a
failure report: `free_vartype(dat->result); free(dat);`, which leaves its progress
pointer without a valid target. -/
def mul_task_end (st : core_state) : core_state :=
  match st.mode_interruptible with
  | none => st
  | some worker_ref.matrix_mul_rr_worker =>
    { release obj.dat (release obj.dat_result st) with mul_rr_data := none }
  | some worker_ref.matrix_mul_rc_worker =>
    { release obj.dat (release obj.dat_result st) with mul_rc_data := none }
  | some worker_ref.matrix_mul_cr_worker =>
    { release obj.dat (release obj.dat_result st) with mul_cr_data := none }
  | some worker_ref.matrix_mul_cc_worker =>
    { release obj.dat (release obj.dat_result st) with mul_cc_data := none }

/-- The row vector `[60, 60, -60]`. -/
def row_60 : vartype :=
  vartype.realmatrix
    { rows := 1, columns := 3, data := [60, 60, -60], is_string := [false, false, false] }

/-- The column vector `[1, 1, 1]ᵗ`. -/
def col_111 : vartype :=
  vartype.realmatrix
    { rows := 3, columns := 1, data := [1, 1, 1], is_string := [false, false, false] }

/-- The matrix `[[1, 2], [3, 5]]`, of determinant -1. -/
def mat_1235 : vartype_realmatrix :=
  { rows := 2, columns := 2, data := [1, 2, 3, 5], is_string := [false, false, false, false] }

/-- The complex matrix `[[1 + 2i, 3 + 4i], [5 + 6i, 7 + 8i]]`. -/
def cmat_12345678 : vartype_complexmatrix :=
  { rows := 2, columns := 2, data := [1, 2, 3, 4, 5, 6, 7, 8] }

/-- The 1×1 real matrix `[0]`. -/
def mat_zero_1 : vartype_realmatrix :=
  { rows := 1, columns := 1, data := [0], is_string := [false] }

/-- An idle calculator whose singular-matrix setting is off. -/
def st_fudge : core_state :=
  { st_idle with matrix_singularmatrix := false }

/-- The singular matrix `[[1, 2], [2, 4]]`. -/
def mat_1224 : vartype_realmatrix :=
  { rows := 2, columns := 2, data := [1, 2, 2, 4], is_string := [false, false, false, false] }

/-- A state as `linalg_div` leaves it for the decomposition of a divisor of order 3:
the caller's completion, the numerator and the result buffer saved. -/
def st_div_running : core_state :=
  { st_idle with
    linalg_div_completion := some completion_ref.caller,
    linalg_div_left := some (vartype.realmatrix (new_realmatrix 3 3)),
    linalg_div_result := some (vartype.realmatrix (new_realmatrix 3 3)) }

/-- The values of the opcode macros `CMD_*` of core_tables.h other than CMD_SENTINEL, in
the order of their definition: the four negative pseudo-opcodes CMD_NONE, CMD_CANCELLED,
CMD_LINGER1, CMD_LINGER2, then CMD_CLX = 0 up to CMD_LIFE = 571. -/
def cmd_opcodes : List Int :=
  [
    -1, -2, -3, -4, 0, 1, 2, 3, 4, 5, 6, 7, 8, 9, 10, 11, 12, 13, 14, 15,
    16, 17, 18, 19, 20, 21, 22, 23, 24, 25, 26, 27, 28, 29, 30, 31, 32, 33, 34, 35,
    36, 37, 38, 39, 40, 41, 42, 43, 44, 45, 46, 47, 48, 49, 50, 51, 52, 53, 54, 55,
    56, 57, 58, 59, 60, 61, 62, 63, 64, 65, 66, 67, 68, 69, 70, 71, 72, 73, 74, 75,
    76, 77, 78, 79, 80, 81, 82, 83, 84, 85, 86, 87, 88, 89, 90, 91, 92, 93, 94, 95,
    96, 97, 98, 99, 100, 101, 102, 103, 104, 105, 106, 107, 108, 109, 110, 111, 112, 113, 114, 115,
    116, 117, 118, 119, 120, 121, 122, 123, 124, 125, 126, 127, 128, 129, 130, 131, 132, 133, 134, 135,
    136, 137, 138, 139, 140, 141, 142, 143, 144, 145, 146, 147, 148, 149, 150, 151, 152, 153, 154, 155,
    156, 157, 158, 159, 160, 161, 162, 163, 164, 165, 166, 167, 168, 169, 170, 171, 172, 173, 174, 175,
    176, 177, 178, 179, 180, 181, 182, 183, 184, 185, 186, 187, 188, 189, 190, 191, 192, 193, 194, 195,
    196, 197, 198, 199, 200, 201, 202, 203, 204, 205, 206, 207, 208, 209, 210, 211, 212, 213, 214, 215,
    216, 217, 218, 219, 220, 221, 222, 223, 224, 225, 226, 227, 228, 229, 230, 231, 232, 233, 234, 235,
    236, 237, 238, 239, 240, 241, 242, 243, 244, 245, 246, 247, 248, 249, 250, 251, 252, 253, 254, 255,
    256, 257, 258, 259, 260, 261, 262, 263, 264, 265, 266, 267, 268, 269, 270, 271, 272, 273, 274, 275,
    276, 277, 278, 279, 280, 281, 282, 283, 284, 285, 286, 287, 288, 289, 290, 291, 292, 293, 294, 295,
    296, 297, 298, 299, 300, 301, 302, 303, 304, 305, 306, 307, 308, 309, 310, 311, 312, 313, 314, 315,
    316, 317, 318, 319, 320, 321, 322, 323, 324, 325, 326, 327, 328, 329, 330, 331, 332, 333, 334, 335,
    336, 337, 338, 339, 340, 341, 342, 343, 344, 345, 346, 347, 348, 349, 350, 351, 352, 353, 354, 355,
    356, 357, 358, 359, 360, 361, 362, 363, 364, 365, 366, 367, 368, 369, 370, 371, 372, 373, 374, 375,
    376, 377, 378, 379, 380, 381, 382, 383, 384, 385, 386, 387, 388, 389, 390, 391, 392, 393, 394, 395,
    396, 397, 398, 399, 400, 401, 402, 403, 404, 405, 406, 407, 408, 409, 410, 411, 412, 413, 414, 415,
    416, 417, 418, 419, 420, 421, 422, 423, 424, 425, 426, 427, 428, 429, 430, 431, 432, 433, 434, 435,
    436, 437, 438, 439, 440, 441, 442, 443, 444, 445, 446, 447, 448, 449, 450, 451, 452, 453, 454, 455,
    456, 457, 458, 459, 460, 461, 462, 463, 464, 465, 466, 467, 468, 469, 470, 471, 472, 473, 474, 475,
    476, 477, 478, 479, 480, 481, 482, 483, 484, 485, 486, 487, 488, 489, 490, 491, 492, 493, 494, 495,
    496, 497, 498, 499, 500, 501, 502, 503, 504, 505, 506, 507, 508, 509, 510, 511, 512, 513, 514, 515,
    516, 517, 518, 519, 520, 521, 522, 523, 524, 525, 526, 527, 528, 529, 530, 531, 532, 533, 534, 535,
    536, 537, 538, 539, 540, 541, 542, 543, 544, 545, 546, 547, 548, 549, 550, 551, 552, 553, 554, 555,
    556, 557, 558, 559, 560, 561, 562, 563, 564, 565, 566, 567, 568, 569, 570, 571
  ]

/-- A descriptor of arity 2 that accepts Real operands only, with a handler that pops. -/
def cs_two_real : command_spec :=
  { handler := some (fun _ s => (ERR_NONE, { s with sp := s.sp - 1 })),
    argcount := 2, rttypes := 0x01 }

/-- A big-stack calculator holding a Complex on top of a String, on top of a value that
no command accepts as a number. -/
def st_complex_on_string : core_state :=
  { st_idle with sp := 2, stack := [vartype.list, vartype.string [65], vartype.complex 2 3] }

/-- A 1×1 real matrix whose only element is a String; the phloat slot of the element
holds 2. -/
def mat_string_two : vartype_realmatrix :=
  { rows := 1, columns := 1, data := [2], is_string := [true] }

/-- The installed worker is that of a multiplication started by the small division:
its progress record holds the completion `small_div_completion_2`, which will forward
to the caller's completion saved in `small_div_completion`. -/
def small_div_task (st : core_state) : Prop :=
  st.small_div_completion = some completion_ref.caller ∧
  match st.mode_interruptible with
  | none => False
  | some worker_ref.matrix_mul_rr_worker =>
    ∃ dat, st.mul_rr_data = some dat ∧ dat.completion = completion_ref.small_div_completion_2
  | some worker_ref.matrix_mul_rc_worker =>
    ∃ dat, st.mul_rc_data = some dat ∧ dat.completion = completion_ref.small_div_completion_2
  | some worker_ref.matrix_mul_cr_worker =>
    ∃ dat, st.mul_cr_data = some dat ∧ dat.completion = completion_ref.small_div_completion_2
  | some worker_ref.matrix_mul_cc_worker =>
    ∃ dat, st.mul_cc_data = some dat ∧ dat.completion = completion_ref.small_div_completion_2

/-- The progress record of the installed worker has been freed. -/
def task_concluded (st : core_state) : Prop :=
  match st.mode_interruptible with
  | none => True
  | some worker_ref.matrix_mul_rr_worker => st.mul_rr_data = none
  | some worker_ref.matrix_mul_rc_worker => st.mul_rc_data = none
  | some worker_ref.matrix_mul_cr_worker => st.mul_cr_data = none
  | some worker_ref.matrix_mul_cc_worker => st.mul_cc_data = none

/-- The log `l` is the log `l0` followed by the conclusion of the multiplication of a
small division: possibly the release of the progress record, then the release of the
temporary inverse, once, and the call of the caller's completion with `(e, v)`, then
the releases of the result of the multiplication and of the progress record that the
worker still owes. -/
def small_div_concluded (l0 l : List event) (e : Err) (v : Option vartype) : Prop :=
  ∃ pre post, l = l0 ++ pre ++ [event.free obj.small_div_res, event.completion e v] ++ post ∧
    ∀ ev, ev ∈ pre ++ post → ev = event.free obj.dat ∨ ev = event.free obj.dat_result

/-- The state in which the small inverse of `mat_1101`, called by the small division
from the idle state, hands over its result. -/
def st_small_inverted : core_state :=
  { st_idle with
    log := [event.free obj.d],
    small_inv_res := some (vartype.realmatrix mat_1101_inv) }

/-- The matrix `[[20, 0], [0, 20]]`, of determinant 400. -/
def mat_twenty : vartype_realmatrix :=
  { rows := 2, columns := 2, data := [20, 0, 0, 20], is_string := [false, false, false, false] }

/-! ## Theorems -/

/-! ### The multiply loops are instances of the kernel loop -/

theorem matrix_mul_rr_loop_eq (env : phloat_env) (st : core_state) (dat : mul_rr_data_struct)
    (c i j k : Nat) (sum : xphloat) (p : List phloat) :
    matrix_mul_rr_loop env st dat c i j k sum p
      = (kernel_rr env st dat.left dat.right).loop c i j k sum p := by
  induction c generalizing i j k sum p with
  | zero => rfl
  | succ c ih =>
    simp only [matrix_mul_rr_loop, mul_kernel.loop, kernel_rr]
    rcases h1 : dat.left.data[i * dat.left.columns + k]? with _ | lv
    · simp
    rcases h2 : dat.right.data[k * dat.right.columns + j]? with _ | rv
    · simp
    simp only [ih, kernel_rr]
    split_ifs <;> try rfl
    all_goals (cases check_acc env st (xadd env sum (xnum env (lv * rv))) <;> simp_all)

theorem matrix_mul_rc_loop_eq (env : phloat_env) (st : core_state) (dat : mul_rc_data_struct)
    (c i j k : Nat) (sum_re sum_im : xphloat) (p : List phloat) :
    matrix_mul_rc_loop env st dat c i j k sum_re sum_im p
      = (kernel_rc env st dat.left dat.right).loop c i j k (sum_re, sum_im) p := by
  induction c generalizing i j k sum_re sum_im p with
  | zero => rfl
  | succ c ih =>
    simp only [matrix_mul_rc_loop, mul_kernel.loop, kernel_rc]
    rcases h1 : dat.left.data[i * dat.left.columns + k]? with _ | lv
    · simp
    rcases h2 : dat.right.data[2 * (k * dat.right.columns + j)]? with _ | rv
    · simp
    rcases h3 : dat.right.data[2 * (k * dat.right.columns + j) + 1]? with _ | rw
    · simp
    simp only [ih, kernel_rc, check_acc2, store2, xadd2]
    split_ifs <;> try rfl
    all_goals
      (cases check_acc env st (xadd env sum_re (xnum env (lv * rv))) <;>
        cases check_acc env st (xadd env sum_im (xnum env (lv * rw))) <;> simp_all)

theorem matrix_mul_cr_loop_eq (env : phloat_env) (st : core_state) (dat : mul_cr_data_struct)
    (c i j k : Nat) (sum_re sum_im : xphloat) (p : List phloat) :
    matrix_mul_cr_loop env st dat c i j k sum_re sum_im p
      = (kernel_cr env st dat.left dat.right).loop c i j k (sum_re, sum_im) p := by
  induction c generalizing i j k sum_re sum_im p with
  | zero => rfl
  | succ c ih =>
    simp only [matrix_mul_cr_loop, mul_kernel.loop, kernel_cr]
    rcases h1 : dat.right.data[k * dat.right.columns + j]? with _ | rv
    · simp
    rcases h2 : dat.left.data[2 * (i * dat.left.columns + k)]? with _ | lv
    · simp
    rcases h3 : dat.left.data[2 * (i * dat.left.columns + k) + 1]? with _ | lw
    · simp
    simp only [ih, kernel_cr, check_acc2, store2, xadd2]
    split_ifs <;> try rfl
    all_goals
      (cases check_acc env st (xadd env sum_re (xnum env (rv * lv))) <;>
        cases check_acc env st (xadd env sum_im (xnum env (rv * lw))) <;> simp_all)

theorem matrix_mul_cc_loop_eq (env : phloat_env) (st : core_state) (dat : mul_cc_data_struct)
    (c i j k : Nat) (sum_re sum_im : xphloat) (p : List phloat) :
    matrix_mul_cc_loop env st dat c i j k sum_re sum_im p
      = (kernel_cc env st dat.left dat.right).loop c i j k (sum_re, sum_im) p := by
  induction c generalizing i j k sum_re sum_im p with
  | zero => rfl
  | succ c ih =>
    simp only [matrix_mul_cc_loop, mul_kernel.loop, kernel_cc]
    rcases h1 : dat.left.data[2 * (i * dat.left.columns + k)]? with _ | lv
    · simp
    rcases h2 : dat.left.data[2 * (i * dat.left.columns + k) + 1]? with _ | lw
    · simp
    rcases h3 : dat.right.data[2 * (k * dat.right.columns + j)]? with _ | rv
    · simp
    rcases h4 : dat.right.data[2 * (k * dat.right.columns + j) + 1]? with _ | rw
    · simp
    simp only [ih, kernel_cc, check_acc2, store2, xadd2]
    split_ifs <;> try rfl
    all_goals
      (cases check_acc env st
          (xadd env sum_re (xsub env (xnum env (lv * rv)) (xnum env (lw * rw)))) <;>
        cases check_acc env st
          (xadd env sum_im (xadd env (xnum env (lw * rv)) (xnum env (lv * rw)))) <;>
        simp_all)

/-! ### The kernel loop computes every element -/

theorem lin_index_lt {m n q i j k : Nat} (hi : i < m) (hj : j < n) (hk : k < q) :
    (i * n + j) * q + k < m * n * q := by
  have h1 : i * n + j + 1 ≤ m * n := by
    have : (i + 1) * n ≤ m * n := Nat.mul_le_mul_right n hi
    rw [Nat.add_mul] at this
    omega
  have h2 : (i * n + j + 1) * q ≤ m * n * q := Nat.mul_le_mul_right q h1
  rw [Nat.add_mul] at h2
  omega

theorem lin_index2_lt {m n i j : Nat} (hi : i < m) (hj : j < n) : i * n + j < m * n := by
  have : (i + 1) * n ≤ m * n := Nat.mul_le_mul_right n hi
  rw [Nat.add_mul] at this
  omega

theorem kernel_loop_step {A B : Type} (K : mul_kernel A B) (f : Nat → Nat → Nat → A) (g : Nat → B)
    (L : Nat) (rd : List phloat → Nat → B) (hK : kernel_ok K f g L rd) (c : Nat)
    (x : loop_state A) (hx : loop_inv K f g L rd x) :
    (∃ y : loop_state A, loop_inv K f g L rd y ∧ steps_done K y = steps_done K x + 1 ∧
        K.loop (c + 1) x.i x.j x.k x.sum x.p = K.loop c y.i y.j y.k y.sum y.p) ∨
    (K.m * K.n * K.q = steps_done K x + 1 ∧
      ∃ p1, K.loop (c + 1) x.i x.j x.k x.sum x.p = some (loop_exit.finished p1) ∧
          p1.length = L ∧ ∀ idx, idx < K.m * K.n → rd p1 idx = g idx) := by
  obtain ⟨i, j, k, sum, p⟩ := x
  obtain ⟨hi, hj, hk, hsum, hlen, hrd⟩ := hx
  simp only at hi hj hk hsum hlen hrd
  have hterm := hK.term_eq i j k hi hj hk
  by_cases hk1 : k + 1 < K.q
  · left
    refine ⟨⟨i, j, k + 1, K.add sum (f i j k), p⟩, ⟨hi, hj, hk1, ?_, hlen, hrd⟩, ?_, ?_⟩
    · simp only [psum, hsum]
    · simp only [steps_done]; omega
    · simp only [mul_kernel.loop, hterm, if_pos hk1]
  · have hq : K.q = k + 1 := by omega
    have hs1 : K.add sum (f i j k) = psum K.add K.zero f i j K.q := by
      rw [hq]; simp only [psum, hsum]
    have hcheck := hK.check_eq i j hi hj
    rw [← hs1] at hcheck
    obtain ⟨p1, hst, hlen1, hrd1, hrd2⟩ :=
      hK.store_ok p (i * K.n + j) (g (i * K.n + j)) hlen (lin_index2_lt hi hj)
    have hrd3 : ∀ idx, idx < i * K.n + j + 1 → rd p1 idx = g idx := by
      intro idx hidx
      by_cases he : idx = i * K.n + j
      · rw [he, hrd1]
      · rw [hrd2 idx he]; exact hrd idx (by omega)
    by_cases hj1 : j + 1 < K.n
    · left
      refine ⟨⟨i, j + 1, 0, K.zero, p1⟩, ⟨hi, hj1, ?_, rfl, hlen1, ?_⟩, ?_, ?_⟩
      · show 0 < K.q
        omega
      · intro idx hidx
        exact hrd3 idx (by simpa [Nat.add_assoc] using hidx)
      · simp only [steps_done]
        rw [hq]; ring
      · simp only [mul_kernel.loop, hterm, if_neg hk1, hcheck, hst, if_pos hj1]
    · have hn : K.n = j + 1 := by omega
      by_cases hi1 : i + 1 < K.m
      · left
        refine ⟨⟨i + 1, 0, 0, K.zero, p1⟩, ⟨hi1, ?_, ?_, rfl, hlen1, ?_⟩, ?_, ?_⟩
        · show 0 < K.n
          omega
        · show 0 < K.q
          omega
        · intro idx hidx
          apply hrd3 idx
          have h1 : (i + 1) * K.n + 0 = i * K.n + j + 1 := by rw [hn]; ring
          have h2 : idx < (i + 1) * K.n + 0 := hidx
          omega
        · simp only [steps_done]
          rw [hq, hn]; ring
        · simp only [mul_kernel.loop, hterm, if_neg hk1, hcheck, hst, if_neg hj1, if_pos hi1]
      · right
        have hm : K.m = i + 1 := by omega
        refine ⟨?_, p1, ?_, hlen1, ?_⟩
        · simp only [steps_done]
          rw [hq, hn, hm]; ring
        · simp only [mul_kernel.loop, hterm, if_neg hk1, hcheck, hst, if_neg hj1, if_neg hi1]
        · intro idx hidx
          apply hrd3 idx
          have : K.m * K.n = i * K.n + j + 1 := by rw [hm, hn]; ring
          omega

theorem steps_done_lt {A B : Type} (K : mul_kernel A B) (f : Nat → Nat → Nat → A) (g : Nat → B)
    (L : Nat) (rd : List phloat → Nat → B) (x : loop_state A) (hx : loop_inv K f g L rd x) :
    steps_done K x < K.m * K.n * K.q :=
  lin_index_lt hx.1 hx.2.1 hx.2.2.1

theorem kernel_loop_spec {A B : Type} (K : mul_kernel A B) (f : Nat → Nat → Nat → A) (g : Nat → B)
    (L : Nat) (rd : List phloat → Nat → B) (hK : kernel_ok K f g L rd) (c : Nat) :
    ∀ x : loop_state A, loop_inv K f g L rd x →
      (steps_done K x + c < K.m * K.n * K.q →
        ∃ y : loop_state A, K.loop c x.i x.j x.k x.sum x.p
            = some (loop_exit.budget y.i y.j y.k y.sum y.p) ∧
          loop_inv K f g L rd y ∧ steps_done K y = steps_done K x + c) ∧
      (K.m * K.n * K.q ≤ steps_done K x + c →
        ∃ p1, K.loop c x.i x.j x.k x.sum x.p = some (loop_exit.finished p1) ∧
          p1.length = L ∧ ∀ idx, idx < K.m * K.n → rd p1 idx = g idx) := by
  induction c with
  | zero =>
    intro x hx
    refine ⟨fun _ => ⟨x, rfl, hx, rfl⟩, fun h => ?_⟩
    have := steps_done_lt K f g L rd x hx
    omega
  | succ c ih =>
    intro x hx
    rcases kernel_loop_step K f g L rd hK c x hx with ⟨y, hy, hys, hloop⟩ | ⟨hM, p1, hloop, h1, h2⟩
    · obtain ⟨ih1, ih2⟩ := ih y hy
      rw [hloop]
      constructor
      · intro h
        obtain ⟨z, hz1, hz2, hz3⟩ := ih1 (by omega)
        exact ⟨z, hz1, hz2, by omega⟩
      · intro h
        exact ih2 (by omega)
    · rw [hloop]
      constructor
      · intro h; omega
      · intro _
        exact ⟨p1, rfl, h1, h2⟩

theorem kernel_rounds_spec {A B : Type} (K : mul_kernel A B) (f : Nat → Nat → Nat → A) (g : Nat → B)
    (L : Nat) (rd : List phloat → Nat → B) (hK : kernel_ok K f g L rd) (N : Nat) :
    ∀ x : loop_state A, loop_inv K f g L rd x →
      N = (K.m * K.n * K.q - 1 - steps_done K x) / 1000 →
      ∃ y : loop_state A, K.rounds N x = some y ∧ loop_inv K f g L rd y ∧
        ∃ p1, K.loop 1000 y.i y.j y.k y.sum y.p = some (loop_exit.finished p1) ∧
          p1.length = L ∧ ∀ idx, idx < K.m * K.n → rd p1 idx = g idx := by
  induction N with
  | zero =>
    intro x hx hN
    have hlt := steps_done_lt K f g L rd x hx
    exact ⟨x, rfl, hx, (kernel_loop_spec K f g L rd hK 1000 x hx).2 (by omega)⟩
  | succ N ih =>
    intro x hx hN
    have hlt := steps_done_lt K f g L rd x hx
    obtain ⟨y, hy1, hy2, hy3⟩ := (kernel_loop_spec K f g L rd hK 1000 x hx).1 (by omega)
    obtain ⟨z, hz1, hz2⟩ := ih y hy2 (by omega)
    refine ⟨z, ?_, hz2⟩
    simp only [mul_kernel.rounds, hy1]
    exact hz1

theorem kernel_fail_step {A B : Type} (K : mul_kernel A B) (f : Nat → Nat → Nat → A)
    (g : Nat → B) (L : Nat) (rd : List phloat → Nat → B) (z : B) (N0 : Nat)
    (hK : kernel_fail K f g L rd N0) (c : Nat)
    (x : loop_state A) (hx : fail_inv K f g L rd z N0 x) :
    (∃ y : loop_state A, fail_inv K f g L rd z N0 y ∧ steps_done K y = steps_done K x + 1 ∧
        K.loop (c + 1) x.i x.j x.k x.sum x.p = K.loop c y.i y.j y.k y.sum y.p) ∨
    ((N0 + 1) * K.q = steps_done K x + 1 ∧
      K.loop (c + 1) x.i x.j x.k x.sum x.p = some (loop_exit.out_of_range x.p)) := by
  obtain ⟨i, j, k, sum, p⟩ := x
  obtain ⟨hi, hj, hk, hsum, hlen, hle, hrd, hz⟩ := hx
  simp only at hi hj hk hsum hlen hle hrd hz
  have hterm := hK.term_eq i j k hi hj hk
  by_cases hk1 : k + 1 < K.q
  · left
    refine ⟨⟨i, j, k + 1, K.add sum (f i j k), p⟩, ⟨hi, hj, hk1, ?_, hlen, hle, hrd, hz⟩, ?_, ?_⟩
    · simp only [psum, hsum]
    · simp only [steps_done]; omega
    · simp only [mul_kernel.loop, hterm, if_pos hk1]
  · have hq : K.q = k + 1 := by omega
    have hs1 : K.add sum (f i j k) = psum K.add K.zero f i j K.q := by
      rw [hq]; simp only [psum, hsum]
    by_cases hN : i * K.n + j = N0
    · right
      have hcheck := hK.check_fail i j hi hj hN
      rw [← hs1] at hcheck
      refine ⟨?_, ?_⟩
      · simp only [steps_done]
        rw [← hN, hq]; ring
      · simp only [mul_kernel.loop, hterm, if_neg hk1, hcheck]
    · have hlt : i * K.n + j < N0 := by omega
      have hcheck := hK.check_eq i j hi hj hlt
      rw [← hs1] at hcheck
      obtain ⟨p1, hst, hlen1, hrd1, hrd2⟩ :=
        hK.store_ok p (i * K.n + j) (g (i * K.n + j)) hlen (lin_index2_lt hi hj)
      have hrd3 : ∀ idx, idx < i * K.n + j + 1 → rd p1 idx = g idx := by
        intro idx hidx
        by_cases he : idx = i * K.n + j
        · rw [he, hrd1]
        · rw [hrd2 idx he]; exact hrd idx (by omega)
      have hz3 : ∀ idx, i * K.n + j + 1 ≤ idx → rd p1 idx = z := by
        intro idx hidx
        rw [hrd2 idx (by omega)]
        exact hz idx (by omega)
      by_cases hj1 : j + 1 < K.n
      · left
        refine ⟨⟨i, j + 1, 0, K.zero, p1⟩, ⟨hi, hj1, ?_, rfl, hlen1, ?_, ?_, ?_⟩, ?_, ?_⟩
        · show 0 < K.q
          omega
        · show i * K.n + (j + 1) ≤ N0
          omega
        · intro idx hidx
          exact hrd3 idx (by simpa [Nat.add_assoc] using hidx)
        · intro idx hidx
          exact hz3 idx (by simpa [Nat.add_assoc] using hidx)
        · simp only [steps_done]
          rw [hq]; ring
        · simp only [mul_kernel.loop, hterm, if_neg hk1, hcheck, hst, if_pos hj1]
      · have hn : K.n = j + 1 := by omega
        have hnext : (i + 1) * K.n + 0 = i * K.n + j + 1 := by rw [hn]; ring
        have hi1 : i + 1 < K.m := by
          by_contra hcon
          have hm : K.m = i + 1 := by omega
          have hb := hK.bound
          have : K.m * K.n = i * K.n + j + 1 := by rw [hm, hn]; ring
          omega
        left
        refine ⟨⟨i + 1, 0, 0, K.zero, p1⟩, ⟨hi1, ?_, ?_, rfl, hlen1, ?_, ?_, ?_⟩, ?_, ?_⟩
        · show 0 < K.n
          omega
        · show 0 < K.q
          omega
        · show (i + 1) * K.n + 0 ≤ N0
          omega
        · intro idx hidx
          apply hrd3 idx
          have h2 : idx < (i + 1) * K.n + 0 := hidx
          omega
        · intro idx hidx
          apply hz3 idx
          have h2 : (i + 1) * K.n + 0 ≤ idx := hidx
          omega
        · simp only [steps_done]
          rw [hq, hn]; ring
        · simp only [mul_kernel.loop, hterm, if_neg hk1, hcheck, hst, if_neg hj1, if_pos hi1]

theorem fail_steps_lt {A B : Type} (K : mul_kernel A B) (f : Nat → Nat → Nat → A)
    (g : Nat → B) (L : Nat) (rd : List phloat → Nat → B) (z : B) (N0 : Nat)
    (x : loop_state A) (hx : fail_inv K f g L rd z N0 x) :
    steps_done K x < (N0 + 1) * K.q := by
  obtain ⟨hi, hj, hk, _, _, hle, _, _⟩ := hx
  have h2 : (x.i * K.n + x.j + 1) * K.q ≤ (N0 + 1) * K.q :=
    Nat.mul_le_mul_right K.q (by omega)
  rw [Nat.add_mul] at h2
  simp only [steps_done]
  omega

theorem kernel_fail_spec {A B : Type} (K : mul_kernel A B) (f : Nat → Nat → Nat → A)
    (g : Nat → B) (L : Nat) (rd : List phloat → Nat → B) (z : B) (N0 : Nat)
    (hK : kernel_fail K f g L rd N0) (c : Nat) :
    ∀ x : loop_state A, fail_inv K f g L rd z N0 x →
      (steps_done K x + c < (N0 + 1) * K.q →
        ∃ y : loop_state A, K.loop c x.i x.j x.k x.sum x.p
            = some (loop_exit.budget y.i y.j y.k y.sum y.p) ∧
          fail_inv K f g L rd z N0 y ∧ steps_done K y = steps_done K x + c) ∧
      ((N0 + 1) * K.q ≤ steps_done K x + c →
        ∃ p1, K.loop c x.i x.j x.k x.sum x.p = some (loop_exit.out_of_range p1) ∧
          p1.length = L ∧ (∀ idx, idx < N0 → rd p1 idx = g idx) ∧
          ∀ idx, N0 ≤ idx → rd p1 idx = z) := by
  induction c with
  | zero =>
    intro x hx
    refine ⟨fun _ => ⟨x, rfl, hx, rfl⟩, fun h => ?_⟩
    have := fail_steps_lt K f g L rd z N0 x hx
    omega
  | succ c ih =>
    intro x hx
    rcases kernel_fail_step K f g L rd z N0 hK c x hx with ⟨y, hy, hys, hloop⟩ | ⟨hM, hloop⟩
    · obtain ⟨ih1, ih2⟩ := ih y hy
      rw [hloop]
      constructor
      · intro h
        obtain ⟨w, hw1, hw2, hw3⟩ := ih1 (by omega)
        exact ⟨w, hw1, hw2, by omega⟩
      · intro h
        exact ih2 (by omega)
    · rw [hloop]
      constructor
      · intro h; omega
      · intro _
        obtain ⟨hi, hj, hk, _, hlen, hle, hrd, hz⟩ := hx
        have hq : K.q = x.k + 1 := by
          by_contra hne
          have hlt : x.k + 1 < K.q := by omega
          have h2 : (x.i * K.n + x.j + 1) * K.q ≤ (N0 + 1) * K.q :=
            Nat.mul_le_mul_right K.q (by omega)
          rw [Nat.add_mul] at h2
          simp only [steps_done] at hM
          omega
        have hN : x.i * K.n + x.j = N0 := by
          simp only [steps_done] at hM
          rw [hq] at hM
          have h3 : (N0 + 1) * (x.k + 1) = (x.i * K.n + x.j + 1) * (x.k + 1) := by
            rw [hM]; ring
          have := Nat.eq_of_mul_eq_mul_right (Nat.succ_pos x.k) h3
          omega
        exact ⟨x.p, rfl, hlen, fun idx hidx => hrd idx (by omega),
          fun idx hidx => hz idx (by omega)⟩

theorem kernel_fail_rounds {A B : Type} (K : mul_kernel A B) (f : Nat → Nat → Nat → A)
    (g : Nat → B) (L : Nat) (rd : List phloat → Nat → B) (z : B) (N0 : Nat)
    (hK : kernel_fail K f g L rd N0) (N : Nat) :
    ∀ x : loop_state A, fail_inv K f g L rd z N0 x →
      N = ((N0 + 1) * K.q - 1 - steps_done K x) / 1000 →
      ∃ y : loop_state A, K.rounds N x = some y ∧ fail_inv K f g L rd z N0 y ∧
        steps_done K y = steps_done K x + 1000 * N ∧
        ∃ p1, K.loop 1000 y.i y.j y.k y.sum y.p = some (loop_exit.out_of_range p1) ∧
          p1.length = L ∧ (∀ idx, idx < N0 → rd p1 idx = g idx) ∧
          ∀ idx, N0 ≤ idx → rd p1 idx = z := by
  induction N with
  | zero =>
    intro x hx hN
    have hlt := fail_steps_lt K f g L rd z N0 x hx
    exact ⟨x, rfl, hx, rfl, (kernel_fail_spec K f g L rd z N0 hK 1000 x hx).2 (by omega)⟩
  | succ N ih =>
    intro x hx hN
    have hlt := fail_steps_lt K f g L rd z N0 x hx
    obtain ⟨y, hy1, hy2, hy3⟩ := (kernel_fail_spec K f g L rd z N0 hK 1000 x hx).1 (by omega)
    obtain ⟨w, hw1, hw2, hw3, hw4⟩ := ih y hy2 (by omega)
    refine ⟨w, ?_, hw2, by omega, hw4⟩
    simp only [mul_kernel.rounds, hy1]
    exact hw1

theorem suspended_after_rr (env : phloat_env) (cb : Err → Option vartype → Err) (N : Nat) :
    ∀ (st : core_state) (dat : mul_rr_data_struct) (y : loop_state xphloat),
      st.mul_rr_data = some dat →
      st.mode_interruptible = some worker_ref.matrix_mul_rr_worker →
      (kernel_rr env st dat.left dat.right).rounds N ⟨dat.i, dat.j, dat.k, dat.sum, dat.result.data⟩
        = some y →
      suspended_after env cb N st = some (set_progress_rr st dat y) := by
  induction N with
  | zero =>
    intro st dat y h1 h2 h3
    simp only [mul_kernel.rounds, Option.some.injEq] at h3
    subst h3
    obtain ⟨l, r, ⟨rr, rc, rd, rs⟩, i, j, k, sum, c⟩ := dat
    cases st
    simp only at h1
    subst h1
    rfl
  | succ N ih =>
    intro st dat y h1 h2 h3
    simp only [mul_kernel.rounds] at h3
    rcases hl : (kernel_rr env st dat.left dat.right).loop 1000 dat.i dat.j dat.k dat.sum
        dat.result.data with _ | ex
    · simp [hl] at h3
    rcases ex with ⟨i, j, k, sum, p⟩ | p | p
    · simp only [hl] at h3
      have hw : reenter env cb false st
          = some (ERR_INTERRUPTIBLE, set_progress_rr st dat ⟨i, j, k, sum, p⟩) := by
        simp only [reenter, h2, matrix_mul_rr_worker, h1, matrix_mul_rr_loop_eq, hl,
          set_progress_rr, progress_rr]
        rfl
      simp only [suspended_after, hw]
      exact ih (set_progress_rr st dat ⟨i, j, k, sum, p⟩) (progress_rr dat ⟨i, j, k, sum, p⟩) y rfl h2 h3
    · simp [hl] at h3
    · simp [hl] at h3

theorem div_mod_lin {n i j : Nat} (hj : j < n) : (i * n + j) / n = i ∧ (i * n + j) % n = j := by
  have hn : 0 < n := by omega
  constructor
  · rw [Nat.add_comm, Nat.add_mul_div_right _ _ hn, Nat.div_eq_of_lt hj, Nat.zero_add]
  · rw [Nat.add_comm, Nat.add_mul_mod_self_right, Nat.mod_eq_of_lt hj]

theorem kernel_rr_ok (env : phloat_env) (st : core_state) (left right : vartype_realmatrix)
    (hl : left.data.length = left.rows * left.columns)
    (hr : right.data.length = left.columns * right.columns)
    (hc : ∀ i j, i < left.rows → j < right.columns →
      (check_acc env st (acc_rr env left right i j left.columns)).isSome) :
    kernel_ok (kernel_rr env st left right) (xterm_rr env left right)
      (stored_rr env st right.columns
        (fun i j => acc_rr env left right i j left.columns))
      (left.rows * right.columns) read1 where
  term_eq := by
    intro i j k hi hj hk
    simp only [kernel_rr] at hi hj hk ⊢
    have h1 : i * left.columns + k < left.data.length := by
      rw [hl]; exact lin_index2_lt hi hk
    have h2 : k * right.columns + j < right.data.length := by
      rw [hr]; exact lin_index2_lt hk hj
    simp [xterm_rr, term_rr, List.getElem?_eq_getElem h1, List.getElem?_eq_getElem h2,
      List.getD_eq_getElem?_getD]
  check_eq := by
    intro i j hi hj
    simp only [kernel_rr] at hi hj ⊢
    have h := hc i j hi hj
    obtain ⟨h1, h2⟩ := div_mod_lin (i := i) hj
    simp only [stored_rr, h1, h2]
    rcases hcs : check_acc env st (acc_rr env left right i j left.columns) with _ | v
    · simp [hcs] at h
    · simp only [acc_rr] at hcs
      simp [hcs]
  store_ok := by
    intro p idx v hp hidx
    simp only [kernel_rr] at hidx ⊢
    have h1 : idx < p.length := by omega
    refine ⟨p.set idx v, by simp [h1], by simp [hp], ?_, ?_⟩
    · simp [read1, List.getD_eq_getElem?_getD, h1]
    · intro idx1 hne
      simp [read1, List.getD_eq_getElem?_getD, List.getElem?_set_ne (Ne.symm hne)]

theorem store2_ok (L mn : Nat) (hL : L = 2 * mn) (p : List phloat) (idx : Nat)
    (v : phloat × phloat) (hp : p.length = L) (hidx : idx < mn) :
    ∃ p1, store2 p idx v = some p1 ∧ p1.length = L ∧ read2 p1 idx = v ∧
      ∀ idx1, idx1 ≠ idx → read2 p1 idx1 = read2 p idx1 := by
  have h1 : 2 * idx + 1 < p.length := by omega
  refine ⟨(p.set (2 * idx) v.1).set (2 * idx + 1) v.2, by simp [store2, h1], by simp [hp], ?_, ?_⟩
  · have h2 : 2 * idx < p.length := by omega
    simp [read2, List.getD_eq_getElem?_getD, List.getElem?_set, h1, h2]
  · intro idx1 hne
    have e1 : 2 * idx + 1 ≠ 2 * idx1 := by omega
    have e2 : 2 * idx ≠ 2 * idx1 := by omega
    have e3 : 2 * idx + 1 ≠ 2 * idx1 + 1 := by omega
    have e4 : 2 * idx ≠ 2 * idx1 + 1 := by omega
    simp [read2, List.getD_eq_getElem?_getD, List.getElem?_set_ne, e1, e2, e3, e4]

theorem check2_ok (env : phloat_env) (st : core_state) (n i j : Nat) (hj : j < n)
    (tot : Nat → Nat → xphloat × xphloat) (h : (check_acc2 env st (tot i j)).isSome) :
    check_acc2 env st (tot i j) = some (stored_c env st n tot (i * n + j)) := by
  obtain ⟨h1, h2⟩ := div_mod_lin (i := i) hj
  simp only [stored_c, h1, h2]
  rcases hcs : check_acc2 env st (tot i j) with _ | v
  · simp [hcs] at h
  · simp

theorem kernel_rc_ok (env : phloat_env) (st : core_state) (left : vartype_realmatrix)
    (right : vartype_complexmatrix)
    (hl : left.data.length = left.rows * left.columns)
    (hr : right.data.length = 2 * (left.columns * right.columns))
    (hc : ∀ i j, i < left.rows → j < right.columns →
      (check_acc2 env st (acc_rc env left right i j left.columns)).isSome) :
    kernel_ok (kernel_rc env st left right) (xterm_rc env left right)
      (stored_c env st right.columns
        (fun i j => acc_rc env left right i j left.columns))
      (2 * (left.rows * right.columns)) read2 where
  term_eq := by
    intro i j k hi hj hk
    simp only [kernel_rc] at hi hj hk ⊢
    have h1 : i * left.columns + k < left.data.length := by
      rw [hl]; exact lin_index2_lt hi hk
    have h0 := lin_index2_lt hk hj
    have h2 : 2 * (k * right.columns + j) < right.data.length := by omega
    have h3 : 2 * (k * right.columns + j) + 1 < right.data.length := by omega
    simp [xterm_rc, term_rc, List.getElem?_eq_getElem h1, List.getElem?_eq_getElem h2,
      List.getElem?_eq_getElem h3, List.getD_eq_getElem?_getD]
  check_eq := by
    intro i j hi hj
    exact check2_ok env st right.columns i j hj
      (fun i j => acc_rc env left right i j left.columns) (hc i j hi hj)
  store_ok := by
    intro p idx v hp hidx
    exact store2_ok _ _ rfl p idx v hp hidx

theorem kernel_cr_ok (env : phloat_env) (st : core_state) (left : vartype_complexmatrix)
    (right : vartype_realmatrix)
    (hl : left.data.length = 2 * (left.rows * left.columns))
    (hr : right.data.length = left.columns * right.columns)
    (hc : ∀ i j, i < left.rows → j < right.columns →
      (check_acc2 env st (acc_cr env left right i j left.columns)).isSome) :
    kernel_ok (kernel_cr env st left right) (xterm_cr env left right)
      (stored_c env st right.columns
        (fun i j => acc_cr env left right i j left.columns))
      (2 * (left.rows * right.columns)) read2 where
  term_eq := by
    intro i j k hi hj hk
    simp only [kernel_cr] at hi hj hk ⊢
    have h0 := lin_index2_lt hi hk
    have h1 : 2 * (i * left.columns + k) < left.data.length := by omega
    have h2 : 2 * (i * left.columns + k) + 1 < left.data.length := by omega
    have h3 : k * right.columns + j < right.data.length := by
      rw [hr]; exact lin_index2_lt hk hj
    simp [xterm_cr, term_cr, List.getElem?_eq_getElem h1, List.getElem?_eq_getElem h2,
      List.getElem?_eq_getElem h3, List.getD_eq_getElem?_getD]
  check_eq := by
    intro i j hi hj
    exact check2_ok env st right.columns i j hj
      (fun i j => acc_cr env left right i j left.columns) (hc i j hi hj)
  store_ok := by
    intro p idx v hp hidx
    exact store2_ok _ _ rfl p idx v hp hidx

theorem kernel_cc_ok (env : phloat_env) (st : core_state) (left right : vartype_complexmatrix)
    (hl : left.data.length = 2 * (left.rows * left.columns))
    (hr : right.data.length = 2 * (left.columns * right.columns))
    (hc : ∀ i j, i < left.rows → j < right.columns →
      (check_acc2 env st (acc_cc env left right i j left.columns)).isSome) :
    kernel_ok (kernel_cc env st left right) (xterm_cc env left right)
      (stored_c env st right.columns
        (fun i j => acc_cc env left right i j left.columns))
      (2 * (left.rows * right.columns)) read2 where
  term_eq := by
    intro i j k hi hj hk
    simp only [kernel_cc] at hi hj hk ⊢
    have h0 := lin_index2_lt hi hk
    have h1 : 2 * (i * left.columns + k) < left.data.length := by omega
    have h2 : 2 * (i * left.columns + k) + 1 < left.data.length := by omega
    have h5 := lin_index2_lt hk hj
    have h3 : 2 * (k * right.columns + j) < right.data.length := by omega
    have h4 : 2 * (k * right.columns + j) + 1 < right.data.length := by omega
    simp [xterm_cc, term_cc, List.getElem?_eq_getElem h1, List.getElem?_eq_getElem h2,
      List.getElem?_eq_getElem h3, List.getElem?_eq_getElem h4, List.getD_eq_getElem?_getD]
  check_eq := by
    intro i j hi hj
    exact check2_ok env st right.columns i j hj
      (fun i j => acc_cc env left right i j left.columns) (hc i j hi hj)
  store_ok := by
    intro p idx v hp hidx
    exact store2_ok _ _ rfl p idx v hp hidx

theorem suspended_after_rc (env : phloat_env) (cb : Err → Option vartype → Err) (N : Nat) :
    ∀ (st : core_state) (dat : mul_rc_data_struct) (y : loop_state (xphloat × xphloat)),
      st.mul_rc_data = some dat →
      st.mode_interruptible = some worker_ref.matrix_mul_rc_worker →
      (kernel_rc env st dat.left dat.right).rounds N
          ⟨dat.i, dat.j, dat.k, (dat.sum_re, dat.sum_im), dat.result.data⟩ = some y →
      suspended_after env cb N st = some (set_progress_rc st dat y) := by
  induction N with
  | zero =>
    intro st dat y h1 h2 h3
    simp only [mul_kernel.rounds, Option.some.injEq] at h3
    subst h3
    obtain ⟨l, r, ⟨rr, rc, rd⟩, i, j, k, sum_re, sum_im, c⟩ := dat
    cases st
    simp only at h1
    subst h1
    rfl
  | succ N ih =>
    intro st dat y h1 h2 h3
    simp only [mul_kernel.rounds] at h3
    rcases hl : (kernel_rc env st dat.left dat.right).loop 1000 dat.i dat.j dat.k
        (dat.sum_re, dat.sum_im) dat.result.data with _ | ex
    · simp [hl] at h3
    rcases ex with ⟨i, j, k, sum, p⟩ | p | p
    · simp only [hl] at h3
      have hw : reenter env cb false st
          = some (ERR_INTERRUPTIBLE, set_progress_rc st dat ⟨i, j, k, sum, p⟩) := by
        simp only [reenter, h2, matrix_mul_rc_worker, h1, matrix_mul_rc_loop_eq, hl,
          set_progress_rc, progress_rc]
        rfl
      simp only [suspended_after, hw]
      exact ih (set_progress_rc st dat ⟨i, j, k, sum, p⟩) (progress_rc dat ⟨i, j, k, sum, p⟩)
        y rfl h2 h3
    · simp [hl] at h3
    · simp [hl] at h3

theorem suspended_after_cr (env : phloat_env) (cb : Err → Option vartype → Err) (N : Nat) :
    ∀ (st : core_state) (dat : mul_cr_data_struct) (y : loop_state (xphloat × xphloat)),
      st.mul_cr_data = some dat →
      st.mode_interruptible = some worker_ref.matrix_mul_cr_worker →
      (kernel_cr env st dat.left dat.right).rounds N
          ⟨dat.i, dat.j, dat.k, (dat.sum_re, dat.sum_im), dat.result.data⟩ = some y →
      suspended_after env cb N st = some (set_progress_cr st dat y) := by
  induction N with
  | zero =>
    intro st dat y h1 h2 h3
    simp only [mul_kernel.rounds, Option.some.injEq] at h3
    subst h3
    obtain ⟨l, r, ⟨rr, rc, rd⟩, i, j, k, sum_re, sum_im, c⟩ := dat
    cases st
    simp only at h1
    subst h1
    rfl
  | succ N ih =>
    intro st dat y h1 h2 h3
    simp only [mul_kernel.rounds] at h3
    rcases hl : (kernel_cr env st dat.left dat.right).loop 1000 dat.i dat.j dat.k
        (dat.sum_re, dat.sum_im) dat.result.data with _ | ex
    · simp [hl] at h3
    rcases ex with ⟨i, j, k, sum, p⟩ | p | p
    · simp only [hl] at h3
      have hw : reenter env cb false st
          = some (ERR_INTERRUPTIBLE, set_progress_cr st dat ⟨i, j, k, sum, p⟩) := by
        simp only [reenter, h2, matrix_mul_cr_worker, h1, matrix_mul_cr_loop_eq, hl,
          set_progress_cr, progress_cr]
        rfl
      simp only [suspended_after, hw]
      exact ih (set_progress_cr st dat ⟨i, j, k, sum, p⟩) (progress_cr dat ⟨i, j, k, sum, p⟩)
        y rfl h2 h3
    · simp [hl] at h3
    · simp [hl] at h3

theorem suspended_after_cc (env : phloat_env) (cb : Err → Option vartype → Err) (N : Nat) :
    ∀ (st : core_state) (dat : mul_cc_data_struct) (y : loop_state (xphloat × xphloat)),
      st.mul_cc_data = some dat →
      st.mode_interruptible = some worker_ref.matrix_mul_cc_worker →
      (kernel_cc env st dat.left dat.right).rounds N
          ⟨dat.i, dat.j, dat.k, (dat.sum_re, dat.sum_im), dat.result.data⟩ = some y →
      suspended_after env cb N st = some (set_progress_cc st dat y) := by
  induction N with
  | zero =>
    intro st dat y h1 h2 h3
    simp only [mul_kernel.rounds, Option.some.injEq] at h3
    subst h3
    obtain ⟨l, r, ⟨rr, rc, rd⟩, i, j, k, sum_re, sum_im, c⟩ := dat
    cases st
    simp only at h1
    subst h1
    rfl
  | succ N ih =>
    intro st dat y h1 h2 h3
    simp only [mul_kernel.rounds] at h3
    rcases hl : (kernel_cc env st dat.left dat.right).loop 1000 dat.i dat.j dat.k
        (dat.sum_re, dat.sum_im) dat.result.data with _ | ex
    · simp [hl] at h3
    rcases ex with ⟨i, j, k, sum, p⟩ | p | p
    · simp only [hl] at h3
      have hw : reenter env cb false st
          = some (ERR_INTERRUPTIBLE, set_progress_cc st dat ⟨i, j, k, sum, p⟩) := by
        simp only [reenter, h2, matrix_mul_cc_worker, h1, matrix_mul_cc_loop_eq, hl,
          set_progress_cc, progress_cc]
        rfl
      simp only [suspended_after, hw]
      exact ih (set_progress_cc st dat ⟨i, j, k, sum, p⟩) (progress_cc dat ⟨i, j, k, sum, p⟩)
        y rfl h2 h3
    · simp [hl] at h3
    · simp [hl] at h3

theorem matrix_mul_rr_worker_finished (env : phloat_env) (cb : Err → Option vartype → Err)
    (st : core_state) (dat : mul_rr_data_struct) (p1 : List phloat)
    (h1 : st.mul_rr_data = some dat)
    (hloop : matrix_mul_rr_loop env st dat 1000 dat.i dat.j dat.k dat.sum dat.result.data
      = some (loop_exit.finished p1)) :
    matrix_mul_rr_worker env cb false st
      = (call_completion cb dat.completion ERR_NONE
          (some (vartype.realmatrix { dat.result with data := p1 }))
          { st with mul_rr_data := some { dat with result := { dat.result with data := p1 } } }).map
        (fun r => (r.1, { release obj.dat r.2 with mul_rr_data := none })) := by
  simp only [matrix_mul_rr_worker, h1, hloop, Bool.false_eq_true, if_false]
  rcases call_completion cb dat.completion ERR_NONE _ _ with _ | r <;> rfl

theorem matrix_mul_rr_run (env : phloat_env) (cb : Err → Option vartype → Err)
    (st : core_state) (left right : vartype_realmatrix) (c : completion_ref)
    (hdim : left.columns = right.rows)
    (hl : left.data.length = left.rows * left.columns)
    (hr : right.data.length = right.rows * right.columns)
    (hm : 0 < left.rows) (hq : 0 < left.columns) (hn : 0 < right.columns)
    (hs : contains_strings left = false) (hs2 : contains_strings right = false)
    (ha1 : (alloc_next st).1 = true) (ha2 : (alloc_next (alloc_next st).2).1 = true)
    (hc : ∀ i j, i < left.rows → j < right.columns →
      (check_acc env st (acc_rr env left right i j left.columns)).isSome) :
    ∃ st1 stN stF p1,
      matrix_mul_rr cb left right c st = some (ERR_INTERRUPTIBLE, st1) ∧
      st1.mode_interruptible = some worker_ref.matrix_mul_rr_worker ∧
      st1.log = st.log ∧
      suspended_after env cb ((left.rows * right.columns * left.columns - 1) / 1000) st1
        = some stN ∧
      stN.log = st.log ∧
      reenter env cb false stN
        = (call_completion cb c ERR_NONE
            (some (vartype.realmatrix
              { new_realmatrix left.rows right.columns with data := p1 })) stF).map
          (fun r => (r.1, { release obj.dat r.2 with mul_rr_data := none })) ∧
      stF.log = st.log ∧ stF.small_div_completion = st.small_div_completion ∧
      p1.length = left.rows * right.columns ∧
      ∀ idx, idx < left.rows * right.columns →
        read1 p1 idx = stored_rr env st right.columns
          (fun i j => acc_rr env left right i j left.columns) idx := by
  have hK := kernel_rr_ok env st left right hl (by rw [hr, hdim]) hc
  have hinv : loop_inv (kernel_rr env st left right) (xterm_rr env left right)
      (stored_rr env st right.columns
        (fun i j => acc_rr env left right i j left.columns))
      (left.rows * right.columns) read1
      ⟨0, 0, 0, 0, (new_realmatrix left.rows right.columns).data⟩ :=
    ⟨hm, hn, hq, rfl, by simp [new_realmatrix], fun idx h => by simp at h⟩
  obtain ⟨y, hy1, hy2, p1, hp1, hp2, hp3⟩ :=
    kernel_rounds_spec _ _ _ _ _ hK
      ((left.rows * right.columns * left.columns - 1) / 1000) _ hinv
      (by simp [steps_done, kernel_rr])
  let dat0 : mul_rr_data_struct :=
    { left := left, right := right, result := new_realmatrix left.rows right.columns,
      i := 0, j := 0, k := 0, sum := 0, completion := c }
  let st1 : core_state :=
    { (alloc_next (alloc_next st).2).2 with
      mul_rr_data := some dat0,
      mode_interruptible := some worker_ref.matrix_mul_rr_worker,
      mode_stoppable := false }
  have hstart : matrix_mul_rr cb left right c st = some (ERR_INTERRUPTIBLE, st1) := by
    simp only [matrix_mul_rr, hdim, ne_eq, not_true_eq_false, if_false, hs, hs2, Bool.or_self,
      ha1, ha2, Bool.not_true, Bool.false_eq_true]
  have hsusp := suspended_after_rr env cb _ st1 dat0 y rfl rfl hy1
  refine ⟨st1, set_progress_rr st1 dat0 y,
    { set_progress_rr st1 dat0 y with
      mul_rr_data := some { progress_rr dat0 y with
        result := { new_realmatrix left.rows right.columns with data := p1 } } },
    p1, hstart, rfl, rfl, hsusp, rfl, ?_, rfl, rfl, hp2, hp3⟩
  have hloop : matrix_mul_rr_loop env (set_progress_rr st1 dat0 y) (progress_rr dat0 y) 1000
      y.i y.j y.k y.sum y.p = some (loop_exit.finished p1) := by
    rw [matrix_mul_rr_loop_eq]
    exact hp1
  exact matrix_mul_rr_worker_finished env cb (set_progress_rr st1 dat0 y) (progress_rr dat0 y) p1
    rfl hloop

theorem matrix_mul_rc_worker_finished (env : phloat_env) (cb : Err → Option vartype → Err)
    (st : core_state) (dat : mul_rc_data_struct) (p1 : List phloat)
    (h1 : st.mul_rc_data = some dat)
    (hloop : matrix_mul_rc_loop env st dat 1000 dat.i dat.j dat.k dat.sum_re dat.sum_im
      dat.result.data = some (loop_exit.finished p1)) :
    matrix_mul_rc_worker env cb false st
      = (call_completion cb dat.completion ERR_NONE
          (some (vartype.complexmatrix { dat.result with data := p1 }))
          { st with mul_rc_data := some { dat with result := { dat.result with data := p1 } } }).map
        (fun r => (r.1, { release obj.dat r.2 with mul_rc_data := none })) := by
  simp only [matrix_mul_rc_worker, h1, hloop, Bool.false_eq_true, if_false]
  rcases call_completion cb dat.completion ERR_NONE _ _ with _ | r <;> rfl

theorem matrix_mul_rc_run (env : phloat_env) (cb : Err → Option vartype → Err)
    (st : core_state) (left : vartype_realmatrix) (right : vartype_complexmatrix) (c : completion_ref)
    (hdim : left.columns = right.rows)
    (hl : left.data.length = left.rows * left.columns)
    (hr : right.data.length = 2 * (right.rows * right.columns))
    (hm : 0 < left.rows) (hq : 0 < left.columns) (hn : 0 < right.columns)
    (hs : contains_strings left = false)
    (ha1 : (alloc_next st).1 = true) (ha2 : (alloc_next (alloc_next st).2).1 = true)
    (hc : ∀ i j, i < left.rows → j < right.columns →
      (check_acc2 env st (acc_rc env left right i j left.columns)).isSome) :
    ∃ st1 stN stF p1,
      matrix_mul_rc cb left right c st = some (ERR_INTERRUPTIBLE, st1) ∧
      st1.mode_interruptible = some worker_ref.matrix_mul_rc_worker ∧
      st1.log = st.log ∧
      suspended_after env cb ((left.rows * right.columns * left.columns - 1) / 1000) st1
        = some stN ∧
      stN.log = st.log ∧
      reenter env cb false stN
        = (call_completion cb c ERR_NONE
            (some (vartype.complexmatrix
              { new_complexmatrix left.rows right.columns with data := p1 })) stF).map
          (fun r => (r.1, { release obj.dat r.2 with mul_rc_data := none })) ∧
      stF.log = st.log ∧ stF.small_div_completion = st.small_div_completion ∧
      p1.length = 2 * (left.rows * right.columns) ∧
      ∀ idx, idx < left.rows * right.columns →
        read2 p1 idx = stored_c env st right.columns
          (fun i j => acc_rc env left right i j left.columns) idx := by
  have hK := kernel_rc_ok env st left right hl (by rw [hr, hdim]) hc
  have hinv : loop_inv (kernel_rc env st left right) (xterm_rc env left right)
      (stored_c env st right.columns
        (fun i j => acc_rc env left right i j left.columns))
      (2 * (left.rows * right.columns)) read2
      ⟨0, 0, 0, (0, 0), (new_complexmatrix left.rows right.columns).data⟩ :=
    ⟨hm, hn, hq, rfl, by simp [new_complexmatrix], fun idx h => by simp at h⟩
  obtain ⟨y, hy1, hy2, p1, hp1, hp2, hp3⟩ :=
    kernel_rounds_spec _ _ _ _ _ hK
      ((left.rows * right.columns * left.columns - 1) / 1000) _ hinv
      (by simp [steps_done, kernel_rc])
  let dat0 : mul_rc_data_struct :=
    { left := left, right := right, result := new_complexmatrix left.rows right.columns,
      i := 0, j := 0, k := 0, sum_re := 0, sum_im := 0, completion := c }
  let st1 : core_state :=
    { (alloc_next (alloc_next st).2).2 with
      mul_rc_data := some dat0,
      mode_interruptible := some worker_ref.matrix_mul_rc_worker,
      mode_stoppable := false }
  have hstart : matrix_mul_rc cb left right c st = some (ERR_INTERRUPTIBLE, st1) := by
    simp only [matrix_mul_rc, hdim, ne_eq, not_true_eq_false, if_false, hs, 
      ha1, ha2, Bool.not_true, Bool.false_eq_true]
  have hsusp := suspended_after_rc env cb _ st1 dat0 y rfl rfl hy1
  refine ⟨st1, set_progress_rc st1 dat0 y,
    { set_progress_rc st1 dat0 y with
      mul_rc_data := some { progress_rc dat0 y with
        result := { new_complexmatrix left.rows right.columns with data := p1 } } },
    p1, hstart, rfl, rfl, hsusp, rfl, ?_, rfl, rfl, hp2, hp3⟩
  have hloop : matrix_mul_rc_loop env (set_progress_rc st1 dat0 y) (progress_rc dat0 y) 1000
      y.i y.j y.k y.sum.1 y.sum.2 y.p = some (loop_exit.finished p1) := by
    rw [matrix_mul_rc_loop_eq]
    exact hp1
  exact matrix_mul_rc_worker_finished env cb (set_progress_rc st1 dat0 y) (progress_rc dat0 y) p1
    rfl hloop

theorem matrix_mul_cr_worker_finished (env : phloat_env) (cb : Err → Option vartype → Err)
    (st : core_state) (dat : mul_cr_data_struct) (p1 : List phloat)
    (h1 : st.mul_cr_data = some dat)
    (hloop : matrix_mul_cr_loop env st dat 1000 dat.i dat.j dat.k dat.sum_re dat.sum_im
      dat.result.data = some (loop_exit.finished p1)) :
    matrix_mul_cr_worker env cb false st
      = (call_completion cb dat.completion ERR_NONE
          (some (vartype.complexmatrix { dat.result with data := p1 }))
          { st with mul_cr_data := some { dat with result := { dat.result with data := p1 } } }).map
        (fun r => (r.1, { release obj.dat r.2 with mul_cr_data := none })) := by
  simp only [matrix_mul_cr_worker, h1, hloop, Bool.false_eq_true, if_false]
  rcases call_completion cb dat.completion ERR_NONE _ _ with _ | r <;> rfl

theorem matrix_mul_cr_run (env : phloat_env) (cb : Err → Option vartype → Err)
    (st : core_state) (left : vartype_complexmatrix) (right : vartype_realmatrix) (c : completion_ref)
    (hdim : left.columns = right.rows)
    (hl : left.data.length = 2 * (left.rows * left.columns))
    (hr : right.data.length = right.rows * right.columns)
    (hm : 0 < left.rows) (hq : 0 < left.columns) (hn : 0 < right.columns)
    (hs : contains_strings right = false)
    (ha1 : (alloc_next st).1 = true) (ha2 : (alloc_next (alloc_next st).2).1 = true)
    (hc : ∀ i j, i < left.rows → j < right.columns →
      (check_acc2 env st (acc_cr env left right i j left.columns)).isSome) :
    ∃ st1 stN stF p1,
      matrix_mul_cr cb left right c st = some (ERR_INTERRUPTIBLE, st1) ∧
      st1.mode_interruptible = some worker_ref.matrix_mul_cr_worker ∧
      st1.log = st.log ∧
      suspended_after env cb ((left.rows * right.columns * left.columns - 1) / 1000) st1
        = some stN ∧
      stN.log = st.log ∧
      reenter env cb false stN
        = (call_completion cb c ERR_NONE
            (some (vartype.complexmatrix
              { new_complexmatrix left.rows right.columns with data := p1 })) stF).map
          (fun r => (r.1, { release obj.dat r.2 with mul_cr_data := none })) ∧
      stF.log = st.log ∧ stF.small_div_completion = st.small_div_completion ∧
      p1.length = 2 * (left.rows * right.columns) ∧
      ∀ idx, idx < left.rows * right.columns →
        read2 p1 idx = stored_c env st right.columns
          (fun i j => acc_cr env left right i j left.columns) idx := by
  have hK := kernel_cr_ok env st left right hl (by rw [hr, hdim]) hc
  have hinv : loop_inv (kernel_cr env st left right) (xterm_cr env left right)
      (stored_c env st right.columns
        (fun i j => acc_cr env left right i j left.columns))
      (2 * (left.rows * right.columns)) read2
      ⟨0, 0, 0, (0, 0), (new_complexmatrix left.rows right.columns).data⟩ :=
    ⟨hm, hn, hq, rfl, by simp [new_complexmatrix], fun idx h => by simp at h⟩
  obtain ⟨y, hy1, hy2, p1, hp1, hp2, hp3⟩ :=
    kernel_rounds_spec _ _ _ _ _ hK
      ((left.rows * right.columns * left.columns - 1) / 1000) _ hinv
      (by simp [steps_done, kernel_cr])
  let dat0 : mul_cr_data_struct :=
    { left := left, right := right, result := new_complexmatrix left.rows right.columns,
      i := 0, j := 0, k := 0, sum_re := 0, sum_im := 0, completion := c }
  let st1 : core_state :=
    { (alloc_next (alloc_next st).2).2 with
      mul_cr_data := some dat0,
      mode_interruptible := some worker_ref.matrix_mul_cr_worker,
      mode_stoppable := false }
  have hstart : matrix_mul_cr cb left right c st = some (ERR_INTERRUPTIBLE, st1) := by
    simp only [matrix_mul_cr, hdim, ne_eq, not_true_eq_false, if_false, hs, 
      ha1, ha2, Bool.not_true, Bool.false_eq_true]
  have hsusp := suspended_after_cr env cb _ st1 dat0 y rfl rfl hy1
  refine ⟨st1, set_progress_cr st1 dat0 y,
    { set_progress_cr st1 dat0 y with
      mul_cr_data := some { progress_cr dat0 y with
        result := { new_complexmatrix left.rows right.columns with data := p1 } } },
    p1, hstart, rfl, rfl, hsusp, rfl, ?_, rfl, rfl, hp2, hp3⟩
  have hloop : matrix_mul_cr_loop env (set_progress_cr st1 dat0 y) (progress_cr dat0 y) 1000
      y.i y.j y.k y.sum.1 y.sum.2 y.p = some (loop_exit.finished p1) := by
    rw [matrix_mul_cr_loop_eq]
    exact hp1
  exact matrix_mul_cr_worker_finished env cb (set_progress_cr st1 dat0 y) (progress_cr dat0 y) p1
    rfl hloop

theorem matrix_mul_cc_worker_finished (env : phloat_env) (cb : Err → Option vartype → Err)
    (st : core_state) (dat : mul_cc_data_struct) (p1 : List phloat)
    (h1 : st.mul_cc_data = some dat)
    (hloop : matrix_mul_cc_loop env st dat 1000 dat.i dat.j dat.k dat.sum_re dat.sum_im
      dat.result.data = some (loop_exit.finished p1)) :
    matrix_mul_cc_worker env cb false st
      = (call_completion cb dat.completion ERR_NONE
          (some (vartype.complexmatrix { dat.result with data := p1 }))
          { st with mul_cc_data := some { dat with result := { dat.result with data := p1 } } }).map
        (fun r => (r.1, { release obj.dat r.2 with mul_cc_data := none })) := by
  simp only [matrix_mul_cc_worker, h1, hloop, Bool.false_eq_true, if_false]
  rcases call_completion cb dat.completion ERR_NONE _ _ with _ | r <;> rfl

theorem matrix_mul_cc_run (env : phloat_env) (cb : Err → Option vartype → Err)
    (st : core_state) (left : vartype_complexmatrix) (right : vartype_complexmatrix) (c : completion_ref)
    (hdim : left.columns = right.rows)
    (hl : left.data.length = 2 * (left.rows * left.columns))
    (hr : right.data.length = 2 * (right.rows * right.columns))
    (hm : 0 < left.rows) (hq : 0 < left.columns) (hn : 0 < right.columns)
    (ha1 : (alloc_next st).1 = true) (ha2 : (alloc_next (alloc_next st).2).1 = true)
    (hc : ∀ i j, i < left.rows → j < right.columns →
      (check_acc2 env st (acc_cc env left right i j left.columns)).isSome) :
    ∃ st1 stN stF p1,
      matrix_mul_cc cb left right c st = some (ERR_INTERRUPTIBLE, st1) ∧
      st1.mode_interruptible = some worker_ref.matrix_mul_cc_worker ∧
      st1.log = st.log ∧
      suspended_after env cb ((left.rows * right.columns * left.columns - 1) / 1000) st1
        = some stN ∧
      stN.log = st.log ∧
      reenter env cb false stN
        = (call_completion cb c ERR_NONE
            (some (vartype.complexmatrix
              { new_complexmatrix left.rows right.columns with data := p1 })) stF).map
          (fun r => (r.1, { release obj.dat r.2 with mul_cc_data := none })) ∧
      stF.log = st.log ∧ stF.small_div_completion = st.small_div_completion ∧
      p1.length = 2 * (left.rows * right.columns) ∧
      ∀ idx, idx < left.rows * right.columns →
        read2 p1 idx = stored_c env st right.columns
          (fun i j => acc_cc env left right i j left.columns) idx := by
  have hK := kernel_cc_ok env st left right hl (by rw [hr, hdim]) hc
  have hinv : loop_inv (kernel_cc env st left right) (xterm_cc env left right)
      (stored_c env st right.columns
        (fun i j => acc_cc env left right i j left.columns))
      (2 * (left.rows * right.columns)) read2
      ⟨0, 0, 0, (0, 0), (new_complexmatrix left.rows right.columns).data⟩ :=
    ⟨hm, hn, hq, rfl, by simp [new_complexmatrix], fun idx h => by simp at h⟩
  obtain ⟨y, hy1, hy2, p1, hp1, hp2, hp3⟩ :=
    kernel_rounds_spec _ _ _ _ _ hK
      ((left.rows * right.columns * left.columns - 1) / 1000) _ hinv
      (by simp [steps_done, kernel_cc])
  let dat0 : mul_cc_data_struct :=
    { left := left, right := right, result := new_complexmatrix left.rows right.columns,
      i := 0, j := 0, k := 0, sum_re := 0, sum_im := 0, completion := c }
  let st1 : core_state :=
    { (alloc_next (alloc_next st).2).2 with
      mul_cc_data := some dat0,
      mode_interruptible := some worker_ref.matrix_mul_cc_worker,
      mode_stoppable := false }
  have hstart : matrix_mul_cc cb left right c st = some (ERR_INTERRUPTIBLE, st1) := by
    simp only [matrix_mul_cc, hdim, ne_eq, not_true_eq_false, if_false, 
      ha1, ha2, Bool.not_true, Bool.false_eq_true]
  have hsusp := suspended_after_cc env cb _ st1 dat0 y rfl rfl hy1
  refine ⟨st1, set_progress_cc st1 dat0 y,
    { set_progress_cc st1 dat0 y with
      mul_cc_data := some { progress_cc dat0 y with
        result := { new_complexmatrix left.rows right.columns with data := p1 } } },
    p1, hstart, rfl, rfl, hsusp, rfl, ?_, rfl, rfl, hp2, hp3⟩
  have hloop : matrix_mul_cc_loop env (set_progress_cc st1 dat0 y) (progress_cc dat0 y) 1000
      y.i y.j y.k y.sum.1 y.sum.2 y.p = some (loop_exit.finished p1) := by
    rw [matrix_mul_cc_loop_eq]
    exact hp1
  exact matrix_mul_cc_worker_finished env cb (set_progress_cc st1 dat0 y) (progress_cc dat0 y) p1
    rfl hloop

theorem getD_replicate_zero (n idx : Nat) :
    (List.replicate n (0 : phloat)).getD idx 0 = 0 := by
  simp only [List.getD_eq_getElem?_getD, List.getElem?_replicate]
  split_ifs <;> rfl

theorem kernel_rr_fail (env : phloat_env) (st : core_state) (left right : vartype_realmatrix)
    (hl : left.data.length = left.rows * left.columns)
    (hr : right.data.length = left.columns * right.columns)
    (N0 : Nat) (hN0 : N0 < left.rows * right.columns)
    (hgood : ∀ i j, i < left.rows → j < right.columns → i * right.columns + j < N0 →
      (check_acc env st (acc_rr env left right i j left.columns)).isSome)
    (hbad : ∀ i j, i < left.rows → j < right.columns → i * right.columns + j = N0 →
      check_acc env st (acc_rr env left right i j left.columns) = none) :
    kernel_fail (kernel_rr env st left right) (xterm_rr env left right)
      (stored_rr env st right.columns (fun i j => acc_rr env left right i j left.columns))
      (left.rows * right.columns) read1 N0 where
  bound := hN0
  term_eq := by
    intro i j k hi hj hk
    simp only [kernel_rr] at hi hj hk ⊢
    have h1 : i * left.columns + k < left.data.length := by
      rw [hl]; exact lin_index2_lt hi hk
    have h2 : k * right.columns + j < right.data.length := by
      rw [hr]; exact lin_index2_lt hk hj
    simp [xterm_rr, term_rr, List.getElem?_eq_getElem h1, List.getElem?_eq_getElem h2,
      List.getD_eq_getElem?_getD]
  check_eq := by
    intro i j hi hj hlt
    simp only [kernel_rr] at hi hj hlt ⊢
    have h := hgood i j hi hj hlt
    obtain ⟨h1, h2⟩ := div_mod_lin (i := i) hj
    simp only [stored_rr, h1, h2]
    rcases hcs : check_acc env st (acc_rr env left right i j left.columns) with _ | v
    · simp [hcs] at h
    · simp only [acc_rr] at hcs
      simp [hcs]
  check_fail := by
    intro i j hi hj he
    simp only [kernel_rr] at hi hj he ⊢
    exact hbad i j hi hj he
  store_ok := by
    intro p idx v hp hidx
    simp only [kernel_rr] at hidx ⊢
    have h1 : idx < p.length := by omega
    refine ⟨p.set idx v, by simp [h1], by simp [hp], ?_, ?_⟩
    · simp [read1, List.getD_eq_getElem?_getD, h1]
    · intro idx1 hne
      simp [read1, List.getD_eq_getElem?_getD, List.getElem?_set_ne (Ne.symm hne)]

theorem matrix_mul_rr_worker_out_of_range (env : phloat_env)
    (cb : Err → Option vartype → Err)
    (st : core_state) (dat : mul_rr_data_struct) (p1 : List phloat)
    (h1 : st.mul_rr_data = some dat)
    (hloop : matrix_mul_rr_loop env st dat 1000 dat.i dat.j dat.k dat.sum dat.result.data
      = some (loop_exit.out_of_range p1)) :
    matrix_mul_rr_worker env cb false st
      = (call_completion cb dat.completion ERR_OUT_OF_RANGE none
          { st with mul_rr_data := some { dat with result := { dat.result with data := p1 } } }).map
        (fun r => (r.1, { release obj.dat (release obj.dat_result r.2) with
          mul_rr_data := none })) := by
  simp only [matrix_mul_rr_worker, h1, hloop, Bool.false_eq_true, if_false]
  rcases call_completion cb dat.completion ERR_OUT_OF_RANGE _ _ with _ | r <;> rfl

theorem matrix_mul_rr_fail_run (env : phloat_env) (cb : Err → Option vartype → Err)
    (st : core_state) (left right : vartype_realmatrix) (c : completion_ref)
    (hdim : left.columns = right.rows)
    (hl : left.data.length = left.rows * left.columns)
    (hr : right.data.length = right.rows * right.columns)
    (hm : 0 < left.rows) (hq : 0 < left.columns) (hn : 0 < right.columns)
    (hs : contains_strings left = false) (hs2 : contains_strings right = false)
    (ha1 : (alloc_next st).1 = true) (ha2 : (alloc_next (alloc_next st).2).1 = true)
    (N0 : Nat) (hN0 : N0 < left.rows * right.columns)
    (hgood : ∀ i j, i < left.rows → j < right.columns → i * right.columns + j < N0 →
      (check_acc env st (acc_rr env left right i j left.columns)).isSome)
    (hbad : ∀ i j, i < left.rows → j < right.columns → i * right.columns + j = N0 →
      check_acc env st (acc_rr env left right i j left.columns) = none) :
    ∃ st1 stN stF p1,
      matrix_mul_rr cb left right c st = some (ERR_INTERRUPTIBLE, st1) ∧
      st1.mode_interruptible = some worker_ref.matrix_mul_rr_worker ∧
      st1.log = st.log ∧
      suspended_after env cb (((N0 + 1) * left.columns - 1) / 1000) st1 = some stN ∧
      stN.log = st.log ∧
      mul_progress stN = some (1000 * (((N0 + 1) * left.columns - 1) / 1000)) ∧
      reenter env cb false stN
        = (call_completion cb c ERR_OUT_OF_RANGE none stF).map
          (fun r => (r.1, { release obj.dat (release obj.dat_result r.2) with
            mul_rr_data := none })) ∧
      stF.log = st.log ∧ stF.small_div_completion = st.small_div_completion ∧
      (stF.mode_interruptible = some worker_ref.matrix_mul_rr_worker ∧
        ∃ d, stF.mul_rr_data = some d ∧
          d.result = { new_realmatrix left.rows right.columns with data := p1 }) ∧
      p1.length = left.rows * right.columns ∧
      (∀ idx, idx < N0 →
        read1 p1 idx = stored_rr env st right.columns
          (fun i j => acc_rr env left right i j left.columns) idx) ∧
      ∀ idx, N0 ≤ idx → read1 p1 idx = 0 := by
  have hK := kernel_rr_fail env st left right hl (by rw [hr, hdim]) N0 hN0 hgood hbad
  have hinv : fail_inv (kernel_rr env st left right) (xterm_rr env left right)
      (stored_rr env st right.columns (fun i j => acc_rr env left right i j left.columns))
      (left.rows * right.columns) read1 0 N0
      ⟨0, 0, 0, 0, (new_realmatrix left.rows right.columns).data⟩ :=
    ⟨hm, hn, hq, rfl, by simp [new_realmatrix], by simp, fun idx h => by simp at h,
      fun idx _ => by
        simp only [read1, new_realmatrix]
        exact getD_replicate_zero _ idx⟩
  obtain ⟨y, hy1, hy2, hy3, p1, hp1, hp2, hp3, hp4⟩ :=
    kernel_fail_rounds _ _ _ _ _ _ _ hK (((N0 + 1) * left.columns - 1) / 1000) _ hinv
      (by simp [steps_done, kernel_rr])
  let dat0 : mul_rr_data_struct :=
    { left := left, right := right, result := new_realmatrix left.rows right.columns,
      i := 0, j := 0, k := 0, sum := 0, completion := c }
  let st1 : core_state :=
    { (alloc_next (alloc_next st).2).2 with
      mul_rr_data := some dat0,
      mode_interruptible := some worker_ref.matrix_mul_rr_worker,
      mode_stoppable := false }
  have hstart : matrix_mul_rr cb left right c st = some (ERR_INTERRUPTIBLE, st1) := by
    simp only [matrix_mul_rr, hdim, ne_eq, not_true_eq_false, if_false, hs, hs2, Bool.or_self,
      ha1, ha2, Bool.not_true, Bool.false_eq_true]
  have hsusp := suspended_after_rr env cb _ st1 dat0 y rfl rfl hy1
  refine ⟨st1, set_progress_rr st1 dat0 y,
    { set_progress_rr st1 dat0 y with
      mul_rr_data := some { progress_rr dat0 y with
        result := { new_realmatrix left.rows right.columns with data := p1 } } },
    p1, hstart, rfl, rfl, hsusp, rfl, ?_, ?_, rfl, rfl, ⟨rfl, _, rfl, rfl⟩, hp2, hp3, hp4⟩
  · simp only [steps_done, kernel_rr] at hy3
    simp only [mul_progress, set_progress_rr, progress_rr, st1, dat0, Option.map_some']
    rw [hy3]
    simp
  · have hloop : matrix_mul_rr_loop env (set_progress_rr st1 dat0 y) (progress_rr dat0 y) 1000
        y.i y.j y.k y.sum y.p = some (loop_exit.out_of_range p1) := by
      rw [matrix_mul_rr_loop_eq]
      exact hp1
    exact matrix_mul_rr_worker_out_of_range env cb (set_progress_rr st1 dat0 y)
      (progress_rr dat0 y) p1 rfl hloop

theorem kernel_rc_fail (env : phloat_env) (st : core_state) (left : vartype_realmatrix)
    (right : vartype_complexmatrix)
    (hl : left.data.length = left.rows * left.columns)
    (hr : right.data.length = 2 * (left.columns * right.columns))
    (N0 : Nat) (hN0 : N0 < left.rows * right.columns)
    (hgood : ∀ i j, i < left.rows → j < right.columns → i * right.columns + j < N0 →
      (check_acc2 env st (acc_rc env left right i j left.columns)).isSome)
    (hbad : ∀ i j, i < left.rows → j < right.columns → i * right.columns + j = N0 →
      check_acc2 env st (acc_rc env left right i j left.columns) = none) :
    kernel_fail (kernel_rc env st left right) (xterm_rc env left right)
      (stored_c env st right.columns (fun i j => acc_rc env left right i j left.columns))
      (2 * (left.rows * right.columns)) read2 N0 where
  bound := hN0
  term_eq := by
    intro i j k hi hj hk
    simp only [kernel_rc] at hi hj hk ⊢
    have h1 : i * left.columns + k < left.data.length := by
      rw [hl]; exact lin_index2_lt hi hk
    have h0 := lin_index2_lt hk hj
    have h2 : 2 * (k * right.columns + j) < right.data.length := by omega
    have h3 : 2 * (k * right.columns + j) + 1 < right.data.length := by omega
    simp [xterm_rc, term_rc, List.getElem?_eq_getElem h1, List.getElem?_eq_getElem h2,
      List.getElem?_eq_getElem h3, List.getD_eq_getElem?_getD]
  check_eq := by
    intro i j hi hj hlt
    exact check2_ok env st right.columns i j hj
      (fun i j => acc_rc env left right i j left.columns) (hgood i j hi hj hlt)
  check_fail := by
    intro i j hi hj he
    exact hbad i j hi hj he
  store_ok := by
    intro p idx v hp hidx
    exact store2_ok _ _ rfl p idx v hp hidx

theorem matrix_mul_rc_worker_out_of_range (env : phloat_env)
    (cb : Err → Option vartype → Err)
    (st : core_state) (dat : mul_rc_data_struct) (p1 : List phloat)
    (h1 : st.mul_rc_data = some dat)
    (hloop : matrix_mul_rc_loop env st dat 1000 dat.i dat.j dat.k dat.sum_re dat.sum_im
      dat.result.data = some (loop_exit.out_of_range p1)) :
    matrix_mul_rc_worker env cb false st
      = (call_completion cb dat.completion ERR_OUT_OF_RANGE none
          { st with mul_rc_data := some { dat with result := { dat.result with data := p1 } } }).map
        (fun r => (r.1, { release obj.dat (release obj.dat_result r.2) with
          mul_rc_data := none })) := by
  simp only [matrix_mul_rc_worker, h1, hloop, Bool.false_eq_true, if_false]
  rcases call_completion cb dat.completion ERR_OUT_OF_RANGE _ _ with _ | r <;> rfl

theorem matrix_mul_rc_fail_run (env : phloat_env) (cb : Err → Option vartype → Err)
    (st : core_state) (left : vartype_realmatrix) (right : vartype_complexmatrix) (c : completion_ref)
    (hdim : left.columns = right.rows)
    (hl : left.data.length = left.rows * left.columns)
    (hr : right.data.length = 2 * (right.rows * right.columns))
    (hm : 0 < left.rows) (hq : 0 < left.columns) (hn : 0 < right.columns)
    (hs : contains_strings left = false)
    (ha1 : (alloc_next st).1 = true) (ha2 : (alloc_next (alloc_next st).2).1 = true)
    (N0 : Nat) (hN0 : N0 < left.rows * right.columns)
    (hgood : ∀ i j, i < left.rows → j < right.columns → i * right.columns + j < N0 →
      (check_acc2 env st (acc_rc env left right i j left.columns)).isSome)
    (hbad : ∀ i j, i < left.rows → j < right.columns → i * right.columns + j = N0 →
      check_acc2 env st (acc_rc env left right i j left.columns) = none) :
    ∃ st1 stN stF p1,
      matrix_mul_rc cb left right c st = some (ERR_INTERRUPTIBLE, st1) ∧
      st1.mode_interruptible = some worker_ref.matrix_mul_rc_worker ∧
      st1.log = st.log ∧
      suspended_after env cb (((N0 + 1) * left.columns - 1) / 1000) st1 = some stN ∧
      stN.log = st.log ∧
      mul_progress stN = some (1000 * (((N0 + 1) * left.columns - 1) / 1000)) ∧
      reenter env cb false stN
        = (call_completion cb c ERR_OUT_OF_RANGE none stF).map
          (fun r => (r.1, { release obj.dat (release obj.dat_result r.2) with
            mul_rc_data := none })) ∧
      stF.log = st.log ∧ stF.small_div_completion = st.small_div_completion ∧
      (stF.mode_interruptible = some worker_ref.matrix_mul_rc_worker ∧
        ∃ d, stF.mul_rc_data = some d ∧
          d.result = { new_complexmatrix left.rows right.columns with data := p1 }) ∧
      p1.length = 2 * (left.rows * right.columns) ∧
      (∀ idx, idx < N0 →
        read2 p1 idx = stored_c env st right.columns
          (fun i j => acc_rc env left right i j left.columns) idx) ∧
      ∀ idx, N0 ≤ idx → read2 p1 idx = (0, 0) := by
  have hK := kernel_rc_fail env st left right hl (by rw [hr, hdim]) N0 hN0 hgood hbad
  have hinv : fail_inv (kernel_rc env st left right) (xterm_rc env left right)
      (stored_c env st right.columns (fun i j => acc_rc env left right i j left.columns))
      (2 * (left.rows * right.columns)) read2 (0, 0) N0
      ⟨0, 0, 0, (0, 0), (new_complexmatrix left.rows right.columns).data⟩ :=
    ⟨hm, hn, hq, rfl, by simp [new_complexmatrix], by simp, fun idx h => by simp at h,
      fun idx _ => by
        simp only [read2, new_complexmatrix]
        rw [getD_replicate_zero, getD_replicate_zero]⟩
  obtain ⟨y, hy1, hy2, hy3, p1, hp1, hp2, hp3, hp4⟩ :=
    kernel_fail_rounds _ _ _ _ _ _ _ hK (((N0 + 1) * left.columns - 1) / 1000) _ hinv
      (by simp [steps_done, kernel_rc])
  let dat0 : mul_rc_data_struct :=
    { left := left, right := right, result := new_complexmatrix left.rows right.columns,
      i := 0, j := 0, k := 0, sum_re := 0, sum_im := 0, completion := c }
  let st1 : core_state :=
    { (alloc_next (alloc_next st).2).2 with
      mul_rc_data := some dat0,
      mode_interruptible := some worker_ref.matrix_mul_rc_worker,
      mode_stoppable := false }
  have hstart : matrix_mul_rc cb left right c st = some (ERR_INTERRUPTIBLE, st1) := by
    simp only [matrix_mul_rc, hdim, ne_eq, not_true_eq_false, if_false, hs, Bool.or_self,
      ha1, ha2, Bool.not_true, Bool.false_eq_true]
  have hsusp := suspended_after_rc env cb _ st1 dat0 y rfl rfl hy1
  refine ⟨st1, set_progress_rc st1 dat0 y,
    { set_progress_rc st1 dat0 y with
      mul_rc_data := some { progress_rc dat0 y with
        result := { new_complexmatrix left.rows right.columns with data := p1 } } },
    p1, hstart, rfl, rfl, hsusp, rfl, ?_, ?_, rfl, rfl, ⟨rfl, _, rfl, rfl⟩, hp2, hp3, hp4⟩
  · simp only [steps_done, kernel_rc] at hy3
    simp only [mul_progress, set_progress_rc, progress_rc, st1, dat0, Option.map_some']
    rw [hy3]
    simp
  · have hloop : matrix_mul_rc_loop env (set_progress_rc st1 dat0 y) (progress_rc dat0 y)
        1000 y.i y.j y.k y.sum.1 y.sum.2 y.p = some (loop_exit.out_of_range p1) := by
      rw [matrix_mul_rc_loop_eq]
      exact hp1
    exact matrix_mul_rc_worker_out_of_range env cb (set_progress_rc st1 dat0 y)
      (progress_rc dat0 y) p1 rfl hloop

theorem kernel_cr_fail (env : phloat_env) (st : core_state) (left : vartype_complexmatrix)
    (right : vartype_realmatrix)
    (hl : left.data.length = 2 * (left.rows * left.columns))
    (hr : right.data.length = left.columns * right.columns)
    (N0 : Nat) (hN0 : N0 < left.rows * right.columns)
    (hgood : ∀ i j, i < left.rows → j < right.columns → i * right.columns + j < N0 →
      (check_acc2 env st (acc_cr env left right i j left.columns)).isSome)
    (hbad : ∀ i j, i < left.rows → j < right.columns → i * right.columns + j = N0 →
      check_acc2 env st (acc_cr env left right i j left.columns) = none) :
    kernel_fail (kernel_cr env st left right) (xterm_cr env left right)
      (stored_c env st right.columns (fun i j => acc_cr env left right i j left.columns))
      (2 * (left.rows * right.columns)) read2 N0 where
  bound := hN0
  term_eq := by
    intro i j k hi hj hk
    simp only [kernel_cr] at hi hj hk ⊢
    have h0 := lin_index2_lt hi hk
    have h1 : 2 * (i * left.columns + k) < left.data.length := by omega
    have h2 : 2 * (i * left.columns + k) + 1 < left.data.length := by omega
    have h3 : k * right.columns + j < right.data.length := by
      rw [hr]; exact lin_index2_lt hk hj
    simp [xterm_cr, term_cr, List.getElem?_eq_getElem h1, List.getElem?_eq_getElem h2,
      List.getElem?_eq_getElem h3, List.getD_eq_getElem?_getD]
  check_eq := by
    intro i j hi hj hlt
    exact check2_ok env st right.columns i j hj
      (fun i j => acc_cr env left right i j left.columns) (hgood i j hi hj hlt)
  check_fail := by
    intro i j hi hj he
    exact hbad i j hi hj he
  store_ok := by
    intro p idx v hp hidx
    exact store2_ok _ _ rfl p idx v hp hidx

theorem matrix_mul_cr_worker_out_of_range (env : phloat_env)
    (cb : Err → Option vartype → Err)
    (st : core_state) (dat : mul_cr_data_struct) (p1 : List phloat)
    (h1 : st.mul_cr_data = some dat)
    (hloop : matrix_mul_cr_loop env st dat 1000 dat.i dat.j dat.k dat.sum_re dat.sum_im
      dat.result.data = some (loop_exit.out_of_range p1)) :
    matrix_mul_cr_worker env cb false st
      = (call_completion cb dat.completion ERR_OUT_OF_RANGE none
          { st with mul_cr_data := some { dat with result := { dat.result with data := p1 } } }).map
        (fun r => (r.1, { release obj.dat (release obj.dat_result r.2) with
          mul_cr_data := none })) := by
  simp only [matrix_mul_cr_worker, h1, hloop, Bool.false_eq_true, if_false]
  rcases call_completion cb dat.completion ERR_OUT_OF_RANGE _ _ with _ | r <;> rfl

theorem matrix_mul_cr_fail_run (env : phloat_env) (cb : Err → Option vartype → Err)
    (st : core_state) (left : vartype_complexmatrix) (right : vartype_realmatrix) (c : completion_ref)
    (hdim : left.columns = right.rows)
    (hl : left.data.length = 2 * (left.rows * left.columns))
    (hr : right.data.length = right.rows * right.columns)
    (hm : 0 < left.rows) (hq : 0 < left.columns) (hn : 0 < right.columns)
    (hs : contains_strings right = false)
    (ha1 : (alloc_next st).1 = true) (ha2 : (alloc_next (alloc_next st).2).1 = true)
    (N0 : Nat) (hN0 : N0 < left.rows * right.columns)
    (hgood : ∀ i j, i < left.rows → j < right.columns → i * right.columns + j < N0 →
      (check_acc2 env st (acc_cr env left right i j left.columns)).isSome)
    (hbad : ∀ i j, i < left.rows → j < right.columns → i * right.columns + j = N0 →
      check_acc2 env st (acc_cr env left right i j left.columns) = none) :
    ∃ st1 stN stF p1,
      matrix_mul_cr cb left right c st = some (ERR_INTERRUPTIBLE, st1) ∧
      st1.mode_interruptible = some worker_ref.matrix_mul_cr_worker ∧
      st1.log = st.log ∧
      suspended_after env cb (((N0 + 1) * left.columns - 1) / 1000) st1 = some stN ∧
      stN.log = st.log ∧
      mul_progress stN = some (1000 * (((N0 + 1) * left.columns - 1) / 1000)) ∧
      reenter env cb false stN
        = (call_completion cb c ERR_OUT_OF_RANGE none stF).map
          (fun r => (r.1, { release obj.dat (release obj.dat_result r.2) with
            mul_cr_data := none })) ∧
      stF.log = st.log ∧ stF.small_div_completion = st.small_div_completion ∧
      (stF.mode_interruptible = some worker_ref.matrix_mul_cr_worker ∧
        ∃ d, stF.mul_cr_data = some d ∧
          d.result = { new_complexmatrix left.rows right.columns with data := p1 }) ∧
      p1.length = 2 * (left.rows * right.columns) ∧
      (∀ idx, idx < N0 →
        read2 p1 idx = stored_c env st right.columns
          (fun i j => acc_cr env left right i j left.columns) idx) ∧
      ∀ idx, N0 ≤ idx → read2 p1 idx = (0, 0) := by
  have hK := kernel_cr_fail env st left right hl (by rw [hr, hdim]) N0 hN0 hgood hbad
  have hinv : fail_inv (kernel_cr env st left right) (xterm_cr env left right)
      (stored_c env st right.columns (fun i j => acc_cr env left right i j left.columns))
      (2 * (left.rows * right.columns)) read2 (0, 0) N0
      ⟨0, 0, 0, (0, 0), (new_complexmatrix left.rows right.columns).data⟩ :=
    ⟨hm, hn, hq, rfl, by simp [new_complexmatrix], by simp, fun idx h => by simp at h,
      fun idx _ => by
        simp only [read2, new_complexmatrix]
        rw [getD_replicate_zero, getD_replicate_zero]⟩
  obtain ⟨y, hy1, hy2, hy3, p1, hp1, hp2, hp3, hp4⟩ :=
    kernel_fail_rounds _ _ _ _ _ _ _ hK (((N0 + 1) * left.columns - 1) / 1000) _ hinv
      (by simp [steps_done, kernel_cr])
  let dat0 : mul_cr_data_struct :=
    { left := left, right := right, result := new_complexmatrix left.rows right.columns,
      i := 0, j := 0, k := 0, sum_re := 0, sum_im := 0, completion := c }
  let st1 : core_state :=
    { (alloc_next (alloc_next st).2).2 with
      mul_cr_data := some dat0,
      mode_interruptible := some worker_ref.matrix_mul_cr_worker,
      mode_stoppable := false }
  have hstart : matrix_mul_cr cb left right c st = some (ERR_INTERRUPTIBLE, st1) := by
    simp only [matrix_mul_cr, hdim, ne_eq, not_true_eq_false, if_false, hs, Bool.or_self,
      ha1, ha2, Bool.not_true, Bool.false_eq_true]
  have hsusp := suspended_after_cr env cb _ st1 dat0 y rfl rfl hy1
  refine ⟨st1, set_progress_cr st1 dat0 y,
    { set_progress_cr st1 dat0 y with
      mul_cr_data := some { progress_cr dat0 y with
        result := { new_complexmatrix left.rows right.columns with data := p1 } } },
    p1, hstart, rfl, rfl, hsusp, rfl, ?_, ?_, rfl, rfl, ⟨rfl, _, rfl, rfl⟩, hp2, hp3, hp4⟩
  · simp only [steps_done, kernel_cr] at hy3
    simp only [mul_progress, set_progress_cr, progress_cr, st1, dat0, Option.map_some']
    rw [hy3]
    simp
  · have hloop : matrix_mul_cr_loop env (set_progress_cr st1 dat0 y) (progress_cr dat0 y)
        1000 y.i y.j y.k y.sum.1 y.sum.2 y.p = some (loop_exit.out_of_range p1) := by
      rw [matrix_mul_cr_loop_eq]
      exact hp1
    exact matrix_mul_cr_worker_out_of_range env cb (set_progress_cr st1 dat0 y)
      (progress_cr dat0 y) p1 rfl hloop

theorem kernel_cc_fail (env : phloat_env) (st : core_state) (left right : vartype_complexmatrix)
    (hl : left.data.length = 2 * (left.rows * left.columns))
    (hr : right.data.length = 2 * (left.columns * right.columns))
    (N0 : Nat) (hN0 : N0 < left.rows * right.columns)
    (hgood : ∀ i j, i < left.rows → j < right.columns → i * right.columns + j < N0 →
      (check_acc2 env st (acc_cc env left right i j left.columns)).isSome)
    (hbad : ∀ i j, i < left.rows → j < right.columns → i * right.columns + j = N0 →
      check_acc2 env st (acc_cc env left right i j left.columns) = none) :
    kernel_fail (kernel_cc env st left right) (xterm_cc env left right)
      (stored_c env st right.columns (fun i j => acc_cc env left right i j left.columns))
      (2 * (left.rows * right.columns)) read2 N0 where
  bound := hN0
  term_eq := by
    intro i j k hi hj hk
    simp only [kernel_cc] at hi hj hk ⊢
    have h0 := lin_index2_lt hi hk
    have h1 : 2 * (i * left.columns + k) < left.data.length := by omega
    have h2 : 2 * (i * left.columns + k) + 1 < left.data.length := by omega
    have h5 := lin_index2_lt hk hj
    have h3 : 2 * (k * right.columns + j) < right.data.length := by omega
    have h4 : 2 * (k * right.columns + j) + 1 < right.data.length := by omega
    simp [xterm_cc, term_cc, List.getElem?_eq_getElem h1, List.getElem?_eq_getElem h2,
      List.getElem?_eq_getElem h3, List.getElem?_eq_getElem h4, List.getD_eq_getElem?_getD]
  check_eq := by
    intro i j hi hj hlt
    exact check2_ok env st right.columns i j hj
      (fun i j => acc_cc env left right i j left.columns) (hgood i j hi hj hlt)
  check_fail := by
    intro i j hi hj he
    exact hbad i j hi hj he
  store_ok := by
    intro p idx v hp hidx
    exact store2_ok _ _ rfl p idx v hp hidx

theorem matrix_mul_cc_worker_out_of_range (env : phloat_env)
    (cb : Err → Option vartype → Err)
    (st : core_state) (dat : mul_cc_data_struct) (p1 : List phloat)
    (h1 : st.mul_cc_data = some dat)
    (hloop : matrix_mul_cc_loop env st dat 1000 dat.i dat.j dat.k dat.sum_re dat.sum_im
      dat.result.data = some (loop_exit.out_of_range p1)) :
    matrix_mul_cc_worker env cb false st
      = (call_completion cb dat.completion ERR_OUT_OF_RANGE none
          { st with mul_cc_data := some { dat with result := { dat.result with data := p1 } } }).map
        (fun r => (r.1, { release obj.dat (release obj.dat_result r.2) with
          mul_cc_data := none })) := by
  simp only [matrix_mul_cc_worker, h1, hloop, Bool.false_eq_true, if_false]
  rcases call_completion cb dat.completion ERR_OUT_OF_RANGE _ _ with _ | r <;> rfl

theorem matrix_mul_cc_fail_run (env : phloat_env) (cb : Err → Option vartype → Err)
    (st : core_state) (left : vartype_complexmatrix) (right : vartype_complexmatrix) (c : completion_ref)
    (hdim : left.columns = right.rows)
    (hl : left.data.length = 2 * (left.rows * left.columns))
    (hr : right.data.length = 2 * (right.rows * right.columns))
    (hm : 0 < left.rows) (hq : 0 < left.columns) (hn : 0 < right.columns)
    (ha1 : (alloc_next st).1 = true) (ha2 : (alloc_next (alloc_next st).2).1 = true)
    (N0 : Nat) (hN0 : N0 < left.rows * right.columns)
    (hgood : ∀ i j, i < left.rows → j < right.columns → i * right.columns + j < N0 →
      (check_acc2 env st (acc_cc env left right i j left.columns)).isSome)
    (hbad : ∀ i j, i < left.rows → j < right.columns → i * right.columns + j = N0 →
      check_acc2 env st (acc_cc env left right i j left.columns) = none) :
    ∃ st1 stN stF p1,
      matrix_mul_cc cb left right c st = some (ERR_INTERRUPTIBLE, st1) ∧
      st1.mode_interruptible = some worker_ref.matrix_mul_cc_worker ∧
      st1.log = st.log ∧
      suspended_after env cb (((N0 + 1) * left.columns - 1) / 1000) st1 = some stN ∧
      stN.log = st.log ∧
      mul_progress stN = some (1000 * (((N0 + 1) * left.columns - 1) / 1000)) ∧
      reenter env cb false stN
        = (call_completion cb c ERR_OUT_OF_RANGE none stF).map
          (fun r => (r.1, { release obj.dat (release obj.dat_result r.2) with
            mul_cc_data := none })) ∧
      stF.log = st.log ∧ stF.small_div_completion = st.small_div_completion ∧
      (stF.mode_interruptible = some worker_ref.matrix_mul_cc_worker ∧
        ∃ d, stF.mul_cc_data = some d ∧
          d.result = { new_complexmatrix left.rows right.columns with data := p1 }) ∧
      p1.length = 2 * (left.rows * right.columns) ∧
      (∀ idx, idx < N0 →
        read2 p1 idx = stored_c env st right.columns
          (fun i j => acc_cc env left right i j left.columns) idx) ∧
      ∀ idx, N0 ≤ idx → read2 p1 idx = (0, 0) := by
  have hK := kernel_cc_fail env st left right hl (by rw [hr, hdim]) N0 hN0 hgood hbad
  have hinv : fail_inv (kernel_cc env st left right) (xterm_cc env left right)
      (stored_c env st right.columns (fun i j => acc_cc env left right i j left.columns))
      (2 * (left.rows * right.columns)) read2 (0, 0) N0
      ⟨0, 0, 0, (0, 0), (new_complexmatrix left.rows right.columns).data⟩ :=
    ⟨hm, hn, hq, rfl, by simp [new_complexmatrix], by simp, fun idx h => by simp at h,
      fun idx _ => by
        simp only [read2, new_complexmatrix]
        rw [getD_replicate_zero, getD_replicate_zero]⟩
  obtain ⟨y, hy1, hy2, hy3, p1, hp1, hp2, hp3, hp4⟩ :=
    kernel_fail_rounds _ _ _ _ _ _ _ hK (((N0 + 1) * left.columns - 1) / 1000) _ hinv
      (by simp [steps_done, kernel_cc])
  let dat0 : mul_cc_data_struct :=
    { left := left, right := right, result := new_complexmatrix left.rows right.columns,
      i := 0, j := 0, k := 0, sum_re := 0, sum_im := 0, completion := c }
  let st1 : core_state :=
    { (alloc_next (alloc_next st).2).2 with
      mul_cc_data := some dat0,
      mode_interruptible := some worker_ref.matrix_mul_cc_worker,
      mode_stoppable := false }
  have hstart : matrix_mul_cc cb left right c st = some (ERR_INTERRUPTIBLE, st1) := by
    simp only [matrix_mul_cc, hdim, ne_eq, not_true_eq_false, if_false, Bool.or_self,
      ha1, ha2, Bool.not_true, Bool.false_eq_true]
  have hsusp := suspended_after_cc env cb _ st1 dat0 y rfl rfl hy1
  refine ⟨st1, set_progress_cc st1 dat0 y,
    { set_progress_cc st1 dat0 y with
      mul_cc_data := some { progress_cc dat0 y with
        result := { new_complexmatrix left.rows right.columns with data := p1 } } },
    p1, hstart, rfl, rfl, hsusp, rfl, ?_, ?_, rfl, rfl, ⟨rfl, _, rfl, rfl⟩, hp2, hp3, hp4⟩
  · simp only [steps_done, kernel_cc] at hy3
    simp only [mul_progress, set_progress_cc, progress_cc, st1, dat0, Option.map_some']
    rw [hy3]
    simp
  · have hloop : matrix_mul_cc_loop env (set_progress_cc st1 dat0 y) (progress_cc dat0 y)
        1000 y.i y.j y.k y.sum.1 y.sum.2 y.p = some (loop_exit.out_of_range p1) := by
      rw [matrix_mul_cc_loop_eq]
      exact hp1
    exact matrix_mul_cc_worker_out_of_range env cb (set_progress_cc st1 dat0 y)
      (progress_cc dat0 y) p1 rfl hloop

theorem psum_add_eq_sum (f : Nat → Nat → Nat → phloat) (i j q : Nat) :
    psum (fun a b => a + b) 0 f i j q = ∑ k in Finset.range q, f i j k := by
  induction q with
  | zero => rfl
  | succ q ih => rw [Finset.sum_range_succ, ← ih]; rfl

theorem psum_add2_eq_sum (f : Nat → Nat → Nat → phloat × phloat) (i j q : Nat) :
    psum add2 (0, 0) f i j q = ∑ k in Finset.range q, f i j k := by
  induction q with
  | zero => rfl
  | succ q ih => rw [Finset.sum_range_succ, ← ih]; rfl

theorem check_sum_of_finite (env : phloat_env) (st : core_state) (s : phloat)
    (h : env.p_isinf s = 0) : check_sum env st s = some s := by
  simp [check_sum, h]

theorem check_sum2_of_finite (env : phloat_env) (st : core_state) (s : phloat × phloat)
    (h1 : env.p_isinf s.1 = 0) (h2 : env.p_isinf s.2 = 0) : check_sum2 env st s = some s := by
  simp [check_sum2, check_sum_of_finite, h1, h2]

theorem product_entry_rr (l r : vartype_realmatrix) (i j : Nat) :
    product_entry (.realmatrix l) (.realmatrix r) i j
      = (psum (fun a b => a + b) 0 (term_rr l r) i j l.columns, 0) := by
  rw [psum_add_eq_sum]
  apply Prod.ext
  · simp [product_entry, Prod.fst_sum, mat_columns, mat_entry, cmul, term_rr]
  · simp [product_entry, Prod.snd_sum, mat_columns, mat_entry, cmul]

theorem product_entry_rc (l : vartype_realmatrix) (r : vartype_complexmatrix) (i j : Nat) :
    product_entry (.realmatrix l) (.complexmatrix r) i j
      = psum add2 (0, 0) (term_rc l r) i j l.columns := by
  rw [psum_add2_eq_sum]
  simp [product_entry, mat_columns, mat_entry, cmul, term_rc]

theorem product_entry_cr (l : vartype_complexmatrix) (r : vartype_realmatrix) (i j : Nat) :
    product_entry (.complexmatrix l) (.realmatrix r) i j
      = psum add2 (0, 0) (term_cr l r) i j l.columns := by
  rw [psum_add2_eq_sum]
  simp only [product_entry, mat_columns, mat_entry, cmul, term_cr]
  apply Finset.sum_congr rfl
  intro k _
  apply Prod.ext
  all_goals (simp; try ring)

theorem product_entry_cc (l r : vartype_complexmatrix) (i j : Nat) :
    product_entry (.complexmatrix l) (.complexmatrix r) i j
      = psum add2 (0, 0) (term_cc l r) i j l.columns := by
  rw [psum_add2_eq_sum]
  simp only [product_entry, mat_columns, mat_entry, cmul, term_cc]
  apply Finset.sum_congr rfl
  intro k _
  apply Prod.ext
  all_goals (simp; try ring)

theorem xnum_of_finite (env : phloat_env) (x : phloat) (h : env.p_isinf x = 0) :
    xnum env x = xphloat.num x := by
  simp [xnum, h]

theorem xadd_num (env : phloat_env) (a b : phloat) (h : env.p_isinf (a + b) = 0) :
    xadd env (xphloat.num a) (xphloat.num b) = xphloat.num (a + b) := by
  simp [xadd, xnum_of_finite env _ h]

theorem xsub_num (env : phloat_env) (a b : phloat) (h : env.p_isinf (a - b) = 0) :
    xsub env (xphloat.num a) (xphloat.num b) = xphloat.num (a - b) := by
  have h1 : env.p_isinf (a + -b) = 0 := by rwa [← sub_eq_add_neg]
  simp [xsub, xneg, xadd, xnum_of_finite env _ h1, sub_eq_add_neg]

theorem psum_fst (f : Nat → Nat → Nat → phloat × phloat) (i j q : Nat) :
    (psum add2 (0, 0) f i j q).1 = ∑ k in Finset.range q, (f i j k).1 := by
  induction q with
  | zero => rfl
  | succ q ih => rw [Finset.sum_range_succ, ← ih]; rfl

theorem psum_snd (f : Nat → Nat → Nat → phloat × phloat) (i j q : Nat) :
    (psum add2 (0, 0) f i j q).2 = ∑ k in Finset.range q, (f i j k).2 := by
  induction q with
  | zero => rfl
  | succ q ih => rw [Finset.sum_range_succ, ← ih]; rfl

/-- While every term and every partial sum is in range, the accumulator of the rr
worker is the exact partial sum. -/
theorem acc_rr_num (env : phloat_env) (l r : vartype_realmatrix) (i j q : Nat)
    (h : ∀ k, k < q → env.p_isinf (term_rr l r i j k) = 0 ∧
      env.p_isinf (∑ k1 in Finset.range (k + 1), term_rr l r i j k1) = 0) :
    acc_rr env l r i j q = xphloat.num (psum (fun a b => a + b) 0 (term_rr l r) i j q) := by
  induction q with
  | zero => rfl
  | succ q ih =>
    have h1 := h q (Nat.lt_succ_self q)
    rw [← psum_add_eq_sum] at h1
    simp only [acc_rr, psum] at ih ⊢
    rw [ih (fun k hk => h k (Nat.lt_succ_of_lt hk))]
    simp only [xterm_rr, xnum_of_finite env _ h1.1]
    exact xadd_num env _ _ h1.2

theorem acc2_num (env : phloat_env) (xf : Nat → Nat → Nat → xphloat × xphloat)
    (f : Nat → Nat → Nat → phloat × phloat) (i j q : Nat)
    (hterm : ∀ k, k < q → xf i j k = (xphloat.num (f i j k).1, xphloat.num (f i j k).2))
    (h : ∀ k, k < q →
      env.p_isinf (∑ k1 in Finset.range (k + 1), (f i j k1).1) = 0 ∧
      env.p_isinf (∑ k1 in Finset.range (k + 1), (f i j k1).2) = 0) :
    psum (xadd2 env) (0, 0) xf i j q
      = (xphloat.num (psum add2 (0, 0) f i j q).1, xphloat.num (psum add2 (0, 0) f i j q).2) := by
  induction q with
  | zero => rfl
  | succ q ih =>
    have h1 := h q (Nat.lt_succ_self q)
    rw [← psum_fst, ← psum_snd] at h1
    simp only [psum] at ih ⊢
    rw [ih (fun k hk => hterm k (Nat.lt_succ_of_lt hk)) (fun k hk => h k (Nat.lt_succ_of_lt hk)),
      hterm q (Nat.lt_succ_self q)]
    simp only [xadd2, add2]
    rw [xadd_num env _ _ h1.1, xadd_num env _ _ h1.2]

/-- C1. Matrix multiplication computes the matrix product.  For well-formed numeric
operands with equal inner dimensions, successful allocation of the progress record
and of the result, and no dot product overflowing (`mul_in_range`: every product, every
term and every partial sum of every dot product is in range): `linalg_mul` installs a
worker and returns ERR_INTERRUPTIBLE; a number `N` of re-entries with
`interrupted = false` return ERR_INTERRUPTIBLE without touching the log; the next
re-entry calls the completion, once, with ERR_NONE and a result of the dimensions of
the product whose entry `(i, j)` is the sum over `k` of `L[i,k] * R[k,j]` (complex
arithmetic on re/im pairs), and returns what the completion returned. -/
theorem linalg_mul_computes_product (env : phloat_env) (cb : Err → Option vartype → Err)
    (st : core_state) (left right : vartype)
    (hwl : mat_wf left) (hwr : mat_wf right)
    (hdim : mat_columns left = mat_rows right)
    (ha1 : (alloc_next st).1 = true) (ha2 : (alloc_next (alloc_next st).2).1 = true)
    (hfin : mul_in_range env left right) :
    ∃ (st1 : core_state) (N : Nat) (stN : core_state) (res : vartype) (stE : core_state),
      linalg_mul cb left right completion_ref.caller st = some (ERR_INTERRUPTIBLE, st1) ∧
      suspended_after env cb N st1 = some stN ∧
      stN.log = st.log ∧
      reenter env cb false stN = some (cb ERR_NONE (some res), stE) ∧
      stE.log = st.log ++ [event.completion ERR_NONE (some res), event.free obj.dat] ∧
      mat_rows res = mat_rows left ∧ mat_columns res = mat_columns right ∧
      ∀ i j, i < mat_rows left → j < mat_columns right →
        mat_entry res i j = product_entry left right i j := by
  cases left with
  | realmatrix l =>
    cases right with
    | realmatrix r =>
      obtain ⟨hm, hq, hl, hs⟩ := hwl
      obtain ⟨hq2, hn, hr, hs2⟩ := hwr
      simp only [mat_columns, mat_rows] at hdim
      simp only [mul_in_range, mat_columns, mat_rows] at hfin
      have hacc : ∀ i j, i < l.rows → j < r.columns →
          acc_rr env l r i j l.columns
            = xphloat.num (psum (fun a b => a + b) 0 (term_rr l r) i j l.columns) :=
        fun i j hi hj => acc_rr_num env l r i j l.columns (fun k hk => hfin i j k hi hj hk)
      have hc : ∀ i j, i < l.rows → j < r.columns →
          check_acc env st (acc_rr env l r i j l.columns)
            = some (psum (fun a b => a + b) 0 (term_rr l r) i j l.columns) := by
        intro i j hi hj
        rw [hacc i j hi hj]
        have := (hfin i j (l.columns - 1) hi hj (by omega)).2
        rw [Nat.sub_add_cancel hq, ← psum_add_eq_sum] at this
        exact check_sum_of_finite env st _ this
      obtain ⟨st1, stN, stF, p1, h1, h2, h3, h4, h5, h6, h7, h8, h9, h10⟩ :=
        matrix_mul_rr_run env cb st l r completion_ref.caller hdim hl hr hm hq hn hs hs2 ha1 ha2
          (fun i j hi hj => by rw [hc i j hi hj]; rfl)
      obtain ⟨stE, hE1, hE2⟩ : ∃ stE, reenter env cb false stN
          = some (cb ERR_NONE (some (vartype.realmatrix
              { new_realmatrix l.rows r.columns with data := p1 })), stE) ∧
          stE.log = st.log ++ [event.completion ERR_NONE (some (vartype.realmatrix
              { new_realmatrix l.rows r.columns with data := p1 })), event.free obj.dat] :=
        ⟨_, by rw [h6]; rfl, by simp [release, h7]⟩
      refine ⟨st1, _, stN, _, stE, h1, h4, h5, hE1, hE2, ?_, ?_, ?_⟩
      · rfl
      · rfl
      · intro i j hi hj
        simp only [mat_rows, mat_columns] at hi hj
        have hidx := lin_index2_lt hi hj
        have := h10 _ hidx
        obtain ⟨d1, d2⟩ := div_mod_lin (i := i) hj
        simp only [stored_rr, d1, d2, hc i j hi hj, Option.getD_some, read1] at this
        rw [product_entry_rr]
        simp only [mat_entry, new_realmatrix, this]
    | complexmatrix r =>
      obtain ⟨hm, hq, hl, hs⟩ := hwl
      obtain ⟨hq2, hn, hr⟩ := hwr
      simp only [mat_columns, mat_rows] at hdim
      simp only [mul_in_range, mat_columns, mat_rows] at hfin
      have hacc : ∀ i j, i < l.rows → j < r.columns →
          acc_rc env l r i j l.columns
            = (xphloat.num (psum add2 (0, 0) (term_rc l r) i j l.columns).1,
               xphloat.num (psum add2 (0, 0) (term_rc l r) i j l.columns).2) :=
        fun i j hi hj => acc2_num env (xterm_rc env l r) (term_rc l r) i j l.columns
          (fun k hk => by
            obtain ⟨t1, t2, _, _⟩ := hfin i j k hi hj hk
            simp only [xterm_rc, xnum_of_finite env _ t1, xnum_of_finite env _ t2])
          (fun k hk => (hfin i j k hi hj hk).2.2)
      have hc : ∀ i j, i < l.rows → j < r.columns →
          check_acc2 env st (acc_rc env l r i j l.columns)
            = some (psum add2 (0, 0) (term_rc l r) i j l.columns) := by
        intro i j hi hj
        rw [hacc i j hi hj]
        have := (hfin i j (l.columns - 1) hi hj (by omega)).2.2
        rw [Nat.sub_add_cancel hq, ← psum_fst, ← psum_snd] at this
        exact check_sum2_of_finite env st _ this.1 this.2
      obtain ⟨st1, stN, stF, p1, h1, h2, h3, h4, h5, h6, h7, h8, h9, h10⟩ :=
        matrix_mul_rc_run env cb st l r completion_ref.caller hdim hl hr hm hq hn hs ha1 ha2
          (fun i j hi hj => by rw [hc i j hi hj]; rfl)
      obtain ⟨stE, hE1, hE2⟩ : ∃ stE, reenter env cb false stN
          = some (cb ERR_NONE (some (vartype.complexmatrix
              { new_complexmatrix l.rows r.columns with data := p1 })), stE) ∧
          stE.log = st.log ++ [event.completion ERR_NONE (some (vartype.complexmatrix
              { new_complexmatrix l.rows r.columns with data := p1 })), event.free obj.dat] :=
        ⟨_, by rw [h6]; rfl, by simp [release, h7]⟩
      refine ⟨st1, _, stN, _, stE, h1, h4, h5, hE1, hE2, ?_, ?_, ?_⟩
      · rfl
      · rfl
      · intro i j hi hj
        simp only [mat_rows, mat_columns] at hi hj
        have hidx := lin_index2_lt hi hj
        have := h10 _ hidx
        obtain ⟨d1, d2⟩ := div_mod_lin (i := i) hj
        simp only [stored_c, d1, d2, hc i j hi hj, Option.getD_some, read2] at this
        rw [product_entry_rc, ← this]
        simp only [mat_entry, new_complexmatrix]
    | _ => exact hwr.elim
  | complexmatrix l =>
    cases right with
    | realmatrix r =>
      obtain ⟨hm, hq, hl⟩ := hwl
      obtain ⟨hq2, hn, hr, hs⟩ := hwr
      simp only [mat_columns, mat_rows] at hdim
      simp only [mul_in_range, mat_columns, mat_rows] at hfin
      have hacc : ∀ i j, i < l.rows → j < r.columns →
          acc_cr env l r i j l.columns
            = (xphloat.num (psum add2 (0, 0) (term_cr l r) i j l.columns).1,
               xphloat.num (psum add2 (0, 0) (term_cr l r) i j l.columns).2) :=
        fun i j hi hj => acc2_num env (xterm_cr env l r) (term_cr l r) i j l.columns
          (fun k hk => by
            obtain ⟨t1, t2, _, _⟩ := hfin i j k hi hj hk
            simp only [xterm_cr, xnum_of_finite env _ t1, xnum_of_finite env _ t2])
          (fun k hk => (hfin i j k hi hj hk).2.2)
      have hc : ∀ i j, i < l.rows → j < r.columns →
          check_acc2 env st (acc_cr env l r i j l.columns)
            = some (psum add2 (0, 0) (term_cr l r) i j l.columns) := by
        intro i j hi hj
        rw [hacc i j hi hj]
        have := (hfin i j (l.columns - 1) hi hj (by omega)).2.2
        rw [Nat.sub_add_cancel hq, ← psum_fst, ← psum_snd] at this
        exact check_sum2_of_finite env st _ this.1 this.2
      obtain ⟨st1, stN, stF, p1, h1, h2, h3, h4, h5, h6, h7, h8, h9, h10⟩ :=
        matrix_mul_cr_run env cb st l r completion_ref.caller hdim hl hr hm hq hn hs ha1 ha2
          (fun i j hi hj => by rw [hc i j hi hj]; rfl)
      obtain ⟨stE, hE1, hE2⟩ : ∃ stE, reenter env cb false stN
          = some (cb ERR_NONE (some (vartype.complexmatrix
              { new_complexmatrix l.rows r.columns with data := p1 })), stE) ∧
          stE.log = st.log ++ [event.completion ERR_NONE (some (vartype.complexmatrix
              { new_complexmatrix l.rows r.columns with data := p1 })), event.free obj.dat] :=
        ⟨_, by rw [h6]; rfl, by simp [release, h7]⟩
      refine ⟨st1, _, stN, _, stE, h1, h4, h5, hE1, hE2, ?_, ?_, ?_⟩
      · rfl
      · rfl
      · intro i j hi hj
        simp only [mat_rows, mat_columns] at hi hj
        have hidx := lin_index2_lt hi hj
        have := h10 _ hidx
        obtain ⟨d1, d2⟩ := div_mod_lin (i := i) hj
        simp only [stored_c, d1, d2, hc i j hi hj, Option.getD_some, read2] at this
        rw [product_entry_cr, ← this]
        simp only [mat_entry, new_complexmatrix]
    | complexmatrix r =>
      obtain ⟨hm, hq, hl⟩ := hwl
      obtain ⟨hq2, hn, hr⟩ := hwr
      simp only [mat_columns, mat_rows] at hdim
      simp only [mul_in_range, mat_columns, mat_rows] at hfin
      have hacc : ∀ i j, i < l.rows → j < r.columns →
          acc_cc env l r i j l.columns
            = (xphloat.num (psum add2 (0, 0) (term_cc l r) i j l.columns).1,
               xphloat.num (psum add2 (0, 0) (term_cc l r) i j l.columns).2) :=
        fun i j hi hj => acc2_num env (xterm_cc env l r) (term_cc l r) i j l.columns
          (fun k hk => by
            obtain ⟨p1, p2, p3, p4, t1, t2, _, _⟩ := hfin i j k hi hj hk
            simp only [xterm_cc, xnum_of_finite env _ p1, xnum_of_finite env _ p2,
              xnum_of_finite env _ p3, xnum_of_finite env _ p4]
            rw [xsub_num env _ _ t1, xadd_num env _ _ t2]
            rfl)
          (fun k hk => (hfin i j k hi hj hk).2.2.2.2.2.2)
      have hc : ∀ i j, i < l.rows → j < r.columns →
          check_acc2 env st (acc_cc env l r i j l.columns)
            = some (psum add2 (0, 0) (term_cc l r) i j l.columns) := by
        intro i j hi hj
        rw [hacc i j hi hj]
        have := (hfin i j (l.columns - 1) hi hj (by omega)).2.2.2.2.2.2
        rw [Nat.sub_add_cancel hq, ← psum_fst, ← psum_snd] at this
        exact check_sum2_of_finite env st _ this.1 this.2
      obtain ⟨st1, stN, stF, p1, h1, h2, h3, h4, h5, h6, h7, h8, h9, h10⟩ :=
        matrix_mul_cc_run env cb st l r completion_ref.caller hdim hl hr hm hq hn ha1 ha2
          (fun i j hi hj => by rw [hc i j hi hj]; rfl)
      obtain ⟨stE, hE1, hE2⟩ : ∃ stE, reenter env cb false stN
          = some (cb ERR_NONE (some (vartype.complexmatrix
              { new_complexmatrix l.rows r.columns with data := p1 })), stE) ∧
          stE.log = st.log ++ [event.completion ERR_NONE (some (vartype.complexmatrix
              { new_complexmatrix l.rows r.columns with data := p1 })), event.free obj.dat] :=
        ⟨_, by rw [h6]; rfl, by simp [release, h7]⟩
      refine ⟨st1, _, stN, _, stE, h1, h4, h5, hE1, hE2, ?_, ?_, ?_⟩
      · rfl
      · rfl
      · intro i j hi hj
        simp only [mat_rows, mat_columns] at hi hj
        have hidx := lin_index2_lt hi hj
        have := h10 _ hidx
        obtain ⟨d1, d2⟩ := div_mod_lin (i := i) hj
        simp only [stored_c, d1, d2, hc i j hi hj, Option.getD_some, read2] at this
        rw [product_entry_cc, ← this]
        simp only [mat_entry, new_complexmatrix]
    | _ => exact hwr.elim
  | _ => exact hwl.elim

/-- C1, witness: `[1,2,3]` times `[4,5,6]ᵗ` delivers to the completion a 1×1 matrix
holding the dot product 32. -/
theorem linalg_mul_computes_product_witness :
    ∃ (st1 : core_state) (N : Nat) (stN : core_state) (res : vartype) (stE : core_state),
      linalg_mul cb_id row_123 col_456 completion_ref.caller st_idle
        = some (ERR_INTERRUPTIBLE, st1) ∧
      suspended_after env_exact cb_id N st1 = some stN ∧
      reenter env_exact cb_id false stN = some (ERR_NONE, stE) ∧
      stE.log = [event.completion ERR_NONE (some res), event.free obj.dat] ∧
      mat_rows res = 1 ∧ mat_columns res = 1 ∧ mat_entry res 0 0 = (32, 0) := by
  obtain ⟨st1, N, stN, res, stE, h1, h2, _, h4, h5, h6, h7, h8⟩ :=
    linalg_mul_computes_product env_exact cb_id st_idle row_123 col_456
      ⟨by decide, by decide, rfl, rfl⟩ ⟨by decide, by decide, rfl, rfl⟩ rfl rfl rfl
      (fun _ _ _ _ _ _ => ⟨rfl, rfl⟩)
  refine ⟨st1, N, stN, res, stE, h1, h2, h4, h5, h6, h7, ?_⟩
  rw [h8 0 0 (by decide) (by decide)]
  simp [product_entry, row_123, col_456, mat_columns, mat_entry, cmul, Finset.sum_range_succ]
  norm_num

theorem check_types_error (st : core_state) (rttypes : Nat) (l : List Nat) (e : Err)
    (h : check_types st rttypes l = some (some e)) :
    e = ERR_ALPHA_DATA_IS_INVALID ∨ e = ERR_INVALID_TYPE := by
  induction l with
  | nil => simp [check_types] at h
  | cons i rest ih =>
    simp only [check_types] at h
    rcases hs : stack_at st (st.sp - (i : Int)) with _ | v
    · simp [hs] at h
    · simp only [hs] at h
      split_ifs at h with h1 h2
      · left; simp at h; exact h.symm
      · right; simp at h; exact h.symm
      · exact ih h

theorem check_types_pass (st : core_state) (rttypes : Nat) (l : List Nat)
    (h : ∀ i ∈ l, ∃ v, stack_at st (st.sp - (i : Int)) = some v ∧
      (1 <<< (v.type - 1)) &&& rttypes ≠ 0) :
    check_types st rttypes l = some none := by
  induction l with
  | nil => rfl
  | cons i rest ih =>
    obtain ⟨v, hv1, hv2⟩ := h i (List.mem_cons_self i rest)
    simp only [check_types, hv1, if_neg hv2]
    exact ih (fun i hi => h i (List.mem_cons_of_mem _ hi))

theorem string_bit (v : vartype) :
    (1 <<< (v.type - 1) = 1 <<< (TYPE_STRING - 1)) ↔ ∃ txt, v = vartype.string txt := by
  cases v <;> simp [vartype.type, TYPE_STRING, TYPE_REAL, TYPE_COMPLEX, TYPE_REALMATRIX,
    TYPE_COMPLEXMATRIX]

/-- C2. Type check of `handle`: for a descriptor with arity at least 1 and a mask other
than 0xff, once the arity check has passed, a top-of-stack value whose variant bit
`1 << (type - 1)` is not in the mask makes `handle` return ERR_ALPHA_DATA_IS_INVALID
if the value is a String and ERR_INVALID_TYPE if it is any other variant; the state
is returned as it was, whatever the handler. -/
theorem handle_type_error_top (cmd_array : List command_spec) (st : core_state) (cmd : Int)
    (arg : arg_struct) (cs : command_spec) (v : vartype)
    (hcs : cmd_array_at cmd_array cmd = some cs)
    (hN : 1 ≤ cs.argcount) (hmask : cs.rttypes ≠ 0xff)
    (harity : too_few_arguments cs st = some false)
    (htop : stack_at st st.sp = some v)
    (hbit : (1 <<< (v.type - 1)) &&& cs.rttypes = 0) :
    handle cmd_array st cmd arg
      = some (match v with
              | vartype.string _ => ERR_ALPHA_DATA_IS_INVALID
              | _ => ERR_INVALID_TYPE, st) := by
  have hr : List.range cs.argcount.toNat = 0 :: (List.range (cs.argcount.toNat - 1)).map (· + 1) := by
    obtain ⟨n, hn⟩ : ∃ n, cs.argcount.toNat = n + 1 := ⟨cs.argcount.toNat - 1, by omega⟩
    rw [hn, List.range_succ_eq_map]
    simp
  have htc : type_check cs st
      = some (some (if 1 <<< (v.type - 1) = 1 <<< (TYPE_STRING - 1)
          then ERR_ALPHA_DATA_IS_INVALID else ERR_INVALID_TYPE)) := by
    have h0 : cs.argcount > 0 ∧ cs.rttypes ≠ ALLT := ⟨by omega, hmask⟩
    simp only [type_check, if_pos h0, hr, check_types, Nat.cast_zero, sub_zero, htop, hbit,
      if_true]
    split_ifs <;> rfl
  simp only [handle, hcs, harity, htc]
  by_cases hs : 1 <<< (v.type - 1) = 1 <<< (TYPE_STRING - 1)
  · obtain ⟨txt, rfl⟩ := (string_bit v).1 hs
    simp [hs]
  · rw [if_neg hs]
    cases v <;> first | rfl | exact absurd ((string_bit _).2 ⟨_, rfl⟩) hs

/-- C2, witness: a Real-only command given a String. -/
theorem handle_type_error_top_witness :
    handle [cs_real_only] st_one_string 0 arg_none
      = some (ERR_ALPHA_DATA_IS_INVALID, st_one_string) :=
  handle_type_error_top [cs_real_only] st_one_string 0 arg_none cs_real_only
    (vartype.string [65]) rfl (by decide) (by decide) rfl rfl (by decide)

theorem handle_after_arity (cmd_array : List command_spec) (st : core_state) (cmd : Int)
    (arg : arg_struct) (cs : command_spec)
    (hcs : cmd_array_at cmd_array cmd = some cs)
    (harity : too_few_arguments cs st = some false) (r : Err × core_state)
    (hr : handle cmd_array st cmd arg = some r) :
    r = (ERR_ALPHA_DATA_IS_INVALID, st) ∨ r = (ERR_INVALID_TYPE, st) ∨
      ∃ h, cs.handler = some h ∧ type_check cs st = some none ∧ r = h arg st := by
  simp only [handle, hcs, harity] at hr
  rcases htc : type_check cs st with _ | (_ | e)
  · simp [htc] at hr
  · simp only [htc] at hr
    rcases hh : cs.handler with _ | h
    · simp [hh] at hr
    · simp only [hh, Option.some.injEq] at hr
      exact Or.inr (Or.inr ⟨h, rfl, rfl, hr.symm⟩)
  · simp only [htc, Option.some.injEq] at hr
    have he : e = ERR_ALPHA_DATA_IS_INVALID ∨ e = ERR_INVALID_TYPE := by
      simp only [type_check] at htc
      split_ifs at htc
      · exact check_types_error _ _ _ _ htc
      · simp at htc
    rcases he with rfl | rfl
    · exact Or.inl hr.symm
    · exact Or.inr (Or.inl hr.symm)

/-- C3. Arity check in big-stack mode: for a descriptor with arity `N ≥ 0` and a stack
of depth `sp + 1`, `handle` returns ERR_TOO_FEW_ARGUMENTS with the state as it was,
whatever the handler, when the depth is below `N`; when the depth is at least `N`
the arity check passes, and whatever `handle` then returns is one of the two type
errors or the result of the handler. -/
theorem handle_arity_big_stack (cmd_array : List command_spec) (st : core_state) (cmd : Int)
    (arg : arg_struct) (cs : command_spec)
    (hcs : cmd_array_at cmd_array cmd = some cs)
    (hbig : st.big_stack = true) (hN : 0 ≤ cs.argcount) :
    (st.sp + 1 < cs.argcount →
      handle cmd_array st cmd arg = some (ERR_TOO_FEW_ARGUMENTS, st)) ∧
    (cs.argcount ≤ st.sp + 1 →
      too_few_arguments cs st = some false ∧
      ∀ r, handle cmd_array st cmd arg = some r →
        r = (ERR_ALPHA_DATA_IS_INVALID, st) ∨ r = (ERR_INVALID_TYPE, st) ∨
          ∃ h, cs.handler = some h ∧ r = h arg st) := by
  have hne : cs.argcount ≠ -1 := by omega
  constructor
  · intro hlt
    simp [handle, hcs, too_few_arguments, hbig, hne, hlt]
  · intro hge
    have h1 : too_few_arguments cs st = some false := by
      simp only [too_few_arguments, hbig, if_true, if_neg hne]
      simp; omega
    refine ⟨h1, fun r hr => ?_⟩
    rcases handle_after_arity cmd_array st cmd arg cs hcs h1 r hr with h | h | ⟨f, hf, _, hr⟩
    · exact Or.inl h
    · exact Or.inr (Or.inl h)
    · exact Or.inr (Or.inr ⟨f, hf, hr⟩)

/-- C3, witness: arity 2 against depth 1 in big-stack mode, and arity 1 against depth 1. -/
theorem handle_arity_big_stack_witness :
    handle [cs_two_all] st_big_one 0 arg_none = some (ERR_TOO_FEW_ARGUMENTS, st_big_one) ∧
    too_few_arguments cs_real_only st_big_one = some false :=
  ⟨(handle_arity_big_stack [cs_two_all] st_big_one 0 arg_none cs_two_all rfl rfl
      (by decide)).1 (by decide),
   ((handle_arity_big_stack [cs_real_only] st_big_one 0 arg_none cs_real_only rfl rfl
      (by decide)).2 (by decide)).1⟩

/-- C8, counterexample: in 4-level mode (`big_stack` off) with `sp = 0`, i.e. depth 1, an
opcode whose descriptor requires 2 operands is dispatched to its handler; `handle`
does not return ERR_TOO_FEW_ARGUMENTS. -/
theorem handle_bounded_depth_one_counterexample :
    st_small_one.big_stack = false ∧ st_small_one.sp + 1 = 1 ∧ cs_two_all.argcount = 2 ∧
    handle [cs_two_all] st_small_one 0 arg_none
      = some (Err.other 7, { st_small_one with sp := -1 }) ∧
    handle [cs_two_all] st_small_one 0 arg_none ≠ some (ERR_TOO_FEW_ARGUMENTS, st_small_one) := by
  refine ⟨rfl, rfl, rfl, rfl, ?_⟩
  decide

/-- C8, amended. Against a stack of depth 1 (`sp = 0`), an opcode whose descriptor
requires 2 operands is refused with ERR_TOO_FEW_ARGUMENTS, the state as it was and
whatever the handler, in big-stack mode; in 4-level mode `handle` compares the arity
with 4 only, so that the arity check passes. -/
theorem handle_two_operands_depth_one (cmd_array : List command_spec) (st : core_state)
    (cmd : Int) (arg : arg_struct) (cs : command_spec)
    (hcs : cmd_array_at cmd_array cmd = some cs)
    (hN : cs.argcount = 2) (hsp : st.sp = 0) :
    (st.big_stack = true →
      handle cmd_array st cmd arg = some (ERR_TOO_FEW_ARGUMENTS, st)) ∧
    (st.big_stack = false → too_few_arguments cs st = some false) := by
  constructor
  · intro hbig
    simp [handle, hcs, too_few_arguments, hbig, hN, hsp]
  · intro hsmall
    simp [too_few_arguments, hsmall, hN]

/-- C8, witness of the amended claim. -/
theorem handle_two_operands_depth_one_witness :
    handle [cs_two_all] st_big_one 0 arg_none = some (ERR_TOO_FEW_ARGUMENTS, st_big_one) ∧
    too_few_arguments cs_two_all st_small_one = some false :=
  ⟨(handle_two_operands_depth_one [cs_two_all] st_big_one 0 arg_none cs_two_all rfl rfl rfl).1 rfl,
   (handle_two_operands_depth_one [cs_two_all] st_small_one 0 arg_none cs_two_all rfl rfl rfl).2
     rfl⟩

theorem cmd_array_at_out_of_range (cmd_array : List command_spec) (cmd : Int)
    (h : cmd < 0 ∨ (cmd_array.length : Int) ≤ cmd) : cmd_array_at cmd_array cmd = none := by
  simp only [cmd_array_at]
  split_ifs with h1
  · rfl
  · rw [List.getElem?_eq_none]
    omega

/-- C9, counterexample: for the pseudo-opcode CMD_NONE and for CMD_SENTINEL itself `handle`
has no range check to fail on: it goes on to read a descriptor outside the table, and
returns no error code with the state as it was. -/
theorem handle_out_of_range_counterexample :
    (¬ ∃ e, handle (cmd_array_uniform cs_two_all) st_idle CMD_NONE arg_none
        = some (e, st_idle)) ∧
    (¬ ∃ e, handle (cmd_array_uniform cs_two_all) st_idle (CMD_SENTINEL : Int) arg_none
        = some (e, st_idle)) := by
  constructor
  · rintro ⟨e, he⟩
    simp [handle, cmd_array_at, CMD_NONE] at he
  · rintro ⟨e, he⟩
    have h := cmd_array_at_out_of_range (cmd_array_uniform cs_two_all) (CMD_SENTINEL : Int)
      (Or.inr (by simp [cmd_array_uniform]))
    unfold handle at he
    rw [h] at he
    cases he

/-- C9, amended. `handle` does not check `cmd` against the table range: for every `cmd`
outside `0 ≤ cmd < length of cmd_array` the descriptor it reads at `cmd_array + cmd`
lies outside the table, and no result, hence no invalid-opcode error, is defined,
whatever the state and the argument. -/
theorem handle_no_range_check (cmd_array : List command_spec) (st : core_state) (cmd : Int)
    (arg : arg_struct) (h : cmd < 0 ∨ (cmd_array.length : Int) ≤ cmd) :
    cmd_array_at cmd_array cmd = none ∧ handle cmd_array st cmd arg = none := by
  have h1 := cmd_array_at_out_of_range cmd_array cmd h
  exact ⟨h1, by simp [handle, h1]⟩

/-- C9, witness of the amended claim: the four negative pseudo-opcodes. -/
theorem handle_no_range_check_witness :
    handle (cmd_array_uniform cs_two_all) st_idle CMD_NONE arg_none = none ∧
    handle (cmd_array_uniform cs_two_all) st_idle CMD_CANCELLED arg_none = none ∧
    handle (cmd_array_uniform cs_two_all) st_idle CMD_LINGER1 arg_none = none ∧
    handle (cmd_array_uniform cs_two_all) st_idle CMD_LINGER2 arg_none = none :=
  ⟨(handle_no_range_check _ st_idle CMD_NONE arg_none (Or.inl (by decide))).2,
   (handle_no_range_check _ st_idle CMD_CANCELLED arg_none (Or.inl (by decide))).2,
   (handle_no_range_check _ st_idle CMD_LINGER1 arg_none (Or.inl (by decide))).2,
   (handle_no_range_check _ st_idle CMD_LINGER2 arg_none (Or.inl (by decide))).2⟩

set_option maxRecDepth 100000 in
/-- C10 as stated fails: the descriptor of CMD_SILENT_OFF, entry 10 of `cmd_array`
(core_tables.cc line 80), has arity 0, the mask NA_T and a NULL handler.  It passes the
arity check in big-stack and in 4-level mode and its type check is skipped, yet
`handle` has no handler to invoke: the call `cs->handler(arg)` goes through the null
pointer and no result is returned. -/
theorem handle_null_handler_counterexample :
    cmd_array_columns[CMD_SILENT_OFF]?
      = some (cs_silent_off.argcount, cs_silent_off.rttypes) ∧
    cs_silent_off.handler = none ∧
    too_few_arguments cs_silent_off st_idle = some false ∧
    too_few_arguments cs_silent_off st_small_full = some false ∧
    type_check cs_silent_off st_idle = some none ∧
    type_check cs_silent_off st_small_full = some none ∧
    (¬ ∃ r, handle [cs_silent_off] st_idle 0 arg_none = some r) ∧
    (¬ ∃ r, handle [cs_silent_off] st_small_full 0 arg_none = some r) := by
  refine ⟨by decide, rfl, rfl, rfl, rfl, rfl, ?_, ?_⟩
  · rintro ⟨r, hr⟩
    simp [handle, cmd_array_at, cs_silent_off, too_few_arguments, type_check, st_idle] at hr
  · rintro ⟨r, hr⟩
    simp [handle, cmd_array_at, cs_silent_off, too_few_arguments, type_check, st_small_full,
      st_idle] at hr

/-- C10, amended. Success path of `handle` for a descriptor whose handler is not NULL:
once the arity check has passed, if the type check is skipped (arity at most 0, the
sentinel -1 included, or mask 0xff) or each of the top `N` operands has its variant bit
in the mask, `handle` returns exactly what the one call of the handler on the argument
descriptor and the unchanged state returns, be it ERR_INTERRUPTIBLE; for a descriptor
whose handler is NULL the same checks pass and no result is defined; and for a
descriptor of arity -1 whatever `handle` returns is ERR_TOO_FEW_ARGUMENTS or the result
of the handler, never a type error of its own. -/
theorem handle_success (cmd_array : List command_spec) (st : core_state) (cmd : Int)
    (arg : arg_struct) (cs : command_spec)
    (hcs : cmd_array_at cmd_array cmd = some cs) :
    (∀ h, cs.handler = some h → too_few_arguments cs st = some false →
      (cs.argcount ≤ 0 ∨ cs.rttypes = 0xff ∨
        ∀ i : Nat, (i : Int) < cs.argcount →
          ∃ v, stack_at st (st.sp - (i : Int)) = some v ∧
            (1 <<< (v.type - 1)) &&& cs.rttypes ≠ 0) →
      handle cmd_array st cmd arg = some (h arg st)) ∧
    (cs.handler = none → too_few_arguments cs st = some false →
      (cs.argcount ≤ 0 ∨ cs.rttypes = 0xff ∨
        ∀ i : Nat, (i : Int) < cs.argcount →
          ∃ v, stack_at st (st.sp - (i : Int)) = some v ∧
            (1 <<< (v.type - 1)) &&& cs.rttypes ≠ 0) →
      handle cmd_array st cmd arg = none) ∧
    (cs.argcount = -1 →
      type_check cs st = some none ∧
      ∀ r, handle cmd_array st cmd arg = some r →
        r = (ERR_TOO_FEW_ARGUMENTS, st) ∨ ∃ h, cs.handler = some h ∧ r = h arg st) := by
  have hpass : too_few_arguments cs st = some false →
      (cs.argcount ≤ 0 ∨ cs.rttypes = 0xff ∨
        ∀ i : Nat, (i : Int) < cs.argcount →
          ∃ v, stack_at st (st.sp - (i : Int)) = some v ∧
            (1 <<< (v.type - 1)) &&& cs.rttypes ≠ 0) →
      type_check cs st = some none := by
    intro _ hchk
    simp only [type_check]
    split_ifs with h0
    · rcases hchk with h1 | h1 | h1
      · omega
      · exact absurd h1 h0.2
      · apply check_types_pass
        intro i hi
        exact h1 i (by have := List.mem_range.1 hi; omega)
    · rfl
  refine ⟨?_, ?_, ?_⟩
  · intro h hh harity hchk
    simp [handle, hcs, harity, hpass harity hchk, hh]
  · intro hh harity hchk
    simp [handle, hcs, harity, hpass harity hchk, hh]
  · intro hm1
    have htc : type_check cs st = some none := by
      simp [type_check, hm1]
    refine ⟨htc, fun r hr => ?_⟩
    simp only [handle, hcs] at hr
    rcases ha : too_few_arguments cs st with _ | (_ | _)
    · simp [ha] at hr
    · simp only [ha, htc] at hr
      rcases hh : cs.handler with _ | h
      · simp [hh] at hr
      · simp only [hh, Option.some.injEq] at hr
        exact Or.inr ⟨h, rfl, hr.symm⟩
    · simp only [ha, Option.some.injEq] at hr
      exact Or.inl hr.symm

/-- C10, witness: a numeric command on a Real and a Complex reaches its handler, whose
ERR_INTERRUPTIBLE comes back; a command of arity -1 passes the type check. -/
theorem handle_success_witness :
    handle [cs_suspending] st_big_two 0 arg_none
      = some (ERR_INTERRUPTIBLE, { st_big_two with sp := 0 }) ∧
    type_check cs_sentinel st_one_string = some none :=
  ⟨(handle_success [cs_suspending] st_big_two 0 arg_none cs_suspending rfl).1 _ rfl rfl
      (Or.inr (Or.inr (by
        intro i hi
        have hi2 : i < 2 := by
          have : (i : Int) < 2 := hi
          omega
        interval_cases i
        · exact ⟨vartype.complex 2 3, rfl, by decide⟩
        · exact ⟨vartype.real 1, rfl, by decide⟩))),
   ((handle_success [cs_sentinel] st_one_string 0 arg_none cs_sentinel rfl).2.2 rfl).1⟩

theorem scalbn_scalbn (x : phloat) (a b : Int) : scalbn (scalbn x a) b = scalbn x (a + b) := by
  simp only [scalbn]
  rw [mul_assoc, ← zpow_add₀ (two_ne_zero : (2 : ℚ) ≠ 0)]

theorem scalbn_zero (x : phloat) : scalbn x 0 = x := by
  simp [scalbn]

theorem scalbn_mul (x y : phloat) (a b : Int) :
    scalbn x a * scalbn y b = scalbn (x * y) (a + b) := by
  simp only [scalbn]
  rw [zpow_add₀ (two_ne_zero : (2 : ℚ) ≠ 0)]
  ring

theorem scalbn_add (x y : phloat) (a : Int) : scalbn x a + scalbn y a = scalbn (x + y) a := by
  simp only [scalbn]; ring

theorem scalbn_sub (x y : phloat) (a : Int) : scalbn x a - scalbn y a = scalbn (x - y) a := by
  simp only [scalbn]; ring

theorem dot_2d_parts_exact (env : phloat_env) (a1 a2 a3 a4 : phloat) (add : Bool) :
    scalbn (dot_2d_parts env a1 a2 a3 a4 add).1 (dot_2d_parts env a1 a2 a3 a4 add).2
      = if add then a1 * a3 + a2 * a4 else a1 * a3 - a2 * a4 := by
  simp only [dot_2d_parts]
  generalize dot_2d_exp env a1 = s1
  generalize dot_2d_exp env a2 = s2
  generalize dot_2d_exp env a3 = s3
  generalize dot_2d_exp env a4 = s4
  have e1 : ∀ z : Int, scalbn (scalbn a1 (-s1) * scalbn a3 (-s3)) z
      = scalbn (a1 * a3) (-s1 + -s3 + z) := by
    intro z; rw [scalbn_mul, scalbn_scalbn]
  have e2 : ∀ z : Int, scalbn (scalbn a2 (-s2) * scalbn a4 (-s4)) z
      = scalbn (a2 * a4) (-s2 + -s4 + z) := by
    intro z; rw [scalbn_mul, scalbn_scalbn]
  have k1 : ∀ x : phloat, scalbn x (-s1 + -s3 + (s1 + s3)) = x := by
    intro x
    have : -s1 + -s3 + (s1 + s3) = 0 := by ring
    rw [this, scalbn_zero]
  have k2 : ∀ x : phloat, scalbn x (-s2 + -s4 + (s2 + s4)) = x := by
    intro x
    have : -s2 + -s4 + (s2 + s4) = 0 := by ring
    rw [this, scalbn_zero]
  have k3 : ∀ x : phloat, scalbn x (-s2 + -s4 + (s2 + s4 - (s1 + s3)) + (s1 + s3)) = x := by
    intro x
    have : -s2 + -s4 + (s2 + s4 - (s1 + s3)) + (s1 + s3) = 0 := by ring
    rw [this, scalbn_zero]
  have k4 : ∀ x : phloat, scalbn x (-s1 + -s3 + (s1 + s3 - (s2 + s4)) + (s2 + s4)) = x := by
    intro x
    have : -s1 + -s3 + (s1 + s3 - (s2 + s4)) + (s2 + s4) = 0 := by ring
    rw [this, scalbn_zero]
  have k5 : s1 + s3 = s2 + s4 → ∀ x : phloat, scalbn x (-s2 + -s4 + (s1 + s3)) = x := by
    intro h x
    rw [h]; exact k2 x
  split_ifs with h1 hadd h2 hadd hadd
  · simp only [← scalbn_add, e1, e2, scalbn_scalbn, k1, k3]
  · simp only [← scalbn_sub, e1, e2, scalbn_scalbn, k1, k3]
  · simp only [← scalbn_add, e1, e2, scalbn_scalbn, k2, k4]
  · simp only [← scalbn_sub, e1, e2, scalbn_scalbn, k2, k4]
  · simp only [← scalbn_add, e1, e2, k1, k5 (by omega)]
  · simp only [← scalbn_sub, e1, e2, k1, k5 (by omega)]

theorem dot_2d_exact (env : phloat_env) (a1 a2 a3 a4 : phloat) (add : Bool) :
    dot_2d env a1 a2 a3 a4 add = if add then a1 * a3 + a2 * a4 else a1 * a3 - a2 * a4 :=
  dot_2d_parts_exact env a1 a2 a3 a4 add

/-- C4. Determinant of small real matrices.  For the 2×2 matrix with row-major data
`a, b, c, d` whose determinant `a * d - b * c` is in range, `small_det_r` yields
ERR_NONE and exactly `a * d - b * c`, whatever exponents `ilogb` reports, and
`linalg_det` (no string elements, the value allocated) hands that value to the
completion and returns ERR_NONE; for a 1×1 matrix both yield its single element. -/
theorem small_det_r_exact (env : phloat_env) (L2 : linalg2) (st : core_state)
    (m : vartype_realmatrix) (completion : completion_v_ref)
    (hsq : m.rows = m.columns) (hstr : contains_strings m = false)
    (halloc : (alloc_next st).1 = true) :
    (∀ a b c d, m.rows = 2 → m.data = [a, b, c, d] → env.p_isinf (a * d - b * c) = 0 →
      small_det_r env st m = some (ERR_NONE, a * d - b * c) ∧
      linalg_det env L2 (vartype.realmatrix m) completion st
        = some (ERR_NONE,
            call_completion_v completion (vartype.real (a * d - b * c)) (alloc_next st).2)) ∧
    (∀ x, m.rows = 1 → m.data = [x] →
      small_det_r env st m = some (ERR_NONE, x) ∧
      linalg_det env L2 (vartype.realmatrix m) completion st
        = some (ERR_NONE, call_completion_v completion (vartype.real x) (alloc_next st).2)) := by
  constructor
  · intro a b c d hr hd hfin
    have h1 : small_det_r env st m = some (ERR_NONE, a * d - b * c) := by
      simp [small_det_r, hr, hd, dot_2d_exact, det_range, hfin]
    refine ⟨h1, ?_⟩
    have hc : m.columns = m.rows := hsq.symm
    simp [linalg_det, hc, hstr, hr, h1, halloc]
  · intro x hr hd
    have h1 : small_det_r env st m = some (ERR_NONE, x) := by
      simp [small_det_r, hr, hd]
    refine ⟨h1, ?_⟩
    have hc : m.columns = m.rows := hsq.symm
    simp [linalg_det, hc, hstr, hr, h1, halloc]

/-- C4, witness: the determinant of `[[1, 2], [3, 4]]` is -2. -/
theorem small_det_r_exact_witness :
    small_det_r env_log st_idle mat_1234 = some (ERR_NONE, -2) ∧
    linalg_det env_log linalg2_none (vartype.realmatrix mat_1234) completion_v_ref.caller st_idle
      = some (ERR_NONE, { st_idle with log := [event.completion_v (vartype.real (-2))] }) := by
  have h := (small_det_r_exact env_log linalg2_none st_idle mat_1234 completion_v_ref.caller
    rfl rfl rfl).1 1 2 3 4 rfl rfl rfl
  have e : (1 : ℚ) * 4 - 2 * 3 = -2 := by norm_num
  rw [e] at h
  exact h

/-- C7, counterexample: when the decomposition reports ERR_SINGULAR_MATRIX, the completions
of the determinant do not return ERR_SINGULAR_MATRIX: they return ERR_NONE after handing
the value 0 (0 + 0i) to the caller's completion. -/
theorem det_completion_singular_counterexample :
    det_r_completion env_exact ERR_SINGULAR_MATRIX 5 st_det_running
      = some (ERR_NONE, { st_det_running with
          matrix_singularmatrix := false,
          log := [event.free obj.lu, event.free obj.perm,
                  event.completion_v (vartype.real 0)] }) ∧
    det_c_completion env_exact ERR_SINGULAR_MATRIX 5 7 st_det_running
      = some (ERR_NONE, { st_det_running with
          matrix_singularmatrix := false,
          log := [event.free obj.lu, event.free obj.perm,
                  event.completion_v (vartype.complex 0 0)] }) := by
  constructor <;> rfl

/-- C7, amended. Whenever the decomposition started by `linalg_det` reports
ERR_SINGULAR_MATRIX to `det_r_completion` / `det_c_completion`, the determinant is
taken to be 0 (0 + 0i), whatever partial product of pivots came with the error: the
saved singular-matrix setting is restored, the working copy and the permutation
vector are released, and the operation returns ERR_NONE after handing 0 to the
caller's completion, or ERR_INSUFFICIENT_MEMORY without calling it when the value
cannot be allocated; it does not return ERR_SINGULAR_MATRIX. -/
theorem det_completion_singular (env : phloat_env) (st : core_state) (det det_im : phloat)
    (c : completion_v_ref) (hzero : env.p_isinf 0 = 0)
    (hc : st.linalg_det_completion = some c) :
    ∃ st2 : core_state,
      st2.matrix_singularmatrix = st.linalg_det_prev_sm_err ∧
      st2.log = st.log ++ [event.free obj.lu, event.free obj.perm] ∧
      st2.alloc = st.alloc ∧
      det_r_completion env ERR_SINGULAR_MATRIX det st
        = some (if (alloc_next st2).1
            then (ERR_NONE, call_completion_v c (vartype.real 0) (alloc_next st2).2)
            else (ERR_INSUFFICIENT_MEMORY, (alloc_next st2).2)) ∧
      det_c_completion env ERR_SINGULAR_MATRIX det det_im st
        = some (if (alloc_next st2).1
            then (ERR_NONE, call_completion_v c (vartype.complex 0 0) (alloc_next st2).2)
            else (ERR_INSUFFICIENT_MEMORY, (alloc_next st2).2)) := by
  refine ⟨release obj.perm (release obj.lu
    { st with matrix_singularmatrix := st.linalg_det_prev_sm_err }), rfl, ?_, rfl, ?_, ?_⟩
  · simp [release]
  · have hc2 : (alloc_next (release obj.perm (release obj.lu
        { st with matrix_singularmatrix := st.linalg_det_prev_sm_err }))).2.linalg_det_completion
        = some c := hc
    simp only [det_r_completion, if_true, hzero, ne_eq, not_true_eq_false, if_false, hc2]
    split_ifs <;> simp_all
  · have hc2 : (alloc_next (release obj.perm (release obj.lu
        { st with matrix_singularmatrix := st.linalg_det_prev_sm_err }))).2.linalg_det_completion
        = some c := hc
    simp only [det_c_completion, if_true, hzero, ne_eq, not_true_eq_false, if_false, hc2]
    split_ifs <;> simp_all

/-- C7, witness of the amended claim. -/
theorem det_completion_singular_witness :
    ∃ st2 : core_state,
      st2.matrix_singularmatrix = false ∧
      st2.log = [event.free obj.lu, event.free obj.perm] ∧
      det_r_completion env_exact ERR_SINGULAR_MATRIX 5 st_det_running
        = some (ERR_NONE,
            call_completion_v completion_v_ref.caller (vartype.real 0) (alloc_next st2).2) := by
  obtain ⟨st2, h1, h2, h3, h4, _⟩ :=
    det_completion_singular env_exact st_det_running 5 7 completion_v_ref.caller rfl rfl
  have ha : (alloc_next st2).1 = true := by
    simp [alloc_next, h3, st_det_running, st_idle]
  rw [ha] at h4
  exact ⟨st2, h1, h2, h4⟩

theorem ssub_exact (a1 : phloat) (s1 : Int) (a2 : phloat) (s2 : Int) :
    ssub a1 s1 a2 s2 = scalbn a1 s1 - scalbn a2 s2 := by
  simp only [ssub]
  split_ifs with h1 h2
  · rw [← scalbn_sub, scalbn_scalbn]
    have : s2 - s1 + s1 = s2 := by ring
    rw [this]
  · rw [← scalbn_sub, scalbn_scalbn]
    have : s1 - s2 + s2 = s1 := by ring
    rw [this]
  · have : s1 = s2 := by omega
    rw [← scalbn_sub, this]

theorem dot_2d_scale_exact (env : phloat_env) (a1 a2 a3 a4 : phloat) (add : Bool) :
    scalbn (dot_2d_scale env a1 a2 a3 a4 add).1 (dot_2d_scale env a1 a2 a3 a4 add).2
      = if add then a1 * a3 + a2 * a4 else a1 * a3 - a2 * a4 :=
  dot_2d_parts_exact env a1 a2 a3 a4 add

theorem det_range_of_finite (env : phloat_env) (st : core_state) (r : phloat)
    (h : env.p_isinf r = 0) : det_range env st r = (ERR_NONE, r) := by
  simp [det_range, h]

theorem small_det_r_two (env : phloat_env) (st : core_state) (m : vartype_realmatrix)
    (a b c d : phloat) (hr : m.rows ≠ 1) (hd : m.data = [a, b, c, d])
    (hfin : env.p_isinf (a * d - b * c) = 0) :
    small_det_r env st m = some (ERR_NONE, a * d - b * c) := by
  simp [small_det_r, hr, hd, dot_2d_exact, det_range, hfin]

theorem small_det_c_two (env : phloat_env) (st : core_state) (m : vartype_complexmatrix)
    (a0 a1 a2 a3 a4 a5 a6 a7 : phloat) (hr : m.rows ≠ 1)
    (hd : m.data = [a0, a1, a2, a3, a4, a5, a6, a7])
    (hfin : ∀ x, env.p_isinf x = 0) :
    small_det_c env st m
      = some (ERR_NONE, (a0 * a6 - a1 * a7) - (a2 * a4 - a3 * a5),
          (a0 * a7 + a1 * a6) - (a2 * a5 + a3 * a4)) := by
  have e1 := dot_2d_scale_exact env a0 a1 a6 a7 false
  have e2 := dot_2d_scale_exact env a0 a1 a7 a6 true
  have e3 := dot_2d_scale_exact env a2 a3 a4 a5 false
  have e4 := dot_2d_scale_exact env a2 a3 a5 a4 true
  simp only [Bool.false_eq_true, if_false, if_true] at e1 e2 e3 e4
  simp only [small_det_c, hr, if_false, hd, List.getElem?_cons_zero, List.getElem?_cons_succ,
    ssub_exact, e1, e2, e3, e4, det_range_of_finite env st _ (hfin _), ne_eq,
    not_true_eq_false]

set_option maxRecDepth 100000 in
/-- C11. In 4-level mode (`big_stack` off) `handle` returns ERR_TOO_FEW_ARGUMENTS, with
the state as it was and whatever the handler, for every descriptor whose arity exceeds
4, whatever the stack; in the shipped table of 572 descriptors the opcodes of arity
above 4 are exactly 483..487 (GEN_N, GEN_I, GEN_PV, GEN_PMT, GEN_FV), each of arity 6. -/
theorem handle_arity_above_four :
    (∀ (cmd_array : List command_spec) (st : core_state) (cmd : Int) (arg : arg_struct)
        (cs : command_spec), cmd_array_at cmd_array cmd = some cs →
        st.big_stack = false → cs.argcount > 4 →
        handle cmd_array st cmd arg = some (ERR_TOO_FEW_ARGUMENTS, st)) ∧
    cmd_array_columns.length = 572 ∧
    (List.range 572).filter (fun i => decide (cmd_argcount i > 4))
      = [CMD_GEN_N, CMD_GEN_I, CMD_GEN_PV, CMD_GEN_PMT, CMD_GEN_FV] ∧
    [CMD_GEN_N, CMD_GEN_I, CMD_GEN_PV, CMD_GEN_PMT, CMD_GEN_FV].map cmd_argcount
      = [6, 6, 6, 6, 6] := by
  refine ⟨?_, by decide, by decide, by decide⟩
  intro cmd_array st cmd arg cs hcs hsmall hN
  simp [handle, hcs, too_few_arguments, hsmall, hN]

/-- C11, witness: GEN_N against a full 4-level stack. -/
theorem handle_arity_above_four_witness :
    handle [cs_six] st_small_full 0 arg_none = some (ERR_TOO_FEW_ARGUMENTS, st_small_full) :=
  handle_arity_above_four.1 [cs_six] st_small_full 0 arg_none cs_six rfl rfl (by decide)

/-- C12. Sentinel arity -1 in big-stack mode, for a stack whose only slot, when the depth
is 1, holds a value: the arity check of `handle` fails exactly when the stack
is empty (`sp = -1`) or holds exactly one value (`sp = 0`) that is neither Complex nor
ComplexMatrix, and then `handle` returns ERR_TOO_FEW_ARGUMENTS with the state as it
was, whatever the handler; in every other case the arity check passes. -/
theorem handle_sentinel_arity (cmd_array : List command_spec) (st : core_state) (cmd : Int)
    (arg : arg_struct) (cs : command_spec)
    (hcs : cmd_array_at cmd_array cmd = some cs)
    (hbig : st.big_stack = true) (hN : cs.argcount = -1)
    (htop : st.sp = 0 → ∃ v, stack_at st 0 = some v) :
    (too_few_arguments cs st = some true ↔
      (st.sp = -1 ∨ (st.sp = 0 ∧ ∃ v, stack_at st 0 = some v ∧
        (∀ re im, v ≠ vartype.complex re im) ∧ ∀ m, v ≠ vartype.complexmatrix m))) ∧
    (too_few_arguments cs st = some true →
      handle cmd_array st cmd arg = some (ERR_TOO_FEW_ARGUMENTS, st)) ∧
    (too_few_arguments cs st = some true ∨ too_few_arguments cs st = some false) := by
  have hh : too_few_arguments cs st = some true →
      handle cmd_array st cmd arg = some (ERR_TOO_FEW_ARGUMENTS, st) := by
    intro h
    simp [handle, hcs, h]
  by_cases h1 : st.sp = -1
  · have : too_few_arguments cs st = some true := by
      simp [too_few_arguments, hbig, hN, h1]
    exact ⟨⟨fun _ => Or.inl h1, fun _ => this⟩, hh, Or.inl this⟩
  by_cases h0 : st.sp = 0
  · obtain ⟨v, hv⟩ := htop h0
    have e : too_few_arguments cs st
        = some (v.type != TYPE_COMPLEX && v.type != TYPE_COMPLEXMATRIX) := by
      simp [too_few_arguments, hbig, hN, h0, hv]
    refine ⟨?_, hh, ?_⟩
    · rw [e]
      constructor
      · intro h
        right
        refine ⟨h0, v, hv, ?_, ?_⟩
        · intro re im hc
          subst hc
          simp [vartype.type, TYPE_COMPLEX] at h
        · intro m hc
          subst hc
          simp [vartype.type, TYPE_COMPLEX, TYPE_COMPLEXMATRIX] at h
      · rintro (h | ⟨_, w, hw, hw1, hw2⟩)
        · exact absurd h h1
        · rw [hv] at hw
          cases hw
          cases v <;> simp [vartype.type, TYPE_COMPLEX, TYPE_COMPLEXMATRIX, TYPE_REAL,
            TYPE_REALMATRIX, TYPE_STRING] at hw1 hw2 ⊢
    · rw [e]
      cases (v.type != TYPE_COMPLEX && v.type != TYPE_COMPLEXMATRIX) <;> simp
  · have : too_few_arguments cs st = some false := by
      simp [too_few_arguments, hbig, hN, h1, h0]
    refine ⟨⟨fun h => ?_, fun h => ?_⟩, hh, Or.inr this⟩
    · rw [this] at h; cases h
    · rcases h with h | ⟨h, _⟩
      · exact absurd h h1
      · exact absurd h h0

/-- C12, witness: COMPLEX (arity -1) on an empty stack, on one Real, and on one Complex. -/
theorem handle_sentinel_arity_witness :
    handle [cs_sentinel] st_idle 0 arg_none = some (ERR_TOO_FEW_ARGUMENTS, st_idle) ∧
    handle [cs_sentinel] st_big_one 0 arg_none = some (ERR_TOO_FEW_ARGUMENTS, st_big_one) ∧
    ¬ too_few_arguments cs_sentinel st_big_complex = some true :=
  ⟨(handle_sentinel_arity [cs_sentinel] st_idle 0 arg_none cs_sentinel rfl rfl rfl
      (fun h => absurd h (by decide))).2.1 rfl,
   (handle_sentinel_arity [cs_sentinel] st_big_one 0 arg_none cs_sentinel rfl rfl rfl
      (fun _ => ⟨vartype.real 1, rfl⟩)).2.1 rfl,
   fun h => by
     have := (handle_sentinel_arity [cs_sentinel] st_big_complex 0 arg_none cs_sentinel rfl rfl
       rfl (fun _ => ⟨vartype.complex 1 2, rfl⟩)).1.1 h
     rcases this with h | ⟨_, v, hv, hv1, _⟩
     · exact absurd h (by decide)
     · have : v = vartype.complex 1 2 := by
         have h2 : stack_at st_big_complex 0 = some (vartype.complex 1 2) := rfl
         rw [h2] at hv
         exact (Option.some.inj hv).symm
       exact hv1 1 2 this⟩

/-- C13. `handle` writes nothing itself.  Its two validation blocks read the descriptor's
arity and mask and the state only, not the handler; when the arity check fails
`handle` returns ERR_TOO_FEW_ARGUMENTS, when the type check fails it returns
ERR_ALPHA_DATA_IS_INVALID or ERR_INVALID_TYPE, in both cases together with the very
state it was called on and without a call of the handler; when both pass, the result
is what the handler returns on the argument and the unchanged state. -/
theorem handle_no_side_effect (cmd_array : List command_spec) (st : core_state) (cmd : Int)
    (arg : arg_struct) (cs : command_spec)
    (hcs : cmd_array_at cmd_array cmd = some cs) :
    (∀ h, too_few_arguments { cs with handler := h } st = too_few_arguments cs st ∧
      type_check { cs with handler := h } st = type_check cs st) ∧
    (too_few_arguments cs st = some true →
      handle cmd_array st cmd arg = some (ERR_TOO_FEW_ARGUMENTS, st)) ∧
    (∀ e, too_few_arguments cs st = some false → type_check cs st = some (some e) →
      handle cmd_array st cmd arg = some (e, st) ∧
        (e = ERR_ALPHA_DATA_IS_INVALID ∨ e = ERR_INVALID_TYPE)) ∧
    (too_few_arguments cs st = some false → type_check cs st = some none →
      handle cmd_array st cmd arg = cs.handler.map (fun h => h arg st)) := by
  refine ⟨fun h => ⟨rfl, rfl⟩, ?_, ?_, ?_⟩
  · intro h
    simp [handle, hcs, h]
  · intro e h1 h2
    refine ⟨by simp [handle, hcs, h1, h2], ?_⟩
    simp only [type_check] at h2
    split_ifs at h2
    · exact check_types_error _ _ _ _ h2
    · simp at h2
  · intro h1 h2
    simp only [handle, hcs, h1, h2]
    cases cs.handler <;> rfl

/-- C13, witness: a type error leaves the state alone; a passing dispatch changes it
only as the handler does. -/
theorem handle_no_side_effect_witness :
    handle [cs_real_only] st_one_string 0 arg_none
      = some (ERR_ALPHA_DATA_IS_INVALID, st_one_string) ∧
    handle [cs_real_only] st_big_one 0 arg_none
      = some (ERR_NONE, { st_big_one with sp := -1 }) :=
  ⟨((handle_no_side_effect [cs_real_only] st_one_string 0 arg_none cs_real_only rfl).2.2.1
      ERR_ALPHA_DATA_IS_INVALID rfl rfl).1,
   (handle_no_side_effect [cs_real_only] st_big_one 0 arg_none cs_real_only rfl).2.2.2 rfl rfl⟩

/-- C17. Dimension rule of the multiplication: for the four combinations of real and
complex operands, `linalg_mul` with `left.columns ≠ right.rows` does nothing but call
the completion with (ERR_DIMENSION_ERROR, NULL) and return its result: for the caller's
completion the log gains that one call, and the allocation outcomes, the installed
worker and the progress records are as before. -/
theorem linalg_mul_dimension_error (cb : Err → Option vartype → Err) (st : core_state)
    (left right : vartype) (c : completion_ref)
    (hl : (∃ m, left = vartype.realmatrix m) ∨ ∃ m, left = vartype.complexmatrix m)
    (hr : (∃ m, right = vartype.realmatrix m) ∨ ∃ m, right = vartype.complexmatrix m)
    (hdim : mat_columns left ≠ mat_rows right) :
    linalg_mul cb left right c st = call_completion cb c ERR_DIMENSION_ERROR none st ∧
    linalg_mul cb left right completion_ref.caller st
      = some (cb ERR_DIMENSION_ERROR none,
          { st with log := st.log ++ [event.completion ERR_DIMENSION_ERROR none] }) := by
  rcases hl with ⟨l, rfl⟩ | ⟨l, rfl⟩ <;> rcases hr with ⟨r, rfl⟩ | ⟨r, rfl⟩ <;>
    simp only [mat_columns, mat_rows] at hdim <;>
    simp [linalg_mul, matrix_mul_rr, matrix_mul_rc, matrix_mul_cr, matrix_mul_cc, hdim,
      call_completion]

/-- C17, witness: a 1×3 matrix times itself. -/
theorem linalg_mul_dimension_error_witness :
    linalg_mul cb_id row_123 row_123 completion_ref.caller st_idle
      = some (ERR_DIMENSION_ERROR,
          { st_idle with log := [event.completion ERR_DIMENSION_ERROR none] }) :=
  (linalg_mul_dimension_error cb_id st_idle row_123 row_123 completion_ref.caller
    (Or.inl ⟨_, rfl⟩) (Or.inl ⟨_, rfl⟩) (by decide)).2

/-- C19. Multiplication rejects string elements before scheduling: with equal inner
dimensions, `matrix_mul_rr` (either operand), `matrix_mul_rc` (left operand) and
`matrix_mul_cr` (right operand) given a real matrix with string elements do nothing
but call the completion with (ERR_ALPHA_DATA_IS_INVALID, NULL) and return its result,
so that no allocation outcome is consumed and no worker installed; with unequal inner
dimensions the call is made with ERR_DIMENSION_ERROR instead. -/
theorem matrix_mul_rejects_strings (cb : Err → Option vartype → Err) (st : core_state)
    (c : completion_ref) (lr rr : vartype_realmatrix) (lc rc : vartype_complexmatrix) :
    (lr.columns = rr.rows → contains_strings lr = true ∨ contains_strings rr = true →
      matrix_mul_rr cb lr rr c st = call_completion cb c ERR_ALPHA_DATA_IS_INVALID none st) ∧
    (lr.columns = rc.rows → contains_strings lr = true →
      matrix_mul_rc cb lr rc c st = call_completion cb c ERR_ALPHA_DATA_IS_INVALID none st) ∧
    (lc.columns = rr.rows → contains_strings rr = true →
      matrix_mul_cr cb lc rr c st = call_completion cb c ERR_ALPHA_DATA_IS_INVALID none st) ∧
    (lr.columns ≠ rr.rows →
      matrix_mul_rr cb lr rr c st = call_completion cb c ERR_DIMENSION_ERROR none st) ∧
    (lr.columns ≠ rc.rows →
      matrix_mul_rc cb lr rc c st = call_completion cb c ERR_DIMENSION_ERROR none st) ∧
    (lc.columns ≠ rr.rows →
      matrix_mul_cr cb lc rr c st = call_completion cb c ERR_DIMENSION_ERROR none st) ∧
    (∀ e, call_completion cb completion_ref.caller e none st
      = some (cb e none, { st with log := st.log ++ [event.completion e none] })) := by
  refine ⟨?_, ?_, ?_, ?_, ?_, ?_, fun e => rfl⟩
  · intro hd hs
    rcases hs with hs | hs <;> simp [matrix_mul_rr, hd, hs]
  · intro hd hs
    simp [matrix_mul_rc, hd, hs]
  · intro hd hs
    simp [matrix_mul_cr, hd, hs]
  · intro hd
    simp [matrix_mul_rr, hd]
  · intro hd
    simp [matrix_mul_rc, hd]
  · intro hd
    simp [matrix_mul_cr, hd]

/-- C19, witness: a string element in the right operand; and a dimension mismatch
with a string element in the left operand. -/
theorem matrix_mul_rejects_strings_witness :
    matrix_mul_rr cb_id mat_five mat_string completion_ref.caller st_idle
      = some (ERR_ALPHA_DATA_IS_INVALID,
          { st_idle with log := [event.completion ERR_ALPHA_DATA_IS_INVALID none] }) ∧
    matrix_mul_rr cb_id mat_string_row mat_five completion_ref.caller st_idle
      = some (ERR_DIMENSION_ERROR,
          { st_idle with log := [event.completion ERR_DIMENSION_ERROR none] }) :=
  ⟨(matrix_mul_rejects_strings cb_id st_idle completion_ref.caller mat_five mat_string
      (new_complexmatrix 1 1) (new_complexmatrix 1 1)).1 rfl (Or.inr rfl),
   (matrix_mul_rejects_strings cb_id st_idle completion_ref.caller mat_string_row mat_five
      (new_complexmatrix 1 1) (new_complexmatrix 1 1)).2.2.2.1 (by decide)⟩

/-- C20. Validation in `linalg_inv` and `linalg_det`: a matrix that is not square makes
both return ERR_DIMENSION_ERROR, a square real matrix with string elements
ERR_ALPHA_DATA_IS_INVALID, and in both cases the state is returned as it was: nothing
is allocated, no completion is called, the singular-matrix setting is untouched.
The dimension test comes first. -/
theorem linalg_inv_det_validation (env : phloat_env) (L2 : linalg2) (st : core_state)
    (c : completion_v_ref) (mr : vartype_realmatrix) (mc : vartype_complexmatrix) :
    (mr.rows ≠ mr.columns →
      linalg_inv env L2 (vartype.realmatrix mr) c st = some (ERR_DIMENSION_ERROR, st) ∧
      linalg_det env L2 (vartype.realmatrix mr) c st = some (ERR_DIMENSION_ERROR, st)) ∧
    (mc.rows ≠ mc.columns →
      linalg_inv env L2 (vartype.complexmatrix mc) c st = some (ERR_DIMENSION_ERROR, st) ∧
      linalg_det env L2 (vartype.complexmatrix mc) c st = some (ERR_DIMENSION_ERROR, st)) ∧
    (mr.rows = mr.columns → contains_strings mr = true →
      linalg_inv env L2 (vartype.realmatrix mr) c st = some (ERR_ALPHA_DATA_IS_INVALID, st) ∧
      linalg_det env L2 (vartype.realmatrix mr) c st = some (ERR_ALPHA_DATA_IS_INVALID, st)) := by
  refine ⟨?_, ?_, ?_⟩
  · intro h
    simp [linalg_inv, linalg_det, h]
  · intro h
    simp [linalg_inv, linalg_det, h]
  · intro h hs
    simp [linalg_inv, linalg_det, h, hs]

/-- C20, witness: a 1×2 matrix with a string element, and a 1×1 matrix with one. -/
theorem linalg_inv_det_validation_witness :
    linalg_inv env_exact linalg2_none (vartype.realmatrix mat_string_row)
        completion_v_ref.caller st_idle = some (ERR_DIMENSION_ERROR, st_idle) ∧
    linalg_det env_exact linalg2_none (vartype.realmatrix mat_string)
        completion_v_ref.caller st_idle = some (ERR_ALPHA_DATA_IS_INVALID, st_idle) :=
  ⟨((linalg_inv_det_validation env_exact linalg2_none st_idle completion_v_ref.caller
      mat_string_row (new_complexmatrix 1 1)).1 (by decide)).1,
   ((linalg_inv_det_validation env_exact linalg2_none st_idle completion_v_ref.caller
      mat_string (new_complexmatrix 1 1)).2.2 rfl rfl).2⟩

/-- C14. Cancelling a multiplication: each of the four workers, invoked with
`interrupted = true` while its progress record exists, runs no iteration of its loop:
it calls the completion once with (ERR_INTERRUPTED, NULL), releases the result and
the progress record, once each, and returns what the completion returned; for the
caller's completion the state changes by exactly these three log entries and the
loss of the progress record, and the value returned is ERR_INTERRUPTED when the
completion hands back the error it was given. -/
theorem matrix_mul_worker_interrupted (env : phloat_env) (cb : Err → Option vartype → Err)
    (st : core_state) :
    (∀ dat : mul_rr_data_struct, st.mul_rr_data = some dat →
      matrix_mul_rr_worker env cb true st
        = (call_completion cb dat.completion ERR_INTERRUPTED none st).map
            (fun r => (r.1,
              { release obj.dat (release obj.dat_result r.2) with mul_rr_data := none })) ∧
      (dat.completion = completion_ref.caller →
        matrix_mul_rr_worker env cb true st
          = some (cb ERR_INTERRUPTED none,
              { st with
                log := st.log ++ [event.completion ERR_INTERRUPTED none,
                  event.free obj.dat_result, event.free obj.dat],
                mul_rr_data := none }) ∧
        (cb ERR_INTERRUPTED none = ERR_INTERRUPTED →
          (matrix_mul_rr_worker env cb true st).map (fun r => r.1) = some ERR_INTERRUPTED))) ∧
    (∀ dat : mul_rc_data_struct, st.mul_rc_data = some dat →
      matrix_mul_rc_worker env cb true st
        = (call_completion cb dat.completion ERR_INTERRUPTED none st).map
            (fun r => (r.1,
              { release obj.dat (release obj.dat_result r.2) with mul_rc_data := none })) ∧
      (dat.completion = completion_ref.caller →
        matrix_mul_rc_worker env cb true st
          = some (cb ERR_INTERRUPTED none,
              { st with
                log := st.log ++ [event.completion ERR_INTERRUPTED none,
                  event.free obj.dat_result, event.free obj.dat],
                mul_rc_data := none }) ∧
        (cb ERR_INTERRUPTED none = ERR_INTERRUPTED →
          (matrix_mul_rc_worker env cb true st).map (fun r => r.1) = some ERR_INTERRUPTED))) ∧
    (∀ dat : mul_cr_data_struct, st.mul_cr_data = some dat →
      matrix_mul_cr_worker env cb true st
        = (call_completion cb dat.completion ERR_INTERRUPTED none st).map
            (fun r => (r.1,
              { release obj.dat (release obj.dat_result r.2) with mul_cr_data := none })) ∧
      (dat.completion = completion_ref.caller →
        matrix_mul_cr_worker env cb true st
          = some (cb ERR_INTERRUPTED none,
              { st with
                log := st.log ++ [event.completion ERR_INTERRUPTED none,
                  event.free obj.dat_result, event.free obj.dat],
                mul_cr_data := none }) ∧
        (cb ERR_INTERRUPTED none = ERR_INTERRUPTED →
          (matrix_mul_cr_worker env cb true st).map (fun r => r.1) = some ERR_INTERRUPTED))) ∧
    (∀ dat : mul_cc_data_struct, st.mul_cc_data = some dat →
      matrix_mul_cc_worker env cb true st
        = (call_completion cb dat.completion ERR_INTERRUPTED none st).map
            (fun r => (r.1,
              { release obj.dat (release obj.dat_result r.2) with mul_cc_data := none })) ∧
      (dat.completion = completion_ref.caller →
        matrix_mul_cc_worker env cb true st
          = some (cb ERR_INTERRUPTED none,
              { st with
                log := st.log ++ [event.completion ERR_INTERRUPTED none,
                  event.free obj.dat_result, event.free obj.dat],
                mul_cc_data := none }) ∧
        (cb ERR_INTERRUPTED none = ERR_INTERRUPTED →
          (matrix_mul_cc_worker env cb true st).map (fun r => r.1) = some ERR_INTERRUPTED))) := by
  refine ⟨?_, ?_, ?_, ?_⟩
  · intro dat hdat
    have h1 : matrix_mul_rr_worker env cb true st
        = (call_completion cb dat.completion ERR_INTERRUPTED none st).map
            (fun r => (r.1,
              { release obj.dat (release obj.dat_result r.2) with mul_rr_data := none })) := by
      simp only [matrix_mul_rr_worker, hdat, if_true]
      rcases call_completion cb dat.completion ERR_INTERRUPTED none st with _ | r <;> rfl
    refine ⟨h1, fun hc => ?_⟩
    rw [h1, hc]
    constructor
    · simp [call_completion, release]
    · intro hcb
      simp [call_completion, hcb]
  · intro dat hdat
    have h1 : matrix_mul_rc_worker env cb true st
        = (call_completion cb dat.completion ERR_INTERRUPTED none st).map
            (fun r => (r.1,
              { release obj.dat (release obj.dat_result r.2) with mul_rc_data := none })) := by
      simp only [matrix_mul_rc_worker, hdat, if_true]
      rcases call_completion cb dat.completion ERR_INTERRUPTED none st with _ | r <;> rfl
    refine ⟨h1, fun hc => ?_⟩
    rw [h1, hc]
    constructor
    · simp [call_completion, release]
    · intro hcb
      simp [call_completion, hcb]
  · intro dat hdat
    have h1 : matrix_mul_cr_worker env cb true st
        = (call_completion cb dat.completion ERR_INTERRUPTED none st).map
            (fun r => (r.1,
              { release obj.dat (release obj.dat_result r.2) with mul_cr_data := none })) := by
      simp only [matrix_mul_cr_worker, hdat, if_true]
      rcases call_completion cb dat.completion ERR_INTERRUPTED none st with _ | r <;> rfl
    refine ⟨h1, fun hc => ?_⟩
    rw [h1, hc]
    constructor
    · simp [call_completion, release]
    · intro hcb
      simp [call_completion, hcb]
  · intro dat hdat
    have h1 : matrix_mul_cc_worker env cb true st
        = (call_completion cb dat.completion ERR_INTERRUPTED none st).map
            (fun r => (r.1,
              { release obj.dat (release obj.dat_result r.2) with mul_cc_data := none })) := by
      simp only [matrix_mul_cc_worker, hdat, if_true]
      rcases call_completion cb dat.completion ERR_INTERRUPTED none st with _ | r <;> rfl
    refine ⟨h1, fun hc => ?_⟩
    rw [h1, hc]
    constructor
    · simp [call_completion, release]
    · intro hcb
      simp [call_completion, hcb]

/-- C14, witness: the product `[1,2,3]` times `[4,5,6]ᵗ` cancelled at its first re-entry. -/
theorem matrix_mul_worker_interrupted_witness :
    linalg_mul cb_id row_123 col_456 completion_ref.caller st_idle
      = some (ERR_INTERRUPTIBLE, st_started) ∧
    matrix_mul_rr_worker env_exact cb_id true st_started
      = some (ERR_INTERRUPTED,
          { st_started with
            log := [event.completion ERR_INTERRUPTED none,
              event.free obj.dat_result, event.free obj.dat],
            mul_rr_data := none }) :=
  ⟨rfl, ((matrix_mul_worker_interrupted env_exact cb_id st_started).1 dat_started rfl).2 rfl |>.1⟩

theorem check_sum_clamp (env : phloat_env) (st : core_state) (s : phloat)
    (hflags : st.matrix_outofrange = false ∨ st.range_error_ignore = true) :
    check_sum env st s = some (clamp env s) := by
  simp only [check_sum, clamp]
  rcases hflags with h | h <;> simp [h] <;> split_ifs <;> rfl

/-- A multiplication in which no completed dot product fails the range policy runs to
its end: `linalg_mul` installs the worker, a number of re-entries suspend without
touching the log, and the next one passes to the completion, with ERR_NONE, the matrix
of the stored values of the completed dot products. -/
theorem linalg_mul_finishes (env : phloat_env) (cb : Err → Option vartype → Err)
    (st : core_state) (left right : vartype)
    (hwl : mat_wf left) (hwr : mat_wf right)
    (hdim : mat_columns left = mat_rows right)
    (ha1 : (alloc_next st).1 = true) (ha2 : (alloc_next (alloc_next st).2).1 = true)
    (hc : ∀ i j, i < mat_rows left → j < mat_columns right →
      (dot_check env st left right i j).isSome) :
    ∃ (st1 : core_state) (N : Nat) (stN : core_state) (res : vartype) (stE : core_state),
      linalg_mul cb left right completion_ref.caller st = some (ERR_INTERRUPTIBLE, st1) ∧
      suspended_after env cb N st1 = some stN ∧
      stN.log = st.log ∧
      reenter env cb false stN = some (cb ERR_NONE (some res), stE) ∧
      stE.log = st.log ++ [event.completion ERR_NONE (some res), event.free obj.dat] ∧
      mat_rows res = mat_rows left ∧ mat_columns res = mat_columns right ∧
      ∀ i j, i < mat_rows left → j < mat_columns right →
        dot_check env st left right i j = some (mat_entry res i j) := by
  cases left with
  | realmatrix l =>
    cases right with
    | realmatrix r =>
      obtain ⟨hm, hq, hl, hs⟩ := hwl
      obtain ⟨hq2, hn, hr, hs2⟩ := hwr
      simp only [mat_columns, mat_rows] at hdim
      simp only [dot_check, dot_acc, is_real_matrix, Bool.and_self, if_true, mat_rows,
        mat_columns, Option.isSome_map'] at hc
      obtain ⟨st1, stN, stF, p1, h1, h2, h3, h4, h5, h6, h7, h8, h9, h10⟩ :=
        matrix_mul_rr_run env cb st l r completion_ref.caller hdim hl hr hm hq hn hs hs2 ha1 ha2
          hc
      obtain ⟨stE, hE1, hE2⟩ : ∃ stE, reenter env cb false stN
          = some (cb ERR_NONE (some (vartype.realmatrix
              { new_realmatrix l.rows r.columns with data := p1 })), stE) ∧
          stE.log = st.log ++ [event.completion ERR_NONE (some (vartype.realmatrix
              { new_realmatrix l.rows r.columns with data := p1 })), event.free obj.dat] :=
        ⟨_, by rw [h6]; rfl, by simp [release, h7]⟩
      refine ⟨st1, _, stN, _, stE, h1, h4, h5, hE1, hE2, rfl, rfl, ?_⟩
      intro i j hi hj
      simp only [mat_rows, mat_columns] at hi hj
      have hidx := lin_index2_lt hi hj
      have := h10 _ hidx
      obtain ⟨d1, d2⟩ := div_mod_lin (i := i) hj
      simp only [stored_rr, d1, d2, read1] at this
      obtain ⟨v, hv⟩ := Option.isSome_iff_exists.1 (hc i j hi hj)
      simp only [dot_check, dot_acc, is_real_matrix, Bool.and_self, if_true, hv, Option.map_some',
        mat_entry, new_realmatrix, this, Option.getD_some]
    | complexmatrix r =>
      obtain ⟨hm, hq, hl, hs⟩ := hwl
      obtain ⟨hq2, hn, hr⟩ := hwr
      simp only [mat_columns, mat_rows] at hdim
      simp only [dot_check, dot_acc, is_real_matrix, Bool.and_false, Bool.false_and,
        Bool.and_self, Bool.false_eq_true, if_false, mat_rows, mat_columns] at hc
      obtain ⟨st1, stN, stF, p1, h1, h2, h3, h4, h5, h6, h7, h8, h9, h10⟩ :=
        matrix_mul_rc_run env cb st l r completion_ref.caller hdim hl hr hm hq hn hs ha1 ha2
          hc
      obtain ⟨stE, hE1, hE2⟩ : ∃ stE, reenter env cb false stN
          = some (cb ERR_NONE (some (vartype.complexmatrix
              { new_complexmatrix l.rows r.columns with data := p1 })), stE) ∧
          stE.log = st.log ++ [event.completion ERR_NONE (some (vartype.complexmatrix
              { new_complexmatrix l.rows r.columns with data := p1 })), event.free obj.dat] :=
        ⟨_, by rw [h6]; rfl, by simp [release, h7]⟩
      refine ⟨st1, _, stN, _, stE, h1, h4, h5, hE1, hE2, rfl, rfl, ?_⟩
      intro i j hi hj
      simp only [mat_rows, mat_columns] at hi hj
      have hidx := lin_index2_lt hi hj
      have := h10 _ hidx
      obtain ⟨d1, d2⟩ := div_mod_lin (i := i) hj
      simp only [stored_c, d1, d2, read2] at this
      obtain ⟨v, hv⟩ := Option.isSome_iff_exists.1 (hc i j hi hj)
      simp only [dot_check, dot_acc, is_real_matrix, Bool.and_false, Bool.false_and,
        Bool.and_self, Bool.false_eq_true, if_false, hv, mat_entry, new_complexmatrix]
      rw [hv] at this
      exact congrArg some this.symm
    | _ => exact hwr.elim
  | complexmatrix l =>
    cases right with
    | realmatrix r =>
      obtain ⟨hm, hq, hl⟩ := hwl
      obtain ⟨hq2, hn, hr, hs⟩ := hwr
      simp only [mat_columns, mat_rows] at hdim
      simp only [dot_check, dot_acc, is_real_matrix, Bool.and_false, Bool.false_and,
        Bool.and_self, Bool.false_eq_true, if_false, mat_rows, mat_columns] at hc
      obtain ⟨st1, stN, stF, p1, h1, h2, h3, h4, h5, h6, h7, h8, h9, h10⟩ :=
        matrix_mul_cr_run env cb st l r completion_ref.caller hdim hl hr hm hq hn hs ha1 ha2
          hc
      obtain ⟨stE, hE1, hE2⟩ : ∃ stE, reenter env cb false stN
          = some (cb ERR_NONE (some (vartype.complexmatrix
              { new_complexmatrix l.rows r.columns with data := p1 })), stE) ∧
          stE.log = st.log ++ [event.completion ERR_NONE (some (vartype.complexmatrix
              { new_complexmatrix l.rows r.columns with data := p1 })), event.free obj.dat] :=
        ⟨_, by rw [h6]; rfl, by simp [release, h7]⟩
      refine ⟨st1, _, stN, _, stE, h1, h4, h5, hE1, hE2, rfl, rfl, ?_⟩
      intro i j hi hj
      simp only [mat_rows, mat_columns] at hi hj
      have hidx := lin_index2_lt hi hj
      have := h10 _ hidx
      obtain ⟨d1, d2⟩ := div_mod_lin (i := i) hj
      simp only [stored_c, d1, d2, read2] at this
      obtain ⟨v, hv⟩ := Option.isSome_iff_exists.1 (hc i j hi hj)
      simp only [dot_check, dot_acc, is_real_matrix, Bool.and_false, Bool.false_and,
        Bool.and_self, Bool.false_eq_true, if_false, hv, mat_entry, new_complexmatrix]
      rw [hv] at this
      exact congrArg some this.symm
    | complexmatrix r =>
      obtain ⟨hm, hq, hl⟩ := hwl
      obtain ⟨hq2, hn, hr⟩ := hwr
      simp only [mat_columns, mat_rows] at hdim
      simp only [dot_check, dot_acc, is_real_matrix, Bool.and_false, Bool.false_and,
        Bool.and_self, Bool.false_eq_true, if_false, mat_rows, mat_columns] at hc
      obtain ⟨st1, stN, stF, p1, h1, h2, h3, h4, h5, h6, h7, h8, h9, h10⟩ :=
        matrix_mul_cc_run env cb st l r completion_ref.caller hdim hl hr hm hq hn ha1 ha2
          hc
      obtain ⟨stE, hE1, hE2⟩ : ∃ stE, reenter env cb false stN
          = some (cb ERR_NONE (some (vartype.complexmatrix
              { new_complexmatrix l.rows r.columns with data := p1 })), stE) ∧
          stE.log = st.log ++ [event.completion ERR_NONE (some (vartype.complexmatrix
              { new_complexmatrix l.rows r.columns with data := p1 })), event.free obj.dat] :=
        ⟨_, by rw [h6]; rfl, by simp [release, h7]⟩
      refine ⟨st1, _, stN, _, stE, h1, h4, h5, hE1, hE2, rfl, rfl, ?_⟩
      intro i j hi hj
      simp only [mat_rows, mat_columns] at hi hj
      have hidx := lin_index2_lt hi hj
      have := h10 _ hidx
      obtain ⟨d1, d2⟩ := div_mod_lin (i := i) hj
      simp only [stored_c, d1, d2, read2] at this
      obtain ⟨v, hv⟩ := Option.isSome_iff_exists.1 (hc i j hi hj)
      simp only [dot_check, dot_acc, is_real_matrix, Bool.and_false, Bool.false_and,
        Bool.and_self, Bool.false_eq_true, if_false, hv, mat_entry, new_complexmatrix]
      rw [hv] at this
      exact congrArg some this.symm
    | _ => exact hwr.elim
  | _ => exact hwl.elim

theorem check_acc_clamp (env : phloat_env) (st : core_state) (a : xphloat)
    (hflags : st.matrix_outofrange = false ∨ st.range_error_ignore = true) :
    check_acc env st a = some (clamp_acc env a) := by
  cases a with
  | num x => exact check_sum_clamp env st x hflags
  | inf s => rcases hflags with h | h <;> simp [check_acc, clamp_acc, h]
  | nan => rfl

theorem dot_check_clamp (env : phloat_env) (st : core_state) (left right : vartype)
    (i j : Nat) (hflags : st.matrix_outofrange = false ∨ st.range_error_ignore = true) :
    dot_check env st left right i j
      = some (clamp_acc env (dot_acc env left right i j).1,
          if is_real_matrix left && is_real_matrix right then 0
          else clamp_acc env (dot_acc env left right i j).2) := by
  simp only [dot_check]
  split_ifs with h
  · simp [check_acc_clamp env st _ hflags]
  · simp [check_acc2, check_acc_clamp env st _ hflags]

/-- C15. Overflow clamp in multiplication.  With `core_settings.matrix_outofrange` off or
`flags.f.range_error_ignore` set, for well-formed numeric operands of equal inner
dimensions and successful allocation, the multiplication never fails on range: after
`N` suspended re-entries the next one calls the completion, once, with ERR_NONE and a
result in which every completed dot product (`dot_acc`, the sum as the worker
accumulates it) that is plus infinity has been replaced by POS_HUGE_PHLOAT and every
one that is minus infinity by NEG_HUGE_PHLOAT, real and imaginary parts separately; a
sum that is a number in range is stored as it is. -/
theorem linalg_mul_clamps (env : phloat_env) (cb : Err → Option vartype → Err)
    (st : core_state) (left right : vartype)
    (hwl : mat_wf left) (hwr : mat_wf right)
    (hdim : mat_columns left = mat_rows right)
    (ha1 : (alloc_next st).1 = true) (ha2 : (alloc_next (alloc_next st).2).1 = true)
    (hflags : st.matrix_outofrange = false ∨ st.range_error_ignore = true) :
    ∃ (st1 : core_state) (N : Nat) (stN : core_state) (res : vartype) (stE : core_state),
      linalg_mul cb left right completion_ref.caller st = some (ERR_INTERRUPTIBLE, st1) ∧
      suspended_after env cb N st1 = some stN ∧
      reenter env cb false stN = some (cb ERR_NONE (some res), stE) ∧
      stE.log = st.log ++ [event.completion ERR_NONE (some res), event.free obj.dat] ∧
      ∀ i j, i < mat_rows left → j < mat_columns right →
        mat_entry res i j
            = (clamp_acc env (dot_acc env left right i j).1,
               if is_real_matrix left && is_real_matrix right then 0
               else clamp_acc env (dot_acc env left right i j).2) ∧
        ((dot_acc env left right i j).1 = xphloat.inf false →
          (mat_entry res i j).1 = env.POS_HUGE_PHLOAT) ∧
        ((dot_acc env left right i j).1 = xphloat.inf true →
          (mat_entry res i j).1 = env.NEG_HUGE_PHLOAT) ∧
        ((is_real_matrix left && is_real_matrix right) = false →
          ((dot_acc env left right i j).2 = xphloat.inf false →
            (mat_entry res i j).2 = env.POS_HUGE_PHLOAT) ∧
          ((dot_acc env left right i j).2 = xphloat.inf true →
            (mat_entry res i j).2 = env.NEG_HUGE_PHLOAT)) ∧
        (∀ x, (dot_acc env left right i j).1 = xphloat.num x → env.p_isinf x = 0 →
          (mat_entry res i j).1 = x) := by
  obtain ⟨st1, N, stN, res, stE, h1, h2, _, h4, h5, _, _, h8⟩ :=
    linalg_mul_finishes env cb st left right hwl hwr hdim ha1 ha2
      (fun i j _ _ => by rw [dot_check_clamp env st left right i j hflags]; rfl)
  refine ⟨st1, N, stN, res, stE, h1, h2, h4, h5, ?_⟩
  intro i j hi hj
  have h := h8 i j hi hj
  rw [dot_check_clamp env st left right i j hflags, Option.some.injEq] at h
  refine ⟨h.symm, ?_, ?_, ?_, ?_⟩
  · intro hinf
    rw [← h, hinf]
    rfl
  · intro hinf
    rw [← h, hinf]
    rfl
  · intro hreal
    constructor
    · intro hinf
      rw [← h, hreal, hinf]
      rfl
    · intro hinf
      rw [← h, hreal, hinf]
      rfl
  · intro x hx hfin
    rw [← h, hx]
    simp [clamp_acc, clamp, hfin]

/-- C15, witness: in `env_small` the dot product of `[10,20,30]` and `[4,5,6]ᵗ` overflows
at its second partial sum, 40 + 100, stays plus infinity to the end and is delivered
as POS_HUGE_PHLOAT = 100. -/
theorem linalg_mul_clamps_witness :
    ∃ (st1 : core_state) (N : Nat) (stN : core_state) (res : vartype) (stE : core_state),
      linalg_mul cb_id row_big col_456 completion_ref.caller st_no_range_error
        = some (ERR_INTERRUPTIBLE, st1) ∧
      suspended_after env_small cb_id N st1 = some stN ∧
      reenter env_small cb_id false stN = some (ERR_NONE, stE) ∧
      stE.log = [event.completion ERR_NONE (some res), event.free obj.dat] ∧
      mat_entry res 0 0 = (100, 0) := by
  obtain ⟨st1, N, stN, res, stE, h1, h2, h3, h4, h5⟩ :=
    linalg_mul_clamps env_small cb_id st_no_range_error row_big col_456
      ⟨by decide, by decide, rfl, rfl⟩ ⟨by decide, by decide, rfl, rfl⟩ rfl rfl rfl
      (Or.inl rfl)
  refine ⟨st1, N, stN, res, stE, h1, h2, h3, h4, ?_⟩
  rw [(h5 0 0 (by decide) (by decide)).1]
  have e : (dot_acc env_small row_big col_456 0 0).1 = xphloat.inf false := by
    simp [dot_acc, row_big, col_456, acc_rr, psum, xterm_rr, term_rr, xnum, xadd, env_small]
    norm_num
  rw [e]
  simp [clamp_acc, env_small, is_real_matrix, row_big, col_456]

theorem check_acc_isSome (env : phloat_env) (st : core_state) (a : xphloat)
    (h : xisinf env a = 0) : (check_acc env st a).isSome := by
  cases a with
  | num x =>
    simp only [xisinf] at h
    simp [check_acc, check_sum, h]
  | inf s => cases s <;> simp [xisinf] at h
  | nan => rfl

theorem check_acc_none (env : phloat_env) (st : core_state) (a : xphloat)
    (h : xisinf env a ≠ 0) (hmo : st.matrix_outofrange = true)
    (hrei : st.range_error_ignore = false) : check_acc env st a = none := by
  cases a with
  | num x =>
    simp only [xisinf] at h
    simp [check_acc, check_sum, h, hmo, hrei]
  | inf s => simp [check_acc, hmo, hrei]
  | nan => simp [xisinf] at h

theorem check_acc2_isSome (env : phloat_env) (st : core_state) (a : xphloat × xphloat)
    (h : xisinf env a.1 = 0 ∧ xisinf env a.2 = 0) : (check_acc2 env st a).isSome := by
  obtain ⟨v, hv⟩ := Option.isSome_iff_exists.1 (check_acc_isSome env st a.1 h.1)
  obtain ⟨w, hw⟩ := Option.isSome_iff_exists.1 (check_acc_isSome env st a.2 h.2)
  simp [check_acc2, hv, hw]

theorem check_acc2_none (env : phloat_env) (st : core_state) (a : xphloat × xphloat)
    (h : xisinf env a.1 ≠ 0 ∨ xisinf env a.2 ≠ 0) (hmo : st.matrix_outofrange = true)
    (hrei : st.range_error_ignore = false) : check_acc2 env st a = none := by
  simp only [check_acc2]
  rcases h with h | h
  · rw [check_acc_none env st a.1 h hmo hrei]
  · rw [check_acc_none env st a.2 h hmo hrei]
    cases check_acc env st a.1 <;> rfl

theorem check_acc_value (env : phloat_env) (st : core_state) (a : xphloat)
    (h : xisinf env a ≠ 0 → st.matrix_outofrange = true → st.range_error_ignore = false →
      False) :
    check_acc env st a = some (clamp_acc env a) := by
  by_cases hf : st.matrix_outofrange = false ∨ st.range_error_ignore = true
  · exact check_acc_clamp env st a hf
  · have hmo : st.matrix_outofrange = true := by
      cases hm : st.matrix_outofrange
      · exact absurd (Or.inl hm) hf
      · rfl
    have hrei : st.range_error_ignore = false := by
      cases hr : st.range_error_ignore
      · rfl
      · exact absurd (Or.inr hr) hf
    have h0 : xisinf env a = 0 := by
      by_contra hne
      exact h hne hmo hrei
    cases a with
    | num x =>
      simp only [xisinf] at h0
      simp [check_acc, check_sum, clamp_acc, clamp, h0]
    | inf s => cases s <;> simp [xisinf] at h0
    | nan => rfl

theorem dot_check_value (env : phloat_env) (st : core_state) (left right : vartype)
    (i j : Nat)
    (h : dot_infinite env left right i j → st.matrix_outofrange = true →
      st.range_error_ignore = false → False) :
    dot_check env st left right i j
      = some (clamp_acc env (dot_acc env left right i j).1,
          if is_real_matrix left && is_real_matrix right then 0
          else clamp_acc env (dot_acc env left right i j).2) := by
  simp only [dot_check]
  split_ifs with hreal
  · rw [check_acc_value env st _ (fun h1 => h (Or.inl h1))]
    rfl
  · have hreal2 : (is_real_matrix left && is_real_matrix right) = false := by simpa using hreal
    simp only [check_acc2]
    rw [check_acc_value env st _ (fun h1 => h (Or.inl h1)),
      check_acc_value env st _ (fun h1 => h (Or.inr ⟨hreal2, h1⟩))]

/-- A multiplication in which the completed dot product of element `(i0, j0)` fails the
range policy and none before it (in row-major order) does: `linalg_mul` installs the
worker, `T = ((i0·n + j0 + 1)·q - 1) / 1000` re-entries suspend without touching the
log, and the next one calls the completion with (ERR_OUT_OF_RANGE, NULL), releases the
result buffer and the progress record and returns what the completion returned.  At
the completion call the result buffer holds the stored values before `(i0, j0)` and
zeros from there on. -/
theorem linalg_mul_fails (env : phloat_env) (cb : Err → Option vartype → Err)
    (st : core_state) (left right : vartype)
    (hwl : mat_wf left) (hwr : mat_wf right)
    (hdim : mat_columns left = mat_rows right)
    (ha1 : (alloc_next st).1 = true) (ha2 : (alloc_next (alloc_next st).2).1 = true)
    (i0 j0 : Nat) (hi0 : i0 < mat_rows left) (hj0 : j0 < mat_columns right)
    (hgood : ∀ i j, i < mat_rows left → j < mat_columns right →
      i * mat_columns right + j < i0 * mat_columns right + j0 →
      (dot_check env st left right i j).isSome)
    (hbad : dot_check env st left right i0 j0 = none) :
    ∃ (st1 stN stF : core_state) (res : vartype),
      linalg_mul cb left right completion_ref.caller st = some (ERR_INTERRUPTIBLE, st1) ∧
      suspended_after env cb
        (((i0 * mat_columns right + j0 + 1) * mat_columns left - 1) / 1000) st1
        = some stN ∧
      stN.log = st.log ∧
      mul_progress stN
        = some (1000 *
            (((i0 * mat_columns right + j0 + 1) * mat_columns left - 1) / 1000)) ∧
      stF.log = st.log ∧
      reenter env cb false stN
        = some (cb ERR_OUT_OF_RANGE none,
            mul_task_end
              { stF with log := stF.log ++ [event.completion ERR_OUT_OF_RANGE none] }) ∧
      (mul_task_end
          { stF with log := stF.log ++ [event.completion ERR_OUT_OF_RANGE none] }).log
        = st.log ++ [event.completion ERR_OUT_OF_RANGE none, event.free obj.dat_result,
            event.free obj.dat] ∧
      mul_result stF = some res ∧
      (mat_rows res = mat_rows left ∧ mat_columns res = mat_columns right) ∧
      (∀ i j, i < mat_rows left → j < mat_columns right →
        i * mat_columns right + j < i0 * mat_columns right + j0 →
        dot_check env st left right i j = some (mat_entry res i j)) ∧
      (∀ i j, i < mat_rows left → j < mat_columns right →
        i0 * mat_columns right + j0 ≤ i * mat_columns right + j →
        mat_entry res i j = (0, 0)) := by
  cases left with
  | realmatrix l =>
    cases right with
    | realmatrix r =>
      obtain ⟨hm, hq, hl, hs⟩ := hwl
      obtain ⟨hq2, hn, hr, hs2⟩ := hwr
      simp only [mat_columns, mat_rows] at hdim hi0 hj0
      simp only [dot_check, dot_acc, is_real_matrix, Bool.and_self, if_true, mat_rows,
        mat_columns, Option.isSome_map', Option.map_eq_none'] at hgood hbad
      obtain ⟨st1, stN, stF, p1, h1, h2, h3, h4, h5, h6, h7, h8, h9, ⟨hmode, d, hd1, hd2⟩,
          hp2, hp3, hp4⟩ :=
        matrix_mul_rr_fail_run env cb st l r completion_ref.caller hdim hl hr hm hq hn hs hs2 ha1 ha2
          (i0 * r.columns + j0) (lin_index2_lt hi0 hj0)
          (fun i j hi hj hlt => hgood i j hi hj hlt)
          (fun i j hi hj he => by
            have hij : i = i0 ∧ j = j0 := by
              have e1 := div_mod_lin (n := r.columns) (i := i) hj
              have e2 := div_mod_lin (n := r.columns) (i := i0) hj0
              rw [he] at e1
              exact ⟨e1.1.symm.trans e2.1, e1.2.symm.trans e2.2⟩
            rw [hij.1, hij.2]
            exact hbad)
      refine ⟨st1, stN, stF, vartype.realmatrix d.result, h1, h4, h5, h6, h8, ?_, ?_, ?_, ?_, ?_, ?_⟩
      · rw [h7]
        simp only [call_completion, Option.map_some', mul_task_end, hmode]
      · simp only [mul_task_end, hmode, release, h8, List.append_assoc, List.singleton_append,
          List.cons_append, List.nil_append]
      · simp only [mul_result, hmode, hd1, Option.map_some']
      · simp only [mat_rows, mat_columns, hd2, new_realmatrix, and_self]
      · intro i j hi hj hlt
        simp only [mat_rows, mat_columns] at hi hj hlt
        have h11 := hp3 _ hlt
        obtain ⟨d1, d2⟩ := div_mod_lin (i := i) hj
        simp only [stored_rr, d1, d2, read1] at h11
        obtain ⟨w, hw⟩ := Option.isSome_iff_exists.1 (hgood i j hi hj hlt)
        simp only [dot_check, dot_acc, is_real_matrix, Bool.and_self, if_true, hw,
          Option.map_some', mat_entry, hd2, new_realmatrix, h11, Option.getD_some]
      · intro i j hi hj hge
        simp only [mat_rows, mat_columns] at hi hj hge
        have h12 := hp4 _ hge
        simp only [read1] at h12
        simp only [mat_entry, hd2, new_realmatrix, h12]
    | complexmatrix r =>
      obtain ⟨hm, hq, hl, hs⟩ := hwl
      obtain ⟨hq2, hn, hr⟩ := hwr
      simp only [mat_columns, mat_rows] at hdim hi0 hj0
      simp only [dot_check, dot_acc, is_real_matrix, Bool.and_false, Bool.false_and,
        Bool.and_self, Bool.false_eq_true, if_false, mat_rows, mat_columns] at hgood hbad
      obtain ⟨st1, stN, stF, p1, h1, h2, h3, h4, h5, h6, h7, h8, h9, ⟨hmode, d, hd1, hd2⟩,
          hp2, hp3, hp4⟩ :=
        matrix_mul_rc_fail_run env cb st l r completion_ref.caller hdim hl hr hm hq hn hs ha1 ha2
          (i0 * r.columns + j0) (lin_index2_lt hi0 hj0)
          (fun i j hi hj hlt => hgood i j hi hj hlt)
          (fun i j hi hj he => by
            have hij : i = i0 ∧ j = j0 := by
              have e1 := div_mod_lin (n := r.columns) (i := i) hj
              have e2 := div_mod_lin (n := r.columns) (i := i0) hj0
              rw [he] at e1
              exact ⟨e1.1.symm.trans e2.1, e1.2.symm.trans e2.2⟩
            rw [hij.1, hij.2]
            exact hbad)
      refine ⟨st1, stN, stF, vartype.complexmatrix d.result, h1, h4, h5, h6, h8, ?_, ?_, ?_, ?_, ?_, ?_⟩
      · rw [h7]
        simp only [call_completion, Option.map_some', mul_task_end, hmode]
      · simp only [mul_task_end, hmode, release, h8, List.append_assoc, List.singleton_append,
          List.cons_append, List.nil_append]
      · simp only [mul_result, hmode, hd1, Option.map_some']
      · simp only [mat_rows, mat_columns, hd2, new_complexmatrix, and_self]
      · intro i j hi hj hlt
        simp only [mat_rows, mat_columns] at hi hj hlt
        have h11 := hp3 _ hlt
        obtain ⟨d1, d2⟩ := div_mod_lin (i := i) hj
        simp only [stored_c, d1, d2, read2] at h11
        obtain ⟨w, hw⟩ := Option.isSome_iff_exists.1 (hgood i j hi hj hlt)
        simp only [dot_check, dot_acc, is_real_matrix, Bool.and_false, Bool.false_and,
          Bool.and_self, Bool.false_eq_true, if_false, mat_entry, hd2, new_complexmatrix]
        rw [hw] at h11 ⊢
        exact congrArg some h11.symm
      · intro i j hi hj hge
        simp only [mat_rows, mat_columns] at hi hj hge
        have h12 := hp4 _ hge
        simp only [read2] at h12
        simp only [mat_entry, hd2, new_complexmatrix]
        exact h12
    | _ => exact hwr.elim
  | complexmatrix l =>
    cases right with
    | realmatrix r =>
      obtain ⟨hm, hq, hl⟩ := hwl
      obtain ⟨hq2, hn, hr, hs2⟩ := hwr
      simp only [mat_columns, mat_rows] at hdim hi0 hj0
      simp only [dot_check, dot_acc, is_real_matrix, Bool.and_false, Bool.false_and,
        Bool.and_self, Bool.false_eq_true, if_false, mat_rows, mat_columns] at hgood hbad
      obtain ⟨st1, stN, stF, p1, h1, h2, h3, h4, h5, h6, h7, h8, h9, ⟨hmode, d, hd1, hd2⟩,
          hp2, hp3, hp4⟩ :=
        matrix_mul_cr_fail_run env cb st l r completion_ref.caller hdim hl hr hm hq hn hs2 ha1 ha2
          (i0 * r.columns + j0) (lin_index2_lt hi0 hj0)
          (fun i j hi hj hlt => hgood i j hi hj hlt)
          (fun i j hi hj he => by
            have hij : i = i0 ∧ j = j0 := by
              have e1 := div_mod_lin (n := r.columns) (i := i) hj
              have e2 := div_mod_lin (n := r.columns) (i := i0) hj0
              rw [he] at e1
              exact ⟨e1.1.symm.trans e2.1, e1.2.symm.trans e2.2⟩
            rw [hij.1, hij.2]
            exact hbad)
      refine ⟨st1, stN, stF, vartype.complexmatrix d.result, h1, h4, h5, h6, h8, ?_, ?_, ?_, ?_, ?_, ?_⟩
      · rw [h7]
        simp only [call_completion, Option.map_some', mul_task_end, hmode]
      · simp only [mul_task_end, hmode, release, h8, List.append_assoc, List.singleton_append,
          List.cons_append, List.nil_append]
      · simp only [mul_result, hmode, hd1, Option.map_some']
      · simp only [mat_rows, mat_columns, hd2, new_complexmatrix, and_self]
      · intro i j hi hj hlt
        simp only [mat_rows, mat_columns] at hi hj hlt
        have h11 := hp3 _ hlt
        obtain ⟨d1, d2⟩ := div_mod_lin (i := i) hj
        simp only [stored_c, d1, d2, read2] at h11
        obtain ⟨w, hw⟩ := Option.isSome_iff_exists.1 (hgood i j hi hj hlt)
        simp only [dot_check, dot_acc, is_real_matrix, Bool.and_false, Bool.false_and,
          Bool.and_self, Bool.false_eq_true, if_false, mat_entry, hd2, new_complexmatrix]
        rw [hw] at h11 ⊢
        exact congrArg some h11.symm
      · intro i j hi hj hge
        simp only [mat_rows, mat_columns] at hi hj hge
        have h12 := hp4 _ hge
        simp only [read2] at h12
        simp only [mat_entry, hd2, new_complexmatrix]
        exact h12
    | complexmatrix r =>
      obtain ⟨hm, hq, hl⟩ := hwl
      obtain ⟨hq2, hn, hr⟩ := hwr
      simp only [mat_columns, mat_rows] at hdim hi0 hj0
      simp only [dot_check, dot_acc, is_real_matrix, Bool.and_false, Bool.false_and,
        Bool.and_self, Bool.false_eq_true, if_false, mat_rows, mat_columns] at hgood hbad
      obtain ⟨st1, stN, stF, p1, h1, h2, h3, h4, h5, h6, h7, h8, h9, ⟨hmode, d, hd1, hd2⟩,
          hp2, hp3, hp4⟩ :=
        matrix_mul_cc_fail_run env cb st l r completion_ref.caller hdim hl hr hm hq hn ha1 ha2
          (i0 * r.columns + j0) (lin_index2_lt hi0 hj0)
          (fun i j hi hj hlt => hgood i j hi hj hlt)
          (fun i j hi hj he => by
            have hij : i = i0 ∧ j = j0 := by
              have e1 := div_mod_lin (n := r.columns) (i := i) hj
              have e2 := div_mod_lin (n := r.columns) (i := i0) hj0
              rw [he] at e1
              exact ⟨e1.1.symm.trans e2.1, e1.2.symm.trans e2.2⟩
            rw [hij.1, hij.2]
            exact hbad)
      refine ⟨st1, stN, stF, vartype.complexmatrix d.result, h1, h4, h5, h6, h8, ?_, ?_, ?_, ?_, ?_, ?_⟩
      · rw [h7]
        simp only [call_completion, Option.map_some', mul_task_end, hmode]
      · simp only [mul_task_end, hmode, release, h8, List.append_assoc, List.singleton_append,
          List.cons_append, List.nil_append]
      · simp only [mul_result, hmode, hd1, Option.map_some']
      · simp only [mat_rows, mat_columns, hd2, new_complexmatrix, and_self]
      · intro i j hi hj hlt
        simp only [mat_rows, mat_columns] at hi hj hlt
        have h11 := hp3 _ hlt
        obtain ⟨d1, d2⟩ := div_mod_lin (i := i) hj
        simp only [stored_c, d1, d2, read2] at h11
        obtain ⟨w, hw⟩ := Option.isSome_iff_exists.1 (hgood i j hi hj hlt)
        simp only [dot_check, dot_acc, is_real_matrix, Bool.and_false, Bool.false_and,
          Bool.and_self, Bool.false_eq_true, if_false, mat_entry, hd2, new_complexmatrix]
        rw [hw] at h11 ⊢
        exact congrArg some h11.symm
      · intro i j hi hj hge
        simp only [mat_rows, mat_columns] at hi hj hge
        have h12 := hp4 _ hge
        simp only [read2] at h12
        simp only [mat_entry, hd2, new_complexmatrix]
        exact h12
    | _ => exact hwr.elim
  | _ => exact hwl.elim

theorem dot_check_none (env : phloat_env) (st : core_state) (left right : vartype)
    (i j : Nat) (h : dot_infinite env left right i j)
    (hmo : st.matrix_outofrange = true) (hrei : st.range_error_ignore = false) :
    dot_check env st left right i j = none := by
  simp only [dot_check]
  split_ifs with hreal
  · rcases h with h | h
    · rw [check_acc_none env st _ h hmo hrei]; rfl
    · rw [hreal] at h; exact absurd h.1 (by decide)
  · apply check_acc2_none env st _ _ hmo hrei
    rcases h with h | h
    · exact Or.inl h
    · exact Or.inr h.2

/-- C16. Overflow failure in multiplication, the same for the four workers.  For
well-formed numeric operands of equal inner dimensions and successful allocation:
(1) with `core_settings.matrix_outofrange` on and `flags.f.range_error_ignore` off, if
`(i0, j0)` is the first element in row-major order whose completed dot product is
infinite (real or imaginary part), then the worker suspends for
`T = ((i0·n + j0 + 1)·q - 1) / 1000` invocations of 1000 steps each and the next
invocation calls the completion with (ERR_OUT_OF_RANGE, NULL), then releases the result
buffer and the progress record, and returns what the completion returned; when the
completion is called the result buffer holds the stored values of the elements before
`(i0, j0)` and is untouched (zero) from `(i0, j0)` on: no further element has been
computed;
(2) in every other case (the setting off, the flag set, or no completed dot product
infinite) the multiplication runs to its end and delivers, with ERR_NONE, the result
in which every infinite completed dot product is replaced by the saturating extreme
of its sign and every other one is stored as it is. -/
theorem matrix_mul_range_policy (env : phloat_env) (cb : Err → Option vartype → Err)
    (st : core_state) (left right : vartype)
    (hwl : mat_wf left) (hwr : mat_wf right)
    (hdim : mat_columns left = mat_rows right)
    (ha1 : (alloc_next st).1 = true) (ha2 : (alloc_next (alloc_next st).2).1 = true) :
    (st.matrix_outofrange = true → st.range_error_ignore = false →
      ∀ i0 j0, i0 < mat_rows left → j0 < mat_columns right →
        dot_infinite env left right i0 j0 →
        (∀ i j, i < mat_rows left → j < mat_columns right →
          i * mat_columns right + j < i0 * mat_columns right + j0 →
          ¬ dot_infinite env left right i j) →
        ∃ (st1 stN stF : core_state) (res : vartype),
          linalg_mul cb left right completion_ref.caller st = some (ERR_INTERRUPTIBLE, st1) ∧
          suspended_after env cb
            (((i0 * mat_columns right + j0 + 1) * mat_columns left - 1) / 1000) st1
            = some stN ∧
          stN.log = st.log ∧
          mul_progress stN
            = some (1000 *
                (((i0 * mat_columns right + j0 + 1) * mat_columns left - 1) / 1000)) ∧
          stF.log = st.log ∧
          reenter env cb false stN
            = some (cb ERR_OUT_OF_RANGE none,
                mul_task_end
                  { stF with log := stF.log ++ [event.completion ERR_OUT_OF_RANGE none] }) ∧
          (mul_task_end
              { stF with log := stF.log ++ [event.completion ERR_OUT_OF_RANGE none] }).log
            = st.log ++ [event.completion ERR_OUT_OF_RANGE none, event.free obj.dat_result,
                event.free obj.dat] ∧
          mul_result stF = some res ∧
          (mat_rows res = mat_rows left ∧ mat_columns res = mat_columns right) ∧
          (∀ i j, i < mat_rows left → j < mat_columns right →
            i * mat_columns right + j < i0 * mat_columns right + j0 →
            mat_entry res i j
              = (clamp_acc env (dot_acc env left right i j).1,
                 if is_real_matrix left && is_real_matrix right then 0
                 else clamp_acc env (dot_acc env left right i j).2)) ∧
          (∀ i j, i < mat_rows left → j < mat_columns right →
            i0 * mat_columns right + j0 ≤ i * mat_columns right + j →
            mat_entry res i j = (0, 0))) ∧
    ((st.matrix_outofrange = false ∨ st.range_error_ignore = true ∨
        ∀ i j, i < mat_rows left → j < mat_columns right →
          ¬ dot_infinite env left right i j) →
      ∃ (st1 : core_state) (N : Nat) (stN : core_state) (res : vartype) (stE : core_state),
        linalg_mul cb left right completion_ref.caller st = some (ERR_INTERRUPTIBLE, st1) ∧
        suspended_after env cb N st1 = some stN ∧
        reenter env cb false stN = some (cb ERR_NONE (some res), stE) ∧
        stE.log = st.log ++ [event.completion ERR_NONE (some res), event.free obj.dat] ∧
        ∀ i j, i < mat_rows left → j < mat_columns right →
          mat_entry res i j
            = (clamp_acc env (dot_acc env left right i j).1,
               if is_real_matrix left && is_real_matrix right then 0
               else clamp_acc env (dot_acc env left right i j).2)) := by
  constructor
  · intro hmo hrei i0 j0 hi0 hj0 hinf hfirst
    obtain ⟨st1, stN, stF, res, h1, h2, h3, h4, h5, h6, h7, h8, h9, h10, h11⟩ :=
      linalg_mul_fails env cb st left right hwl hwr hdim ha1 ha2 i0 j0 hi0 hj0
        (fun i j hi hj hlt => by
          rw [dot_check_value env st left right i j
            (fun hinf2 _ _ => hfirst i j hi hj hlt hinf2)]
          rfl)
        (dot_check_none env st left right i0 j0 hinf hmo hrei)
    refine ⟨st1, stN, stF, res, h1, h2, h3, h4, h5, h6, h7, h8, h9, ?_, h11⟩
    intro i j hi hj hlt
    have h := h10 i j hi hj hlt
    rw [dot_check_value env st left right i j
      (fun hinf2 _ _ => hfirst i j hi hj hlt hinf2), Option.some.injEq] at h
    exact h.symm
  · intro hother
    have hv : ∀ i j, i < mat_rows left → j < mat_columns right →
        dot_check env st left right i j
          = some (clamp_acc env (dot_acc env left right i j).1,
              if is_real_matrix left && is_real_matrix right then 0
              else clamp_acc env (dot_acc env left right i j).2) := by
      intro i j hi hj
      apply dot_check_value
      intro hinf hmo hrei
      rcases hother with h | h | h
      · rw [hmo] at h; cases h
      · rw [hrei] at h; cases h
      · exact h i j hi hj hinf
    obtain ⟨st1, N, stN, res, stE, h1, h2, _, h4, h5, _, _, h8⟩ :=
      linalg_mul_finishes env cb st left right hwl hwr hdim ha1 ha2
        (fun i j hi hj => by rw [hv i j hi hj]; rfl)
    refine ⟨st1, N, stN, res, stE, h1, h2, h4, h5, ?_⟩
    intro i j hi hj
    have h := h8 i j hi hj
    rw [hv i j hi hj, Option.some.injEq] at h
    exact h.symm

/-- C16, witness: in `env_small` with the idle calculator (setting on, flag clear) the
product of `[10,20,30]` and `[4,5,6]ᵗ` overflows in its only element: the first
re-entry calls the completion with (ERR_OUT_OF_RANGE, NULL), the log then holds that
call and the two releases, and the result buffer still holds its initial zero; the
product of `[1,2,3]` and `[4,5,6]ᵗ` is delivered as 32. -/
theorem matrix_mul_range_policy_witness :
    (∃ (st1 stF : core_state) (res : vartype),
      linalg_mul cb_id row_big col_456 completion_ref.caller st_idle
        = some (ERR_INTERRUPTIBLE, st1) ∧
      reenter env_small cb_id false st1
        = some (ERR_OUT_OF_RANGE,
            mul_task_end
              { stF with log := stF.log ++ [event.completion ERR_OUT_OF_RANGE none] }) ∧
      (mul_task_end
          { stF with log := stF.log ++ [event.completion ERR_OUT_OF_RANGE none] }).log
        = [event.completion ERR_OUT_OF_RANGE none, event.free obj.dat_result,
            event.free obj.dat] ∧
      mul_result stF = some res ∧ mat_entry res 0 0 = (0, 0)) ∧
    ∃ (st1 : core_state) (N : Nat) (stN : core_state) (res : vartype) (stE : core_state),
      linalg_mul cb_id row_123 col_456 completion_ref.caller st_idle
        = some (ERR_INTERRUPTIBLE, st1) ∧
      suspended_after env_small cb_id N st1 = some stN ∧
      reenter env_small cb_id false stN = some (ERR_NONE, stE) ∧
      stE.log = [event.completion ERR_NONE (some res), event.free obj.dat] ∧
      mat_entry res 0 0 = (32, 0) := by
  have hbig : (dot_acc env_small row_big col_456 0 0).1 = xphloat.inf false := by
    simp [dot_acc, row_big, col_456, acc_rr, psum, xterm_rr, term_rr, xnum, xadd, env_small]
    norm_num
  have hsmall : (dot_acc env_small row_123 col_456 0 0).1 = xphloat.num 32 := by
    simp [dot_acc, row_123, col_456, acc_rr, psum, xterm_rr, term_rr, xnum, xadd, env_small]
    norm_num
  constructor
  · obtain ⟨st1, stN, stF, res, h1, h2, h3, h4, h5, h6, h7, h8, h9, h10, h11⟩ :=
      (matrix_mul_range_policy env_small cb_id st_idle row_big col_456
        ⟨by decide, by decide, rfl, rfl⟩ ⟨by decide, by decide, rfl, rfl⟩ rfl rfl rfl).1
        rfl rfl 0 0 (by decide) (by decide)
        (Or.inl (by rw [hbig]; decide))
        (fun i j _ _ hlt => absurd hlt (by simp))
    have hN : ((0 * mat_columns col_456 + 0 + 1) * mat_columns row_big - 1) / 1000 = 0 := by
      decide
    rw [hN] at h2
    simp only [suspended_after, Option.some.injEq] at h2
    subst h2
    exact ⟨st1, stF, res, h1, h6, h7, h8, h11 0 0 (by decide) (by decide) (by decide)⟩
  · obtain ⟨st1, N, stN, res, stE, h1, h2, h3, h4, h5⟩ :=
      (matrix_mul_range_policy env_small cb_id st_idle row_123 col_456
        ⟨by decide, by decide, rfl, rfl⟩ ⟨by decide, by decide, rfl, rfl⟩ rfl rfl rfl).2
        (Or.inr (Or.inr (fun i j hi hj => by
          have hi0 : i = 0 := by
            simp only [mat_rows, row_123] at hi
            omega
          have hj0 : j = 0 := by
            simp only [mat_columns, col_456] at hj
            omega
          subst hi0 hj0
          intro hinf
          rcases hinf with hinf | hinf
          · rw [hsmall] at hinf
            simp only [xisinf, env_small] at hinf
            norm_num at hinf
          · exact absurd hinf.1 (by decide))))
    refine ⟨st1, N, stN, res, stE, h1, h2, h3, h4, ?_⟩
    rw [h5 0 0 (by decide) (by decide), hsmall]
    simp only [clamp_acc, clamp, env_small, is_real_matrix, row_123, col_456, Bool.and_self,
      if_true]
    norm_num

/-- An overflowing partial sum decides the outcome even when the exact dot product is
in range.  In `env_small` the product of `[60, 60, -60]` and `[1, 1, 1]ᵗ` has the
entry 60, which is in range, but the accumulator passes through 120, becomes plus
infinity and stays so: with the setting on and the flag clear the first re-entry
reports ERR_OUT_OF_RANGE. -/
theorem linalg_mul_partial_sum_overflow :
    product_entry row_60 col_111 0 0 = (60, 0) ∧ env_small.p_isinf 60 = 0 ∧
    ¬ mul_in_range env_small row_60 col_111 ∧
    (dot_acc env_small row_60 col_111 0 0).1 = xphloat.inf false ∧
    ∃ (st1 stF : core_state),
      linalg_mul cb_id row_60 col_111 completion_ref.caller st_idle
        = some (ERR_INTERRUPTIBLE, st1) ∧
      reenter env_small cb_id false st1
        = some (ERR_OUT_OF_RANGE,
            mul_task_end
              { stF with log := stF.log ++ [event.completion ERR_OUT_OF_RANGE none] }) := by
  have hacc : (dot_acc env_small row_60 col_111 0 0).1 = xphloat.inf false := by
    simp [dot_acc, row_60, col_111, acc_rr, psum, xterm_rr, term_rr, xnum, xadd, env_small]
    norm_num
  refine ⟨?_, by norm_num [env_small], ?_, hacc, ?_⟩
  · simp only [row_60, col_111, product_entry_rr]
    simp [psum, term_rr]
  · intro h
    have h1 := (h 0 0 1 (by decide) (by decide) (by decide)).2
    simp [row_60, col_111, term_rr, Finset.sum_range_succ, env_small] at h1
    norm_num at h1
  · obtain ⟨st1, stN, stF, res, h1, h2, h3, h4, h5, h6, _⟩ :=
      linalg_mul_fails env_small cb_id st_idle row_60 col_111
        ⟨by decide, by decide, rfl, rfl⟩ ⟨by decide, by decide, rfl, rfl⟩ rfl rfl rfl
        0 0 (by decide) (by decide) (fun i j _ _ hlt => absurd hlt (by simp))
        (dot_check_none env_small st_idle row_60 col_111 0 0
          (Or.inl (by rw [hacc]; decide)) rfl rfl)
    have hN : ((0 * mat_columns col_111 + 0 + 1) * mat_columns row_60 - 1) / 1000 = 0 := by
      decide
    rw [hN] at h2
    simp only [suspended_after, Option.some.injEq] at h2
    subst h2
    exact ⟨st1, stF, h1, h6⟩

/-- The log after a call through a completion pointer: what was there, the release of
the temporary inverse, or the one call of the caller's completion with the given
error. -/
theorem call_completion_log (cb : Err → Option vartype → Err) (c : completion_ref) (e : Err)
    (v : Option vartype) (st : core_state) (r : Err × core_state)
    (h : call_completion cb c e v st = some r) :
    ∀ ev ∈ r.2.log, ev ∈ st.log ∨ ev = event.free obj.small_div_res ∨
      ev = event.completion e v := by
  unfold call_completion at h
  cases c with
  | caller =>
    simp only [Option.some.injEq] at h
    subst h
    intro ev hev
    simp only [List.mem_append, List.mem_singleton] at hev
    tauto
  | small_div_completion_2 =>
    simp only [release] at h
    split at h
    · simp only [Option.some.injEq] at h
      subst h
      intro ev hev
      simp only [List.mem_append, List.mem_singleton] at hev
      tauto
    · cases h

/-- What the modelled `generic_div` returns: never ERR_DIMENSION_ERROR, the log as it
was, and on success a matrix of the dimensions of its matrix operand. -/
theorem generic_div_post (env : phloat_env) (x y : vartype) (st : core_state)
    (g : Err × Option vartype × core_state) (h : generic_div env x y st = some g) :
    g.1 ≠ ERR_DIMENSION_ERROR ∧ g.2.2.log = st.log ∧
    (g.1 = ERR_NONE → (∀ ma, y = vartype.realmatrix ma →
        ∃ r, g.2.1 = some (vartype.realmatrix r) ∧ r.rows = ma.rows ∧ r.columns = ma.columns) ∧
      (∀ ma, y = vartype.complexmatrix ma →
        ∃ r, g.2.1 = some (vartype.complexmatrix r) ∧ r.rows = ma.rows ∧
          r.columns = ma.columns)) := by
  unfold generic_div at h
  split at h
  · dsimp only at h
    split_ifs at h
    all_goals (simp only [Option.some.injEq] at h; subst h; simp [alloc_next])
  · dsimp only at h
    split_ifs at h
    all_goals (simp only [Option.some.injEq] at h; subst h; simp [alloc_next])
  · cases h

/-- What the small real inverse leaves behind when it returns to `small_div`: never
ERR_DIMENSION_ERROR, a log that gained at most the release of the scalar, the saved
completion pointer as it was, and on success an inverse of the dimensions of the
operand in `small_div_res`. -/
theorem small_inv_r_post (env : phloat_env) (ma : vartype_realmatrix) (st : core_state)
    (hr : ma.rows = 1 ∨ ma.rows = 2) (hc : ma.columns = ma.rows) (e : Err) (s : core_state)
    (h : small_inv_r env ma completion_v_ref.small_div_completion_1 st = some (e, s)) :
    e ≠ ERR_DIMENSION_ERROR ∧ (∀ ev ∈ s.log, ev ∈ st.log ∨ ev = event.free obj.d) ∧
    (e = ERR_NONE → ∃ X, s.small_div_res = some (vartype.realmatrix X) ∧
      X.rows = ma.rows ∧ X.columns = ma.columns) := by
  unfold small_inv_r at h
  rcases hr with h1 | h2
  · simp only [h1, if_true] at h
    split at h
    · cases h
    · split_ifs at h <;> simp only [Option.some.injEq, Prod.mk.injEq] at h <;>
        obtain ⟨rfl, rfl⟩ := h <;>
        simp_all [call_completion_v, alloc_next, new_realmatrix]
  · have h2n : ¬ ma.rows = 1 := by omega
    simp only [h2n, if_false] at h
    split at h
    · cases h
    · split_ifs at h
      · simp only [Option.some.injEq, Prod.mk.injEq] at h
        obtain ⟨rfl, rfl⟩ := h
        simp <;> tauto
      · simp only [Option.some.injEq, Prod.mk.injEq] at h
        obtain ⟨rfl, rfl⟩ := h
        simp [alloc_next] <;> tauto
      · simp only [Option.some.injEq, Prod.mk.injEq] at h
        obtain ⟨rfl, rfl⟩ := h
        simp [alloc_next, call_completion_v, new_realmatrix, h2, hc] <;> tauto
      · simp only [Option.some.injEq, Prod.mk.injEq] at h
        obtain ⟨rfl, rfl⟩ := h
        simp [alloc_next] <;> tauto
      · split at h
        · cases h
        · rename_i g hg
          obtain ⟨g1, g2, g3⟩ := generic_div_post env _ _ _ _ hg
          split_ifs at h with hg1
          · simp only [Option.some.injEq, Prod.mk.injEq] at h
            obtain ⟨rfl, rfl⟩ := h
            refine ⟨g1, ?_, fun h0 => absurd h0 hg1⟩
            intro ev hev
            simp only [release, g2, alloc_next, List.mem_append, List.mem_singleton] at hev
            tauto
          · have hg0 : g.1 = ERR_NONE := by simpa using hg1
            obtain ⟨r, hr1, hr2⟩ := (g3 hg0).1 ma rfl
            rw [hr1] at h
            simp only at h
            split at h
            · simp only [Option.some.injEq, Prod.mk.injEq] at h
              obtain ⟨rfl, rfl⟩ := h
              refine ⟨by simp, ?_, fun _ => ⟨_, rfl, ?_⟩⟩
              · intro ev hev
                simp only [call_completion_v, release, g2, alloc_next, List.mem_append,
                  List.mem_singleton] at hev
                tauto
              · simpa using hr2
            · cases h

/-- The modelled `math_inv` never reports ERR_DIMENSION_ERROR. -/
theorem math_inv_ne_dimension_error (env : phloat_env) (st : core_state) (xre xim : phloat) :
    (math_inv env st xre xim).1 ≠ ERR_DIMENSION_ERROR := by
  unfold math_inv det_range
  dsimp only
  split_ifs <;> simp_all

/-- What the small complex inverse leaves behind when it returns to `small_div`: never
ERR_DIMENSION_ERROR, a log that gained at most the release of the scalar, the saved
completion pointer as it was, and on success an inverse of the dimensions of the
operand in `small_div_res`. -/
theorem small_inv_c_post (env : phloat_env) (ma : vartype_complexmatrix) (st : core_state)
    (hr : ma.rows = 1 ∨ ma.rows = 2) (hc : ma.columns = ma.rows) (e : Err) (s : core_state)
    (h : small_inv_c env ma completion_v_ref.small_div_completion_1 st = some (e, s)) :
    e ≠ ERR_DIMENSION_ERROR ∧ (∀ ev ∈ s.log, ev ∈ st.log ∨ ev = event.free obj.d) ∧
    (e = ERR_NONE → ∃ X, s.small_div_res = some (vartype.complexmatrix X) ∧
      X.rows = ma.rows ∧ X.columns = ma.columns) := by
  unfold small_inv_c at h
  rcases hr with h1 | h2
  · simp only [h1, if_true] at h
    split at h
    · split_ifs at h <;> simp only [Option.some.injEq, Prod.mk.injEq] at h <;>
        obtain ⟨rfl, rfl⟩ := h <;>
        simp_all [call_completion_v, alloc_next, new_complexmatrix,
          math_inv_ne_dimension_error]
    · cases h
  · have h2n : ¬ ma.rows = 1 := by omega
    simp only [h2n, if_false] at h
    split at h
    · cases h
    · split_ifs at h
      · simp only [Option.some.injEq, Prod.mk.injEq] at h
        obtain ⟨rfl, rfl⟩ := h
        simp <;> tauto
      · simp only [Option.some.injEq, Prod.mk.injEq] at h
        obtain ⟨rfl, rfl⟩ := h
        simp [alloc_next] <;> tauto
      · simp only [Option.some.injEq, Prod.mk.injEq] at h
        obtain ⟨rfl, rfl⟩ := h
        simp [alloc_next, call_completion_v, new_complexmatrix, h2, hc] <;> tauto
      · simp only [Option.some.injEq, Prod.mk.injEq] at h
        obtain ⟨rfl, rfl⟩ := h
        simp [alloc_next] <;> tauto
      · split at h
        · cases h
        · rename_i g hg
          obtain ⟨g1, g2, g3⟩ := generic_div_post env _ _ _ _ hg
          split_ifs at h with hg1
          · simp only [Option.some.injEq, Prod.mk.injEq] at h
            obtain ⟨rfl, rfl⟩ := h
            refine ⟨g1, ?_, fun h0 => absurd h0 hg1⟩
            intro ev hev
            simp only [release, g2, alloc_next, List.mem_append, List.mem_singleton] at hev
            tauto
          · have hg0 : g.1 = ERR_NONE := by simpa using hg1
            obtain ⟨r, hr1, hr2⟩ := (g3 hg0).2 ma rfl
            rw [hr1] at h
            simp only at h
            split at h
            · simp only [Option.some.injEq, Prod.mk.injEq] at h
              obtain ⟨rfl, rfl⟩ := h
              refine ⟨by simp, ?_, fun _ => ⟨_, rfl, ?_⟩⟩
              · intro ev hev
                simp only [call_completion_v, release, g2, alloc_next, List.mem_append,
                  List.mem_singleton] at hev
                tauto
              · simpa using hr2
            · cases h

/-- The log after a multiplication was started with equal inner dimensions: no call
of the caller's completion with ERR_DIMENSION_ERROR is added. -/
theorem matrix_mul_start_log (cb : Err → Option vartype → Err) (inv left : vartype)
    (c : completion_ref) (st : core_state) (r : Err × core_state)
    (hd : mat_columns inv = mat_rows left) (h : linalg_mul cb inv left c st = some r) :
    ∀ ev ∈ r.2.log, (∃ v, ev = event.completion ERR_DIMENSION_ERROR v) → ev ∈ st.log := by
  have key : ∀ (e : Err) (s : core_state), e ≠ ERR_DIMENSION_ERROR →
      (∀ ev ∈ s.log, ev ∈ st.log ∨ ev = event.free obj.dat) →
      call_completion cb c e none s = some r →
      ∀ ev ∈ r.2.log, (∃ v, ev = event.completion ERR_DIMENSION_ERROR v) → ev ∈ st.log := by
    intro e s he hs hc ev hev hv
    obtain ⟨v, rfl⟩ := hv
    rcases call_completion_log cb c e none s r hc _ hev with h1 | h1 | h1
    · rcases hs _ h1 with h2 | h2
      · exact h2
      · cases h2
    · cases h1
    · simp only [event.completion.injEq] at h1
      exact absurd h1.1.symm he
  have k1 : ∀ s : core_state, s.log = st.log →
      ∀ ev ∈ (release obj.dat (alloc_next (alloc_next s).2).2).log,
        ev ∈ st.log ∨ ev = event.free obj.dat := by
    intro s hs ev hev
    simp only [release, alloc_next, List.mem_append, List.mem_singleton, hs] at hev
    exact hev
  have k0 : ∀ s : core_state, s.log = st.log →
      ∀ ev ∈ (alloc_next s).2.log, ev ∈ st.log ∨ ev = event.free obj.dat := by
    intro s hs ev hev
    simp only [alloc_next, hs] at hev
    exact Or.inl hev
  unfold linalg_mul at h
  split at h
  · simp only [mat_columns, mat_rows] at hd
    simp only [matrix_mul_rr, hd, ne_eq, not_true_eq_false, if_false] at h
    split_ifs at h
    · exact key _ _ (by decide) (fun ev hev => Or.inl hev) h
    · exact key _ _ (by decide) (k0 st rfl) h
    · exact key _ _ (by decide) (k1 st rfl) h
    · simp only [Option.some.injEq] at h
      subst h
      intro ev hev _
      exact hev
  · simp only [mat_columns, mat_rows] at hd
    simp only [matrix_mul_rc, hd, ne_eq, not_true_eq_false, if_false] at h
    split_ifs at h
    · exact key _ _ (by decide) (fun ev hev => Or.inl hev) h
    · exact key _ _ (by decide) (k0 st rfl) h
    · exact key _ _ (by decide) (k1 st rfl) h
    · simp only [Option.some.injEq] at h
      subst h
      intro ev hev _
      exact hev
  · simp only [mat_columns, mat_rows] at hd
    simp only [matrix_mul_cr, hd, ne_eq, not_true_eq_false, if_false] at h
    split_ifs at h
    · exact key _ _ (by decide) (fun ev hev => Or.inl hev) h
    · exact key _ _ (by decide) (k0 st rfl) h
    · exact key _ _ (by decide) (k1 st rfl) h
    · simp only [Option.some.injEq] at h
      subst h
      intro ev hev _
      exact hev
  · simp only [mat_columns, mat_rows] at hd
    simp only [matrix_mul_cc, hd, ne_eq, not_true_eq_false, if_false] at h
    split_ifs at h
    · exact key _ _ (by decide) (k0 st rfl) h
    · exact key _ _ (by decide) (k1 st rfl) h
    · simp only [Option.some.injEq] at h
      subst h
      intro ev hev _
      exact hev
  · cases h

/-- The small division adds no call of the completion with ERR_DIMENSION_ERROR when
the divisor is a square matrix of order 1 or 2 equal to the number of rows of the
numerator. -/
theorem small_div_log (env : phloat_env) (cb : Err → Option vartype → Err)
    (left right : vartype) (c : completion_ref) (st : core_state) (r : Err × core_state)
    (hrows : mat_rows right = mat_rows left) (hcols : mat_columns right = mat_rows left)
    (h12 : mat_rows right = 1 ∨ mat_rows right = 2)
    (h : small_div env cb left right c st = some r) :
    ∀ ev ∈ r.2.log, (∃ v, ev = event.completion ERR_DIMENSION_ERROR v) → ev ∈ st.log := by
  have kerr : ∀ (e : Err) (s : core_state), e ≠ ERR_DIMENSION_ERROR →
      (∀ ev ∈ s.log, ev ∈ st.log ∨ ev = event.free obj.d) →
      call_completion cb c e none s = some r →
      ∀ ev ∈ r.2.log, (∃ v, ev = event.completion ERR_DIMENSION_ERROR v) → ev ∈ st.log := by
    intro e s he hs hc ev hev hv
    obtain ⟨v, rfl⟩ := hv
    rcases call_completion_log cb c e none s r hc _ hev with h1 | h1 | h1
    · rcases hs _ h1 with h2 | h2
      · exact h2
      · cases h2
    · cases h1
    · simp only [event.completion.injEq] at h1
      exact absurd h1.1.symm he
  unfold small_div at h
  split at h
  · rename_i ma
    simp only [mat_rows, mat_columns] at hrows hcols h12
    split at h
    · cases h
    · rename_i e he
      obtain ⟨p1, p2, p3⟩ := small_inv_r_post env ma st h12 (by omega) e.1 e.2 he
      split_ifs at h with hne
      · exact kerr _ _ p1 p2 h
      · have h0 : e.1 = ERR_NONE := by simpa using hne
        obtain ⟨X, hX, hXr, hXc⟩ := p3 h0
        simp only [hX] at h
        split at h
        · rename_i inv l hi
          simp only [Option.some.injEq, vartype.realmatrix.injEq] at hi
          subst hi
          intro ev hev hv
          have := matrix_mul_start_log cb (vartype.realmatrix X) (vartype.realmatrix l)
            completion_ref.small_div_completion_2 _ r
            (by simp only [mat_columns, mat_rows] at hrows hcols ⊢; omega) h ev hev hv
          rcases p2 ev this with h2 | h2
          · exact h2
          · obtain ⟨v, rfl⟩ := hv
            cases h2
        · rename_i inv l hi
          simp only [Option.some.injEq, vartype.realmatrix.injEq] at hi
          subst hi
          intro ev hev hv
          have := matrix_mul_start_log cb (vartype.realmatrix X) (vartype.complexmatrix l)
            completion_ref.small_div_completion_2 _ r
            (by simp only [mat_columns, mat_rows] at hrows hcols ⊢; omega) h ev hev hv
          rcases p2 ev this with h2 | h2
          · exact h2
          · obtain ⟨v, rfl⟩ := hv
            cases h2
        · cases h
  · rename_i ma
    simp only [mat_rows, mat_columns] at hrows hcols h12
    split at h
    · cases h
    · rename_i e he
      obtain ⟨p1, p2, p3⟩ := small_inv_c_post env ma st h12 (by omega) e.1 e.2 he
      split_ifs at h with hne
      · exact kerr _ _ p1 p2 h
      · have h0 : e.1 = ERR_NONE := by simpa using hne
        obtain ⟨X, hX, hXr, hXc⟩ := p3 h0
        simp only [hX] at h
        split at h
        · rename_i inv l hi
          simp only [Option.some.injEq, vartype.complexmatrix.injEq] at hi
          subst hi
          intro ev hev hv
          have := matrix_mul_start_log cb (vartype.complexmatrix X) (vartype.realmatrix l)
            completion_ref.small_div_completion_2 _ r
            (by simp only [mat_columns, mat_rows] at hrows hcols ⊢; omega) h ev hev hv
          rcases p2 ev this with h2 | h2
          · exact h2
          · obtain ⟨v, rfl⟩ := hv
            cases h2
        · rename_i inv l hi
          simp only [Option.some.injEq, vartype.complexmatrix.injEq] at hi
          subst hi
          intro ev hev hv
          have := matrix_mul_start_log cb (vartype.complexmatrix X) (vartype.complexmatrix l)
            completion_ref.small_div_completion_2 _ r
            (by simp only [mat_columns, mat_rows] at hrows hcols ⊢; omega) h ev hev hv
          rcases p2 ev this with h2 | h2
          · exact h2
          · obtain ⟨v, rfl⟩ := hv
            cases h2
        · cases h
  · cases h

/-- C18. Dimension rule of the division: for the four combinations of real and complex
operands, `linalg_div(left, right, completion)` with `right.rows ≠ left.rows` or
`right.columns ≠ left.rows` does nothing but call the completion with
(ERR_DIMENSION_ERROR, NULL) and return its result, whatever the order of the divisor
and the outcome the next allocation would have: for the caller's completion the log
gains that one call and nothing else changes.  When `right` is a square matrix of order
`left.rows`, the function goes on to the small division for orders up to 2, which
adds no call of the completion with ERR_DIMENSION_ERROR, and for larger orders to the
three allocations, a failed one being reported as ERR_INSUFFICIENT_MEMORY and
success leading to the decomposition of a copy of the divisor. -/
theorem linalg_div_dimension_rule (env : phloat_env) (L2 : linalg2)
    (cb : Err → Option vartype → Err) (st : core_state) (left right : vartype)
    (c : completion_ref)
    (hl : (∃ m, left = vartype.realmatrix m) ∨ ∃ m, left = vartype.complexmatrix m)
    (hr : (∃ m, right = vartype.realmatrix m) ∨ ∃ m, right = vartype.complexmatrix m) :
    (mat_rows right ≠ mat_rows left ∨ mat_columns right ≠ mat_rows left →
      linalg_div env L2 cb left right c st = call_completion cb c ERR_DIMENSION_ERROR none st ∧
      linalg_div env L2 cb left right completion_ref.caller st
        = some (cb ERR_DIMENSION_ERROR none,
            { st with log := st.log ++ [event.completion ERR_DIMENSION_ERROR none] })) ∧
    (mat_rows right = mat_rows left → mat_columns right = mat_rows left →
      (mat_rows right ≤ 2 →
        linalg_div env L2 cb left right c st = small_div env cb left right c st ∧
        (0 < mat_rows right → ∀ r, linalg_div env L2 cb left right c st = some r →
          ∀ ev ∈ r.2.log, (∃ v, ev = event.completion ERR_DIMENSION_ERROR v) → ev ∈ st.log)) ∧
      (2 < mat_rows right →
        (∀ st1, linalg_div_alloc st = Sum.inl st1 →
          linalg_div env L2 cb left right c st
            = call_completion cb c ERR_INSUFFICIENT_MEMORY none st1) ∧
        (∀ st1, linalg_div_alloc st = Sum.inr st1 →
          ∃ st2, st2.log = st1.log ∧ st2.linalg_div_completion = some c ∧
            st2.linalg_div_left = some left ∧
            (∀ d, right = vartype.realmatrix d →
              ∃ k, (k = div_rr_completion1 L2 cb ∨ k = div_cr_completion1 L2 cb) ∧
                linalg_div env L2 cb left right c st
                  = L2.lu_decomp_r (matrix_copy_rr (new_realmatrix d.rows d.rows) d) k st2) ∧
            (∀ d, right = vartype.complexmatrix d →
              ∃ k, (k = div_rc_completion1 L2 cb ∨ k = div_cc_completion1 L2 cb) ∧
                linalg_div env L2 cb left right c st
                  = L2.lu_decomp_c (matrix_copy_cc (new_complexmatrix d.rows d.rows) d) k
                      st2)))) := by
  refine ⟨?_, ?_⟩
  · intro hdim
    rcases hl with ⟨l, rfl⟩ | ⟨l, rfl⟩ <;> rcases hr with ⟨r, rfl⟩ | ⟨r, rfl⟩ <;>
      simp only [mat_columns, mat_rows] at hdim <;>
      simp [linalg_div, hdim, call_completion]
  · intro hrows hcols
    have hsmall : mat_rows right ≤ 2 →
        linalg_div env L2 cb left right c st = small_div env cb left right c st := by
      intro h2
      rcases hl with ⟨l, rfl⟩ | ⟨l, rfl⟩ <;> rcases hr with ⟨r, rfl⟩ | ⟨r, rfl⟩ <;>
        simp only [mat_columns, mat_rows] at hrows hcols h2 <;>
        simp [linalg_div, hrows, hcols, h2] <;> intro h3 <;> omega
    refine ⟨fun h2 => ⟨hsmall h2, ?_⟩, fun h2 => ⟨?_, ?_⟩⟩
    · intro h0 r hres
      rw [hsmall h2] at hres
      exact small_div_log env cb left right c st r hrows hcols (by omega) hres
    · intro st1 hst1
      rcases hl with ⟨l, rfl⟩ | ⟨l, rfl⟩ <;> rcases hr with ⟨r, rfl⟩ | ⟨r, rfl⟩ <;>
        simp only [mat_columns, mat_rows] at hrows hcols h2 <;>
        simp [linalg_div, hrows, hcols, hst1] <;> intro h3 <;> omega
    · intro st1 hst1
      have h3 : ¬ mat_rows right ≤ 2 := by omega
      rcases hl with ⟨l, rfl⟩ | ⟨l, rfl⟩ <;> rcases hr with ⟨r, rfl⟩ | ⟨r, rfl⟩ <;>
        simp only [mat_columns, mat_rows] at hrows hcols h3
      · refine ⟨{ st1 with
            linalg_div_completion := some c,
            linalg_div_left := some (vartype.realmatrix l),
            linalg_div_result := some (vartype.realmatrix (new_realmatrix l.rows l.columns)) },
          rfl, rfl, rfl, fun d hd => ⟨_, Or.inl rfl, ?_⟩, (by intro d hd; cases hd)⟩
        cases hd
        have h4 : ¬ l.rows ≤ 2 := by omega
        simp only [linalg_div, hrows, hcols, hst1, h4, ne_eq, not_true_eq_false, or_self,
          if_false]
      · refine ⟨{ st1 with
            linalg_div_completion := some c,
            linalg_div_left := some (vartype.realmatrix l),
            linalg_div_result := some (vartype.complexmatrix (new_complexmatrix l.rows l.columns)) },
          rfl, rfl, rfl, (by intro d hd; cases hd), fun d hd => ⟨_, Or.inl rfl, ?_⟩⟩
        cases hd
        have h4 : ¬ l.rows ≤ 2 := by omega
        simp only [linalg_div, hrows, hcols, hst1, h4, ne_eq, not_true_eq_false, or_self,
          if_false]
      · refine ⟨{ st1 with
            linalg_div_completion := some c,
            linalg_div_left := some (vartype.complexmatrix l),
            linalg_div_result := some (vartype.complexmatrix (new_complexmatrix l.rows l.columns)) },
          rfl, rfl, rfl, fun d hd => ⟨_, Or.inr rfl, ?_⟩, (by intro d hd; cases hd)⟩
        cases hd
        have h4 : ¬ l.rows ≤ 2 := by omega
        simp only [linalg_div, hrows, hcols, hst1, h4, ne_eq, not_true_eq_false, or_self,
          if_false]
      · refine ⟨{ st1 with
            linalg_div_completion := some c,
            linalg_div_left := some (vartype.complexmatrix l),
            linalg_div_result := some (vartype.complexmatrix (new_complexmatrix l.rows l.columns)) },
          rfl, rfl, rfl, (by intro d hd; cases hd), fun d hd => ⟨_, Or.inr rfl, ?_⟩⟩
        cases hd
        have h4 : ¬ l.rows ≤ 2 := by omega
        simp only [linalg_div, hrows, hcols, hst1, h4, ne_eq, not_true_eq_false, or_self,
          if_false]

/-- C18, witness: a 1×3 numerator over a 2×2 divisor is a dimension error, reported
before anything else; a 2×2 numerator over a 2×2 divisor goes to the small division. -/
theorem linalg_div_dimension_rule_witness :
    linalg_div env_exact linalg2_none cb_id row_123 (vartype.realmatrix mat_1234)
        completion_ref.caller st_idle
      = some (ERR_DIMENSION_ERROR,
          { st_idle with log := [event.completion ERR_DIMENSION_ERROR none] }) ∧
    linalg_div env_exact linalg2_none cb_id (vartype.realmatrix mat_1234)
        (vartype.realmatrix mat_1234) completion_ref.caller st_idle
      = small_div env_exact cb_id (vartype.realmatrix mat_1234) (vartype.realmatrix mat_1234)
          completion_ref.caller st_idle :=
  ⟨((linalg_div_dimension_rule env_exact linalg2_none cb_id st_idle row_123
      (vartype.realmatrix mat_1234) completion_ref.caller (Or.inl ⟨_, rfl⟩)
      (Or.inl ⟨_, rfl⟩)).1 (Or.inl (by decide))).2,
   (((linalg_div_dimension_rule env_exact linalg2_none cb_id st_idle
      (vartype.realmatrix mat_1234) (vartype.realmatrix mat_1234) completion_ref.caller
      (Or.inl ⟨_, rfl⟩) (Or.inl ⟨_, rfl⟩)).2 rfl rfl).1 (by decide)).1⟩

theorem row_op_add {K : Type} [Field K] (k l : Nat) (m v w : Nat → K) :
    row_op k l m (fun i => v i + w i) = fun i => row_op k l m v i + row_op k l m w i := by
  funext i
  simp only [row_op, swap_rows]
  split_ifs <;> ring

theorem row_op_smul {K : Type} [Field K] (k l : Nat) (m : Nat → K) (c : K) (v : Nat → K) :
    row_op k l m (fun i => c * v i) = fun i => c * row_op k l m v i := by
  funext i
  simp only [row_op, swap_rows]
  split_ifs <;> ring

theorem row_op_zero {K : Type} [Field K] (k l : Nat) (m : Nat → K) :
    row_op k l m (fun _ => 0) = fun _ => 0 := by
  funext i
  simp only [row_op, swap_rows]
  split_ifs <;> ring

theorem row_op_congr {K : Type} [Field K] (k l : Nat) (m v w : Nat → K) (i : Nat)
    (hk : v k = w k) (hl : v l = w l) (hi : v i = w i) :
    row_op k l m v i = row_op k l m w i := by
  simp only [row_op, swap_rows]
  split_ifs <;> simp_all

theorem row_op_inj {K : Type} [Field K] (n k l : Nat) (m v w : Nat → K)
    (hk : k < n) (hl : l < n) (h : ∀ i, i < n → row_op k l m v i = row_op k l m w i) :
    ∀ i, i < n → v i = w i := by
  have hkk : v l = w l := by
    have := h k hk
    simpa [row_op, swap_rows] using this
  have hs : ∀ i, i < n → swap_rows k l v i = swap_rows k l w i := by
    intro i hi
    have h1 := h i hi
    have h2 : swap_rows k l v k = swap_rows k l w k := by simpa [swap_rows] using hkk
    simp only [row_op, h2] at h1
    split_ifs at h1
    · exact sub_left_injective h1
    · exact h1
  intro i hi
  by_cases hik : i = k
  · subst hik
    have := hs l hl
    simp only [swap_rows] at this
    split_ifs at this with h1
    · exact h1 ▸ hkk
    · exact this
  · by_cases hil : i = l
    · exact hil ▸ hkk
    · have := hs i hi
      simpa [swap_rows, hik, hil] using this

theorem lu_forward_add {K : Type} [Field K] (a : Nat → Nat → K) (perm : List Nat) (k : Nat)
    (v w : Nat → K) :
    lu_forward a perm k (fun i => v i + w i)
      = fun i => lu_forward a perm k v i + lu_forward a perm k w i := by
  induction k with
  | zero => rfl
  | succ k ih => simp only [lu_forward, ih, row_op_add]

theorem lu_forward_smul {K : Type} [Field K] (a : Nat → Nat → K) (perm : List Nat) (k : Nat)
    (c : K) (v : Nat → K) :
    lu_forward a perm k (fun i => c * v i) = fun i => c * lu_forward a perm k v i := by
  induction k with
  | zero => rfl
  | succ k ih => simp only [lu_forward, ih, row_op_smul]

theorem lu_forward_zero {K : Type} [Field K] (a : Nat → Nat → K) (perm : List Nat) (k : Nat) :
    lu_forward a perm k (fun _ => 0) = fun _ => 0 := by
  induction k with
  | zero => rfl
  | succ k ih => simp only [lu_forward, ih, row_op_zero]

theorem lu_forward_sum {K : Type} [Field K] (a : Nat → Nat → K) (perm : List Nat) (k n : Nat)
    (x : Nat → K) (f : Nat → Nat → K) :
    lu_forward a perm k (fun i => ∑ j in Finset.range n, f j i * x j)
      = fun i => ∑ j in Finset.range n, lu_forward a perm k (f j) i * x j := by
  induction n with
  | zero => simpa using lu_forward_zero a perm k
  | succ n ih =>
    simp only [Finset.sum_range_succ]
    rw [lu_forward_add, ih]
    funext i
    congr 1
    have := lu_forward_smul a perm k (x n) (f n)
    simp only [mul_comm (x n)] at this
    rw [this]

theorem lu_forward_inj {K : Type} [Field K] (a : Nat → Nat → K) (perm : List Nat) (n k : Nat)
    (hk : k ≤ n) (hp : ∀ j, j < k → perm.getD j 0 < n) (v w : Nat → K)
    (h : ∀ i, i < n → lu_forward a perm k v i = lu_forward a perm k w i) :
    ∀ i, i < n → v i = w i := by
  induction k with
  | zero => exact h
  | succ k ih =>
    apply ih (by omega) (fun j hj => hp j (by omega))
    exact row_op_inj n k _ _ _ _ (by omega) (hp k (by omega)) h

theorem lu_forward_congr {K : Type} [Field K] (a : Nat → Nat → K) (perm : List Nat) (n k : Nat)
    (hk : k ≤ n) (hp : ∀ j, j < k → perm.getD j 0 < n) (v w : Nat → K)
    (h : ∀ i, i < n → v i = w i) :
    ∀ i, i < n → lu_forward a perm k v i = lu_forward a perm k w i := by
  induction k with
  | zero => exact h
  | succ k ih =>
    have ih1 := ih (by omega) (fun j hj => hp j (by omega))
    intro i hi
    exact row_op_congr _ _ _ _ _ _ (ih1 k (by omega)) (ih1 _ (hp k (by omega))) (ih1 i hi)

theorem pivot_row_bounds {K : Type} (size : K → ℚ) (a : Nat → Nat → K) (k c : Nat) :
    k ≤ pivot_row size a k c ∧ pivot_row size a k c ≤ k + c := by
  induction c with
  | zero => simp [pivot_row]
  | succ c ih =>
    simp only [pivot_row]
    split_ifs <;> omega

theorem pivot_row_max {K : Type} (size : K → ℚ) (a : Nat → Nat → K) (k c : Nat) :
    ∀ i, k ≤ i → i ≤ k + c → size (a i k) ≤ size (a (pivot_row size a k c) k) := by
  induction c with
  | zero =>
    intro i h1 h2
    have : i = k := by omega
    subst this
    simp [pivot_row]
  | succ c ih =>
    intro i h1 h2
    simp only [pivot_row]
    by_cases hi : i = k + c + 1
    · subst hi
      split_ifs with h
      · exact le_refl _
      · exact not_lt.mp h
    · have := ih i h1 (by omega)
      split_ifs with h
      · exact le_of_lt (lt_of_le_of_lt this h)
      · exact this

theorem lu_backward_spec {K : Type} [Field K] (n : Nat) (a : Nat → Nat → K) (c : Nat → K)
    (hd : ∀ i, i < n → a i i ≠ 0) (s : Nat) (hs : s ≤ n) :
    ∀ i, n - s ≤ i → i < n →
      (∑ j in Finset.range n, if i ≤ j then a i j * lu_backward n a c s j else 0) = c i := by
  induction s with
  | zero =>
    intro i h1 h2
    omega
  | succ s ih =>
    intro i h1 h2
    have ih1 := ih (by omega)
    have hi0 : n - (s + 1) < n := by omega
    by_cases hi : i = n - (s + 1)
    · subst hi
      have hpt : ∀ j, (if n - (s + 1) ≤ j then a (n - (s + 1)) j * lu_backward n a c (s + 1) j
            else 0)
          = (if n - (s + 1) < j then a (n - (s + 1)) j * lu_backward n a c s j else 0)
            + (if j = n - (s + 1) then a (n - (s + 1)) (n - (s + 1)) *
                lu_backward n a c (s + 1) (n - (s + 1)) else 0) := by
        intro j
        by_cases hj : j = n - (s + 1)
        · subst hj
          simp
        · by_cases hj2 : n - (s + 1) < j
          · have : n - (s + 1) ≤ j := by omega
            simp [hj, hj2, this, lu_backward, Function.update_noteq hj]
          · have : ¬ n - (s + 1) ≤ j := by omega
            simp [hj, hj2, this]
      simp only [hpt, Finset.sum_add_distrib, Finset.sum_ite_eq', Finset.mem_range, hi0,
        if_true]
      simp only [lu_backward, Function.update_same]
      field_simp [hd _ hi0]
    · have hpt : ∀ j, (if i ≤ j then a i j * lu_backward n a c (s + 1) j else 0)
          = (if i ≤ j then a i j * lu_backward n a c s j else 0) := by
        intro j
        by_cases hj : i ≤ j
        · have : j ≠ n - (s + 1) := by omega
          simp [hj, lu_backward, Function.update_noteq this]
        · simp [hj]
      simp only [hpt]
      exact ih1 i (by omega) h2

theorem row_op_congr_m {K : Type} [Field K] (k l : Nat) (m m2 v : Nat → K)
    (h : ∀ i, k < i → m i = m2 i) : row_op k l m v = row_op k l m2 v := by
  funext i
  simp only [row_op]
  split_ifs with hi
  · rw [h i hi]
  · rfl

theorem lu_forward_ext {K : Type} [Field K] (a a2 : Nat → Nat → K) (perm perm2 : List Nat)
    (k : Nat) (ha : ∀ i j, j < k → a i j = a2 i j)
    (hp : ∀ j, j < k → perm.getD j 0 = perm2.getD j 0) (v : Nat → K) :
    lu_forward a perm k v = lu_forward a2 perm2 k v := by
  induction k with
  | zero => rfl
  | succ k ih =>
    simp only [lu_forward]
    rw [ih (fun i j hj => ha i j (by omega)) (fun j hj => hp j (by omega)), hp k (by omega)]
    have : (fun i => a i k) = fun i => a2 i k := by
      funext i
      exact ha i k (by omega)
    rw [this]

theorem sum_range_ite_lt {K : Type} [Field K] (k n : Nat) (h : k ≤ n) (f : Nat → K) :
    (∑ j in Finset.range n, if j < k then f j else 0) = ∑ j in Finset.range k, f j := by
  induction n with
  | zero =>
    have : k = 0 := by omega
    subst this
    simp
  | succ n ih =>
    by_cases hk : k = n + 1
    · subst hk
      apply Finset.sum_congr rfl
      intro j hj
      simp only [Finset.mem_range] at hj
      simp [hj]
    · rw [Finset.sum_range_succ, ih (by omega)]
      have : ¬ n < k := by omega
      simp [this]

theorem lu_inv_step {K : Type} [Field K] [DecidableEq K] (size : K → ℚ) (huge : K)
    (sing : Bool) (n : Nat) (A : Nat → Nat → K) (k : Nat) (s : (Nat → Nat → K) × List Nat)
    (hk : k < n) (hinv : lu_inv n A k s)
    (hp : s.1 (pivot_row size s.1 k (n - 1 - k)) k ≠ 0) :
    ∃ t, lu_step size huge sing n k s.1 = some t ∧ lu_inv n A (k + 1) (t.1, s.2 ++ [t.2]) := by
  obtain ⟨a, perm⟩ := s
  obtain ⟨h1, h2, h3, h4, h5⟩ := hinv
  simp only at h1 h2 h3 h4 h5 hp
  have hlb := pivot_row_bounds size a k (n - 1 - k)
  generalize hl : pivot_row size a k (n - 1 - k) = l at hp hlb
  have hln : l < n := by omega
  have hkl : k ≤ l := hlb.1
  let m : Nat → K := fun i => swap_rows k l (fun r => a r k) i / a l k
  let a2 : Nat → Nat → K := fun i j =>
    if j < k then a i j
    else if j = k then (if i < k then a i k else if i = k then a l k else m i)
    else row_op k l m (fun r => a r j) i
  have hstep : lu_step size huge sing n k a = some (a2, l) := by
    simp only [lu_step, hl, hp, false_and, if_false]
  refine ⟨(a2, l), hstep, ?_⟩
  have hget : (perm ++ [l]).getD k 0 = l := by
    simp [List.getD_eq_getElem?_getD, List.getElem?_append_right, h1]
  have hgetlt : ∀ j, j < k → (perm ++ [l]).getD j 0 = perm.getD j 0 := by
    intro j hj
    simp [List.getD_eq_getElem?_getD, List.getElem?_append_left, h1, hj]
  have KF : ∀ v, lu_forward a2 (perm ++ [l]) (k + 1) v = row_op k l m (lu_forward a perm k v) := by
    intro v
    simp only [lu_forward, hget]
    rw [lu_forward_ext a2 a (perm ++ [l]) perm k (fun i j hj => by simp only [a2, hj, if_true])
      hgetlt]
    apply row_op_congr_m
    intro i hi
    have e1 : ¬ k < k := lt_irrefl k
    have e2 : ¬ i < k := by omega
    have e3 : ¬ i = k := by omega
    simp only [a2, e1, e2, e3, if_false, if_true]
  have hrow_lt : ∀ (v : Nat → K) i, i < k → row_op k l m v i = v i := by
    intro v i hi
    have e1 : ¬ k < i := by omega
    have e2 : ¬ i = k := by omega
    have e3 : ¬ i = l := by omega
    simp only [row_op, swap_rows, e1, e2, e3, if_false]
  have hrow_k : ∀ (v : Nat → K), row_op k l m v k = v l := by
    intro v
    simp only [row_op, swap_rows, lt_irrefl, if_false, if_true]
  refine ⟨by simp [h1], ?_, ?_, ?_, ?_⟩
  · intro j hj
    by_cases hjk : j = k
    · subst hjk
      simp only [hget]
      exact ⟨hkl, hln⟩
    · simp only [hgetlt j (by omega)]
      exact h2 j (by omega)
  · intro i j hi hj hor
    simp only [KF]
    by_cases hjk : k < j
    · have e1 : ¬ j < k := by omega
      have e2 : ¬ j = k := by omega
      simp only [a2, e1, e2, if_false]
      exact row_op_congr _ _ _ _ _ _ (h3 k j hk hj (Or.inl (by omega)))
        (h3 l j hln hj (Or.inl (by omega))) (h3 i j hi hj (Or.inl (by omega)))
    · have hij : i ≤ j := by omega
      by_cases hjk2 : j = k
      · subst hjk2
        by_cases hik : i = j
        · subst hik
          rw [hrow_k]
          simp only [a2, lt_irrefl, if_false, if_true]
          exact h3 l i hln hi (Or.inl (le_refl _))
        · have hik2 : i < j := by omega
          rw [hrow_lt _ i hik2]
          simp only [a2, lt_irrefl, if_false, if_true, hik2]
          exact h3 i j hi hj (Or.inl (le_refl _))
      · have hjk3 : j < k := by omega
        rw [hrow_lt _ i (by omega)]
        simp only [a2, hjk3, if_true]
        exact h3 i j hi hj (Or.inr hij)
  · intro i j hi hj hji
    simp only [KF]
    by_cases hjk : j = k
    · subst hjk
      have e1 : lu_forward a perm j (fun r => A r j) i = a i j :=
        (h3 i j hi hk (Or.inl (le_refl _))).symm
      have e2 : lu_forward a perm j (fun r => A r j) l = a l j :=
        (h3 l j hln hk (Or.inl (le_refl _))).symm
      have e3 : lu_forward a perm j (fun r => A r j) j = a j j :=
        (h3 j j hk hk (Or.inl (le_refl _))).symm
      have hne : ¬ i = j := by omega
      simp only [row_op, swap_rows, hji, if_true, hne, if_false, m, e1, e2, e3]
      split_ifs <;> field_simp
    · have hjk2 : j < k := by omega
      have z : ∀ r, r < n → j < r → lu_forward a perm k (fun r => A r j) r = 0 :=
        fun r hr hjr => h4 r j hr hjk2 hjr
      have zi := z i hi hji
      have zk := z k hk hjk2
      have zl := z l hln (by omega)
      simp only [row_op, swap_rows]
      split_ifs <;> simp [zi, zk, zl]
  · intro j hj
    by_cases hjk : j = k
    · subst hjk
      simp only [a2, lt_irrefl, if_false, if_true]
      exact hp
    · have hjk2 : j < k := by omega
      simp only [a2, hjk2, if_true]
      exact h5 j hjk2

theorem lu_pivot_ne_zero {K : Type} [Field K] [DecidableEq K] (size : K → ℚ) (n : Nat)
    (A : Nat → Nat → K) (k : Nat) (s : (Nat → Nat → K) × List Nat)
    (hsz : ∀ x, size x ≤ size 0 → x = 0)
    (hker : ∀ x : Nat → K, (∀ i, i < n → (∑ j in Finset.range n, A i j * x j) = 0) →
      ∀ j, j < n → x j = 0)
    (hk : k < n) (hinv : lu_inv n A k s) :
    s.1 (pivot_row size s.1 k (n - 1 - k)) k ≠ 0 := by
  obtain ⟨a, perm⟩ := s
  obtain ⟨h1, h2, h3, h4, h5⟩ := hinv
  simp only at h1 h2 h3 h4 h5 ⊢
  intro hp
  have hcol : ∀ i, k ≤ i → i < n → a i k = 0 := by
    intro i hki hin
    apply hsz
    have := pivot_row_max size a k (n - 1 - k) i hki (by omega)
    rwa [hp] at this
  let y : Nat → K := lu_backward k a (fun i => -a i k) k
  have hy := lu_backward_spec k a (fun i => -a i k) h5 k (le_refl k)
  let x : Nat → K := fun j => if j < k then y j else if j = k then 1 else 0
  have hU : ∀ i, i < n → (∑ j in Finset.range n,
      lu_forward a perm k (fun r => A r j) i * x j) = 0 := by
    intro i hi
    have hpt : ∀ j, j ∈ Finset.range n → lu_forward a perm k (fun r => A r j) i * x j
        = (if j < k then lu_forward a perm k (fun r => A r j) i * y j else 0)
          + (if j = k then a i k else 0) := by
      intro j hj
      simp only [Finset.mem_range] at hj
      by_cases hjk : j < k
      · have : ¬ j = k := by omega
        simp [x, hjk, this]
      · by_cases hjk2 : j = k
        · subst hjk2
          simp [x, (h3 i j hi hj (Or.inl (le_refl _))).symm]
        · simp [x, hjk, hjk2]
    rw [Finset.sum_congr rfl hpt, Finset.sum_add_distrib, Finset.sum_ite_eq',
      sum_range_ite_lt k n (le_of_lt hk)]
    simp only [Finset.mem_range, hk, if_true]
    by_cases hik : i < k
    · have hpt2 : ∀ j, j ∈ Finset.range k → lu_forward a perm k (fun r => A r j) i * y j
          = (if i ≤ j then a i j * y j else 0) := by
        intro j hj
        simp only [Finset.mem_range] at hj
        by_cases hij : i ≤ j
        · simp only [hij, if_true]
          rw [← h3 i j hi (by omega) (Or.inr hij)]
        · simp only [hij, if_false]
          rw [h4 i j hi hj (by omega), zero_mul]
      rw [Finset.sum_congr rfl hpt2, hy i (by omega) hik]
      ring
    · have hpt2 : ∀ j, j ∈ Finset.range k → lu_forward a perm k (fun r => A r j) i * y j
          = 0 := by
        intro j hj
        simp only [Finset.mem_range] at hj
        rw [h4 i j hi hj (by omega), zero_mul]
      rw [Finset.sum_congr rfl hpt2, hcol i (by omega) hi]
      simp
  have hF : ∀ i, i < n → lu_forward a perm k (fun r => ∑ j in Finset.range n, A r j * x j) i
      = lu_forward a perm k (fun _ => 0) i := by
    intro i hi
    have e := lu_forward_sum a perm k n x (fun j r => A r j)
    rw [e, lu_forward_zero]
    exact hU i hi
  have hAx := lu_forward_inj a perm n k (le_of_lt hk) (fun j hj => (h2 j hj).2) _ _ hF
  have := hker x hAx k hk
  simp [x] at this

theorem lu_steps_inv {K : Type} [Field K] [DecidableEq K] (size : K → ℚ) (huge : K)
    (sing : Bool) (n : Nat) (A : Nat → Nat → K)
    (hsz : ∀ x, size x ≤ size 0 → x = 0)
    (hker : ∀ x : Nat → K, (∀ i, i < n → (∑ j in Finset.range n, A i j * x j) = 0) →
      ∀ j, j < n → x j = 0) (k : Nat) (hk : k ≤ n) :
    ∃ s, lu_steps size huge sing n A k = some s ∧ lu_inv n A k s := by
  induction k with
  | zero =>
    refine ⟨(A, []), rfl, rfl, ?_, ?_, ?_, ?_⟩
    · intro j hj
      omega
    · intro i j _ _ _
      rfl
    · intro i j _ hj
      omega
    · intro j hj
      omega
  | succ k ih =>
    obtain ⟨s, hs1, hs2⟩ := ih (by omega)
    have hp := lu_pivot_ne_zero size n A k s hsz hker (by omega) hs2
    obtain ⟨t, ht1, ht2⟩ := lu_inv_step size huge sing n A k s (by omega) hs2 hp
    refine ⟨(t.1, s.2 ++ [t.2]), ?_, ht2⟩
    simp only [lu_steps, hs1, ht1]

theorem lu_solve_spec {K : Type} [Field K] (n : Nat) (A : Nat → Nat → K)
    (s : (Nat → Nat → K) × List Nat) (hinv : lu_inv n A n s) (b : Nat → K) :
    ∀ i, i < n → (∑ j in Finset.range n, A i j * lu_solve n s.1 s.2 b j) = b i := by
  obtain ⟨a, perm⟩ := s
  obtain ⟨h1, h2, h3, h4, h5⟩ := hinv
  simp only at h1 h2 h3 h4 h5 ⊢
  have hb := lu_backward_spec n a (lu_forward a perm n b) h5 n (le_refl n)
  have hF : ∀ i, i < n →
      lu_forward a perm n (fun r => ∑ j in Finset.range n, A r j * lu_solve n a perm b j) i
        = lu_forward a perm n b i := by
    intro i hi
    rw [lu_forward_sum a perm n n _ (fun j r => A r j)]
    rw [← hb i (by omega) hi]
    apply Finset.sum_congr rfl
    intro j hj
    simp only [Finset.mem_range] at hj
    by_cases hij : i ≤ j
    · simp only [hij, if_true, lu_solve]
      rw [← h3 i j hi hj (Or.inr hij)]
    · simp only [hij, if_false]
      rw [h4 i j hi hj (by omega), zero_mul]
  exact lu_forward_inj a perm n n (le_refl n) (fun j hj => (h2 j hj).2) _ _ hF

theorem rm_data_getD (r c : Nat) (f : Nat → Nat → phloat) (i j : Nat) (hi : i < r) (hj : j < c) :
    (rm_data r c f).getD (i * c + j) 0 = f i j := by
  have hidx : i * c + j < r * c := lin_index2_lt hi hj
  obtain ⟨d1, d2⟩ := div_mod_lin (i := i) hj
  simp [rm_data, List.getD_eq_getElem?_getD, List.getElem?_map, List.getElem?_range hidx, d1, d2]

theorem rm_data_length (r c : Nat) (f : Nat → Nat → phloat) : (rm_data r c f).length = r * c := by
  simp [rm_data]

theorem cm_data_length (r c : Nat) (f : Nat → Nat → cplx) :
    (cm_data r c f).length = 2 * (r * c) := by
  simp [cm_data]

theorem cm_data_getD (r c : Nat) (f : Nat → Nat → cplx) (i j : Nat) (hi : i < r) (hj : j < c) :
    (cm_data r c f).getD (2 * (i * c + j)) 0 = (f i j).re ∧
    (cm_data r c f).getD (2 * (i * c + j) + 1) 0 = (f i j).im := by
  have hidx : i * c + j < r * c := lin_index2_lt hi hj
  obtain ⟨d1, d2⟩ := div_mod_lin (i := i) hj
  have h1 : 2 * (i * c + j) < 2 * (r * c) := by omega
  have h2 : 2 * (i * c + j) + 1 < 2 * (r * c) := by omega
  have e1 : 2 * (i * c + j) / 2 = i * c + j := by omega
  have e2 : (2 * (i * c + j) + 1) / 2 = i * c + j := by omega
  have e3 : 2 * (i * c + j) % 2 = 0 := by omega
  have e4 : (2 * (i * c + j) + 1) % 2 = 1 := by omega
  constructor
  · simp [cm_data, List.getD_eq_getElem?_getD, List.getElem?_map, List.getElem?_range h1,
      e1, e3, d1, d2]
  · simp [cm_data, List.getD_eq_getElem?_getD, List.getElem?_map, List.getElem?_range h2,
      e2, e4, d1, d2]

theorem range_policy_of_finite (env : phloat_env) (st : core_state) (l : List phloat)
    (hfin : ∀ x, env.p_isinf x = 0) : range_policy env st l = some l := by
  have h : ∀ v, check_sum env st v = some v := fun v => check_sum_of_finite env st v (hfin v)
  simp [range_policy, h]

theorem foldl_set_getD (g : Nat → Nat) (l : List Nat) (data : List phloat) (idx : Nat) :
    (l.foldl (fun d i => d.set (g i) 1) data).getD idx 0
      = if (∃ i, i ∈ l ∧ g i = idx) ∧ idx < data.length then 1 else data.getD idx 0 := by
  induction l generalizing data with
  | nil => simp
  | cons a l ih =>
    rw [List.foldl_cons, ih, List.length_set]
    by_cases hl : idx < data.length
    · by_cases ha : g a = idx
      · have h1 : (∃ i, i ∈ a :: l ∧ g i = idx) ∧ idx < data.length :=
          ⟨⟨a, List.mem_cons_self a l, ha⟩, hl⟩
        rw [if_pos h1]
        split_ifs
        · rfl
        · subst ha
          simp [List.getD_eq_getElem?_getD, List.getElem?_set, hl]
      · have h1 : (∃ i, i ∈ a :: l ∧ g i = idx) ↔ (∃ i, i ∈ l ∧ g i = idx) := by
          constructor
          · rintro ⟨i, hi, h2⟩
            rcases List.mem_cons.mp hi with hi | hi
            · subst hi
              exact absurd h2 ha
            · exact ⟨i, hi, h2⟩
          · rintro ⟨i, hi, h2⟩
            exact ⟨i, List.mem_cons_of_mem a hi, h2⟩
        have h2 : (data.set (g a) 1).getD idx 0 = data.getD idx 0 := by
          simp [List.getD_eq_getElem?_getD, List.getElem?_set, ha]
        rw [h2]
        by_cases h3 : ∃ i, i ∈ l ∧ g i = idx
        · rw [if_pos ⟨h3, hl⟩, if_pos ⟨h1.mpr h3, hl⟩]
        · rw [if_neg (fun h => h3 h.1), if_neg (fun h => h3 (h1.mp h.1))]
    · rw [if_neg (fun h => hl h.2), if_neg (fun h => hl h.2)]
      have : data.length ≤ idx := by omega
      simp [List.getD_eq_getElem?_getD, List.getElem?_eq_none, this]

theorem set_diagonal_r_getD (n i j : Nat) (hi : i < n) (hj : j < n) :
    (set_diagonal_r n (List.replicate (n * n) 0)).getD (i * n + j) 0
      = if i = j then 1 else 0 := by
  have hidx : i * n + j < n * n := lin_index2_lt hi hj
  rw [set_diagonal_r, foldl_set_getD (fun i => i * (n + 1))]
  have hiff : (∃ k, k ∈ List.range n ∧ k * (n + 1) = i * n + j) ↔ i = j := by
    constructor
    · rintro ⟨k, hk, he⟩
      simp only [List.mem_range] at hk
      have e1 : k * (n + 1) = k * n + k := by ring
      rw [e1] at he
      have a1 := div_mod_lin (i := k) hk
      have a2 := div_mod_lin (i := i) hj
      rw [he] at a1
      omega
    · intro h
      subst h
      exact ⟨i, List.mem_range.mpr hi, by ring⟩
  simp only [hiff, List.length_replicate, hidx, and_true]
  split_ifs
  · rfl
  · simp [List.getD_eq_getElem?_getD, List.getElem?_replicate, hidx]

theorem set_diagonal_r_length (n : Nat) (data : List phloat) :
    (set_diagonal_r n data).length = data.length := by
  unfold set_diagonal_r
  generalize List.range n = l
  induction l generalizing data with
  | nil => rfl
  | cons a l ih => simp [List.foldl_cons, ih]

theorem set_diagonal_c_length (n : Nat) (data : List phloat) :
    (set_diagonal_c n data).length = data.length := by
  unfold set_diagonal_c
  generalize List.range n = l
  induction l generalizing data with
  | nil => rfl
  | cons a l ih => simp [List.foldl_cons, ih]

theorem set_diagonal_c_getD (n i j : Nat) (hi : i < n) (hj : j < n) :
    (set_diagonal_c n (List.replicate (2 * (n * n)) 0)).getD (2 * (i * n + j)) 0
      = (if i = j then 1 else 0) ∧
    (set_diagonal_c n (List.replicate (2 * (n * n)) 0)).getD (2 * (i * n + j) + 1) 0 = 0 := by
  have hidx : i * n + j < n * n := lin_index2_lt hi hj
  rw [set_diagonal_c, foldl_set_getD (fun i => 2 * (i * (n + 1))),
    foldl_set_getD (fun i => 2 * (i * (n + 1)))]
  have hiff : (∃ k, k ∈ List.range n ∧ 2 * (k * (n + 1)) = 2 * (i * n + j)) ↔ i = j := by
    constructor
    · rintro ⟨k, hk, he⟩
      simp only [List.mem_range] at hk
      have e1 : k * (n + 1) = k * n + k := by ring
      rw [e1] at he
      have he2 : k * n + k = i * n + j := by omega
      have a1 := div_mod_lin (i := k) hk
      have a2 := div_mod_lin (i := i) hj
      rw [he2] at a1
      omega
    · intro h
      subst h
      exact ⟨i, List.mem_range.mpr hi, by ring⟩
  have hno : ¬ (∃ k, k ∈ List.range n ∧ 2 * (k * (n + 1)) = 2 * (i * n + j) + 1) := by
    rintro ⟨k, _, he⟩
    omega
  have h1 : 2 * (i * n + j) < 2 * (n * n) := by omega
  have h2 : 2 * (i * n + j) + 1 < 2 * (n * n) := by omega
  simp only [hiff, hno, List.length_replicate, h1, and_true, false_and, if_false]
  constructor
  · split_ifs
    · rfl
    · simp [List.getD_eq_getElem?_getD, List.getElem?_replicate, h1]
  · simp [List.getD_eq_getElem?_getD, List.getElem?_replicate, h2]

theorem lu_steps_perm {K : Type} [Field K] [DecidableEq K] (size : K → ℚ) (huge : K)
    (sing : Bool) (n : Nat) (A : Nat → Nat → K) (k : Nat) (hk : k ≤ n)
    (s : (Nat → Nat → K) × List Nat) (h : lu_steps size huge sing n A k = some s) :
    s.2.length = k ∧ ∀ j, j < k → s.2.getD j 0 < n := by
  induction k generalizing s with
  | zero =>
    simp only [lu_steps, Option.some.injEq] at h
    subst h
    exact ⟨rfl, fun j hj => by omega⟩
  | succ k ih =>
    simp only [lu_steps] at h
    split at h
    · cases h
    · rename_i s0 hs0
      split at h
      · cases h
      · rename_i t ht
        simp only [Option.some.injEq] at h
        subst h
        obtain ⟨h1, h2⟩ := ih (by omega) s0 hs0
        have htl : t.2 = pivot_row size s0.1 k (n - 1 - k) := by
          simp only [lu_step] at ht
          split_ifs at ht
          all_goals
            simp only [Option.some.injEq] at ht
            subst ht
            rfl
        have hb := pivot_row_bounds size s0.1 k (n - 1 - k)
        refine ⟨by simp [h1], fun j hj => ?_⟩
        by_cases hjk : j = k
        · subst hjk
          have : (s0.2 ++ [t.2]).getD j 0 = t.2 := by
            simp [List.getD_eq_getElem?_getD, List.getElem?_append_right, h1]
          rw [this, htl]
          omega
        · have : (s0.2 ++ [t.2]).getD j 0 = s0.2.getD j 0 := by
            have hj2 : j < k := by omega
            simp [List.getD_eq_getElem?_getD, List.getElem?_append_left, h1, hj2]
          rw [this]
          exact h2 j (by omega)

theorem lu_forward_congr_a {K : Type} [Field K] (a a2 : Nat → Nat → K) (perm : List Nat)
    (n k : Nat) (hk : k ≤ n) (hp : ∀ j, j < k → perm.getD j 0 < n)
    (ha : ∀ i j, i < n → j < n → a i j = a2 i j) (v w : Nat → K)
    (h : ∀ i, i < n → v i = w i) :
    ∀ i, i < n → lu_forward a perm k v i = lu_forward a2 perm k w i := by
  induction k with
  | zero => exact h
  | succ k ih =>
    have ih1 := ih (by omega) (fun j hj => hp j (by omega))
    intro i hi
    have e1 := ih1 k (by omega)
    have e2 := ih1 _ (hp k (by omega))
    have e3 := ih1 i hi
    simp only [lu_forward, row_op, swap_rows, e1, e2, e3, ha i k hi (by omega)]

theorem lu_backward_congr {K : Type} [Field K] (n : Nat) (a a2 : Nat → Nat → K)
    (c c2 : Nat → K) (ha : ∀ i j, i < n → j < n → a i j = a2 i j)
    (hc : ∀ i, i < n → c i = c2 i) (s : Nat) (hs : s ≤ n) :
    lu_backward n a c s = lu_backward n a2 c2 s := by
  induction s with
  | zero => rfl
  | succ s ih =>
    have hi : n - (s + 1) < n := by omega
    have e : (∑ j in Finset.range n, if n - (s + 1) < j
          then a (n - (s + 1)) j * lu_backward n a2 c2 s j else 0)
        = ∑ j in Finset.range n, if n - (s + 1) < j
          then a2 (n - (s + 1)) j * lu_backward n a2 c2 s j else 0 := by
      apply Finset.sum_congr rfl
      intro j hj
      simp only [Finset.mem_range] at hj
      rw [ha _ _ hi hj]
    simp only [lu_backward, ih (by omega), hc _ hi, ha _ _ hi hi, e]

theorem lu_solve_congr {K : Type} [Field K] (n : Nat) (a a2 : Nat → Nat → K) (perm : List Nat)
    (hp : ∀ j, j < n → perm.getD j 0 < n)
    (ha : ∀ i j, i < n → j < n → a i j = a2 i j) (b b2 : Nat → K)
    (hb : ∀ i, i < n → b i = b2 i) :
    lu_solve n a perm b = lu_solve n a2 perm b2 := by
  simp only [lu_solve]
  exact lu_backward_congr n a a2 _ _ ha
    (lu_forward_congr_a a a2 perm n n (le_refl n) hp ha b b2 hb) n (le_refl n)

theorem lu_backward_sum {K : Type} [Field K] (n : Nat) (a : Nat → Nat → K) (m : Nat)
    (f : Nat → Nat → K) (x : Nat → K) (s : Nat) :
    lu_backward n a (fun i => ∑ k in Finset.range m, f k i * x k) s
      = fun j => ∑ k in Finset.range m, lu_backward n a (f k) s j * x k := by
  induction s with
  | zero =>
    funext j
    simp [lu_backward]
  | succ s ih =>
    funext j
    simp only [lu_backward, ih]
    by_cases hj : j = n - (s + 1)
    · subst hj
      simp only [Function.update_same]
      have e : (∑ j in Finset.range n, if n - (s + 1) < j
            then a (n - (s + 1)) j * ∑ k in Finset.range m, lu_backward n a (f k) s j * x k
            else 0)
          = ∑ k in Finset.range m, (∑ j in Finset.range n, if n - (s + 1) < j
              then a (n - (s + 1)) j * lu_backward n a (f k) s j else 0) * x k := by
        simp only [Finset.sum_mul]
        rw [Finset.sum_comm]
        apply Finset.sum_congr rfl
        intro j _
        split_ifs
        · rw [Finset.mul_sum]
          apply Finset.sum_congr rfl
          intro k _
          ring
        · simp
      rw [e, ← Finset.sum_sub_distrib, Finset.sum_div]
      apply Finset.sum_congr rfl
      intro k _
      ring
    · simp only [Function.update_noteq hj]

theorem lu_solve_sum {K : Type} [Field K] (n : Nat) (a : Nat → Nat → K) (perm : List Nat)
    (m : Nat) (f : Nat → Nat → K) (x : Nat → K) :
    lu_solve n a perm (fun i => ∑ k in Finset.range m, f k i * x k)
      = fun j => ∑ k in Finset.range m, lu_solve n a perm (f k) j * x k := by
  simp only [lu_solve]
  rw [lu_forward_sum a perm n m x f, lu_backward_sum]

theorem ker_of_det_ne_zero {K : Type} [Field K] (n : Nat) (A : Nat → Nat → K)
    (h : fn_det n A ≠ 0) :
    ∀ x : Nat → K, (∀ i, i < n → (∑ j in Finset.range n, A i j * x j) = 0) →
      ∀ j, j < n → x j = 0 := by
  intro x hx j hj
  have hv : (Matrix.of (fun (i j : Fin n) => A i j)).mulVec (fun j : Fin n => x j) = 0 := by
    funext i
    simp only [Matrix.mulVec, Matrix.dotProduct, Matrix.of_apply, Pi.zero_apply]
    rw [Fin.sum_univ_eq_sum_range (fun j => A i j * x j) n]
    exact hx i i.2
  have := Matrix.eq_zero_of_mulVec_eq_zero h hv
  exact congrFun this ⟨j, hj⟩

theorem alloc_next_ok (st : core_state) (h : ∀ b, b ∈ st.alloc → b = true) :
    alloc_next st = (true, { st with alloc := st.alloc.tail }) := by
  simp only [alloc_next, Prod.mk.injEq, and_true]
  cases hst : st.alloc with
  | nil => rfl
  | cons a l => exact h a (by rw [hst]; exact List.mem_cons_self a l)

theorem tail_all_true (l : List Bool) (h : ∀ b, b ∈ l → b = true) :
    ∀ b, b ∈ l.tail → b = true :=
  fun b hb => h b (List.mem_of_mem_tail hb)

theorem linalg_inv_alloc_ok (st : core_state) (h : ∀ b, b ∈ st.alloc → b = true) :
    linalg_inv_alloc st = Sum.inr { st with alloc := st.alloc.tail.tail.tail } := by
  have h1 := tail_all_true _ h
  have h2 := tail_all_true _ h1
  unfold linalg_inv_alloc
  rw [alloc_next_ok st h]
  simp only [Bool.not_true, Bool.false_eq_true, if_false]
  rw [alloc_next_ok _ h1]
  simp only [Bool.not_true, Bool.false_eq_true, if_false]
  rw [alloc_next_ok _ h2]
  simp only [Bool.not_true, Bool.false_eq_true, if_false]

theorem linalg_div_alloc_ok (st : core_state) (h : ∀ b, b ∈ st.alloc → b = true) :
    linalg_div_alloc st = Sum.inr { st with alloc := st.alloc.tail.tail.tail } := by
  have h1 := tail_all_true _ h
  have h2 := tail_all_true _ h1
  unfold linalg_div_alloc
  rw [alloc_next_ok st h]
  simp only [Bool.not_true, Bool.false_eq_true, if_false]
  rw [alloc_next_ok _ h1]
  simp only [Bool.not_true, Bool.false_eq_true, if_false]
  rw [alloc_next_ok _ h2]
  simp only [Bool.not_true, Bool.false_eq_true, if_false]

theorem rm_fn_copy (n : Nat) (ma : vartype_realmatrix) (hc : ma.columns = n) :
    rm_fn (matrix_copy_rr (new_realmatrix n n) ma) = rm_fn ma := by
  funext i j
  simp [rm_fn, matrix_copy_rr, new_realmatrix, hc]

theorem linalg_inv_r_large (env : phloat_env) (ma : vartype_realmatrix) (c : completion_v_ref)
    (st : core_state) (n : Nat) (hr : ma.rows = n) (hc : ma.columns = n)
    (hs : contains_strings ma = false)
    (hn : 2 < n) (hfin : ∀ x, env.p_isinf x = 0)
    (halloc : ∀ b, b ∈ st.alloc → b = true) (s : (Nat → Nat → phloat) × List Nat)
    (hlu : lu_steps (fun x : phloat => |x|) env.POS_HUGE_PHLOAT st.matrix_singularmatrix
      n (rm_fn ma) n = some s) :
    ∃ X st0, linalg_inv env (core_linalg2 env) (vartype.realmatrix ma) c st
        = some (ERR_NONE, release obj.perm (release obj.lu
            (call_completion_v c (vartype.realmatrix X) st0))) ∧
      st0.log = st.log ∧ st0.alloc = st.alloc.tail.tail.tail ∧
      st0.matrix_outofrange = st.matrix_outofrange ∧
      st0.range_error_ignore = st.range_error_ignore ∧
      X.rows = n ∧ X.columns = n ∧ X.data.length = n * n ∧
      contains_strings X = false ∧
      ∀ i j, i < n → j < n →
        rm_fn X i j = lu_solve n s.1 s.2 (fun r => if r = j then 1 else 0) i := by
  have hn2 : ¬ n ≤ 2 := by omega
  have hperm := lu_steps_perm _ _ _ _ _ _ (le_refl _) s hlu
  have hcopy := rm_fn_copy n ma hc
  have hrow : (matrix_copy_rr (new_realmatrix n n) ma).rows = n := rfl
  simp only [linalg_inv, hr, hc, ne_eq, not_true_eq_false, if_false, hs, Bool.false_eq_true,
    hn2, linalg_inv_alloc_ok st halloc, core_linalg2, lu_decomp_r, hrow, hcopy,
    hlu, inv_r_completion1, lu_backsubst_rr, range_policy_of_finite env _ _ hfin,
    inv_r_completion2]
  refine ⟨_, _, rfl, rfl, rfl, rfl, rfl, rfl, rfl, ?_, ?_, ?_⟩
  · simp [rm_data_length, new_realmatrix]
  · simp [contains_strings, new_realmatrix]
  · intro i j hi hj
    simp only [rm_fn, new_realmatrix]
    rw [rm_data_getD n n _ i j hi hj]
    apply congrFun
    apply lu_solve_congr n _ _ _ hperm.2
    · intro i2 j2 hi2 hj2
      exact rm_data_getD n n _ i2 j2 hi2 hj2
    · intro r hr2
      rw [set_diagonal_r_getD n r j hr2 hj]

theorem cm_fn_copy (n : Nat) (ma : vartype_complexmatrix) (hc : ma.columns = n) :
    cm_fn (matrix_copy_cc (new_complexmatrix n n) ma) = cm_fn ma := by
  funext i j
  simp [cm_fn, matrix_copy_cc, new_complexmatrix, hc]

theorem cm_fn_cm_data (r c : Nat) (f : Nat → Nat → cplx) (i j : Nat) (hi : i < r) (hj : j < c) :
    cm_fn { rows := r, columns := c, data := cm_data r c f } i j = f i j := by
  obtain ⟨h1, h2⟩ := cm_data_getD r c f i j hi hj
  apply cplx.ext
  · exact h1
  · exact h2

theorem linalg_inv_c_large (env : phloat_env) (ma : vartype_complexmatrix)
    (c : completion_v_ref)
    (st : core_state) (n : Nat) (hr : ma.rows = n) (hc : ma.columns = n)
    (hn : 2 < n) (hfin : ∀ x, env.p_isinf x = 0)
    (halloc : ∀ b, b ∈ st.alloc → b = true) (s : (Nat → Nat → cplx) × List Nat)
    (hlu : lu_steps cplx_size ⟨env.POS_HUGE_PHLOAT, 0⟩ st.matrix_singularmatrix
      n (cm_fn ma) n = some s) :
    ∃ X st0, linalg_inv env (core_linalg2 env) (vartype.complexmatrix ma) c st
        = some (ERR_NONE, release obj.perm (release obj.lu
            (call_completion_v c (vartype.complexmatrix X) st0))) ∧
      st0.log = st.log ∧ st0.alloc = st.alloc.tail.tail.tail ∧
      st0.matrix_outofrange = st.matrix_outofrange ∧
      st0.range_error_ignore = st.range_error_ignore ∧
      X.rows = n ∧ X.columns = n ∧ X.data.length = 2 * (n * n) ∧
      ∀ i j, i < n → j < n →
        cm_fn X i j = lu_solve n s.1 s.2 (fun r => if r = j then 1 else 0) i := by
  have hn2 : ¬ n ≤ 2 := by omega
  have hperm := lu_steps_perm _ _ _ _ _ _ (le_refl _) s hlu
  have hcopy := cm_fn_copy n ma hc
  have hrow : (matrix_copy_cc (new_complexmatrix n n) ma).rows = n := rfl
  simp only [linalg_inv, hr, hc, ne_eq, not_true_eq_false, if_false,
    hn2, linalg_inv_alloc_ok st halloc, core_linalg2, lu_decomp_c, hrow, hcopy,
    hlu, inv_c_completion1, lu_backsubst_cc, range_policy_of_finite env _ _ hfin,
    inv_c_completion2]
  refine ⟨_, _, rfl, rfl, rfl, rfl, rfl, rfl, rfl, ?_, ?_⟩
  · simp [cm_data_length, new_complexmatrix]
  · intro i j hi hj
    simp only [new_complexmatrix]
    rw [cm_fn_cm_data n n _ i j hi hj]
    apply congrFun
    apply lu_solve_congr n _ _ _ hperm.2
    · intro i2 j2 hi2 hj2
      exact cm_fn_cm_data n n _ i2 j2 hi2 hj2
    · intro r hr2
      obtain ⟨e1, e2⟩ := set_diagonal_c_getD n r j hr2 hj
      apply cplx.ext
      · simp only [cm_fn]
        rw [e1]
        split_ifs <;> rfl
      · simp only [cm_fn]
        rw [e2]
        split_ifs <;> rfl

theorem acc_rr_fin (env : phloat_env) (hfin : ∀ x, env.p_isinf x = 0)
    (l r : vartype_realmatrix) (i j q : Nat) :
    acc_rr env l r i j q = xphloat.num (psum (fun a b => a + b) 0 (term_rr l r) i j q) :=
  acc_rr_num env l r i j q (fun _ _ => ⟨hfin _, hfin _⟩)

theorem acc_rc_fin (env : phloat_env) (hfin : ∀ x, env.p_isinf x = 0)
    (l : vartype_realmatrix) (r : vartype_complexmatrix) (i j q : Nat) :
    acc_rc env l r i j q
      = (xphloat.num (psum add2 (0, 0) (term_rc l r) i j q).1,
         xphloat.num (psum add2 (0, 0) (term_rc l r) i j q).2) :=
  acc2_num env (xterm_rc env l r) (term_rc l r) i j q
    (fun k _ => by
      simp only [xterm_rc, xnum_of_finite env _ (hfin _)])
    (fun _ _ => ⟨hfin _, hfin _⟩)

theorem acc_cr_fin (env : phloat_env) (hfin : ∀ x, env.p_isinf x = 0)
    (l : vartype_complexmatrix) (r : vartype_realmatrix) (i j q : Nat) :
    acc_cr env l r i j q
      = (xphloat.num (psum add2 (0, 0) (term_cr l r) i j q).1,
         xphloat.num (psum add2 (0, 0) (term_cr l r) i j q).2) :=
  acc2_num env (xterm_cr env l r) (term_cr l r) i j q
    (fun k _ => by
      simp only [xterm_cr, xnum_of_finite env _ (hfin _)])
    (fun _ _ => ⟨hfin _, hfin _⟩)

theorem acc_cc_fin (env : phloat_env) (hfin : ∀ x, env.p_isinf x = 0)
    (l r : vartype_complexmatrix) (i j q : Nat) :
    acc_cc env l r i j q
      = (xphloat.num (psum add2 (0, 0) (term_cc l r) i j q).1,
         xphloat.num (psum add2 (0, 0) (term_cc l r) i j q).2) :=
  acc2_num env (xterm_cc env l r) (term_cc l r) i j q
    (fun k _ => by
      simp only [xterm_cc, xnum_of_finite env _ (hfin _)]
      rw [xsub_num env _ _ (hfin _), xadd_num env _ _ (hfin _)]
      rfl)
    (fun _ _ => ⟨hfin _, hfin _⟩)

theorem xmul_fin (env : phloat_env) (hfin : ∀ x, env.p_isinf x = 0) (a b : phloat) :
    xmul env (xphloat.num a) (xphloat.num b) = xphloat.num (a * b) := by
  simp [xmul, xnum_of_finite env _ (hfin _)]

theorem xadd_fin (env : phloat_env) (hfin : ∀ x, env.p_isinf x = 0) (a b : phloat) :
    xadd env (xphloat.num a) (xphloat.num b) = xphloat.num (a + b) :=
  xadd_num env a b (hfin _)

theorem xsub_fin (env : phloat_env) (hfin : ∀ x, env.p_isinf x = 0) (a b : phloat) :
    xsub env (xphloat.num a) (xphloat.num b) = xphloat.num (a - b) :=
  xsub_num env a b (hfin _)

theorem xdiv_fin (env : phloat_env) (hfin : ∀ x, env.p_isinf x = 0) (a b : phloat)
    (hb : b ≠ 0) :
    xdiv env (xphloat.num a) (xphloat.num b) = xphloat.num (a / b) := by
  simp [xdiv, hb, xnum_of_finite env _ (hfin _)]

theorem x_range_fin (env : phloat_env) (hfin : ∀ x, env.p_isinf x = 0) (st : core_state)
    (a : phloat) : x_range env st (xphloat.num a) = (ERR_NONE, a) := by
  simp [x_range, det_range_of_finite env st a (hfin a)]

theorem sq_sum_ne_zero (a b : phloat) (h : ¬ (a = 0 ∧ b = 0)) : a * a + b * b ≠ 0 := by
  intro h0
  apply h
  have ha : 0 ≤ a * a := mul_self_nonneg a
  have hb : 0 ≤ b * b := mul_self_nonneg b
  constructor
  · exact mul_self_eq_zero.1 (by linarith)
  · exact mul_self_eq_zero.1 (by linarith)

theorem small_inv_r_one (env : phloat_env) (ma : vartype_realmatrix) (st : core_state)
    (x0 : phloat) (hr : ma.rows = 1) (hd : ma.data = [x0]) (hx : x0 ≠ 0)
    (hfin : ∀ x, env.p_isinf x = 0) (halloc : ∀ b, b ∈ st.alloc → b = true)
    (c : completion_v_ref) :
    small_inv_r env ma c st
      = some (ERR_NONE, call_completion_v c
          (vartype.realmatrix { new_realmatrix 1 1 with data := [1 / x0] })
          { st with alloc := st.alloc.tail }) := by
  simp [small_inv_r, hr, hd, hx, hfin, alloc_next_ok st halloc]

theorem small_inv_r_two (env : phloat_env) (ma : vartype_realmatrix) (st : core_state)
    (a b c d : phloat) (hr : ma.rows = 2) (hd : ma.data = [a, b, c, d])
    (hs : contains_strings ma = false)
    (hdet : a * d - b * c ≠ 0)
    (hfin : ∀ x, env.p_isinf x = 0) (halloc : ∀ b, b ∈ st.alloc → b = true) :
    ∃ st0, (∀ cp : completion_v_ref, small_inv_r env ma cp st
      = some (ERR_NONE, call_completion_v cp
          (vartype.realmatrix { ma with
            data := [d / (a * d - b * c), -(b / (a * d - b * c)), -(c / (a * d - b * c)),
              a / (a * d - b * c)] }) st0)) ∧
      st0.log = st.log ++ [event.free obj.d] ∧ st0.alloc = st.alloc.tail.tail ∧
      st0.matrix_outofrange = st.matrix_outofrange ∧
      st0.range_error_ignore = st.range_error_ignore ∧
      st0.small_div_completion = st.small_div_completion := by
  have h1 := tail_all_true _ halloc
  have hdet2 := small_det_r_two env st ma a b c d (by omega) hd (hfin _)
  have hr1 : ¬ ma.rows = 1 := by omega
  have hdr : ∀ (s : core_state) (x : phloat), det_range env s x = (ERR_NONE, x) :=
    fun s x => det_range_of_finite env s x (hfin x)
  refine ⟨{ st with
      alloc := st.alloc.tail.tail, log := st.log ++ [event.free obj.d],
      small_inv_res := some (vartype.realmatrix { ma with
        data := [d / (a * d - b * c), -(b / (a * d - b * c)), -(c / (a * d - b * c)),
          a / (a * d - b * c)] }) }, fun cp => ?_, rfl, rfl, rfl, rfl, rfl⟩
  · simp only [small_inv_r, hr1, if_false, hdet2, hdet, alloc_next_ok st halloc, Bool.not_true,
      Bool.false_eq_true, generic_div, hs, hd, List.map, xnum_of_finite env _ (hfin _),
      xdiv_fin env hfin _ _ hdet, x_range_fin env hfin, List.any, bne_self_eq_false,
      Bool.or_self]
    rw [alloc_next_ok _ h1]
    simp
    rfl

theorem math_inv_of_finite (env : phloat_env) (st : core_state) (xre xim : phloat)
    (hfin : ∀ x, env.p_isinf x = 0) :
    math_inv env st xre xim
      = (ERR_NONE, xre / (xre * xre + xim * xim), -xim / (xre * xre + xim * xim)) := by
  simp [math_inv, det_range_of_finite env _ _ (hfin _)]

theorem small_inv_c_one (env : phloat_env) (ma : vartype_complexmatrix) (st : core_state)
    (xre xim : phloat) (hr : ma.rows = 1) (hd : ma.data = [xre, xim])
    (hx : ¬ (xre = 0 ∧ xim = 0))
    (hfin : ∀ x, env.p_isinf x = 0) (halloc : ∀ b, b ∈ st.alloc → b = true)
    (c : completion_v_ref) :
    small_inv_c env ma c st
      = some (ERR_NONE, call_completion_v c
          (vartype.complexmatrix { new_complexmatrix 1 1 with
            data := [xre / (xre * xre + xim * xim), -xim / (xre * xre + xim * xim)] })
          { st with alloc := st.alloc.tail }) := by
  simp only [small_inv_c, hr, if_true, hd, List.getElem?_cons_zero, List.getElem?_cons_succ,
    hx, if_false, math_inv_of_finite env _ _ _ hfin, ne_eq, not_true_eq_false,
    alloc_next_ok st halloc, Bool.not_true, Bool.false_eq_true]

theorem small_inv_c_two (env : phloat_env) (ma : vartype_complexmatrix) (st : core_state)
    (a0 a1 a2 a3 a4 a5 a6 a7 dre dim : phloat) (hr : ma.rows = 2)
    (hd : ma.data = [a0, a1, a2, a3, a4, a5, a6, a7])
    (hdre : dre = (a0 * a6 - a1 * a7) - (a2 * a4 - a3 * a5))
    (hdim : dim = (a0 * a7 + a1 * a6) - (a2 * a5 + a3 * a4))
    (hdet : ¬ (dre = 0 ∧ dim = 0))
    (hfin : ∀ x, env.p_isinf x = 0) (halloc : ∀ b, b ∈ st.alloc → b = true) :
    ∃ st0, (∀ cp : completion_v_ref, small_inv_c env ma cp st
      = some (ERR_NONE, call_completion_v cp
          (vartype.complexmatrix { ma with
            data := [(a6 * dre + a7 * dim) / (dre * dre + dim * dim),
              (a7 * dre - a6 * dim) / (dre * dre + dim * dim),
              -((a2 * dre + a3 * dim) / (dre * dre + dim * dim)),
              -((a3 * dre - a2 * dim) / (dre * dre + dim * dim)),
              -((a4 * dre + a5 * dim) / (dre * dre + dim * dim)),
              -((a5 * dre - a4 * dim) / (dre * dre + dim * dim)),
              (a0 * dre + a1 * dim) / (dre * dre + dim * dim),
              (a1 * dre - a0 * dim) / (dre * dre + dim * dim)] }) st0)) ∧
      st0.log = st.log ++ [event.free obj.d] ∧ st0.alloc = st.alloc.tail.tail ∧
      st0.matrix_outofrange = st.matrix_outofrange ∧
      st0.range_error_ignore = st.range_error_ignore ∧
      st0.small_div_completion = st.small_div_completion := by
  have h1 := tail_all_true _ halloc
  have hdet2 := small_det_c_two env st ma a0 a1 a2 a3 a4 a5 a6 a7 (by omega) hd hfin
  rw [← hdre, ← hdim] at hdet2
  have hr1 : ¬ ma.rows = 1 := by omega
  have hdr : ∀ (s : core_state) (x : phloat), det_range env s x = (ERR_NONE, x) :=
    fun s x => det_range_of_finite env s x (hfin x)
  refine ⟨{ st with
      alloc := st.alloc.tail.tail, log := st.log ++ [event.free obj.d],
      small_inv_res := some (vartype.complexmatrix { ma with
        data := [(a6 * dre + a7 * dim) / (dre * dre + dim * dim),
              (a7 * dre - a6 * dim) / (dre * dre + dim * dim),
              -((a2 * dre + a3 * dim) / (dre * dre + dim * dim)),
              -((a3 * dre - a2 * dim) / (dre * dre + dim * dim)),
              -((a4 * dre + a5 * dim) / (dre * dre + dim * dim)),
              -((a5 * dre - a4 * dim) / (dre * dre + dim * dim)),
              (a0 * dre + a1 * dim) / (dre * dre + dim * dim),
              (a1 * dre - a0 * dim) / (dre * dre + dim * dim)] }) },
    fun cp => ?_, rfl, rfl, rfl, rfl, rfl⟩
  have hrange : List.range 8 = [0, 1, 2, 3, 4, 5, 6, 7] := by decide
  have hden := sq_sum_ne_zero dre dim hdet
  simp only [small_inv_c, hr1, if_false, hdet2, hdet, alloc_next_ok st halloc, Bool.not_true,
    Bool.false_eq_true, generic_div, hd, List.map, xnum_of_finite env _ (hfin _),
    xmul_fin env hfin, xadd_fin env hfin, xsub_fin env hfin, List.any, bne_self_eq_false,
    Bool.or_self, List.length_cons, List.length_nil, hrange]
  rw [alloc_next_ok _ h1]
  simp [xdiv_fin env hfin _ _ hden, x_range_fin env hfin]
  rfl

theorem linalg_mul_run (env : phloat_env) (cb : Err → Option vartype → Err)
    (st : core_state) (left right : vartype) (c : completion_ref)
    (hwl : mat_wf left) (hwr : mat_wf right)
    (hdim : mat_columns left = mat_rows right)
    (halloc : ∀ b, b ∈ st.alloc → b = true)
    (hfin : ∀ x, env.p_isinf x = 0) :
    ∃ (st1 : core_state) (N : Nat) (stN : core_state) (res : vartype) (stF : core_state),
      linalg_mul cb left right c st = some (ERR_INTERRUPTIBLE, st1) ∧
      suspended_after env cb N st1 = some stN ∧
      stN.log = st.log ∧
      (∀ r, call_completion cb c ERR_NONE (some res) stF = some r →
        ∃ stE, reenter env cb false stN = some (r.1, stE) ∧
          stE.log = r.2.log ++ [event.free obj.dat]) ∧
      stF.log = st.log ∧ stF.small_div_completion = st.small_div_completion ∧
      mat_rows res = mat_rows left ∧ mat_columns res = mat_columns right ∧
      ∀ i j, i < mat_rows left → j < mat_columns right →
        mat_entry res i j = product_entry left right i j := by
  have ha1 : (alloc_next st).1 = true := by rw [alloc_next_ok st halloc]
  have ha2 : (alloc_next (alloc_next st).2).1 = true := by
    rw [alloc_next_ok st halloc, alloc_next_ok _ (tail_all_true _ halloc)]
  cases left with
  | realmatrix l =>
    cases right with
    | realmatrix r =>
      obtain ⟨hm, hq, hl, hs⟩ := hwl
      obtain ⟨hq2, hn, hr, hs2⟩ := hwr
      simp only [mat_columns, mat_rows] at hdim
      have hc : ∀ i j, i < l.rows → j < r.columns →
          check_acc env st (acc_rr env l r i j l.columns)
            = some (psum (fun a b => a + b) 0 (term_rr l r) i j l.columns) := by
        intro i j hi hj
        rw [acc_rr_fin env hfin]
        exact check_sum_of_finite env st _ (hfin _)
      obtain ⟨st1, stN, stF, p1, h1, h2, h3, h4, h5, h6, h7, h8, h9, h10⟩ :=
        matrix_mul_rr_run env cb st l r c hdim hl hr hm hq hn hs hs2 ha1 ha2
          (fun i j hi hj => by rw [hc i j hi hj]; rfl)
      refine ⟨st1, _, stN, vartype.realmatrix { new_realmatrix l.rows r.columns with data := p1 }, stF,
        h1, h4, h5, ?_, h7, h8, rfl, rfl, ?_⟩
      · intro r0 hr0
        rw [h6, hr0]
        exact ⟨_, rfl, by simp [release]⟩
      · intro i j hi hj
        simp only [mat_rows, mat_columns] at hi hj
        have hidx := lin_index2_lt hi hj
        have := h10 _ hidx
        obtain ⟨d1, d2⟩ := div_mod_lin (i := i) hj
        simp only [stored_rr, d1, d2, hc i j hi hj, Option.getD_some, read1] at this
        rw [product_entry_rr]
        simp only [mat_entry, new_realmatrix, this]
    | complexmatrix r =>
      obtain ⟨hm, hq, hl, hs⟩ := hwl
      obtain ⟨hq2, hn, hr⟩ := hwr
      simp only [mat_columns, mat_rows] at hdim
      have hc : ∀ i j, i < l.rows → j < r.columns →
          check_acc2 env st (acc_rc env l r i j l.columns)
            = some (psum add2 (0, 0) (term_rc l r) i j l.columns) := by
        intro i j hi hj
        rw [acc_rc_fin env hfin]
        exact check_sum2_of_finite env st _ (hfin _) (hfin _)
      obtain ⟨st1, stN, stF, p1, h1, h2, h3, h4, h5, h6, h7, h8, h9, h10⟩ :=
        matrix_mul_rc_run env cb st l r c hdim hl hr hm hq hn hs ha1 ha2
          (fun i j hi hj => by rw [hc i j hi hj]; rfl)
      refine ⟨st1, _, stN, vartype.complexmatrix { new_complexmatrix l.rows r.columns with data := p1 }, stF,
        h1, h4, h5, ?_, h7, h8, rfl, rfl, ?_⟩
      · intro r0 hr0
        rw [h6, hr0]
        exact ⟨_, rfl, by simp [release]⟩
      · intro i j hi hj
        simp only [mat_rows, mat_columns] at hi hj
        have hidx := lin_index2_lt hi hj
        have := h10 _ hidx
        obtain ⟨d1, d2⟩ := div_mod_lin (i := i) hj
        simp only [stored_c, d1, d2, hc i j hi hj, Option.getD_some, read2] at this
        rw [product_entry_rc, ← this]
        simp only [mat_entry, new_complexmatrix]
    | _ => exact hwr.elim
  | complexmatrix l =>
    cases right with
    | realmatrix r =>
      obtain ⟨hm, hq, hl⟩ := hwl
      obtain ⟨hq2, hn, hr, hs⟩ := hwr
      simp only [mat_columns, mat_rows] at hdim
      have hc : ∀ i j, i < l.rows → j < r.columns →
          check_acc2 env st (acc_cr env l r i j l.columns)
            = some (psum add2 (0, 0) (term_cr l r) i j l.columns) := by
        intro i j hi hj
        rw [acc_cr_fin env hfin]
        exact check_sum2_of_finite env st _ (hfin _) (hfin _)
      obtain ⟨st1, stN, stF, p1, h1, h2, h3, h4, h5, h6, h7, h8, h9, h10⟩ :=
        matrix_mul_cr_run env cb st l r c hdim hl hr hm hq hn hs ha1 ha2
          (fun i j hi hj => by rw [hc i j hi hj]; rfl)
      refine ⟨st1, _, stN, vartype.complexmatrix { new_complexmatrix l.rows r.columns with data := p1 }, stF,
        h1, h4, h5, ?_, h7, h8, rfl, rfl, ?_⟩
      · intro r0 hr0
        rw [h6, hr0]
        exact ⟨_, rfl, by simp [release]⟩
      · intro i j hi hj
        simp only [mat_rows, mat_columns] at hi hj
        have hidx := lin_index2_lt hi hj
        have := h10 _ hidx
        obtain ⟨d1, d2⟩ := div_mod_lin (i := i) hj
        simp only [stored_c, d1, d2, hc i j hi hj, Option.getD_some, read2] at this
        rw [product_entry_cr, ← this]
        simp only [mat_entry, new_complexmatrix]
    | complexmatrix r =>
      obtain ⟨hm, hq, hl⟩ := hwl
      obtain ⟨hq2, hn, hr⟩ := hwr
      simp only [mat_columns, mat_rows] at hdim
      have hc : ∀ i j, i < l.rows → j < r.columns →
          check_acc2 env st (acc_cc env l r i j l.columns)
            = some (psum add2 (0, 0) (term_cc l r) i j l.columns) := by
        intro i j hi hj
        rw [acc_cc_fin env hfin]
        exact check_sum2_of_finite env st _ (hfin _) (hfin _)
      obtain ⟨st1, stN, stF, p1, h1, h2, h3, h4, h5, h6, h7, h8, h9, h10⟩ :=
        matrix_mul_cc_run env cb st l r c hdim hl hr hm hq hn ha1 ha2
          (fun i j hi hj => by rw [hc i j hi hj]; rfl)
      refine ⟨st1, _, stN, vartype.complexmatrix { new_complexmatrix l.rows r.columns with data := p1 }, stF,
        h1, h4, h5, ?_, h7, h8, rfl, rfl, ?_⟩
      · intro r0 hr0
        rw [h6, hr0]
        exact ⟨_, rfl, by simp [release]⟩
      · intro i j hi hj
        simp only [mat_rows, mat_columns] at hi hj
        have hidx := lin_index2_lt hi hj
        have := h10 _ hidx
        obtain ⟨d1, d2⟩ := div_mod_lin (i := i) hj
        simp only [stored_c, d1, d2, hc i j hi hj, Option.getD_some, read2] at this
        rw [product_entry_cc, ← this]
        simp only [mat_entry, new_complexmatrix]
    | _ => exact hwr.elim
  | _ => exact hwl.elim

theorem cplx_sum_re (n : Nat) (f : Nat → cplx) :
    (∑ k in Finset.range n, f k).re = ∑ k in Finset.range n, (f k).re := by
  induction n with
  | zero => rfl
  | succ n ih =>
    rw [Finset.sum_range_succ, Finset.sum_range_succ, ← ih]
    rfl

theorem cplx_sum_im (n : Nat) (f : Nat → cplx) :
    (∑ k in Finset.range n, f k).im = ∑ k in Finset.range n, (f k).im := by
  induction n with
  | zero => rfl
  | succ n ih =>
    rw [Finset.sum_range_succ, Finset.sum_range_succ, ← ih]
    rfl

theorem product_entry_real (l r : vartype_realmatrix) (i j : Nat) :
    product_entry (vartype.realmatrix l) (vartype.realmatrix r) i j
      = (∑ k in Finset.range l.columns, rm_fn l i k * rm_fn r k j, 0) := by
  apply Prod.ext
  · simp [product_entry, Prod.fst_sum, mat_columns, mat_entry, cmul, rm_fn]
  · simp [product_entry, Prod.snd_sum, mat_columns, mat_entry, cmul]

theorem product_entry_cplx (l r : vartype_complexmatrix) (i j : Nat) :
    product_entry (vartype.complexmatrix l) (vartype.complexmatrix r) i j
      = ((∑ k in Finset.range l.columns, cm_fn l i k * cm_fn r k j).re,
         (∑ k in Finset.range l.columns, cm_fn l i k * cm_fn r k j).im) := by
  rw [cplx_sum_re, cplx_sum_im]
  apply Prod.ext
  · simp only [product_entry, Prod.fst_sum, mat_columns, mat_entry, cmul, cm_fn]
    rfl
  · simp only [product_entry, Prod.snd_sum, mat_columns, mat_entry, cmul, cm_fn]
    rfl

theorem product_entry_real_cplx (l : vartype_realmatrix) (r : vartype_complexmatrix)
    (i j : Nat) :
    product_entry (vartype.realmatrix l) (vartype.complexmatrix r) i j
      = (∑ k in Finset.range l.columns, rm_fn l i k * (cm_fn r k j).re,
         ∑ k in Finset.range l.columns, rm_fn l i k * (cm_fn r k j).im) := by
  apply Prod.ext
  · simp [product_entry, Prod.fst_sum, mat_columns, mat_entry, cmul, rm_fn, cm_fn]
  · simp [product_entry, Prod.snd_sum, mat_columns, mat_entry, cmul, rm_fn, cm_fn]

theorem product_entry_cplx_real (l : vartype_complexmatrix) (r : vartype_realmatrix)
    (i j : Nat) :
    product_entry (vartype.complexmatrix l) (vartype.realmatrix r) i j
      = (∑ k in Finset.range l.columns, (cm_fn l i k).re * rm_fn r k j,
         ∑ k in Finset.range l.columns, (cm_fn l i k).im * rm_fn r k j) := by
  apply Prod.ext
  · simp [product_entry, Prod.fst_sum, mat_columns, mat_entry, cmul, rm_fn, cm_fn]
  · simp [product_entry, Prod.snd_sum, mat_columns, mat_entry, cmul, rm_fn, cm_fn]

theorem fn_det_one {K : Type} [Field K] (A : Nat → Nat → K) : fn_det 1 A = A 0 0 := by
  simp [fn_det, Matrix.det_unique]

theorem fn_det_two {K : Type} [Field K] (A : Nat → Nat → K) :
    fn_det 2 A = A 0 0 * A 1 1 - A 0 1 * A 1 0 := by
  simp [fn_det, Matrix.det_fin_two]

theorem list_length_one {α : Type} (l : List α) (h : l.length = 1) : ∃ a, l = [a] := by
  match l, h with
  | [a], _ => exact ⟨a, rfl⟩

theorem list_length_two {α : Type} (l : List α) (h : l.length = 2) : ∃ a b, l = [a, b] := by
  match l, h with
  | [a, b], _ => exact ⟨a, b, rfl⟩

theorem list_length_four {α : Type} (l : List α) (h : l.length = 4) :
    ∃ a b c d, l = [a, b, c, d] := by
  match l, h with
  | [a, b, c, d], _ => exact ⟨a, b, c, d, rfl⟩

theorem list_length_eight {α : Type} (l : List α) (h : l.length = 8) :
    ∃ a0 a1 a2 a3 a4 a5 a6 a7, l = [a0, a1, a2, a3, a4, a5, a6, a7] := by
  match l, h with
  | [a0, a1, a2, a3, a4, a5, a6, a7], _ => exact ⟨a0, a1, a2, a3, a4, a5, a6, a7, rfl⟩

theorem abs_size_zero (x : phloat) (h : |x| ≤ |(0 : phloat)|) : x = 0 := by
  simpa using h

theorem cplx_size_zero (x : cplx) (h : cplx_size x ≤ cplx_size 0) : x = 0 := by
  have h0 : cplx_size 0 = 0 := by
    show (0 : ℚ) * 0 + 0 * 0 = 0
    norm_num
  rw [h0] at h
  simp only [cplx_size] at h
  have h1 : x.re = 0 := by nlinarith [mul_self_nonneg x.re, mul_self_nonneg x.im]
  have h2 : x.im = 0 := by nlinarith [mul_self_nonneg x.re, mul_self_nonneg x.im]
  exact cplx.ext h1 h2

theorem cplx_mul_re (x y : cplx) : (x * y).re = x.re * y.re - x.im * y.im := rfl

theorem cplx_mul_im (x y : cplx) : (x * y).im = x.re * y.im + x.im * y.re := rfl

theorem cplx_add_re (x y : cplx) : (x + y).re = x.re + y.re := rfl

theorem cplx_add_im (x y : cplx) : (x + y).im = x.im + y.im := rfl

theorem cplx_neg_re (x : cplx) : (-x).re = -x.re := rfl

theorem cplx_neg_im (x : cplx) : (-x).im = -x.im := rfl

theorem cplx_sub_re (x y : cplx) : (x - y).re = x.re - y.re := by
  rw [sub_eq_add_neg, cplx_add_re, cplx_neg_re, sub_eq_add_neg]

theorem cplx_sub_im (x y : cplx) : (x - y).im = x.im - y.im := by
  rw [sub_eq_add_neg, cplx_add_im, cplx_neg_im, sub_eq_add_neg]

theorem cplx_zero_re : (0 : cplx).re = 0 := rfl

theorem cplx_zero_im : (0 : cplx).im = 0 := rfl

theorem cplx_one_re : (1 : cplx).re = 1 := rfl

theorem cplx_one_im : (1 : cplx).im = 0 := rfl

theorem lu_identity_r (ma X : vartype_realmatrix) (n : Nat) (hc : ma.columns = n)
    (s : (Nat → Nat → phloat) × List Nat) (hinv : lu_inv n (rm_fn ma) n s)
    (hX : ∀ i j, i < n → j < n →
      rm_fn X i j = lu_solve n s.1 s.2 (fun r => if r = j then 1 else 0) i) :
    ∀ i j, i < n → j < n →
      product_entry (vartype.realmatrix ma) (vartype.realmatrix X) i j
        = if i = j then (1, 0) else (0, 0) := by
  intro i j hi hj
  rw [product_entry_real, hc]
  have e : (∑ k in Finset.range n, rm_fn ma i k * rm_fn X k j)
      = ∑ k in Finset.range n,
          rm_fn ma i k * lu_solve n s.1 s.2 (fun r => if r = j then 1 else 0) k := by
    apply Finset.sum_congr rfl
    intro k hk
    rw [hX k j (Finset.mem_range.mp hk) hj]
  rw [e, lu_solve_spec n (rm_fn ma) s hinv _ i hi]
  split_ifs <;> rfl

theorem lu_identity_c (ma X : vartype_complexmatrix) (n : Nat) (hc : ma.columns = n)
    (s : (Nat → Nat → cplx) × List Nat) (hinv : lu_inv n (cm_fn ma) n s)
    (hX : ∀ i j, i < n → j < n →
      cm_fn X i j = lu_solve n s.1 s.2 (fun r => if r = j then 1 else 0) i) :
    ∀ i j, i < n → j < n →
      product_entry (vartype.complexmatrix ma) (vartype.complexmatrix X) i j
        = if i = j then (1, 0) else (0, 0) := by
  intro i j hi hj
  rw [product_entry_cplx, hc]
  have e : (∑ k in Finset.range n, cm_fn ma i k * cm_fn X k j)
      = ∑ k in Finset.range n,
          cm_fn ma i k * lu_solve n s.1 s.2 (fun r => if r = j then 1 else 0) k := by
    apply Finset.sum_congr rfl
    intro k hk
    rw [hX k j (Finset.mem_range.mp hk) hj]
  rw [e, lu_solve_spec n (cm_fn ma) s hinv _ i hi]
  split_ifs <;> rfl

theorem linalg_inv_delivers_r (env : phloat_env) (L2 : linalg2) (ma : vartype_realmatrix)
    (st : core_state) (hwf : mat_wf (vartype.realmatrix ma)) (hsq : ma.rows = ma.columns)
    (hdet : fn_det ma.rows (rm_fn ma) ≠ 0)
    (hfin : ∀ x, env.p_isinf x = 0) (halloc : ∀ b, b ∈ st.alloc → b = true)
    (hL2 : 2 < ma.rows → L2 = core_linalg2 env) :
    ∃ (X : vartype_realmatrix) (st0 : core_state) (post : List event),
      linalg_inv env L2 (vartype.realmatrix ma) completion_v_ref.caller st
        = some (ERR_NONE, { st0 with
            log := st0.log ++ [event.completion_v (vartype.realmatrix X)] ++ post }) ∧
      (∀ ev, ev ∈ post → ∃ o, ev = event.free o) ∧
      (∃ pre, st0.log = st.log ++ pre ∧ ∀ ev, ev ∈ pre → ∃ o, ev = event.free o) ∧
      (∀ b, b ∈ st0.alloc → b = true) ∧
      mat_wf (vartype.realmatrix X) ∧ X.rows = ma.rows ∧ X.columns = ma.rows ∧
      ∀ i j, i < ma.rows → j < ma.rows →
        product_entry (vartype.realmatrix ma) (vartype.realmatrix X) i j
          = if i = j then (1, 0) else (0, 0) := by
  obtain ⟨hm, hq, hl, hs⟩ := hwf
  have h1 := tail_all_true _ halloc
  have h2 := tail_all_true _ h1
  have h3 := tail_all_true _ h2
  generalize hn : ma.rows = n at *
  have hc : ma.columns = n := hsq.symm
  rcases Nat.lt_or_ge 2 n with hbig | hsmall
  · rw [hL2 hbig]
    obtain ⟨s, hs1, hs2⟩ := lu_steps_inv (fun x : phloat => |x|) env.POS_HUGE_PHLOAT
      st.matrix_singularmatrix n (rm_fn ma) abs_size_zero (ker_of_det_ne_zero n _ hdet) n
      (le_refl n)
    obtain ⟨X, st0, e1, e2, e3, e4, e5, e6, e7, e8, e9, e10⟩ :=
      linalg_inv_r_large env ma completion_v_ref.caller st n hn hc hs hbig hfin halloc s hs1
    refine ⟨X, st0, [event.free obj.lu, event.free obj.perm], ?_, ?_, ⟨[], by simp [e2], by simp⟩,
      ?_, ⟨by omega, by omega, by rw [e6, e7, e8], e9⟩, e6, e7, ?_⟩
    · rw [e1]
      simp [release, call_completion_v]
    · intro ev hev
      simp only [List.mem_cons, List.mem_singleton, List.mem_nil_iff, or_false] at hev
      rcases hev with rfl | rfl
      · exact ⟨_, rfl⟩
      · exact ⟨_, rfl⟩
    · rw [e3]
      exact h3
    · exact lu_identity_r ma X n hc s hs2 e10
  · have hlin : linalg_inv env L2 (vartype.realmatrix ma) completion_v_ref.caller st
        = small_inv_r env ma completion_v_ref.caller st := by
      simp [linalg_inv, hn, hc, hs, hsmall]
    rw [hlin]
    have h12 : n = 1 ∨ n = 2 := by omega
    rcases h12 with rfl | rfl
    · rw [hc] at hl
      obtain ⟨x0, hd⟩ := list_length_one _ hl
      have hx : x0 ≠ 0 := by
        rw [fn_det_one] at hdet
        simpa [rm_fn, hd] using hdet
      refine ⟨{ new_realmatrix 1 1 with data := [1 / x0] }, { st with alloc := st.alloc.tail },
        [], ?_, by simp, ⟨[], by simp, by simp⟩, h1,
        ⟨Nat.one_pos, Nat.one_pos, rfl, rfl⟩, rfl, rfl, ?_⟩
      · rw [small_inv_r_one env ma st x0 hn hd hx hfin halloc]
        simp [call_completion_v]
      · intro i j hi hj
        have hi0 : i = 0 := by omega
        have hj0 : j = 0 := by omega
        subst hi0 hj0
        rw [product_entry_real, hc]
        simp [rm_fn, hd, new_realmatrix, hx]
    · rw [hc] at hl
      obtain ⟨a, b, c, d, hd⟩ := list_length_four _ (hl.trans (by norm_num))
      have hx : a * d - b * c ≠ 0 := by
        rw [fn_det_two] at hdet
        simpa [rm_fn, hd, hc] using hdet
      obtain ⟨st0, e1, e2, e3, e4, e5, e6⟩ :=
        small_inv_r_two env ma st a b c d hn hd hs hx hfin halloc
      refine ⟨{ ma with
          data := [d / (a * d - b * c), -(b / (a * d - b * c)), -(c / (a * d - b * c)),
            a / (a * d - b * c)] }, st0, [], ?_, by simp, ⟨[event.free obj.d], e2, ?_⟩, ?_,
        ⟨by simp [hn], by simp [hc], by simp [hn, hc], hs⟩, hn, hc, ?_⟩
      · rw [e1]
        simp [call_completion_v]
      · intro ev hev
        simp only [List.mem_singleton] at hev
        exact ⟨_, hev⟩
      · rw [e3]
        exact h2
      · intro i j hi hj
        rw [product_entry_real, hc]
        have hi2 : i = 0 ∨ i = 1 := by omega
        have hj2 : j = 0 ∨ j = 1 := by omega
        rcases hi2 with rfl | rfl <;> rcases hj2 with rfl | rfl <;>
          simp [rm_fn, hd, hc, Finset.sum_range_succ] <;> field_simp <;> ring

theorem linalg_inv_delivers_c (env : phloat_env) (L2 : linalg2) (ma : vartype_complexmatrix)
    (st : core_state) (hwf : mat_wf (vartype.complexmatrix ma)) (hsq : ma.rows = ma.columns)
    (hdet : fn_det ma.rows (cm_fn ma) ≠ 0)
    (hfin : ∀ x, env.p_isinf x = 0) (halloc : ∀ b, b ∈ st.alloc → b = true)
    (hL2 : 2 < ma.rows → L2 = core_linalg2 env) :
    ∃ (X : vartype_complexmatrix) (st0 : core_state) (post : List event),
      linalg_inv env L2 (vartype.complexmatrix ma) completion_v_ref.caller st
        = some (ERR_NONE, { st0 with
            log := st0.log ++ [event.completion_v (vartype.complexmatrix X)] ++ post }) ∧
      (∀ ev, ev ∈ post → ∃ o, ev = event.free o) ∧
      (∃ pre, st0.log = st.log ++ pre ∧ ∀ ev, ev ∈ pre → ∃ o, ev = event.free o) ∧
      (∀ b, b ∈ st0.alloc → b = true) ∧
      mat_wf (vartype.complexmatrix X) ∧ X.rows = ma.rows ∧ X.columns = ma.rows ∧
      ∀ i j, i < ma.rows → j < ma.rows →
        product_entry (vartype.complexmatrix ma) (vartype.complexmatrix X) i j
          = if i = j then (1, 0) else (0, 0) := by
  obtain ⟨hm, hq, hl⟩ := hwf
  have h1 := tail_all_true _ halloc
  have h2 := tail_all_true _ h1
  have h3 := tail_all_true _ h2
  generalize hn : ma.rows = n at *
  have hc : ma.columns = n := hsq.symm
  rcases Nat.lt_or_ge 2 n with hbig | hsmall
  · rw [hL2 hbig]
    obtain ⟨s, hs1, hs2⟩ := lu_steps_inv cplx_size ⟨env.POS_HUGE_PHLOAT, 0⟩
      st.matrix_singularmatrix n (cm_fn ma) cplx_size_zero (ker_of_det_ne_zero n _ hdet) n
      (le_refl n)
    obtain ⟨X, st0, e1, e2, e3, e4, e5, e6, e7, e8, e10⟩ :=
      linalg_inv_c_large env ma completion_v_ref.caller st n hn hc hbig hfin halloc s hs1
    refine ⟨X, st0, [event.free obj.lu, event.free obj.perm], ?_, ?_, ⟨[], by simp [e2], by simp⟩,
      ?_, ⟨by omega, by omega, by rw [e6, e7, e8]⟩, e6, e7, ?_⟩
    · rw [e1]
      simp [release, call_completion_v]
    · intro ev hev
      simp only [List.mem_cons, List.mem_singleton, List.mem_nil_iff, or_false] at hev
      rcases hev with rfl | rfl
      · exact ⟨_, rfl⟩
      · exact ⟨_, rfl⟩
    · rw [e3]
      exact h3
    · exact lu_identity_c ma X n hc s hs2 e10
  · have hlin : linalg_inv env L2 (vartype.complexmatrix ma) completion_v_ref.caller st
        = small_inv_c env ma completion_v_ref.caller st := by
      simp [linalg_inv, hn, hc, hsmall]
    rw [hlin]
    have h12 : n = 1 ∨ n = 2 := by omega
    rcases h12 with rfl | rfl
    · rw [hc] at hl
      obtain ⟨xre, xim, hd⟩ := list_length_two _ (hl.trans (by norm_num))
      have hx : ¬ (xre = 0 ∧ xim = 0) := by
        rw [fn_det_one] at hdet
        rintro ⟨rfl, rfl⟩
        apply hdet
        simp [cm_fn, hd]
        rfl
      have hden : xre * xre + xim * xim ≠ 0 := by
        intro h0
        apply hx
        constructor <;> nlinarith [mul_self_nonneg xre, mul_self_nonneg xim]
      refine ⟨{ new_complexmatrix 1 1 with
          data := [xre / (xre * xre + xim * xim), -xim / (xre * xre + xim * xim)] },
        { st with alloc := st.alloc.tail },
        [], ?_, by simp, ⟨[], by simp, by simp⟩, h1,
        ⟨Nat.one_pos, Nat.one_pos, rfl⟩, rfl, rfl, ?_⟩
      · rw [small_inv_c_one env ma st xre xim hn hd hx hfin halloc]
        simp [call_completion_v]
      · intro i j hi hj
        have hi0 : i = 0 := by omega
        have hj0 : j = 0 := by omega
        subst hi0 hj0
        rw [product_entry_cplx, hc]
        simp only [Finset.sum_range_one, cm_fn, hd, hc, new_complexmatrix]
        apply Prod.ext
        · show xre * (xre / (xre * xre + xim * xim)) - xim * (-xim / (xre * xre + xim * xim))
            = 1
          field_simp
        · show xre * (-xim / (xre * xre + xim * xim)) + xim * (xre / (xre * xre + xim * xim))
            = 0
          field_simp
          ring
    · rw [hc] at hl
      obtain ⟨a0, a1, a2, a3, a4, a5, a6, a7, hd⟩ := list_length_eight _ (hl.trans (by norm_num))
      have c00 : cm_fn ma 0 0 = ⟨a0, a1⟩ := by simp [cm_fn, hd, hc]
      have c01 : cm_fn ma 0 1 = ⟨a2, a3⟩ := by simp [cm_fn, hd, hc]
      have c10 : cm_fn ma 1 0 = ⟨a4, a5⟩ := by simp [cm_fn, hd, hc]
      have c11 : cm_fn ma 1 1 = ⟨a6, a7⟩ := by simp [cm_fn, hd, hc]
      have hx : ¬ ((a0 * a6 - a1 * a7) - (a2 * a4 - a3 * a5) = 0 ∧
          (a0 * a7 + a1 * a6) - (a2 * a5 + a3 * a4) = 0) := by
        rw [fn_det_two] at hdet
        rintro ⟨e1, e2⟩
        apply hdet
        apply cplx.ext
        · simp only [cplx_sub_re, cplx_mul_re, cplx_zero_re, c00, c01, c10, c11]
          exact e1
        · simp only [cplx_sub_im, cplx_mul_im, cplx_zero_im, c00, c01, c10, c11]
          exact e2
      obtain ⟨dre, hdre⟩ : ∃ dre, dre = (a0 * a6 - a1 * a7) - (a2 * a4 - a3 * a5) := ⟨_, rfl⟩
      obtain ⟨dim, hdim⟩ : ∃ dim, dim = (a0 * a7 + a1 * a6) - (a2 * a5 + a3 * a4) := ⟨_, rfl⟩
      rw [← hdre, ← hdim] at hx
      have hden : dre * dre + dim * dim ≠ 0 := by
        intro h0
        apply hx
        constructor <;> nlinarith [mul_self_nonneg dre, mul_self_nonneg dim]
      obtain ⟨st0, e1, e2, e3, e4, e5, e6⟩ :=
        small_inv_c_two env ma st a0 a1 a2 a3 a4 a5 a6 a7 dre dim hn hd hdre hdim hx hfin halloc
      have x00 : cm_fn { ma with
          data := [(a6 * dre + a7 * dim) / (dre * dre + dim * dim),
              (a7 * dre - a6 * dim) / (dre * dre + dim * dim),
              -((a2 * dre + a3 * dim) / (dre * dre + dim * dim)),
              -((a3 * dre - a2 * dim) / (dre * dre + dim * dim)),
              -((a4 * dre + a5 * dim) / (dre * dre + dim * dim)),
              -((a5 * dre - a4 * dim) / (dre * dre + dim * dim)),
              (a0 * dre + a1 * dim) / (dre * dre + dim * dim),
              (a1 * dre - a0 * dim) / (dre * dre + dim * dim)] } 0 0
          = ⟨(a6 * dre + a7 * dim) / (dre * dre + dim * dim),
              (a7 * dre - a6 * dim) / (dre * dre + dim * dim)⟩ := by
        simp only [cm_fn, hc]
        rfl
      have x01 : cm_fn { ma with
          data := [(a6 * dre + a7 * dim) / (dre * dre + dim * dim),
              (a7 * dre - a6 * dim) / (dre * dre + dim * dim),
              -((a2 * dre + a3 * dim) / (dre * dre + dim * dim)),
              -((a3 * dre - a2 * dim) / (dre * dre + dim * dim)),
              -((a4 * dre + a5 * dim) / (dre * dre + dim * dim)),
              -((a5 * dre - a4 * dim) / (dre * dre + dim * dim)),
              (a0 * dre + a1 * dim) / (dre * dre + dim * dim),
              (a1 * dre - a0 * dim) / (dre * dre + dim * dim)] } 0 1
          = ⟨-((a2 * dre + a3 * dim) / (dre * dre + dim * dim)),
              -((a3 * dre - a2 * dim) / (dre * dre + dim * dim))⟩ := by
        simp only [cm_fn, hc]
        rfl
      have x10 : cm_fn { ma with
          data := [(a6 * dre + a7 * dim) / (dre * dre + dim * dim),
              (a7 * dre - a6 * dim) / (dre * dre + dim * dim),
              -((a2 * dre + a3 * dim) / (dre * dre + dim * dim)),
              -((a3 * dre - a2 * dim) / (dre * dre + dim * dim)),
              -((a4 * dre + a5 * dim) / (dre * dre + dim * dim)),
              -((a5 * dre - a4 * dim) / (dre * dre + dim * dim)),
              (a0 * dre + a1 * dim) / (dre * dre + dim * dim),
              (a1 * dre - a0 * dim) / (dre * dre + dim * dim)] } 1 0
          = ⟨-((a4 * dre + a5 * dim) / (dre * dre + dim * dim)),
              -((a5 * dre - a4 * dim) / (dre * dre + dim * dim))⟩ := by
        simp only [cm_fn, hc]
        rfl
      have x11 : cm_fn { ma with
          data := [(a6 * dre + a7 * dim) / (dre * dre + dim * dim),
              (a7 * dre - a6 * dim) / (dre * dre + dim * dim),
              -((a2 * dre + a3 * dim) / (dre * dre + dim * dim)),
              -((a3 * dre - a2 * dim) / (dre * dre + dim * dim)),
              -((a4 * dre + a5 * dim) / (dre * dre + dim * dim)),
              -((a5 * dre - a4 * dim) / (dre * dre + dim * dim)),
              (a0 * dre + a1 * dim) / (dre * dre + dim * dim),
              (a1 * dre - a0 * dim) / (dre * dre + dim * dim)] } 1 1
          = ⟨(a0 * dre + a1 * dim) / (dre * dre + dim * dim),
              (a1 * dre - a0 * dim) / (dre * dre + dim * dim)⟩ := by
        simp only [cm_fn, hc]
        rfl
      refine ⟨{ ma with
          data := [(a6 * dre + a7 * dim) / (dre * dre + dim * dim),
              (a7 * dre - a6 * dim) / (dre * dre + dim * dim),
              -((a2 * dre + a3 * dim) / (dre * dre + dim * dim)),
              -((a3 * dre - a2 * dim) / (dre * dre + dim * dim)),
              -((a4 * dre + a5 * dim) / (dre * dre + dim * dim)),
              -((a5 * dre - a4 * dim) / (dre * dre + dim * dim)),
              (a0 * dre + a1 * dim) / (dre * dre + dim * dim),
              (a1 * dre - a0 * dim) / (dre * dre + dim * dim)] },
        st0, [], ?_, by simp, ⟨[event.free obj.d], e2, ?_⟩, ?_,
        ⟨by show 0 < ma.rows; omega, by show 0 < ma.columns; omega,
          by show 8 = 2 * (ma.rows * ma.columns); rw [hn, hc]⟩, hn, hc, ?_⟩
      · rw [e1]
        simp [call_completion_v]
      · intro ev hev
        simp only [List.mem_singleton] at hev
        exact ⟨_, hev⟩
      · rw [e3]
        exact h2
      · intro i j hi hj
        rw [product_entry_cplx, show Finset.range ma.columns = Finset.range 2 from by rw [hc]]
        have hi2 : i = 0 ∨ i = 1 := by omega
        have hj2 : j = 0 ∨ j = 1 := by omega
        clear e1 hd hlin
        subst hdre hdim
        rcases hi2 with rfl | rfl <;> rcases hj2 with rfl | rfl <;>
          simp only [Finset.sum_range_succ, Finset.sum_range_zero, zero_add, c00, c01, c10, c11,
            x00, x01, x10, x11, cplx_add_re, cplx_add_im, cplx_mul_re, cplx_mul_im] <;>
          simp only [zero_ne_one, one_ne_zero, if_true, if_false, Prod.mk.injEq,
            div_eq_mul_inv] <;>
          constructor <;>
          first
            | linear_combination mul_inv_cancel₀ hden
            | linear_combination (0 : ℚ) * mul_inv_cancel₀ hden

theorem mat_det_real (m : vartype_realmatrix) (h : mat_det (vartype.realmatrix m) ≠ 0) :
    fn_det m.rows (rm_fn m) ≠ 0 := by
  intro h0
  apply h
  simp only [mat_det, h0]
  rfl

/-- C5. Inverse round trip.  For every well-formed numeric square matrix `A` (real or
complex) whose determinant is not zero, with exact scalars, nothing out of range and
every allocation successful: `linalg_inv` returns ERR_NONE after calling the
completion once with a matrix `X` of the same order such that every entry `(i, j)` of
the product `A × X` is 1 on the diagonal and 0 elsewhere; and `linalg_mul(A, X)`,
re-entered until it finishes, calls its completion with ERR_NONE and the identity
matrix.  For orders 1 and 2 this holds for every implementation of the decomposition
routines (the result is that of `small_inv_r` / `small_inv_c`); for larger orders it
is proved for the modelled LU decomposition with partial pivoting and
back-substitution. -/
theorem linalg_inv_round_trip (env : phloat_env) (cb : Err → Option vartype → Err)
    (L2 : linalg2) (st : core_state) (A : vartype)
    (hwf : mat_wf A) (hsq : mat_rows A = mat_columns A) (hdet : mat_det A ≠ 0)
    (hfin : ∀ x, env.p_isinf x = 0) (halloc : ∀ b, b ∈ st.alloc → b = true)
    (hL2 : 2 < mat_rows A → L2 = core_linalg2 env) :
    ∃ (X : vartype) (stI : core_state),
      linalg_inv env L2 A completion_v_ref.caller st = some (ERR_NONE, stI) ∧
      (∃ pre post, stI.log = st.log ++ pre ++ [event.completion_v X] ++ post ∧
        ∀ ev, ev ∈ pre ++ post → ∃ o, ev = event.free o) ∧
      mat_rows X = mat_rows A ∧ mat_columns X = mat_rows A ∧
      (∀ i j, i < mat_rows A → j < mat_rows A →
        product_entry A X i j = if i = j then (1, 0) else (0, 0)) ∧
      ∃ (st1 : core_state) (N : Nat) (stN : core_state) (res : vartype) (stE : core_state),
        linalg_mul cb A X completion_ref.caller stI = some (ERR_INTERRUPTIBLE, st1) ∧
        suspended_after env cb N st1 = some stN ∧
        stN.log = stI.log ∧
        reenter env cb false stN = some (cb ERR_NONE (some res), stE) ∧
        stE.log = stI.log ++ [event.completion ERR_NONE (some res), event.free obj.dat] ∧
        mat_rows res = mat_rows A ∧ mat_columns res = mat_rows A ∧
        ∀ i j, i < mat_rows A → j < mat_rows A →
          mat_entry res i j = if i = j then (1, 0) else (0, 0) := by
  have key : ∀ (X : vartype) (st0 : core_state) (post : List event),
      linalg_inv env L2 A completion_v_ref.caller st
        = some (ERR_NONE, { st0 with log := st0.log ++ [event.completion_v X] ++ post }) →
      (∀ ev, ev ∈ post → ∃ o, ev = event.free o) →
      (∃ pre, st0.log = st.log ++ pre ∧ ∀ ev, ev ∈ pre → ∃ o, ev = event.free o) →
      (∀ b, b ∈ st0.alloc → b = true) →
      mat_wf X → mat_rows X = mat_rows A → mat_columns X = mat_rows A →
      (∀ i j, i < mat_rows A → j < mat_rows A →
        product_entry A X i j = if i = j then (1, 0) else (0, 0)) →
      ∃ (X : vartype) (stI : core_state),
      linalg_inv env L2 A completion_v_ref.caller st = some (ERR_NONE, stI) ∧
      (∃ pre post, stI.log = st.log ++ pre ++ [event.completion_v X] ++ post ∧
        ∀ ev, ev ∈ pre ++ post → ∃ o, ev = event.free o) ∧
      mat_rows X = mat_rows A ∧ mat_columns X = mat_rows A ∧
      (∀ i j, i < mat_rows A → j < mat_rows A →
        product_entry A X i j = if i = j then (1, 0) else (0, 0)) ∧
      ∃ (st1 : core_state) (N : Nat) (stN : core_state) (res : vartype) (stE : core_state),
        linalg_mul cb A X completion_ref.caller stI = some (ERR_INTERRUPTIBLE, st1) ∧
        suspended_after env cb N st1 = some stN ∧
        stN.log = stI.log ∧
        reenter env cb false stN = some (cb ERR_NONE (some res), stE) ∧
        stE.log = stI.log ++ [event.completion ERR_NONE (some res), event.free obj.dat] ∧
        mat_rows res = mat_rows A ∧ mat_columns res = mat_rows A ∧
        ∀ i j, i < mat_rows A → j < mat_rows A →
          mat_entry res i j = if i = j then (1, 0) else (0, 0) := by
    intro X st0 post h1 h2 h3 h4 h5 h6 h7 h8
    obtain ⟨pre, hpre, hpre2⟩ := h3
    refine ⟨X, _, h1, ⟨pre, post, by simp [hpre], ?_⟩, h6, h7, h8, ?_⟩
    · intro ev hev
      rcases List.mem_append.mp hev with h | h
      · exact hpre2 ev h
      · exact h2 ev h
    · obtain ⟨st1, N, stN, res, stF, m1, m2, m3, m4, m5, m6, m7, m8, m9⟩ :=
        linalg_mul_run env cb { st0 with log := st0.log ++ [event.completion_v X] ++ post }
          A X completion_ref.caller hwf h5 (by rw [h6, hsq]) h4 hfin
      obtain ⟨stE, n1, n2⟩ := m4 _ rfl
      refine ⟨st1, N, stN, res, stE, m1, m2, m3, n1, ?_, m7, by rw [m8, h7], ?_⟩
      · rw [n2]
        simp [m5]
      · intro i j hi hj
        rw [m9 i j hi (by rw [h7]; exact hj), h8 i j hi hj]
  cases A with
  | realmatrix ma =>
    obtain ⟨X, st0, post, h1, h2, h3, h4, h5, h6, h7, h8⟩ :=
      linalg_inv_delivers_r env L2 ma st hwf hsq (mat_det_real ma hdet) hfin halloc hL2
    exact key (vartype.realmatrix X) st0 post h1 h2 h3 h4 h5 h6 h7 h8
  | complexmatrix ma =>
    obtain ⟨X, st0, post, h1, h2, h3, h4, h5, h6, h7, h8⟩ :=
      linalg_inv_delivers_c env L2 ma st hwf hsq hdet hfin halloc hL2
    exact key (vartype.complexmatrix X) st0 post h1 h2 h3 h4 h5 h6 h7 h8
  | _ => exact hwf.elim

/-- C5, witness: the 3×3 matrix `[[0, 2, 0], [1, 0, 0], [0, 0, 4]]` of determinant -8:
the inverse is delivered and its product with the matrix is the identity. -/
theorem linalg_inv_round_trip_witness :
    mat_det mat_pivot ≠ 0 ∧
    ∃ (X : vartype) (stI : core_state),
      linalg_inv env_exact (core_linalg2 env_exact) mat_pivot completion_v_ref.caller st_idle
        = some (ERR_NONE, stI) ∧
      (∀ i j, i < 3 → j < 3 →
        product_entry mat_pivot X i j = if i = j then (1, 0) else (0, 0)) := by
  have hdet : mat_det mat_pivot ≠ 0 := by
    intro h
    have h2 := congrArg cplx.re h
    simp [mat_det, mat_pivot, fn_det, Matrix.det_fin_three, rm_fn, cplx_zero_re] at h2
  obtain ⟨X, stI, h1, _, _, _, h5, _⟩ :=
    linalg_inv_round_trip env_exact cb_id (core_linalg2 env_exact) st_idle mat_pivot
      ⟨by decide, by decide, rfl, rfl⟩ rfl hdet (fun _ => rfl) (fun b hb => by cases hb)
      (fun _ => rfl)
  exact ⟨hdet, X, stI, h1, h5⟩

theorem generic_div_ok (env : phloat_env) (x y : vartype) (st : core_state)
    (g : Err × Option vartype × core_state) (h : generic_div env x y st = some g)
    (hg : g.1 = ERR_NONE) :
    g.2.2 = { st with alloc := st.alloc.tail } ∧
    (∀ ma, y = vartype.realmatrix ma →
        ∃ r, g.2.1 = some (vartype.realmatrix r) ∧ r.rows = ma.rows ∧ r.columns = ma.columns ∧
          r.data.length = ma.data.length ∧ r.is_string = ma.is_string) ∧
    (∀ ma, y = vartype.complexmatrix ma →
        ∃ r, g.2.1 = some (vartype.complexmatrix r) ∧ r.rows = ma.rows ∧
          r.columns = ma.columns ∧ r.data.length = ma.data.length) := by
  unfold generic_div at h
  split at h
  · dsimp only at h
    split_ifs at h
    all_goals (simp only [Option.some.injEq] at h; subst h; simp [alloc_next] at hg ⊢)
  · dsimp only at h
    split_ifs at h
    all_goals (simp only [Option.some.injEq] at h; subst h; simp [alloc_next] at hg ⊢)
  · cases h

theorem small_inv_r_rel (env : phloat_env) (ma : vartype_realmatrix) (st : core_state)
    (c1 c2 : completion_v_ref) (s : core_state)
    (hr : ma.rows = 1 ∨ ma.rows = 2) (hc : ma.columns = ma.rows)
    (hl : ma.data.length = ma.rows * ma.columns) (hs : contains_strings ma = false)
    (halloc : ∀ b, b ∈ st.alloc → b = true)
    (h : small_inv_r env ma c1 st = some (ERR_NONE, s)) :
    ∃ X s0, s = call_completion_v c1 (vartype.realmatrix X) s0 ∧
      small_inv_r env ma c2 st = some (ERR_NONE, call_completion_v c2 (vartype.realmatrix X) s0) ∧
      X.rows = ma.rows ∧ X.columns = ma.columns ∧ X.data.length = ma.data.length ∧
      contains_strings X = false ∧
      (∃ pre, s0.log = st.log ++ pre ∧ ∀ ev, ev ∈ pre → ∃ o, ev = event.free o) ∧
      (∀ b, b ∈ s0.alloc → b = true) ∧ s0.matrix_singularmatrix = st.matrix_singularmatrix := by
  have h1 := tail_all_true _ halloc
  have h2 := tail_all_true _ h1
  unfold small_inv_r at h ⊢
  rcases hr with hr1 | hr2
  · simp only [hr1, if_true] at h ⊢
    rw [hr1, hc, hr1] at hl
    obtain ⟨x0, hd⟩ := list_length_one _ hl
    simp only [hd, List.getElem?_cons_zero, alloc_next_ok st halloc, Bool.not_true,
      Bool.false_eq_true, if_false] at h ⊢
    generalize (if x0 = 0 then _ else _ : Err × phloat) = r at h ⊢
    split_ifs at h with k1
    · simp only [Option.some.injEq, Prod.mk.injEq] at h
      exact absurd h.1 k1
    · simp only [Option.some.injEq, Prod.mk.injEq, true_and] at h
      subst h
      simp only [k1, if_false]
      exact ⟨_, _, rfl, rfl, by simp [new_realmatrix, hr1], by simp [new_realmatrix, hc, hr1],
        by simp, by simp [contains_strings, new_realmatrix], ⟨[], by simp, by simp⟩, h1, rfl⟩
  · have hr1 : ¬ ma.rows = 1 := by omega
    simp only [hr1, if_false] at h ⊢
    split at h
    · cases h
    · rename_i dr hdr
      simp only [alloc_next_ok st halloc, Bool.not_true, Bool.false_eq_true, if_false] at h ⊢
      by_cases k0 : dr.2 = 0
      · simp only [k0, if_true] at h ⊢
        by_cases k1 : st.matrix_singularmatrix = true
        · simp only [k1, if_true, Option.some.injEq, Prod.mk.injEq] at h
          exact absurd h.1 (by decide)
        · rw [if_neg k1] at h ⊢
          simp only [Option.some.injEq, Prod.mk.injEq, true_and] at h
          subst h
          exact ⟨_, _, rfl, rfl, by simp [new_realmatrix, hr2], by simp [new_realmatrix, hc, hr2],
            by simp [hl, hc, hr2], by simp [contains_strings, new_realmatrix],
            ⟨[], by simp, by simp⟩, h1, rfl⟩
      · simp only [k0, if_false] at h ⊢
        split at h
        · cases h
        · rename_i g hg
          by_cases k2 : g.1 = ERR_NONE
          · obtain ⟨g1, g2, _⟩ := generic_div_ok env _ _ _ g hg k2
            obtain ⟨r, r1, r2, r3, r4, r5⟩ := g2 ma rfl
            simp only [k2, ne_eq, not_true_eq_false, if_false, r1] at h ⊢
            split at h
            · simp only [Option.some.injEq, Prod.mk.injEq, true_and] at h
              subst h
              refine ⟨_, _, rfl, rfl, r2, r3, by simp [r4], ?_, ⟨[event.free obj.d], ?_, ?_⟩, ?_, ?_⟩
              · simp only [contains_strings, r5]
                exact hs
              · simp [release, g1]
              · intro ev hev
                simp only [List.mem_singleton] at hev
                exact ⟨_, hev⟩
              · simpa [release, g1] using h2
              · simp [release, g1]
            · cases h
          · rw [if_pos k2] at h
            simp only [Option.some.injEq, Prod.mk.injEq] at h
            exact absurd h.1 k2

theorem small_inv_c_rel (env : phloat_env) (ma : vartype_complexmatrix) (st : core_state)
    (c1 c2 : completion_v_ref) (s : core_state)
    (hr : ma.rows = 1 ∨ ma.rows = 2) (hc : ma.columns = ma.rows)
    (hl : ma.data.length = 2 * (ma.rows * ma.columns))
    (halloc : ∀ b, b ∈ st.alloc → b = true)
    (h : small_inv_c env ma c1 st = some (ERR_NONE, s)) :
    ∃ X s0, s = call_completion_v c1 (vartype.complexmatrix X) s0 ∧
      small_inv_c env ma c2 st
        = some (ERR_NONE, call_completion_v c2 (vartype.complexmatrix X) s0) ∧
      X.rows = ma.rows ∧ X.columns = ma.columns ∧ X.data.length = ma.data.length ∧
      (∃ pre, s0.log = st.log ++ pre ∧ ∀ ev, ev ∈ pre → ∃ o, ev = event.free o) ∧
      (∀ b, b ∈ s0.alloc → b = true) ∧ s0.matrix_singularmatrix = st.matrix_singularmatrix := by
  have h1 := tail_all_true _ halloc
  have h2 := tail_all_true _ h1
  unfold small_inv_c at h ⊢
  rcases hr with hr1 | hr2
  · simp only [hr1, if_true] at h ⊢
    rw [hr1, hc, hr1] at hl
    obtain ⟨xre, xim, hd⟩ := list_length_two _ (hl.trans (by norm_num))
    simp only [hd, List.getElem?_cons_zero, List.getElem?_cons_succ,
      alloc_next_ok st halloc, Bool.not_true,
      Bool.false_eq_true, if_false] at h ⊢
    generalize (if xre = 0 ∧ xim = 0 then _ else _ : Err × phloat × phloat) = r at h ⊢
    split_ifs at h with k1
    · simp only [Option.some.injEq, Prod.mk.injEq] at h
      exact absurd h.1 k1
    · simp only [Option.some.injEq, Prod.mk.injEq, true_and] at h
      subst h
      simp only [k1, if_false]
      exact ⟨_, _, rfl, rfl, by simp [new_complexmatrix, hr1],
        by simp [new_complexmatrix, hc, hr1],
        by simp, ⟨[], by simp, by simp⟩, h1, rfl⟩
  · have hr1 : ¬ ma.rows = 1 := by omega
    simp only [hr1, if_false] at h ⊢
    split at h
    · cases h
    · rename_i dr hdr
      simp only [alloc_next_ok st halloc, Bool.not_true, Bool.false_eq_true, if_false] at h ⊢
      by_cases k0 : dr.2.1 = 0 ∧ dr.2.2 = 0
      · rw [if_pos k0] at h ⊢
        by_cases k1 : st.matrix_singularmatrix = true
        · simp only [k1, if_true, Option.some.injEq, Prod.mk.injEq] at h
          exact absurd h.1 (by decide)
        · rw [if_neg k1] at h ⊢
          simp only [Option.some.injEq, Prod.mk.injEq, true_and] at h
          subst h
          exact ⟨_, _, rfl, rfl, by simp [new_complexmatrix, hr2],
            by simp [new_complexmatrix, hc, hr2],
            by simp [hl, hc, hr2], ⟨[], by simp, by simp⟩, h1, rfl⟩
      · rw [if_neg k0] at h ⊢
        split at h
        · cases h
        · rename_i g hg
          by_cases k2 : g.1 = ERR_NONE
          · obtain ⟨g1, _, g2⟩ := generic_div_ok env _ _ _ g hg k2
            obtain ⟨r, r1, r2, r3, r4⟩ := g2 ma rfl
            simp only [k2, ne_eq, not_true_eq_false, if_false, r1] at h ⊢
            split at h
            · simp only [Option.some.injEq, Prod.mk.injEq, true_and] at h
              subst h
              refine ⟨_, _, rfl, rfl, r2, r3, ?_, ⟨[event.free obj.d], ?_, ?_⟩, ?_, ?_⟩
              · rw [hc, hr2] at hl
                simp only [List.length_append, List.length_cons, List.length_nil,
                  List.length_drop, r4, hl]
              · simp [release, g1]
              · intro ev hev
                simp only [List.mem_singleton] at hev
                exact ⟨_, hev⟩
              · simpa [release, g1] using h2
              · simp [release, g1]
            · cases h
          · rw [if_pos k2] at h
            simp only [Option.some.injEq, Prod.mk.injEq] at h
            exact absurd h.1 k2

theorem linalg_div_rr_large (env : phloat_env) (cb : Err → Option vartype → Err)
    (num denom : vartype_realmatrix) (st : core_state) (n : Nat)
    (hr : denom.rows = n) (hc : denom.columns = n) (hnr : num.rows = n)
    (hn : 2 < n) (hfin : ∀ x, env.p_isinf x = 0)
    (halloc : ∀ b, b ∈ st.alloc → b = true) (s : (Nat → Nat → phloat) × List Nat)
    (hlu : lu_steps (fun x : phloat => |x|) env.POS_HUGE_PHLOAT st.matrix_singularmatrix
      n (rm_fn denom) n = some s) :
    ∃ (D : vartype_realmatrix) (stE : core_state),
      linalg_div env (core_linalg2 env) cb (vartype.realmatrix num)
        (vartype.realmatrix denom) completion_ref.caller st
        = some (cb ERR_NONE (some (vartype.realmatrix D)), stE) ∧
      stE.log = st.log ++ [event.free obj.lu, event.free obj.perm,
        event.completion ERR_NONE (some (vartype.realmatrix D))] ∧
      D.rows = n ∧ D.columns = num.columns ∧
      ∀ i j, i < n → j < num.columns →
        rm_fn D i j = lu_solve n s.1 s.2 (fun r => rm_fn num r j) i := by
  have hn2 : ¬ n ≤ 2 := by omega
  have hperm := lu_steps_perm _ _ _ _ _ _ (le_refl _) s hlu
  have hcopy := rm_fn_copy n denom hc
  have hrow : (matrix_copy_rr (new_realmatrix n n) denom).rows = n := rfl
  simp only [linalg_div, hr, hc, hnr, ne_eq, not_true_eq_false, or_self, if_false,
    hn2, linalg_div_alloc_ok st halloc, core_linalg2, lu_decomp_r, hrow, hcopy,
    hlu, div_rr_completion1, lu_backsubst_rr, range_policy_of_finite env _ _ hfin,
    div_rr_completion2, div_completion2_end, release, call_completion]
  refine ⟨_, _, rfl, by simp, by simp [matrix_copy_rr, new_realmatrix],
    by simp [matrix_copy_rr, new_realmatrix], ?_⟩
  intro i j hi hj
  have hcol : (matrix_copy_rr (new_realmatrix n num.columns) num).columns = num.columns := rfl
  have hrows : (matrix_copy_rr (new_realmatrix n num.columns) num).rows = n := rfl
  simp only [rm_fn, hcol, hrows]
  rw [rm_data_getD n num.columns _ i j hi hj]
  apply congrFun
  apply lu_solve_congr n _ _ _ hperm.2
  · intro i2 j2 hi2 hj2
    exact rm_data_getD n n _ i2 j2 hi2 hj2
  · intro r _
    rfl

theorem flatMap_pair_getD (l : List phloat) (k : Nat) :
    (l.flatMap (fun x => [x, 0])).getD (2 * k) 0 = l.getD k 0 ∧
    (l.flatMap (fun x => [x, 0])).getD (2 * k + 1) 0 = 0 := by
  induction l generalizing k with
  | nil => simp
  | cons a l ih =>
    cases k with
    | zero => simp
    | succ k =>
      have e1 : 2 * (k + 1) = 2 * k + 1 + 1 := by ring
      have e2 : 2 * (k + 1) + 1 = 2 * k + 1 + 1 + 1 := by ring
      obtain ⟨i1, i2⟩ := ih k
      constructor
      · rw [e1]
        simpa using i1
      · rw [e2]
        simpa using i2

theorem cm_fn_copy_cr (n m : Nat) (num : vartype_realmatrix) (hc : num.columns = m) (i j : Nat) :
    cm_fn (matrix_copy_cr (new_complexmatrix n m) num) i j = ⟨rm_fn num i j, 0⟩ := by
  obtain ⟨e1, e2⟩ := flatMap_pair_getD num.data (i * m + j)
  apply cplx.ext
  · simpa [cm_fn, matrix_copy_cr, new_complexmatrix, rm_fn, hc] using e1
  · simpa [cm_fn, matrix_copy_cr, new_complexmatrix, rm_fn, hc] using e2

theorem linalg_div_rc_large (env : phloat_env) (cb : Err → Option vartype → Err)
    (num : vartype_realmatrix) (denom : vartype_complexmatrix) (st : core_state) (n : Nat)
    (hr : denom.rows = n) (hc : denom.columns = n) (hnr : num.rows = n)
    (hn : 2 < n) (hfin : ∀ x, env.p_isinf x = 0)
    (halloc : ∀ b, b ∈ st.alloc → b = true) (s : (Nat → Nat → cplx) × List Nat)
    (hlu : lu_steps cplx_size ⟨env.POS_HUGE_PHLOAT, 0⟩ st.matrix_singularmatrix
      n (cm_fn denom) n = some s) :
    ∃ (D : vartype_complexmatrix) (stE : core_state),
      linalg_div env (core_linalg2 env) cb (vartype.realmatrix num)
        (vartype.complexmatrix denom) completion_ref.caller st
        = some (cb ERR_NONE (some (vartype.complexmatrix D)), stE) ∧
      stE.log = st.log ++ [event.free obj.lu, event.free obj.perm,
        event.completion ERR_NONE (some (vartype.complexmatrix D))] ∧
      D.rows = n ∧ D.columns = num.columns ∧
      ∀ i j, i < n → j < num.columns →
        cm_fn D i j = lu_solve n s.1 s.2 (fun r => ⟨rm_fn num r j, 0⟩) i := by
  have hn2 : ¬ n ≤ 2 := by omega
  have hperm := lu_steps_perm _ _ _ _ _ _ (le_refl _) s hlu
  have hcopy := cm_fn_copy n denom hc
  have hrow : (matrix_copy_cc (new_complexmatrix n n) denom).rows = n := rfl
  simp only [linalg_div, hr, hc, hnr, ne_eq, not_true_eq_false, or_self, if_false,
    hn2, linalg_div_alloc_ok st halloc, core_linalg2, lu_decomp_c, hrow, hcopy,
    hlu, div_rc_completion1, lu_backsubst_cc, range_policy_of_finite env _ _ hfin,
    div_rc_completion2, div_completion2_end, release, call_completion]
  refine ⟨_, _, rfl, by simp, by simp [matrix_copy_cr, new_complexmatrix],
    by simp [matrix_copy_cr, new_complexmatrix], ?_⟩
  intro i j hi hj
  have hcol : (matrix_copy_cr (new_complexmatrix n num.columns) num).columns = num.columns := rfl
  have hrows : (matrix_copy_cr (new_complexmatrix n num.columns) num).rows = n := rfl
  simp only [hcol, hrows]
  rw [cm_fn_cm_data n num.columns _ i j hi hj]
  apply congrFun
  apply lu_solve_congr n _ _ _ hperm.2
  · intro i2 j2 hi2 hj2
    exact cm_fn_cm_data n n _ i2 j2 hi2 hj2
  · intro r _
    exact cm_fn_copy_cr n num.columns num rfl r j

theorem linalg_div_cr_large (env : phloat_env) (cb : Err → Option vartype → Err)
    (num : vartype_complexmatrix) (denom : vartype_realmatrix) (st : core_state) (n : Nat)
    (hr : denom.rows = n) (hc : denom.columns = n) (hnr : num.rows = n)
    (hn : 2 < n) (hfin : ∀ x, env.p_isinf x = 0)
    (halloc : ∀ b, b ∈ st.alloc → b = true) (s : (Nat → Nat → phloat) × List Nat)
    (hlu : lu_steps (fun x : phloat => |x|) env.POS_HUGE_PHLOAT st.matrix_singularmatrix
      n (rm_fn denom) n = some s) :
    ∃ (D : vartype_complexmatrix) (stE : core_state),
      linalg_div env (core_linalg2 env) cb (vartype.complexmatrix num)
        (vartype.realmatrix denom) completion_ref.caller st
        = some (cb ERR_NONE (some (vartype.complexmatrix D)), stE) ∧
      stE.log = st.log ++ [event.free obj.lu, event.free obj.perm,
        event.completion ERR_NONE (some (vartype.complexmatrix D))] ∧
      D.rows = n ∧ D.columns = num.columns ∧
      ∀ i j, i < n → j < num.columns →
        cm_fn D i j = ⟨lu_solve n s.1 s.2 (fun r => (cm_fn num r j).re) i,
          lu_solve n s.1 s.2 (fun r => (cm_fn num r j).im) i⟩ := by
  have hn2 : ¬ n ≤ 2 := by omega
  have hperm := lu_steps_perm _ _ _ _ _ _ (le_refl _) s hlu
  have hcopy := rm_fn_copy n denom hc
  have hrow : (matrix_copy_rr (new_realmatrix n n) denom).rows = n := rfl
  simp only [linalg_div, hr, hc, hnr, ne_eq, not_true_eq_false, or_self, if_false,
    hn2, linalg_div_alloc_ok st halloc, core_linalg2, lu_decomp_r, hrow, hcopy,
    hlu, div_cr_completion1, lu_backsubst_rc, range_policy_of_finite env _ _ hfin,
    div_cr_completion2, div_completion2_end, release, call_completion]
  refine ⟨_, _, rfl, by simp, by simp [matrix_copy_cc, new_complexmatrix],
    by simp [matrix_copy_cc, new_complexmatrix], ?_⟩
  intro i j hi hj
  have hcol : (matrix_copy_cc (new_complexmatrix n num.columns) num).columns = num.columns := rfl
  have hrows : (matrix_copy_cc (new_complexmatrix n num.columns) num).rows = n := rfl
  have hfn : cm_fn (matrix_copy_cc (new_complexmatrix n num.columns) num) = cm_fn num := by
    funext i j
    simp [cm_fn, matrix_copy_cc, new_complexmatrix]
  simp only [hcol, hrows, hfn]
  rw [cm_fn_cm_data n num.columns _ i j hi hj]
  have e : ∀ a2 : vartype_realmatrix, a2.columns = n → a2.data = rm_data n n s.1 →
      lu_solve n (rm_fn a2) s.2 = lu_solve n s.1 s.2 := by
    intro a2 h1 h2
    funext b
    apply lu_solve_congr n _ _ _ hperm.2
    · intro i2 j2 hi2 hj2
      simp only [rm_fn, h1, h2]
      exact rm_data_getD n n _ i2 j2 hi2 hj2
    · intro r _
      rfl
  rw [e _ rfl rfl]

theorem linalg_div_cc_large (env : phloat_env) (cb : Err → Option vartype → Err)
    (num denom : vartype_complexmatrix) (st : core_state) (n : Nat)
    (hr : denom.rows = n) (hc : denom.columns = n) (hnr : num.rows = n)
    (hn : 2 < n) (hfin : ∀ x, env.p_isinf x = 0)
    (halloc : ∀ b, b ∈ st.alloc → b = true) (s : (Nat → Nat → cplx) × List Nat)
    (hlu : lu_steps cplx_size ⟨env.POS_HUGE_PHLOAT, 0⟩ st.matrix_singularmatrix
      n (cm_fn denom) n = some s) :
    ∃ (D : vartype_complexmatrix) (stE : core_state),
      linalg_div env (core_linalg2 env) cb (vartype.complexmatrix num)
        (vartype.complexmatrix denom) completion_ref.caller st
        = some (cb ERR_NONE (some (vartype.complexmatrix D)), stE) ∧
      stE.log = st.log ++ [event.free obj.lu, event.free obj.perm,
        event.completion ERR_NONE (some (vartype.complexmatrix D))] ∧
      D.rows = n ∧ D.columns = num.columns ∧
      ∀ i j, i < n → j < num.columns →
        cm_fn D i j = lu_solve n s.1 s.2 (fun r => cm_fn num r j) i := by
  have hn2 : ¬ n ≤ 2 := by omega
  have hperm := lu_steps_perm _ _ _ _ _ _ (le_refl _) s hlu
  have hcopy := cm_fn_copy n denom hc
  have hrow : (matrix_copy_cc (new_complexmatrix n n) denom).rows = n := rfl
  simp only [linalg_div, hr, hc, hnr, ne_eq, not_true_eq_false, or_self, if_false,
    hn2, linalg_div_alloc_ok st halloc, core_linalg2, lu_decomp_c, hrow, hcopy,
    hlu, div_cc_completion1, lu_backsubst_cc, range_policy_of_finite env _ _ hfin,
    div_cc_completion2, div_completion2_end, release, call_completion]
  refine ⟨_, _, rfl, by simp, by simp [matrix_copy_cc, new_complexmatrix],
    by simp [matrix_copy_cc, new_complexmatrix], ?_⟩
  intro i j hi hj
  have hcol : (matrix_copy_cc (new_complexmatrix n num.columns) num).columns = num.columns := rfl
  have hrows : (matrix_copy_cc (new_complexmatrix n num.columns) num).rows = n := rfl
  have hfn : cm_fn (matrix_copy_cc (new_complexmatrix n num.columns) num) = cm_fn num := by
    funext i j
    simp [cm_fn, matrix_copy_cc, new_complexmatrix]
  simp only [hcol, hrows, hfn]
  rw [cm_fn_cm_data n num.columns _ i j hi hj]
  apply congrFun
  apply lu_solve_congr n _ _ _ hperm.2
  · intro i2 j2 hi2 hj2
    exact cm_fn_cm_data n n _ i2 j2 hi2 hj2
  · intro r _
    rfl

theorem lu_solve_columns {K : Type} [Field K] (n : Nat) (a : Nat → Nat → K) (perm : List Nat)
    (hp : ∀ j, j < n → perm.getD j 0 < n) (b : Nat → K) (i : Nat) :
    lu_solve n a perm b i
      = ∑ k in Finset.range n, lu_solve n a perm (fun r => if r = k then 1 else 0) i * b k := by
  have e : lu_solve n a perm b
      = lu_solve n a perm
          (fun r => ∑ k in Finset.range n, (fun k r => if r = k then (1 : K) else 0) k r * b k) := by
    apply lu_solve_congr n a a perm hp (fun _ _ _ _ => rfl)
    intro r hr
    simp [Finset.sum_ite_eq, hr]
  rw [e, lu_solve_sum]

theorem linalg_inv_r_large_none (env : phloat_env) (ma : vartype_realmatrix)
    (c : completion_v_ref)
    (st : core_state) (n : Nat) (hr : ma.rows = n) (hc : ma.columns = n)
    (hs : contains_strings ma = false)
    (hn : 2 < n) (halloc : ∀ b, b ∈ st.alloc → b = true)
    (hlu : lu_steps (fun x : phloat => |x|) env.POS_HUGE_PHLOAT st.matrix_singularmatrix
      n (rm_fn ma) n = none) :
    ∃ stx, linalg_inv env (core_linalg2 env) (vartype.realmatrix ma) c st
        = some (ERR_SINGULAR_MATRIX, stx) := by
  have hn2 : ¬ n ≤ 2 := by omega
  have hcopy := rm_fn_copy n ma hc
  have hrow : (matrix_copy_rr (new_realmatrix n n) ma).rows = n := rfl
  simp only [linalg_inv, hr, hc, ne_eq, not_true_eq_false, if_false, hs, Bool.false_eq_true,
    hn2, linalg_inv_alloc_ok st halloc, core_linalg2, lu_decomp_r, hrow, hcopy,
    hlu, inv_r_completion1]
  exact ⟨_, rfl⟩

theorem linalg_inv_c_large_none (env : phloat_env) (ma : vartype_complexmatrix)
    (c : completion_v_ref)
    (st : core_state) (n : Nat) (hr : ma.rows = n) (hc : ma.columns = n)
    (hn : 2 < n) (halloc : ∀ b, b ∈ st.alloc → b = true)
    (hlu : lu_steps cplx_size ⟨env.POS_HUGE_PHLOAT, 0⟩ st.matrix_singularmatrix
      n (cm_fn ma) n = none) :
    ∃ stx, linalg_inv env (core_linalg2 env) (vartype.complexmatrix ma) c st
        = some (ERR_SINGULAR_MATRIX, stx) := by
  have hn2 : ¬ n ≤ 2 := by omega
  have hcopy := cm_fn_copy n ma hc
  have hrow : (matrix_copy_cc (new_complexmatrix n n) ma).rows = n := rfl
  simp only [linalg_inv, hr, hc, ne_eq, not_true_eq_false, if_false,
    hn2, linalg_inv_alloc_ok st halloc, core_linalg2, lu_decomp_c, hrow, hcopy,
    hlu, inv_c_completion1]
  exact ⟨_, rfl⟩

theorem div_delivers_intro (env : phloat_env) (cb : Err → Option vartype → Err) (L2 : linalg2)
    (st : core_state) (left right : vartype) (stI : core_state) (X D : vartype)
    (hwl : mat_wf left) (hX : mat_wf X) (hXr : mat_rows X = mat_rows left)
    (hXc : mat_columns X = mat_rows left)
    (hlog : ∃ pre post, stI.log = st.log ++ pre ++ [event.completion_v X] ++ post ∧
      ∀ ev, ev ∈ pre ++ post → ∃ o, ev = event.free o)
    (hall : ∀ b, b ∈ stI.alloc → b = true) (hfin : ∀ x, env.p_isinf x = 0)
    (hDr : mat_rows D = mat_rows left) (hDc : mat_columns D = mat_columns left)
    (hD : ∀ i j, i < mat_rows left → j < mat_columns left →
      mat_entry D i j = product_entry X left i j)
    (hdiv : (∃ stE, linalg_div env L2 cb left right completion_ref.caller st
          = some (cb ERR_NONE (some D), stE) ∧
        event.completion ERR_NONE (some D) ∈ stE.log) ∨
     (∃ st1 N stN stE, linalg_div env L2 cb left right completion_ref.caller st
          = some (ERR_INTERRUPTIBLE, st1) ∧
        suspended_after env cb N st1 = some stN ∧
        reenter env cb false stN = some (cb ERR_NONE (some D), stE) ∧
        event.completion ERR_NONE (some D) ∈ stE.log)) :
    div_delivers env cb L2 st left right stI X := by
  obtain ⟨st1, N, stN, P, stF, m1, m2, m3, m4, m5, m6, m7, m8, m9⟩ :=
    linalg_mul_run env cb stI X left completion_ref.caller hX hwl hXc hall hfin
  obtain ⟨stE, n1, n2⟩ := m4 _ rfl
  refine ⟨D, hlog, hDr, hDc, hD, hdiv, P, st1, N, stN, stE, m1, m2, n1, ?_,
    by rw [m7, hXr, hDr], by rw [m8, hDc], ?_⟩
  · rw [n2]
    simp
  · intro i j hi hj
    rw [m9 i j (by rw [hXr]; exact hi) hj, hD i j hi hj]

theorem small_div_eq_mul (env : phloat_env) (cb : Err → Option vartype → Err)
    (left right X : vartype) (s0 : core_state)
    (hl : (∃ m, left = vartype.realmatrix m) ∨ ∃ m, left = vartype.complexmatrix m)
    (st : core_state)
    (hinv : (∃ ma Xr, right = vartype.realmatrix ma ∧ X = vartype.realmatrix Xr ∧
        small_inv_r env ma completion_v_ref.small_div_completion_1 st
          = some (ERR_NONE, call_completion_v completion_v_ref.small_div_completion_1 X s0)) ∨
      (∃ ma Xc, right = vartype.complexmatrix ma ∧ X = vartype.complexmatrix Xc ∧
        small_inv_c env ma completion_v_ref.small_div_completion_1 st
          = some (ERR_NONE, call_completion_v completion_v_ref.small_div_completion_1 X s0))) :
    small_div env cb left right completion_ref.caller st
      = linalg_mul cb X left completion_ref.small_div_completion_2
          { s0 with small_div_res := some X,
                    small_div_completion := some completion_ref.caller } := by
  rcases hinv with ⟨ma, Xr, rfl, rfl, h⟩ | ⟨ma, Xc, rfl, rfl, h⟩
  · rcases hl with ⟨l, rfl⟩ | ⟨l, rfl⟩
    · simp only [small_div, h, ne_eq, not_true_eq_false, if_false, call_completion_v, linalg_mul]
    · simp only [small_div, h, ne_eq, not_true_eq_false, if_false, call_completion_v, linalg_mul]
  · rcases hl with ⟨l, rfl⟩ | ⟨l, rfl⟩
    · simp only [small_div, h, ne_eq, not_true_eq_false, if_false, call_completion_v, linalg_mul]
    · simp only [small_div, h, ne_eq, not_true_eq_false, if_false, call_completion_v, linalg_mul]

theorem small_div_run (env : phloat_env) (cb : Err → Option vartype → Err) (L2 : linalg2)
    (st : core_state) (left right X : vartype) (s0 : core_state)
    (hwl : mat_wf left) (hX : mat_wf X) (hXr : mat_rows X = mat_rows left)
    (hXc : mat_columns X = mat_rows left)
    (hpre : ∃ pre, s0.log = st.log ++ pre ∧ ∀ ev, ev ∈ pre → ∃ o, ev = event.free o)
    (hall : ∀ b, b ∈ s0.alloc → b = true) (hfin : ∀ x, env.p_isinf x = 0)
    (hdiv : linalg_div env L2 cb left right completion_ref.caller st
      = linalg_mul cb X left completion_ref.small_div_completion_2
          { s0 with small_div_res := some X,
                    small_div_completion := some completion_ref.caller }) :
    div_delivers env cb L2 st left right (call_completion_v completion_v_ref.caller X s0)
      X := by
  obtain ⟨pre, hpre1, hpre2⟩ := hpre
  obtain ⟨st1, N, stN, D, stF, m1, m2, m3, m4, m5, m6, m7, m8, m9⟩ :=
    linalg_mul_run env cb
      { s0 with small_div_res := some X, small_div_completion := some completion_ref.caller }
      X left completion_ref.small_div_completion_2 hX hwl hXc hall hfin
  have hcall : call_completion cb completion_ref.small_div_completion_2 ERR_NONE (some D) stF
      = some (cb ERR_NONE (some D),
          { release obj.small_div_res stF with
            log := (release obj.small_div_res stF).log ++
              [event.completion ERR_NONE (some D)] }) := by
    have : (release obj.small_div_res stF).small_div_completion
        = some completion_ref.caller := m6
    simp only [call_completion, this]
  obtain ⟨stE, n1, n2⟩ := m4 _ hcall
  apply div_delivers_intro env cb L2 st left right
    (call_completion_v completion_v_ref.caller X s0) X D hwl hX hXr hXc
    ⟨pre, [], by simp [call_completion_v, hpre1], by simpa using hpre2⟩ hall hfin
    (by rw [m7, hXr]) m8
    (fun i j hi hj => m9 i j (by rw [hXr]; exact hi) hj)
  right
  refine ⟨st1, N, stN, stE, by rw [hdiv, m1], m2, n1, ?_⟩
  rw [n2]
  simp

theorem linalg_div_small (env : phloat_env) (cb : Err → Option vartype → Err) (L2 : linalg2)
    (st : core_state) (left right : vartype) (c : completion_ref)
    (hwl : mat_wf left) (hwr : mat_wf right)
    (hrows : mat_rows right = mat_rows left) (hcols : mat_columns right = mat_rows left)
    (h12 : mat_rows right ≤ 2) :
    linalg_div env L2 cb left right c st = small_div env cb left right c st := by
  cases left with
  | realmatrix l =>
    cases right with
    | realmatrix r =>
      simp only [mat_columns, mat_rows] at hrows hcols h12
      have h12b : l.rows ≤ 2 := by omega
      simp [linalg_div, hrows, hcols, h12b]
    | complexmatrix r =>
      simp only [mat_columns, mat_rows] at hrows hcols h12
      have h12b : l.rows ≤ 2 := by omega
      simp [linalg_div, hrows, hcols, h12b]
    | _ => exact hwr.elim
  | complexmatrix l =>
    cases right with
    | realmatrix r =>
      simp only [mat_columns, mat_rows] at hrows hcols h12
      have h12b : l.rows ≤ 2 := by omega
      simp [linalg_div, hrows, hcols, h12b]
    | complexmatrix r =>
      simp only [mat_columns, mat_rows] at hrows hcols h12
      have h12b : l.rows ≤ 2 := by omega
      simp [linalg_div, hrows, hcols, h12b]
    | _ => exact hwr.elim
  | _ => exact hwl.elim

theorem mat_wf_matrix (v : vartype) (h : mat_wf v) :
    (∃ m, v = vartype.realmatrix m) ∨ ∃ m, v = vartype.complexmatrix m := by
  cases v with
  | realmatrix m => exact Or.inl ⟨m, rfl⟩
  | complexmatrix m => exact Or.inr ⟨m, rfl⟩
  | _ => exact h.elim

theorem div_delivers_small (env : phloat_env) (cb : Err → Option vartype → Err) (L2 : linalg2)
    (st : core_state) (left right : vartype) (stI : core_state)
    (hwl : mat_wf left) (hwr : mat_wf right)
    (hrows : mat_rows right = mat_rows left) (hcols : mat_columns right = mat_rows left)
    (h12 : mat_rows right ≤ 2)
    (hfin : ∀ x, env.p_isinf x = 0) (halloc : ∀ b, b ∈ st.alloc → b = true)
    (hinv : linalg_inv env L2 right completion_v_ref.caller st = some (ERR_NONE, stI)) :
    ∃ X, div_delivers env cb L2 st left right stI X := by
  have hdiv := linalg_div_small env cb L2 st left right completion_ref.caller hwl hwr hrows
    hcols h12
  cases right with
  | realmatrix ma =>
    obtain ⟨hm, hq, hl, hs⟩ := hwr
    have hrows : ma.rows = mat_rows left := hrows
    have hcols : ma.columns = mat_rows left := hcols
    have h12 : ma.rows ≤ 2 := h12
    have hc : ma.columns = ma.rows := by rw [hrows, hcols]
    have hlin : linalg_inv env L2 (vartype.realmatrix ma) completion_v_ref.caller st
        = small_inv_r env ma completion_v_ref.caller st := by
      simp [linalg_inv, hc, hs, h12]
    rw [hlin] at hinv
    obtain ⟨X, s0, e1, e2, e3, e4, e5, e6, e7, e8, _⟩ :=
      small_inv_r_rel env ma st completion_v_ref.caller completion_v_ref.small_div_completion_1
        stI (by omega) hc hl hs halloc hinv
    subst e1
    refine ⟨vartype.realmatrix X, ?_⟩
    apply small_div_run env cb L2 st left _ (vartype.realmatrix X) s0 hwl
      ⟨by rw [e3]; exact hm, by rw [e4]; exact hq, by rw [e5, hl, e3, e4], e6⟩
      (by show X.rows = _; rw [e3, hrows]) (by show X.columns = _; rw [e4, hcols]) e7 e8 hfin
    rw [hdiv]
    exact small_div_eq_mul env cb left _ _ s0 (mat_wf_matrix left hwl) st
      (Or.inl ⟨ma, X, rfl, rfl, e2⟩)
  | complexmatrix ma =>
    obtain ⟨hm, hq, hl⟩ := hwr
    have hrows : ma.rows = mat_rows left := hrows
    have hcols : ma.columns = mat_rows left := hcols
    have h12 : ma.rows ≤ 2 := h12
    have hc : ma.columns = ma.rows := by rw [hrows, hcols]
    have hlin : linalg_inv env L2 (vartype.complexmatrix ma) completion_v_ref.caller st
        = small_inv_c env ma completion_v_ref.caller st := by
      simp [linalg_inv, hc, h12]
    rw [hlin] at hinv
    obtain ⟨X, s0, e1, e2, e3, e4, e5, e7, e8, _⟩ :=
      small_inv_c_rel env ma st completion_v_ref.caller completion_v_ref.small_div_completion_1
        stI (by omega) hc hl halloc hinv
    subst e1
    refine ⟨vartype.complexmatrix X, ?_⟩
    apply small_div_run env cb L2 st left _ (vartype.complexmatrix X) s0 hwl
      ⟨by rw [e3]; exact hm, by rw [e4]; exact hq, by rw [e5, hl, e3, e4]⟩
      (by show X.rows = _; rw [e3, hrows]) (by show X.columns = _; rw [e4, hcols]) e7 e8 hfin
    rw [hdiv]
    exact small_div_eq_mul env cb left _ _ s0 (mat_wf_matrix left hwl) st
      (Or.inr ⟨ma, X, rfl, rfl, e2⟩)
  | _ => exact hwr.elim

theorem div_delivers_large_r (env : phloat_env) (cb : Err → Option vartype → Err)
    (st : core_state) (left : vartype) (ma : vartype_realmatrix) (stI : core_state)
    (hwl : mat_wf left) (hwr : mat_wf (vartype.realmatrix ma))
    (hrows : ma.rows = mat_rows left) (hcols : ma.columns = mat_rows left)
    (hbig : 2 < ma.rows)
    (hfin : ∀ x, env.p_isinf x = 0) (halloc : ∀ b, b ∈ st.alloc → b = true)
    (hinv : linalg_inv env (core_linalg2 env) (vartype.realmatrix ma) completion_v_ref.caller st
      = some (ERR_NONE, stI)) :
    ∃ X, div_delivers env cb (core_linalg2 env) st left (vartype.realmatrix ma) stI X := by
  obtain ⟨hm, hq, hl, hs⟩ := hwr
  have h1 := tail_all_true _ halloc
  have h2 := tail_all_true _ h1
  have h3 := tail_all_true _ h2
  generalize hn : ma.rows = n at *
  have hc : ma.columns = n := by rw [hcols, hrows]
  rcases hlu : lu_steps (fun x : phloat => |x|) env.POS_HUGE_PHLOAT st.matrix_singularmatrix
      n (rm_fn ma) n with _ | s
  · obtain ⟨stx, hx⟩ := linalg_inv_r_large_none env ma completion_v_ref.caller st n hn hc hs
      hbig halloc hlu
    rw [hx] at hinv
    simp at hinv
  · have hperm := lu_steps_perm _ _ _ _ _ _ (le_refl _) s hlu
    obtain ⟨X, st0, e1, e2, e3, e4, e5, e6, e7, e8, e9, e10⟩ :=
      linalg_inv_r_large env ma completion_v_ref.caller st n hn hc hs hbig hfin halloc s hlu
    rw [e1] at hinv
    simp only [Option.some.injEq, Prod.mk.injEq, true_and] at hinv
    subst hinv
    have hXwf : mat_wf (vartype.realmatrix X) := ⟨by omega, by omega, by rw [e6, e7, e8], e9⟩
    have hlog : ∃ pre post, (release obj.perm (release obj.lu
          (call_completion_v completion_v_ref.caller (vartype.realmatrix X) st0))).log
        = st.log ++ pre ++ [event.completion_v (vartype.realmatrix X)] ++ post ∧
        ∀ ev, ev ∈ pre ++ post → ∃ o, ev = event.free o := by
      refine ⟨[], [event.free obj.lu, event.free obj.perm], by simp [release, call_completion_v, e2],
        ?_⟩
      intro ev hev
      simp only [List.nil_append, List.mem_cons, List.mem_singleton, List.mem_nil_iff,
        or_false] at hev
      rcases hev with rfl | rfl
      · exact ⟨_, rfl⟩
      · exact ⟨_, rfl⟩
    have hall : ∀ b, b ∈ (release obj.perm (release obj.lu
          (call_completion_v completion_v_ref.caller (vartype.realmatrix X) st0))).alloc →
        b = true := by
      intro b hb
      have : b ∈ st0.alloc := hb
      rw [e3] at this
      exact h3 b this
    refine ⟨vartype.realmatrix X, ?_⟩
    cases left with
    | realmatrix num =>
      obtain ⟨D, stE, d1, d2, d3, d4, d5⟩ :=
        linalg_div_rr_large env cb num ma st n hn hc hrows.symm hbig hfin halloc s hlu
      apply div_delivers_intro env cb _ st _ _ _ (vartype.realmatrix X) (vartype.realmatrix D)
        hwl hXwf (by show X.rows = num.rows; rw [e6]; exact hrows)
        (by show X.columns = num.rows; rw [e7]; exact hrows) hlog hall hfin
        (by show D.rows = num.rows; rw [d3]; exact hrows) d4 ?_
        (Or.inl ⟨stE, d1, by rw [d2]; simp⟩)
      intro i j hi hj
      have hi2 : i < n := by rw [hrows]; exact hi
      rw [product_entry_real, e7]
      show (rm_fn D i j, (0 : phloat)) = _
      rw [d5 i j hi2 hj, lu_solve_columns n s.1 s.2 hperm.2]
      congr 1
      apply Finset.sum_congr rfl
      intro k hk
      rw [e10 i k hi2 (Finset.mem_range.mp hk)]
    | complexmatrix num =>
      obtain ⟨D, stE, d1, d2, d3, d4, d5⟩ :=
        linalg_div_cr_large env cb num ma st n hn hc hrows.symm hbig hfin halloc s hlu
      apply div_delivers_intro env cb _ st _ _ _ (vartype.realmatrix X) (vartype.complexmatrix D)
        hwl hXwf (by show X.rows = num.rows; rw [e6]; exact hrows)
        (by show X.columns = num.rows; rw [e7]; exact hrows) hlog hall hfin
        (by show D.rows = num.rows; rw [d3]; exact hrows) d4 ?_
        (Or.inl ⟨stE, d1, by rw [d2]; simp⟩)
      intro i j hi hj
      have hi2 : i < n := by rw [hrows]; exact hi
      rw [product_entry_real_cplx, e7]
      show ((cm_fn D i j).re, (cm_fn D i j).im) = _
      rw [d5 i j hi2 hj]
      simp only
      rw [lu_solve_columns n s.1 s.2 hperm.2 (fun r => (cm_fn num r j).re),
        lu_solve_columns n s.1 s.2 hperm.2 (fun r => (cm_fn num r j).im)]
      congr 1
      · apply Finset.sum_congr rfl
        intro k hk
        rw [e10 i k hi2 (Finset.mem_range.mp hk)]
      · apply Finset.sum_congr rfl
        intro k hk
        rw [e10 i k hi2 (Finset.mem_range.mp hk)]
    | _ => exact hwl.elim

theorem div_delivers_large_c (env : phloat_env) (cb : Err → Option vartype → Err)
    (st : core_state) (left : vartype) (ma : vartype_complexmatrix) (stI : core_state)
    (hwl : mat_wf left) (hwr : mat_wf (vartype.complexmatrix ma))
    (hrows : ma.rows = mat_rows left) (hcols : ma.columns = mat_rows left)
    (hbig : 2 < ma.rows)
    (hfin : ∀ x, env.p_isinf x = 0) (halloc : ∀ b, b ∈ st.alloc → b = true)
    (hinv : linalg_inv env (core_linalg2 env) (vartype.complexmatrix ma)
      completion_v_ref.caller st = some (ERR_NONE, stI)) :
    ∃ X, div_delivers env cb (core_linalg2 env) st left (vartype.complexmatrix ma) stI X := by
  obtain ⟨hm, hq, hl⟩ := hwr
  have h1 := tail_all_true _ halloc
  have h2 := tail_all_true _ h1
  have h3 := tail_all_true _ h2
  generalize hn : ma.rows = n at *
  have hc : ma.columns = n := by rw [hcols, hrows]
  rcases hlu : lu_steps cplx_size ⟨env.POS_HUGE_PHLOAT, 0⟩ st.matrix_singularmatrix
      n (cm_fn ma) n with _ | s
  · obtain ⟨stx, hx⟩ := linalg_inv_c_large_none env ma completion_v_ref.caller st n hn hc
      hbig halloc hlu
    rw [hx] at hinv
    simp at hinv
  · have hperm := lu_steps_perm _ _ _ _ _ _ (le_refl _) s hlu
    obtain ⟨X, st0, e1, e2, e3, e4, e5, e6, e7, e8, e10⟩ :=
      linalg_inv_c_large env ma completion_v_ref.caller st n hn hc hbig hfin halloc s hlu
    rw [e1] at hinv
    simp only [Option.some.injEq, Prod.mk.injEq, true_and] at hinv
    subst hinv
    have hXwf : mat_wf (vartype.complexmatrix X) := ⟨by omega, by omega, by rw [e6, e7, e8]⟩
    have hlog : ∃ pre post, (release obj.perm (release obj.lu
          (call_completion_v completion_v_ref.caller (vartype.complexmatrix X) st0))).log
        = st.log ++ pre ++ [event.completion_v (vartype.complexmatrix X)] ++ post ∧
        ∀ ev, ev ∈ pre ++ post → ∃ o, ev = event.free o := by
      refine ⟨[], [event.free obj.lu, event.free obj.perm], by simp [release, call_completion_v, e2],
        ?_⟩
      intro ev hev
      simp only [List.nil_append, List.mem_cons, List.mem_singleton, List.mem_nil_iff,
        or_false] at hev
      rcases hev with rfl | rfl
      · exact ⟨_, rfl⟩
      · exact ⟨_, rfl⟩
    have hall : ∀ b, b ∈ (release obj.perm (release obj.lu
          (call_completion_v completion_v_ref.caller (vartype.complexmatrix X) st0))).alloc →
        b = true := by
      intro b hb
      have : b ∈ st0.alloc := hb
      rw [e3] at this
      exact h3 b this
    refine ⟨vartype.complexmatrix X, ?_⟩
    cases left with
    | realmatrix num =>
      obtain ⟨D, stE, d1, d2, d3, d4, d5⟩ :=
        linalg_div_rc_large env cb num ma st n hn hc hrows.symm hbig hfin halloc s hlu
      apply div_delivers_intro env cb _ st _ _ _ (vartype.complexmatrix X)
        (vartype.complexmatrix D)
        hwl hXwf (by show X.rows = num.rows; rw [e6]; exact hrows)
        (by show X.columns = num.rows; rw [e7]; exact hrows) hlog hall hfin
        (by show D.rows = num.rows; rw [d3]; exact hrows) d4 ?_
        (Or.inl ⟨stE, d1, by rw [d2]; simp⟩)
      intro i j hi hj
      have hi2 : i < n := by rw [hrows]; exact hi
      rw [product_entry_cplx_real, e7]
      show ((cm_fn D i j).re, (cm_fn D i j).im) = _
      rw [d5 i j hi2 hj, lu_solve_columns n s.1 s.2 hperm.2, cplx_sum_re, cplx_sum_im]
      congr 1
      · apply Finset.sum_congr rfl
        intro k hk
        rw [e10 i k hi2 (Finset.mem_range.mp hk), cplx_mul_re]
        simp
      · apply Finset.sum_congr rfl
        intro k hk
        rw [e10 i k hi2 (Finset.mem_range.mp hk), cplx_mul_im]
        simp
    | complexmatrix num =>
      obtain ⟨D, stE, d1, d2, d3, d4, d5⟩ :=
        linalg_div_cc_large env cb num ma st n hn hc hrows.symm hbig hfin halloc s hlu
      apply div_delivers_intro env cb _ st _ _ _ (vartype.complexmatrix X)
        (vartype.complexmatrix D)
        hwl hXwf (by show X.rows = num.rows; rw [e6]; exact hrows)
        (by show X.columns = num.rows; rw [e7]; exact hrows) hlog hall hfin
        (by show D.rows = num.rows; rw [d3]; exact hrows) d4 ?_
        (Or.inl ⟨stE, d1, by rw [d2]; simp⟩)
      intro i j hi hj
      have hi2 : i < n := by rw [hrows]; exact hi
      rw [product_entry_cplx, e7]
      show ((cm_fn D i j).re, (cm_fn D i j).im) = _
      rw [d5 i j hi2 hj, lu_solve_columns n s.1 s.2 hperm.2]
      have e : (∑ k in Finset.range n,
            lu_solve n s.1 s.2 (fun r => if r = k then 1 else 0) i * cm_fn num k j)
          = ∑ k in Finset.range n, cm_fn X i k * cm_fn num k j := by
        apply Finset.sum_congr rfl
        intro k hk
        rw [e10 i k hi2 (Finset.mem_range.mp hk)]
      rw [e]
    | _ => exact hwl.elim

theorem small_inv_r_two_state (env : phloat_env) (ma : vartype_realmatrix) (st : core_state)
    (a b c d : phloat) (hr : ma.rows = 2) (hd : ma.data = [a, b, c, d])
    (hs : contains_strings ma = false)
    (hdet : a * d - b * c ≠ 0)
    (hfin : ∀ x, env.p_isinf x = 0) (halloc : ∀ b, b ∈ st.alloc → b = true)
    (cp : completion_v_ref) :
    small_inv_r env ma cp st
      = some (ERR_NONE, call_completion_v cp
          (vartype.realmatrix { ma with
            data := [d / (a * d - b * c), -(b / (a * d - b * c)), -(c / (a * d - b * c)),
              a / (a * d - b * c)] })
          { st with
            alloc := st.alloc.tail.tail, log := st.log ++ [event.free obj.d],
            small_inv_res := some (vartype.realmatrix { ma with
              data := [d / (a * d - b * c), -(b / (a * d - b * c)), -(c / (a * d - b * c)),
                a / (a * d - b * c)] }) }) := by
  have h1 := tail_all_true _ halloc
  have hdet2 := small_det_r_two env st ma a b c d (by omega) hd (hfin _)
  have hr1 : ¬ ma.rows = 1 := by omega
  have hdr : ∀ (s : core_state) (x : phloat), det_range env s x = (ERR_NONE, x) :=
    fun s x => det_range_of_finite env s x (hfin x)
  simp only [small_inv_r, hr1, if_false, hdet2, hdet, alloc_next_ok st halloc, Bool.not_true,
    Bool.false_eq_true, generic_div, hs, hd, List.map, xnum_of_finite env _ (hfin _),
    xdiv_fin env hfin _ _ hdet, x_range_fin env hfin, List.any, bne_self_eq_false,
    Bool.or_self]
  rw [alloc_next_ok _ h1]
  simp
  rfl

theorem linalg_inv_mat_1101 (L2 : linalg2) :
    linalg_inv env_exact L2 (vartype.realmatrix mat_1101) completion_v_ref.caller st_idle
      = some (ERR_NONE, st_inverted) := by
  have h : linalg_inv env_exact L2 (vartype.realmatrix mat_1101) completion_v_ref.caller st_idle
      = small_inv_r env_exact mat_1101 completion_v_ref.caller st_idle := by
    simp [linalg_inv, mat_1101, contains_strings]
  rw [h, small_inv_r_two_state env_exact mat_1101 st_idle 1 1 0 1 rfl rfl rfl (by norm_num)
    (fun _ => rfl) (by simp [st_idle])]
  rfl

/-- C6 as stated fails: with `A = [[1, 2], [3, 4]]` and `B = [[1, 1], [0, 1]]`, the
inversion of `B` delivers `X = [[1, -1], [0, 1]]`; `linalg_div(A, B)` delivers a matrix
whose entry (0, 0) is -2 (that of `X × A`), while `linalg_mul(A, X)` delivers a matrix
whose entry (0, 0) is 1. -/
theorem linalg_div_operand_order_counterexample :
    ∃ (D P : vartype),
      linalg_inv env_exact linalg2_none (vartype.realmatrix mat_1101) completion_v_ref.caller
        st_idle = some (ERR_NONE, st_inverted) ∧
      st_inverted.log
        = [event.free obj.d, event.completion_v (vartype.realmatrix mat_1101_inv)] ∧
      (∃ st1 N stN stE, linalg_div env_exact linalg2_none cb_id (vartype.realmatrix mat_1234)
          (vartype.realmatrix mat_1101) completion_ref.caller st_idle
          = some (ERR_INTERRUPTIBLE, st1) ∧
        suspended_after env_exact cb_id N st1 = some stN ∧
        reenter env_exact cb_id false stN = some (ERR_NONE, stE) ∧
        event.completion ERR_NONE (some D) ∈ stE.log) ∧
      (∃ st1 N stN stE, linalg_mul cb_id (vartype.realmatrix mat_1234)
          (vartype.realmatrix mat_1101_inv) completion_ref.caller st_inverted
          = some (ERR_INTERRUPTIBLE, st1) ∧
        suspended_after env_exact cb_id N st1 = some stN ∧
        reenter env_exact cb_id false stN = some (ERR_NONE, stE) ∧
        event.completion ERR_NONE (some P) ∈ stE.log) ∧
      mat_entry D 0 0 = (-2, 0) ∧ mat_entry P 0 0 = (1, 0) := by
  have hwA : mat_wf (vartype.realmatrix mat_1234) := ⟨by decide, by decide, rfl, rfl⟩
  have hwB : mat_wf (vartype.realmatrix mat_1101) := ⟨by decide, by decide, rfl, rfl⟩
  have hwX : mat_wf (vartype.realmatrix mat_1101_inv) := ⟨by decide, by decide, rfl, rfl⟩
  have hfin : ∀ x, env_exact.p_isinf x = 0 := fun _ => rfl
  have hdiv : linalg_div env_exact linalg2_none cb_id (vartype.realmatrix mat_1234)
      (vartype.realmatrix mat_1101) completion_ref.caller st_idle
      = linalg_mul cb_id (vartype.realmatrix mat_1101_inv) (vartype.realmatrix mat_1234)
          completion_ref.small_div_completion_2
          { st_idle with
            log := [event.free obj.d],
            small_inv_res := some (vartype.realmatrix mat_1101_inv),
            small_div_res := some (vartype.realmatrix mat_1101_inv),
            small_div_completion := some completion_ref.caller } := by
    rw [linalg_div_small env_exact cb_id linalg2_none st_idle _ _ completion_ref.caller hwA hwB
      rfl rfl (by decide)]
    simp only [small_div]
    rw [small_inv_r_two_state env_exact mat_1101 st_idle 1 1 0 1 rfl rfl rfl (by norm_num)
      hfin (by simp [st_idle])]
    rfl
  obtain ⟨st1, N, stN, D, stF, m1, m2, m3, m4, m5, m6, m7, m8, m9⟩ :=
    linalg_mul_run env_exact cb_id
      { st_idle with
        log := [event.free obj.d],
        small_inv_res := some (vartype.realmatrix mat_1101_inv),
        small_div_res := some (vartype.realmatrix mat_1101_inv),
        small_div_completion := some completion_ref.caller }
      (vartype.realmatrix mat_1101_inv)
      (vartype.realmatrix mat_1234) completion_ref.small_div_completion_2 hwX hwA rfl
      (by simp [st_idle]) hfin
  have hcall : call_completion cb_id completion_ref.small_div_completion_2 ERR_NONE (some D) stF
      = some (ERR_NONE,
          { release obj.small_div_res stF with
            log := (release obj.small_div_res stF).log ++
              [event.completion ERR_NONE (some D)] }) := by
    have : (release obj.small_div_res stF).small_div_completion
        = some completion_ref.caller := m6
    simp only [call_completion, this]
    rfl
  obtain ⟨stE, n1, n2⟩ := m4 _ hcall
  obtain ⟨t1, M, tN, P, tF, k1, k2, k3, k4, k5, k6, k7, k8, k9⟩ :=
    linalg_mul_run env_exact cb_id st_inverted (vartype.realmatrix mat_1234)
      (vartype.realmatrix mat_1101_inv) completion_ref.caller hwA hwX rfl
      (by simp [st_inverted, st_idle]) hfin
  obtain ⟨tE, l1, l2⟩ := k4 _ rfl
  refine ⟨D, P, linalg_inv_mat_1101 linalg2_none, rfl,
    ⟨st1, N, stN, stE, by rw [hdiv, m1], m2, n1, by rw [n2]; simp⟩,
    ⟨t1, M, tN, tE, k1, k2, l1, by rw [l2]; simp⟩, ?_, ?_⟩
  · rw [m9 0 0 (by decide) (by decide), product_entry_real]
    simp [rm_fn, mat_1101_inv, mat_1101, mat_1234, Finset.sum_range_succ]
    norm_num
  · rw [k9 0 0 (by decide) (by decide), product_entry_real]
    simp [rm_fn, mat_1101_inv, mat_1101, mat_1234, Finset.sum_range_succ]

/-- C6, amended. For well-formed numeric operands, the divisor `right` a square matrix of
order `left.rows`, exact scalars, nothing out of range and every allocation
successful: whenever the inversion of `right` returns ERR_NONE, it has delivered a
matrix `X` to its completion, and `linalg_div(left, right)` delivers to its completion
(directly, or when the multiply worker installed by the small division finishes) a
matrix `D` of the dimensions of `left` whose every entry is that of the product
`X × left`, the inverse being the left factor; `linalg_mul(X, left)` delivers a matrix
with the same entries.  For divisors of order up to 2 this holds for every
implementation of the decomposition routines; for larger orders it is proved for the
modelled LU decomposition and back-substitution. -/
theorem linalg_div_inverse_times_numerator (env : phloat_env)
    (cb : Err → Option vartype → Err) (L2 : linalg2) (st : core_state)
    (left right : vartype) (stI : core_state)
    (hwl : mat_wf left) (hwr : mat_wf right)
    (hrows : mat_rows right = mat_rows left) (hcols : mat_columns right = mat_rows left)
    (hfin : ∀ x, env.p_isinf x = 0) (halloc : ∀ b, b ∈ st.alloc → b = true)
    (hL2 : 2 < mat_rows right → L2 = core_linalg2 env)
    (hinv : linalg_inv env L2 right completion_v_ref.caller st = some (ERR_NONE, stI)) :
    ∃ (X D : vartype),
      (∃ pre post, stI.log = st.log ++ pre ++ [event.completion_v X] ++ post ∧
        ∀ ev, ev ∈ pre ++ post → ∃ o, ev = event.free o) ∧
      mat_rows D = mat_rows left ∧ mat_columns D = mat_columns left ∧
      (∀ i j, i < mat_rows left → j < mat_columns left →
        mat_entry D i j = product_entry X left i j) ∧
      ((∃ stE, linalg_div env L2 cb left right completion_ref.caller st
            = some (cb ERR_NONE (some D), stE) ∧
          event.completion ERR_NONE (some D) ∈ stE.log) ∨
       (∃ st1 N stN stE, linalg_div env L2 cb left right completion_ref.caller st
            = some (ERR_INTERRUPTIBLE, st1) ∧
          suspended_after env cb N st1 = some stN ∧
          reenter env cb false stN = some (cb ERR_NONE (some D), stE) ∧
          event.completion ERR_NONE (some D) ∈ stE.log)) ∧
      ∃ (P : vartype) (st1 : core_state) (N : Nat) (stN stE : core_state),
        linalg_mul cb X left completion_ref.caller stI = some (ERR_INTERRUPTIBLE, st1) ∧
        suspended_after env cb N st1 = some stN ∧
        reenter env cb false stN = some (cb ERR_NONE (some P), stE) ∧
        event.completion ERR_NONE (some P) ∈ stE.log ∧
        mat_rows P = mat_rows D ∧ mat_columns P = mat_columns D ∧
        ∀ i j, i < mat_rows left → j < mat_columns left →
          mat_entry P i j = mat_entry D i j := by
  have key : ∃ X, div_delivers env cb L2 st left right stI X := by
    rcases Nat.lt_or_ge 2 (mat_rows right) with hbig | hsmall
    · have hL := hL2 hbig
      subst hL
      cases right with
      | realmatrix ma =>
        exact div_delivers_large_r env cb st left ma stI hwl hwr hrows hcols hbig hfin halloc hinv
      | complexmatrix ma =>
        exact div_delivers_large_c env cb st left ma stI hwl hwr hrows hcols hbig hfin halloc hinv
      | _ => exact hwr.elim
    · exact div_delivers_small env cb L2 st left right stI hwl hwr hrows hcols hsmall hfin
        halloc hinv
  obtain ⟨X, D, h⟩ := key
  exact ⟨X, D, h⟩

/-- C6, witness: `[[1, 2], [3, 4]]` divided by `[[1, 1], [0, 1]]`. -/
theorem linalg_div_inverse_times_numerator_witness :
    linalg_inv env_exact linalg2_none (vartype.realmatrix mat_1101) completion_v_ref.caller
      st_idle = some (ERR_NONE, st_inverted) ∧
    ∃ (X D : vartype),
      (∃ pre post, st_inverted.log = st_idle.log ++ pre ++ [event.completion_v X] ++ post ∧
        ∀ ev, ev ∈ pre ++ post → ∃ o, ev = event.free o) ∧
      mat_rows D = 2 ∧ mat_columns D = 2 ∧
      (∀ i j, i < 2 → j < 2 →
        mat_entry D i j = product_entry X (vartype.realmatrix mat_1234) i j) := by
  obtain ⟨X, D, h1, h2, h3, h4, _⟩ :=
    linalg_div_inverse_times_numerator env_exact cb_id linalg2_none st_idle
      (vartype.realmatrix mat_1234) (vartype.realmatrix mat_1101) st_inverted
      ⟨by decide, by decide, rfl, rfl⟩ ⟨by decide, by decide, rfl, rfl⟩ rfl rfl (fun _ => rfl)
      (by simp [st_idle]) (fun h => absurd h (by decide)) (linalg_inv_mat_1101 linalg2_none)
  exact ⟨linalg_inv_mat_1101 linalg2_none, X, D, h1, h2, h3, h4⟩

/-- C21. For conformable numeric operands of any size and two successful allocations
(the progress record and the result), each of `matrix_mul_rr`, `matrix_mul_rc`,
`matrix_mul_cr` and `matrix_mul_cc` returns ERR_INTERRUPTIBLE in the state where its
worker is installed in `mode_interruptible`, the progress record holds
`i = j = k = 0`, zero accumulator(s) and the freshly allocated zero-filled result (no
element has been computed), and the log is unchanged: the completion has not been
invoked and nothing has been released. -/
theorem matrix_mul_installs_worker (cb : Err → Option vartype → Err)
    (completion : completion_ref) (st : core_state)
    (ha1 : (alloc_next st).1 = true) (ha2 : (alloc_next (alloc_next st).2).1 = true) :
    (∀ (left right : vartype_realmatrix), left.columns = right.rows →
      contains_strings left = false → contains_strings right = false →
      matrix_mul_rr cb left right completion st
        = some (ERR_INTERRUPTIBLE,
            { st with
              alloc := st.alloc.tail.tail,
              mul_rr_data := some
                { left := left, right := right,
                  result :=
                    { rows := left.rows, columns := right.columns,
                      data := List.replicate (left.rows * right.columns) 0,
                      is_string := List.replicate (left.rows * right.columns) false },
                  i := 0, j := 0, k := 0, sum := 0, completion := completion },
              mode_interruptible := some worker_ref.matrix_mul_rr_worker,
              mode_stoppable := false })) ∧
    (∀ (left : vartype_realmatrix) (right : vartype_complexmatrix),
      left.columns = right.rows → contains_strings left = false →
      matrix_mul_rc cb left right completion st
        = some (ERR_INTERRUPTIBLE,
            { st with
              alloc := st.alloc.tail.tail,
              mul_rc_data := some
                { left := left, right := right,
                  result :=
                    { rows := left.rows, columns := right.columns,
                      data := List.replicate (2 * (left.rows * right.columns)) 0 },
                  i := 0, j := 0, k := 0, sum_re := 0, sum_im := 0,
                  completion := completion },
              mode_interruptible := some worker_ref.matrix_mul_rc_worker,
              mode_stoppable := false })) ∧
    (∀ (left : vartype_complexmatrix) (right : vartype_realmatrix),
      left.columns = right.rows → contains_strings right = false →
      matrix_mul_cr cb left right completion st
        = some (ERR_INTERRUPTIBLE,
            { st with
              alloc := st.alloc.tail.tail,
              mul_cr_data := some
                { left := left, right := right,
                  result :=
                    { rows := left.rows, columns := right.columns,
                      data := List.replicate (2 * (left.rows * right.columns)) 0 },
                  i := 0, j := 0, k := 0, sum_re := 0, sum_im := 0,
                  completion := completion },
              mode_interruptible := some worker_ref.matrix_mul_cr_worker,
              mode_stoppable := false })) ∧
    (∀ (left right : vartype_complexmatrix), left.columns = right.rows →
      matrix_mul_cc cb left right completion st
        = some (ERR_INTERRUPTIBLE,
            { st with
              alloc := st.alloc.tail.tail,
              mul_cc_data := some
                { left := left, right := right,
                  result :=
                    { rows := left.rows, columns := right.columns,
                      data := List.replicate (2 * (left.rows * right.columns)) 0 },
                  i := 0, j := 0, k := 0, sum_re := 0, sum_im := 0,
                  completion := completion },
              mode_interruptible := some worker_ref.matrix_mul_cc_worker,
              mode_stoppable := false })) := by
  refine ⟨?_, ?_, ?_, ?_⟩
  · intro left right hdim hs hs2
    simp only [matrix_mul_rr, hdim, ne_eq, not_true_eq_false, if_false, hs, hs2, Bool.or_self,
      ha1, ha2, Bool.not_true, Bool.false_eq_true]
    rfl
  · intro left right hdim hs
    simp only [matrix_mul_rc, hdim, ne_eq, not_true_eq_false, if_false, hs,
      ha1, ha2, Bool.not_true, Bool.false_eq_true]
    rfl
  · intro left right hdim hs
    simp only [matrix_mul_cr, hdim, ne_eq, not_true_eq_false, if_false, hs,
      ha1, ha2, Bool.not_true, Bool.false_eq_true]
    rfl
  · intro left right hdim
    simp only [matrix_mul_cc, hdim, ne_eq, not_true_eq_false, if_false,
      ha1, ha2, Bool.not_true, Bool.false_eq_true]
    rfl

/-- C21, witness: the 1×1 product `[5] × [7]` from the idle state. -/
theorem matrix_mul_installs_worker_witness :
    matrix_mul_rr cb_id
        { rows := 1, columns := 1, data := [5], is_string := [false] }
        { rows := 1, columns := 1, data := [7], is_string := [false] }
        completion_ref.caller st_idle
      = some (ERR_INTERRUPTIBLE,
          { st_idle with
            mul_rr_data := some
              { left := { rows := 1, columns := 1, data := [5], is_string := [false] },
                right := { rows := 1, columns := 1, data := [7], is_string := [false] },
                result := { rows := 1, columns := 1, data := [0], is_string := [false] },
                i := 0, j := 0, k := 0, sum := 0, completion := completion_ref.caller },
            mode_interruptible := some worker_ref.matrix_mul_rr_worker,
            mode_stoppable := false }) :=
  (matrix_mul_installs_worker cb_id completion_ref.caller st_idle rfl rfl).1
    { rows := 1, columns := 1, data := [5], is_string := [false] }
    { rows := 1, columns := 1, data := [7], is_string := [false] } rfl rfl rfl

theorem kernel_rounds_progress {A B : Type} (K : mul_kernel A B) (f : Nat → Nat → Nat → A)
    (g : Nat → B) (L : Nat) (rd : List phloat → Nat → B) (hK : kernel_ok K f g L rd) (t : Nat) :
    ∀ x : loop_state A, loop_inv K f g L rd x →
      steps_done K x + 1000 * t < K.m * K.n * K.q →
      ∃ y : loop_state A, K.rounds t x = some y ∧ loop_inv K f g L rd y ∧
        steps_done K y = steps_done K x + 1000 * t := by
  induction t with
  | zero =>
    intro x hx _
    exact ⟨x, rfl, hx, rfl⟩
  | succ t ih =>
    intro x hx hlt
    obtain ⟨y, hy1, hy2, hy3⟩ := (kernel_loop_spec K f g L rd hK 1000 x hx).1 (by omega)
    obtain ⟨z, hz1, hz2, hz3⟩ := ih y hy2 (by omega)
    refine ⟨z, ?_, hz2, by omega⟩
    simp only [mul_kernel.rounds, hy1]
    exact hz1

theorem check_sum2_of_all (env : phloat_env) (st : core_state)
    (hc : ∀ s, (check_sum env st s).isSome) (s : phloat × phloat) :
    (check_sum2 env st s).isSome := by
  have h1 := hc s.1
  have h2 := hc s.2
  simp only [check_sum2]
  rcases e1 : check_sum env st s.1 with _ | v1
  · simp [e1] at h1
  rcases e2 : check_sum env st s.2 with _ | v2
  · simp [e2] at h2
  simp

theorem check_sum_total_cases (env : phloat_env) (st : core_state)
    (hc : ∀ s, (check_sum env st s).isSome) :
    (∀ a, (check_acc env st a).isSome) ∨ ∀ x, env.p_isinf x = 0 := by
  by_cases h : (st.matrix_outofrange && !st.range_error_ignore) = true
  · right
    intro x
    by_contra hx
    have := hc x
    simp [check_sum, hx, h] at this
  · left
    intro a
    cases a with
    | num x => exact hc x
    | inf s => simp [check_acc, h]
    | nan => rfl

theorem check_acc2_of_all (env : phloat_env) (st : core_state)
    (hc : ∀ a, (check_acc env st a).isSome) (s : xphloat × xphloat) :
    (check_acc2 env st s).isSome := by
  have h1 := hc s.1
  have h2 := hc s.2
  simp only [check_acc2]
  rcases e1 : check_acc env st s.1 with _ | v1
  · simp [e1] at h1
  rcases e2 : check_acc env st s.2 with _ | v2
  · simp [e2] at h2
  simp

theorem acc_rr_check (env : phloat_env) (st : core_state)
    (hc : ∀ s, (check_sum env st s).isSome) (l r : vartype_realmatrix) (i j q : Nat) :
    (check_acc env st (acc_rr env l r i j q)).isSome := by
  rcases check_sum_total_cases env st hc with h | hfin
  · exact h _
  · rw [acc_rr_fin env hfin]
    exact hc _

theorem acc_rc_check (env : phloat_env) (st : core_state)
    (hc : ∀ s, (check_sum env st s).isSome) (l : vartype_realmatrix)
    (r : vartype_complexmatrix) (i j q : Nat) :
    (check_acc2 env st (acc_rc env l r i j q)).isSome := by
  rcases check_sum_total_cases env st hc with h | hfin
  · exact check_acc2_of_all env st h _
  · rw [acc_rc_fin env hfin]
    exact check_sum2_of_all env st hc _

theorem acc_cr_check (env : phloat_env) (st : core_state)
    (hc : ∀ s, (check_sum env st s).isSome) (l : vartype_complexmatrix)
    (r : vartype_realmatrix) (i j q : Nat) :
    (check_acc2 env st (acc_cr env l r i j q)).isSome := by
  rcases check_sum_total_cases env st hc with h | hfin
  · exact check_acc2_of_all env st h _
  · rw [acc_cr_fin env hfin]
    exact check_sum2_of_all env st hc _

theorem acc_cc_check (env : phloat_env) (st : core_state)
    (hc : ∀ s, (check_sum env st s).isSome) (l r : vartype_complexmatrix) (i j q : Nat) :
    (check_acc2 env st (acc_cc env l r i j q)).isSome := by
  rcases check_sum_total_cases env st hc with h | hfin
  · exact check_acc2_of_all env st h _
  · rw [acc_cc_fin env hfin]
    exact check_sum2_of_all env st hc _

theorem matrix_mul_rr_quantum (env : phloat_env) (cb : Err → Option vartype → Err)
    (st : core_state) (left right : vartype_realmatrix)
    (hdim : left.columns = right.rows)
    (hl : left.data.length = left.rows * left.columns)
    (hr : right.data.length = right.rows * right.columns)
    (hm : 0 < left.rows) (hq : 0 < left.columns) (hn : 0 < right.columns)
    (hs : contains_strings left = false) (hs2 : contains_strings right = false)
    (ha1 : (alloc_next st).1 = true) (ha2 : (alloc_next (alloc_next st).2).1 = true)
    (hc : ∀ s, (check_sum env st s).isSome) :
    ∃ st1, matrix_mul_rr cb left right completion_ref.caller st = some (ERR_INTERRUPTIBLE, st1) ∧
      ∀ t, 1000 * t < left.rows * right.columns * left.columns →
        ∃ stt, suspended_after env cb t st1 = some stt ∧ mul_progress stt = some (1000 * t) ∧
          (left.rows * right.columns * left.columns ≤ 1000 * t + 1000 →
            ∃ res stE, reenter env cb false stt = some (cb ERR_NONE (some res), stE) ∧
              event.completion ERR_NONE (some res) ∈ stE.log) := by
  have hK := kernel_rr_ok env st left right hl (by rw [hr, hdim])
    (fun i j _ _ => acc_rr_check env st hc _ _ _ _ _)
  have hinv : loop_inv (kernel_rr env st left right) (xterm_rr env left right)
      (stored_rr env st right.columns
        (fun i j => acc_rr env left right i j left.columns))
      (left.rows * right.columns) read1
      ⟨0, 0, 0, 0, (new_realmatrix left.rows right.columns).data⟩ :=
    ⟨hm, hn, hq, rfl, by simp [new_realmatrix], fun idx h => by simp at h⟩
  let dat0 : mul_rr_data_struct :=
    { left := left, right := right, result := new_realmatrix left.rows right.columns,
      i := 0, j := 0, k := 0, sum := 0, completion := completion_ref.caller }
  let st1 : core_state :=
    { (alloc_next (alloc_next st).2).2 with
      mul_rr_data := some dat0,
      mode_interruptible := some worker_ref.matrix_mul_rr_worker,
      mode_stoppable := false }
  have hstart : matrix_mul_rr cb left right completion_ref.caller st
      = some (ERR_INTERRUPTIBLE, st1) := by
    simp only [matrix_mul_rr, hdim, ne_eq, not_true_eq_false, if_false, hs, hs2, Bool.or_self,
      ha1, ha2, Bool.not_true, Bool.false_eq_true]
  refine ⟨st1, hstart, ?_⟩
  intro t ht
  obtain ⟨y, hy1, hy2, hy3⟩ := kernel_rounds_progress _ _ _ _ _ hK t _ hinv
    (by simpa [steps_done, kernel_rr] using ht)
  have hsusp := suspended_after_rr env cb t st1 dat0 y rfl rfl hy1
  refine ⟨set_progress_rr st1 dat0 y, hsusp, ?_, ?_⟩
  · have := hy3
    simp only [steps_done, kernel_rr] at this
    show some ((y.i * right.columns + y.j) * left.columns + y.k) = some (1000 * t)
    rw [this]; simp
  · intro hend
    obtain ⟨p1, hp1, hp2, hp3⟩ := (kernel_loop_spec _ _ _ _ _ hK 1000 y hy2).2
      (by rw [hy3]; simpa [steps_done, kernel_rr] using hend)
    have hloop : matrix_mul_rr_loop env (set_progress_rr st1 dat0 y) (progress_rr dat0 y) 1000
        y.i y.j y.k y.sum y.p = some (loop_exit.finished p1) := by
      rw [matrix_mul_rr_loop_eq]
      exact hp1
    have h := matrix_mul_rr_worker_finished env cb (set_progress_rr st1 dat0 y)
      (progress_rr dat0 y) p1 rfl hloop
    refine ⟨_, _, h, ?_⟩
    simp [release]

theorem matrix_mul_rc_quantum (env : phloat_env) (cb : Err → Option vartype → Err)
    (st : core_state) (left : vartype_realmatrix) (right : vartype_complexmatrix)
    (hdim : left.columns = right.rows)
    (hl : left.data.length = left.rows * left.columns)
    (hr : right.data.length = 2 * (right.rows * right.columns))
    (hm : 0 < left.rows) (hq : 0 < left.columns) (hn : 0 < right.columns)
    (hs : contains_strings left = false)
    (ha1 : (alloc_next st).1 = true) (ha2 : (alloc_next (alloc_next st).2).1 = true)
    (hc : ∀ s, (check_sum env st s).isSome) :
    ∃ st1, matrix_mul_rc cb left right completion_ref.caller st = some (ERR_INTERRUPTIBLE, st1) ∧
      ∀ t, 1000 * t < left.rows * right.columns * left.columns →
        ∃ stt, suspended_after env cb t st1 = some stt ∧ mul_progress stt = some (1000 * t) ∧
          (left.rows * right.columns * left.columns ≤ 1000 * t + 1000 →
            ∃ res stE, reenter env cb false stt = some (cb ERR_NONE (some res), stE) ∧
              event.completion ERR_NONE (some res) ∈ stE.log) := by
  have hK := kernel_rc_ok env st left right hl (by rw [hr, hdim])
    (fun i j _ _ => acc_rc_check env st hc _ _ _ _ _)
  have hinv : loop_inv (kernel_rc env st left right) (xterm_rc env left right)
      (stored_c env st right.columns
        (fun i j => acc_rc env left right i j left.columns))
      (2 * (left.rows * right.columns)) read2
      ⟨0, 0, 0, (0, 0), (new_complexmatrix left.rows right.columns).data⟩ :=
    ⟨hm, hn, hq, rfl, by simp [new_complexmatrix], fun idx h => by simp at h⟩
  let dat0 : mul_rc_data_struct :=
    { left := left, right := right, result := new_complexmatrix left.rows right.columns,
      i := 0, j := 0, k := 0, sum_re := 0, sum_im := 0, completion := completion_ref.caller }
  let st1 : core_state :=
    { (alloc_next (alloc_next st).2).2 with
      mul_rc_data := some dat0,
      mode_interruptible := some worker_ref.matrix_mul_rc_worker,
      mode_stoppable := false }
  have hstart : matrix_mul_rc cb left right completion_ref.caller st
      = some (ERR_INTERRUPTIBLE, st1) := by
    simp only [matrix_mul_rc, hdim, ne_eq, not_true_eq_false, if_false, hs,
      ha1, ha2, Bool.not_true, Bool.false_eq_true]
  refine ⟨st1, hstart, ?_⟩
  intro t ht
  obtain ⟨y, hy1, hy2, hy3⟩ := kernel_rounds_progress _ _ _ _ _ hK t _ hinv
    (by simpa [steps_done, kernel_rc] using ht)
  have hsusp := suspended_after_rc env cb t st1 dat0 y rfl rfl hy1
  refine ⟨set_progress_rc st1 dat0 y, hsusp, ?_, ?_⟩
  · have := hy3
    simp only [steps_done, kernel_rc] at this
    show some ((y.i * right.columns + y.j) * left.columns + y.k) = some (1000 * t)
    rw [this]; simp
  · intro hend
    obtain ⟨p1, hp1, hp2, hp3⟩ := (kernel_loop_spec _ _ _ _ _ hK 1000 y hy2).2
      (by rw [hy3]; simpa [steps_done, kernel_rc] using hend)
    have hloop : matrix_mul_rc_loop env (set_progress_rc st1 dat0 y) (progress_rc dat0 y) 1000
        y.i y.j y.k y.sum.1 y.sum.2 y.p = some (loop_exit.finished p1) := by
      rw [matrix_mul_rc_loop_eq]
      exact hp1
    have h := matrix_mul_rc_worker_finished env cb (set_progress_rc st1 dat0 y)
      (progress_rc dat0 y) p1 rfl hloop
    refine ⟨_, _, h, ?_⟩
    simp [release]

theorem matrix_mul_cr_quantum (env : phloat_env) (cb : Err → Option vartype → Err)
    (st : core_state) (left : vartype_complexmatrix) (right : vartype_realmatrix)
    (hdim : left.columns = right.rows)
    (hl : left.data.length = 2 * (left.rows * left.columns))
    (hr : right.data.length = right.rows * right.columns)
    (hm : 0 < left.rows) (hq : 0 < left.columns) (hn : 0 < right.columns)
    (hs : contains_strings right = false)
    (ha1 : (alloc_next st).1 = true) (ha2 : (alloc_next (alloc_next st).2).1 = true)
    (hc : ∀ s, (check_sum env st s).isSome) :
    ∃ st1, matrix_mul_cr cb left right completion_ref.caller st = some (ERR_INTERRUPTIBLE, st1) ∧
      ∀ t, 1000 * t < left.rows * right.columns * left.columns →
        ∃ stt, suspended_after env cb t st1 = some stt ∧ mul_progress stt = some (1000 * t) ∧
          (left.rows * right.columns * left.columns ≤ 1000 * t + 1000 →
            ∃ res stE, reenter env cb false stt = some (cb ERR_NONE (some res), stE) ∧
              event.completion ERR_NONE (some res) ∈ stE.log) := by
  have hK := kernel_cr_ok env st left right hl (by rw [hr, hdim])
    (fun i j _ _ => acc_cr_check env st hc _ _ _ _ _)
  have hinv : loop_inv (kernel_cr env st left right) (xterm_cr env left right)
      (stored_c env st right.columns
        (fun i j => acc_cr env left right i j left.columns))
      (2 * (left.rows * right.columns)) read2
      ⟨0, 0, 0, (0, 0), (new_complexmatrix left.rows right.columns).data⟩ :=
    ⟨hm, hn, hq, rfl, by simp [new_complexmatrix], fun idx h => by simp at h⟩
  let dat0 : mul_cr_data_struct :=
    { left := left, right := right, result := new_complexmatrix left.rows right.columns,
      i := 0, j := 0, k := 0, sum_re := 0, sum_im := 0, completion := completion_ref.caller }
  let st1 : core_state :=
    { (alloc_next (alloc_next st).2).2 with
      mul_cr_data := some dat0,
      mode_interruptible := some worker_ref.matrix_mul_cr_worker,
      mode_stoppable := false }
  have hstart : matrix_mul_cr cb left right completion_ref.caller st
      = some (ERR_INTERRUPTIBLE, st1) := by
    simp only [matrix_mul_cr, hdim, ne_eq, not_true_eq_false, if_false, hs,
      ha1, ha2, Bool.not_true, Bool.false_eq_true]
  refine ⟨st1, hstart, ?_⟩
  intro t ht
  obtain ⟨y, hy1, hy2, hy3⟩ := kernel_rounds_progress _ _ _ _ _ hK t _ hinv
    (by simpa [steps_done, kernel_cr] using ht)
  have hsusp := suspended_after_cr env cb t st1 dat0 y rfl rfl hy1
  refine ⟨set_progress_cr st1 dat0 y, hsusp, ?_, ?_⟩
  · have := hy3
    simp only [steps_done, kernel_cr] at this
    show some ((y.i * right.columns + y.j) * left.columns + y.k) = some (1000 * t)
    rw [this]; simp
  · intro hend
    obtain ⟨p1, hp1, hp2, hp3⟩ := (kernel_loop_spec _ _ _ _ _ hK 1000 y hy2).2
      (by rw [hy3]; simpa [steps_done, kernel_cr] using hend)
    have hloop : matrix_mul_cr_loop env (set_progress_cr st1 dat0 y) (progress_cr dat0 y) 1000
        y.i y.j y.k y.sum.1 y.sum.2 y.p = some (loop_exit.finished p1) := by
      rw [matrix_mul_cr_loop_eq]
      exact hp1
    have h := matrix_mul_cr_worker_finished env cb (set_progress_cr st1 dat0 y)
      (progress_cr dat0 y) p1 rfl hloop
    refine ⟨_, _, h, ?_⟩
    simp [release]

theorem matrix_mul_cc_quantum (env : phloat_env) (cb : Err → Option vartype → Err)
    (st : core_state) (left : vartype_complexmatrix) (right : vartype_complexmatrix)
    (hdim : left.columns = right.rows)
    (hl : left.data.length = 2 * (left.rows * left.columns))
    (hr : right.data.length = 2 * (right.rows * right.columns))
    (hm : 0 < left.rows) (hq : 0 < left.columns) (hn : 0 < right.columns)
    (ha1 : (alloc_next st).1 = true) (ha2 : (alloc_next (alloc_next st).2).1 = true)
    (hc : ∀ s, (check_sum env st s).isSome) :
    ∃ st1, matrix_mul_cc cb left right completion_ref.caller st = some (ERR_INTERRUPTIBLE, st1) ∧
      ∀ t, 1000 * t < left.rows * right.columns * left.columns →
        ∃ stt, suspended_after env cb t st1 = some stt ∧ mul_progress stt = some (1000 * t) ∧
          (left.rows * right.columns * left.columns ≤ 1000 * t + 1000 →
            ∃ res stE, reenter env cb false stt = some (cb ERR_NONE (some res), stE) ∧
              event.completion ERR_NONE (some res) ∈ stE.log) := by
  have hK := kernel_cc_ok env st left right hl (by rw [hr, hdim])
    (fun i j _ _ => acc_cc_check env st hc _ _ _ _ _)
  have hinv : loop_inv (kernel_cc env st left right) (xterm_cc env left right)
      (stored_c env st right.columns
        (fun i j => acc_cc env left right i j left.columns))
      (2 * (left.rows * right.columns)) read2
      ⟨0, 0, 0, (0, 0), (new_complexmatrix left.rows right.columns).data⟩ :=
    ⟨hm, hn, hq, rfl, by simp [new_complexmatrix], fun idx h => by simp at h⟩
  let dat0 : mul_cc_data_struct :=
    { left := left, right := right, result := new_complexmatrix left.rows right.columns,
      i := 0, j := 0, k := 0, sum_re := 0, sum_im := 0, completion := completion_ref.caller }
  let st1 : core_state :=
    { (alloc_next (alloc_next st).2).2 with
      mul_cc_data := some dat0,
      mode_interruptible := some worker_ref.matrix_mul_cc_worker,
      mode_stoppable := false }
  have hstart : matrix_mul_cc cb left right completion_ref.caller st
      = some (ERR_INTERRUPTIBLE, st1) := by
    simp only [matrix_mul_cc, hdim, ne_eq, not_true_eq_false, if_false, 
      ha1, ha2, Bool.not_true, Bool.false_eq_true]
  refine ⟨st1, hstart, ?_⟩
  intro t ht
  obtain ⟨y, hy1, hy2, hy3⟩ := kernel_rounds_progress _ _ _ _ _ hK t _ hinv
    (by simpa [steps_done, kernel_cc] using ht)
  have hsusp := suspended_after_cc env cb t st1 dat0 y rfl rfl hy1
  refine ⟨set_progress_cc st1 dat0 y, hsusp, ?_, ?_⟩
  · have := hy3
    simp only [steps_done, kernel_cc] at this
    show some ((y.i * right.columns + y.j) * left.columns + y.k) = some (1000 * t)
    rw [this]; simp
  · intro hend
    obtain ⟨p1, hp1, hp2, hp3⟩ := (kernel_loop_spec _ _ _ _ _ hK 1000 y hy2).2
      (by rw [hy3]; simpa [steps_done, kernel_cc] using hend)
    have hloop : matrix_mul_cc_loop env (set_progress_cc st1 dat0 y) (progress_cc dat0 y) 1000
        y.i y.j y.k y.sum.1 y.sum.2 y.p = some (loop_exit.finished p1) := by
      rw [matrix_mul_cc_loop_eq]
      exact hp1
    have h := matrix_mul_cc_worker_finished env cb (set_progress_cc st1 dat0 y)
      (progress_cc dat0 y) p1 rfl hloop
    refine ⟨_, _, h, ?_⟩
    simp [release]

/-- C22. For well-formed numeric operands, an m×q matrix by a q×n matrix with
m, n, q ≥ 1, successful allocation and a range policy that never fails, the multiply
started by `linalg_mul` suspends, and with T = ⌈m·n·q / 1000⌉: for every t < T the
first t invocations of the worker (not interrupted) all return ERR_INTERRUPTIBLE and
leave the progress at exactly 1000·t multiply-accumulate steps, so each of them
performs 1000 steps; and invocation number T, entered with at most 1000 of the
m·n·q steps left, passes the result to the completion with ERR_NONE. -/
theorem matrix_mul_worker_quantum (env : phloat_env) (cb : Err → Option vartype → Err)
    (st : core_state) (left right : vartype)
    (hwl : mat_wf left) (hwr : mat_wf right)
    (hdim : mat_columns left = mat_rows right)
    (halloc : ∀ b, b ∈ st.alloc → b = true)
    (hov : ∀ s, (check_sum env st s).isSome) :
    ∃ st1, linalg_mul cb left right completion_ref.caller st = some (ERR_INTERRUPTIBLE, st1) ∧
      (∀ t, t < (mat_rows left * mat_columns right * mat_columns left + 999) / 1000 →
        ∃ stt, suspended_after env cb t st1 = some stt ∧
          mul_progress stt = some (1000 * t)) ∧
      ∃ stN pN res stE,
        suspended_after env cb
          ((mat_rows left * mat_columns right * mat_columns left + 999) / 1000 - 1) st1
          = some stN ∧
        mul_progress stN = some pN ∧
        mat_rows left * mat_columns right * mat_columns left ≤ pN + 1000 ∧
        reenter env cb false stN = some (cb ERR_NONE (some res), stE) ∧
        event.completion ERR_NONE (some res) ∈ stE.log := by
  have ha1 : (alloc_next st).1 = true := by rw [alloc_next_ok st halloc]
  have ha2 : (alloc_next (alloc_next st).2).1 = true := by
    rw [alloc_next_ok st halloc, alloc_next_ok _ (tail_all_true _ halloc)]
  have key : ∀ (M : Nat) (f : core_state → Option (Err × core_state)), 0 < M →
      (∃ st1, f st = some (ERR_INTERRUPTIBLE, st1) ∧
        ∀ t, 1000 * t < M →
          ∃ stt, suspended_after env cb t st1 = some stt ∧ mul_progress stt = some (1000 * t) ∧
            (M ≤ 1000 * t + 1000 →
              ∃ res stE, reenter env cb false stt = some (cb ERR_NONE (some res), stE) ∧
                event.completion ERR_NONE (some res) ∈ stE.log)) →
      ∃ st1, f st = some (ERR_INTERRUPTIBLE, st1) ∧
        (∀ t, t < (M + 999) / 1000 →
          ∃ stt, suspended_after env cb t st1 = some stt ∧
            mul_progress stt = some (1000 * t)) ∧
        ∃ stN pN res stE,
          suspended_after env cb ((M + 999) / 1000 - 1) st1 = some stN ∧
          mul_progress stN = some pN ∧ M ≤ pN + 1000 ∧
          reenter env cb false stN = some (cb ERR_NONE (some res), stE) ∧
          event.completion ERR_NONE (some res) ∈ stE.log := by
    intro M f hM ⟨st1, h1, h2⟩
    refine ⟨st1, h1, ?_, ?_⟩
    · intro t ht
      obtain ⟨stt, a, b, _⟩ := h2 t (by omega)
      exact ⟨stt, a, b⟩
    · obtain ⟨stN, a, b, c⟩ := h2 ((M + 999) / 1000 - 1) (by omega)
      obtain ⟨res, stE, d, e⟩ := c (by omega)
      exact ⟨stN, _, res, stE, a, b, by omega, d, e⟩
  cases left with
  | realmatrix l =>
    cases right with
    | realmatrix r =>
      obtain ⟨hm, hq, hl, hs⟩ := hwl
      obtain ⟨hq2, hn, hr, hs2⟩ := hwr
      exact key _ (fun s => matrix_mul_rr cb l r completion_ref.caller s)
        (Nat.mul_pos (Nat.mul_pos hm hn) hq)
        (matrix_mul_rr_quantum env cb st l r hdim hl hr hm hq hn hs hs2 ha1 ha2 hov)
    | complexmatrix r =>
      obtain ⟨hm, hq, hl, hs⟩ := hwl
      obtain ⟨hq2, hn, hr⟩ := hwr
      exact key _ (fun s => matrix_mul_rc cb l r completion_ref.caller s)
        (Nat.mul_pos (Nat.mul_pos hm hn) hq)
        (matrix_mul_rc_quantum env cb st l r hdim hl hr hm hq hn hs ha1 ha2 hov)
    | _ => exact hwr.elim
  | complexmatrix l =>
    cases right with
    | realmatrix r =>
      obtain ⟨hm, hq, hl⟩ := hwl
      obtain ⟨hq2, hn, hr, hs2⟩ := hwr
      exact key _ (fun s => matrix_mul_cr cb l r completion_ref.caller s)
        (Nat.mul_pos (Nat.mul_pos hm hn) hq)
        (matrix_mul_cr_quantum env cb st l r hdim hl hr hm hq hn hs2 ha1 ha2 hov)
    | complexmatrix r =>
      obtain ⟨hm, hq, hl⟩ := hwl
      obtain ⟨hq2, hn, hr⟩ := hwr
      exact key _ (fun s => matrix_mul_cc cb l r completion_ref.caller s)
        (Nat.mul_pos (Nat.mul_pos hm hn) hq)
        (matrix_mul_cc_quantum env cb st l r hdim hl hr hm hq hn ha1 ha2 hov)
    | _ => exact hwr.elim
  | _ => exact hwl.elim

/-- C22, witness: the row `[1, 2, 3]` times the column `[4, 5, 6]`, 3 steps, one
invocation. -/
theorem matrix_mul_worker_quantum_witness :
    ∃ st1, linalg_mul cb_id row_123 col_456 completion_ref.caller st_idle
        = some (ERR_INTERRUPTIBLE, st1) ∧
      (∀ t, t < (mat_rows row_123 * mat_columns col_456 * mat_columns row_123 + 999) / 1000 →
        ∃ stt, suspended_after env_exact cb_id t st1 = some stt ∧
          mul_progress stt = some (1000 * t)) ∧
      ∃ stN pN res stE,
        suspended_after env_exact cb_id
          ((mat_rows row_123 * mat_columns col_456 * mat_columns row_123 + 999) / 1000 - 1) st1
          = some stN ∧
        mul_progress stN = some pN ∧
        mat_rows row_123 * mat_columns col_456 * mat_columns row_123 ≤ pN + 1000 ∧
        reenter env_exact cb_id false stN = some (cb_id ERR_NONE (some res), stE) ∧
        event.completion ERR_NONE (some res) ∈ stE.log :=
  matrix_mul_worker_quantum env_exact cb_id st_idle row_123 col_456
    ⟨by decide, by decide, rfl, rfl⟩ ⟨by decide, by decide, rfl, rfl⟩ rfl
    (by simp [st_idle]) (fun s => by simp [check_sum, env_exact])

theorem cplx_inv_re (x : cplx) : (x⁻¹).re = x.re / (x.re * x.re + x.im * x.im) := rfl

theorem cplx_inv_im (x : cplx) : (x⁻¹).im = -x.im / (x.re * x.re + x.im * x.im) := rfl

/-- C23. With exact scalars, nothing out of range and successful allocation: for a real
2×2 matrix `[[a, b], [c, d]]` without string elements and with `det = a·d − b·c ≠ 0`,
`small_inv_r` returns ERR_NONE after passing to its completion the matrix of data
`[d/det, −b/det, −c/det, a/det]`; for a complex 2×2 matrix `[[A, B], [C, D]]` with
`det = A·D − B·C ≠ 0`, `small_inv_c` returns ERR_NONE after passing to its completion
the matrix whose interleaved data are the complex numbers
`D/det, −B/det, −C/det, A/det`.  In both cases the only other recorded action is the
release of the scalar `d` given to `generic_div`. -/
theorem small_inv_adjugate (env : phloat_env) (st : core_state) (cp : completion_v_ref)
    (hfin : ∀ x, env.p_isinf x = 0) (halloc : ∀ b, b ∈ st.alloc → b = true) :
    (∀ (ma : vartype_realmatrix) (a b c d : phloat), ma.rows = 2 → ma.data = [a, b, c, d] →
      contains_strings ma = false → a * d - b * c ≠ 0 →
      ∃ st0, small_inv_r env ma cp st
          = some (ERR_NONE, call_completion_v cp
              (vartype.realmatrix { ma with
                data := [d / (a * d - b * c), -b / (a * d - b * c), -c / (a * d - b * c),
                  a / (a * d - b * c)] }) st0) ∧
        st0.log = st.log ++ [event.free obj.d]) ∧
    (∀ (ma : vartype_complexmatrix) (A B C D : cplx), ma.rows = 2 →
      ma.data = [A.re, A.im, B.re, B.im, C.re, C.im, D.re, D.im] →
      A * D - B * C ≠ 0 →
      ∃ st0, small_inv_c env ma cp st
          = some (ERR_NONE, call_completion_v cp
              (vartype.complexmatrix { ma with
                data := [(D / (A * D - B * C)).re, (D / (A * D - B * C)).im,
                  (-B / (A * D - B * C)).re, (-B / (A * D - B * C)).im,
                  (-C / (A * D - B * C)).re, (-C / (A * D - B * C)).im,
                  (A / (A * D - B * C)).re, (A / (A * D - B * C)).im] }) st0) ∧
        st0.log = st.log ++ [event.free obj.d]) := by
  constructor
  · intro ma a b c d hr hd hs hdet
    obtain ⟨st0, h1, h2, _⟩ := small_inv_r_two env ma st a b c d hr hd hs hdet hfin halloc
    refine ⟨st0, ?_, h2⟩
    rw [h1 cp, neg_div, neg_div]
  · intro ma A B C D hr hd hdet
    have hne : ¬ ((A * D - B * C).re = 0 ∧ (A * D - B * C).im = 0) := by
      intro h
      exact hdet (cplx.ext h.1 h.2)
    have hre : (A * D - B * C).re
        = (A.re * D.re - A.im * D.im) - (B.re * C.re - B.im * C.im) := by
      simp only [cplx_sub_re, cplx_mul_re]
    have him : (A * D - B * C).im
        = (A.re * D.im + A.im * D.re) - (B.re * C.im + B.im * C.re) := by
      simp only [cplx_sub_im, cplx_mul_im]
    obtain ⟨st0, h1, h2, _⟩ := small_inv_c_two env ma st A.re A.im B.re B.im C.re C.im D.re D.im
      (A * D - B * C).re (A * D - B * C).im hr hd hre him hne hfin halloc
    refine ⟨st0, ?_, h2⟩
    rw [h1 cp]
    generalize A * D - B * C = T
    have e : ∀ X : cplx, (X / T).re = (X.re * T.re + X.im * T.im) / (T.re * T.re + T.im * T.im) ∧
        (X / T).im = (X.im * T.re - X.re * T.im) / (T.re * T.re + T.im * T.im) := by
      intro X
      rw [div_eq_mul_inv]
      simp only [cplx_mul_re, cplx_mul_im, cplx_inv_re, cplx_inv_im]
      constructor <;> ring
    have e2 : ∀ X : cplx, (-X / T).re
          = -((X.re * T.re + X.im * T.im) / (T.re * T.re + T.im * T.im)) ∧
        (-X / T).im = -((X.im * T.re - X.re * T.im) / (T.re * T.re + T.im * T.im)) := by
      intro X
      rw [neg_div]
      simp only [cplx_neg_re, cplx_neg_im, (e X).1, (e X).2, and_self]
    simp only [(e D).1, (e D).2, (e A).1, (e A).2, (e2 B).1, (e2 B).2, (e2 C).1, (e2 C).2]

/-- C23, witness: the inverse of `[[1, 2], [3, 5]]` is `[[-5, 2], [3, -1]]`. -/
theorem small_inv_adjugate_witness :
    ∃ st0, small_inv_r env_exact mat_1235 completion_v_ref.caller st_idle
        = some (ERR_NONE, call_completion_v completion_v_ref.caller
            (vartype.realmatrix { mat_1235 with
              data := [5 / (1 * 5 - 2 * 3), -2 / (1 * 5 - 2 * 3), -3 / (1 * 5 - 2 * 3),
                1 / (1 * 5 - 2 * 3)] }) st0) ∧
      st0.log = st_idle.log ++ [event.free obj.d] :=
  (small_inv_adjugate env_exact st_idle completion_v_ref.caller (fun _ => rfl)
    (by simp [st_idle])).1 mat_1235 1 2 3 5 rfl rfl rfl (by norm_num)

/-- C24. For a complex 2×2 matrix of interleaved data `[a0, ..., a7]`, i.e. first row
`A = a0 + a1·i`, `B = a2 + a3·i` and second row `C = a4 + a5·i`, `D = a6 + a7·i`, with
exact scalars and neither component of the result out of range, `small_det_c` returns
ERR_NONE with `re = (a0·a6 − a1·a7) − (a2·a4 − a3·a5)` and
`im = (a0·a7 + a1·a6) − (a2·a5 + a3·a4)`, and that pair is the complex number
`A·D − B·C`, whatever the exponents `ilogb` reports. -/
theorem small_det_c_exact (env : phloat_env) (st : core_state) (m : vartype_complexmatrix)
    (a0 a1 a2 a3 a4 a5 a6 a7 : phloat) (hr : m.rows = 2)
    (hd : m.data = [a0, a1, a2, a3, a4, a5, a6, a7])
    (hre : env.p_isinf ((a0 * a6 - a1 * a7) - (a2 * a4 - a3 * a5)) = 0)
    (him : env.p_isinf ((a0 * a7 + a1 * a6) - (a2 * a5 + a3 * a4)) = 0) :
    small_det_c env st m
      = some (ERR_NONE, (a0 * a6 - a1 * a7) - (a2 * a4 - a3 * a5),
          (a0 * a7 + a1 * a6) - (a2 * a5 + a3 * a4)) ∧
    (⟨(a0 * a6 - a1 * a7) - (a2 * a4 - a3 * a5),
        (a0 * a7 + a1 * a6) - (a2 * a5 + a3 * a4)⟩ : cplx)
      = (⟨a0, a1⟩ : cplx) * ⟨a6, a7⟩ - (⟨a2, a3⟩ : cplx) * ⟨a4, a5⟩ := by
  constructor
  · have hr1 : ¬ m.rows = 1 := by omega
    have e1 := dot_2d_scale_exact env a0 a1 a6 a7 false
    have e2 := dot_2d_scale_exact env a0 a1 a7 a6 true
    have e3 := dot_2d_scale_exact env a2 a3 a4 a5 false
    have e4 := dot_2d_scale_exact env a2 a3 a5 a4 true
    simp only [Bool.false_eq_true, if_false, if_true] at e1 e2 e3 e4
    simp only [small_det_c, hr1, if_false, hd, List.getElem?_cons_zero, List.getElem?_cons_succ,
      ssub_exact, e1, e2, e3, e4, det_range_of_finite env st _ hre,
      det_range_of_finite env st _ him, ne_eq, not_true_eq_false]
  · apply cplx.ext
    · simp only [cplx_sub_re, cplx_mul_re]
    · simp only [cplx_sub_im, cplx_mul_im]

/-- C24, witness: the determinant of `[[1 + 2i, 3 + 4i], [5 + 6i, 7 + 8i]]` is `-16i`,
with the nontrivial exponents of `env_log`. -/
theorem small_det_c_exact_witness :
    small_det_c env_log st_idle cmat_12345678
      = some (ERR_NONE, (1 * 7 - 2 * 8) - (3 * 5 - 4 * 6), (1 * 8 + 2 * 7) - (3 * 6 + 4 * 5)) ∧
    (⟨(1 * 7 - 2 * 8) - (3 * 5 - 4 * 6), (1 * 8 + 2 * 7) - (3 * 6 + 4 * 5)⟩ : cplx)
      = (⟨1, 2⟩ : cplx) * ⟨7, 8⟩ - (⟨3, 4⟩ : cplx) * ⟨5, 6⟩ :=
  small_det_c_exact env_log st_idle cmat_12345678 1 2 3 4 5 6 7 8 rfl rfl rfl rfl

/-- C25. For a real 1×1 matrix `[x]`, `small_inv_r`
(1) returns ERR_SINGULAR_MATRIX when `x = 0` and `matrix_singularmatrix` is on;
(2) passes `[POS_HUGE_PHLOAT]` to the completion and returns ERR_NONE when `x = 0` and
the setting is off;
(3) passes `[1/x]` when `x ≠ 0` and the reciprocal is finite;
(4) returns ERR_OUT_OF_RANGE when the reciprocal is infinite, `matrix_outofrange` is on
and `range_error_ignore` is off;
(5) otherwise passes `[POS_HUGE_PHLOAT]` or `[NEG_HUGE_PHLOAT]`, by the sign of the
infinite reciprocal
((2), (3), (5) when the result matrix can be allocated); and
(6) whenever it returns an error the completion has not been invoked: the state is the
initial one but for the allocation consumed. -/
theorem small_inv_r_one_by_one (env : phloat_env) (ma : vartype_realmatrix)
    (cp : completion_v_ref) (st : core_state) (x : phloat)
    (hr : ma.rows = 1) (hd : ma.data[0]? = some x) :
    (x = 0 → st.matrix_singularmatrix = true →
      small_inv_r env ma cp st = some (ERR_SINGULAR_MATRIX, st)) ∧
    (x = 0 → st.matrix_singularmatrix = false → (alloc_next st).1 = true →
      small_inv_r env ma cp st
        = some (ERR_NONE, call_completion_v cp
            (vartype.realmatrix
              { rows := 1, columns := 1, data := [env.POS_HUGE_PHLOAT], is_string := [false] })
            (alloc_next st).2)) ∧
    (x ≠ 0 → env.p_isinf (1 / x) = 0 → (alloc_next st).1 = true →
      small_inv_r env ma cp st
        = some (ERR_NONE, call_completion_v cp
            (vartype.realmatrix
              { rows := 1, columns := 1, data := [1 / x], is_string := [false] })
            (alloc_next st).2)) ∧
    (x ≠ 0 → env.p_isinf (1 / x) ≠ 0 → st.matrix_outofrange = true →
      st.range_error_ignore = false →
      small_inv_r env ma cp st = some (ERR_OUT_OF_RANGE, st)) ∧
    (x ≠ 0 → env.p_isinf (1 / x) ≠ 0 →
      (st.matrix_outofrange = false ∨ st.range_error_ignore = true) →
      (alloc_next st).1 = true →
      small_inv_r env ma cp st
        = some (ERR_NONE, call_completion_v cp
            (vartype.realmatrix
              { rows := 1, columns := 1,
                data := [if env.p_isinf (1 / x) > 0 then env.POS_HUGE_PHLOAT
                         else env.NEG_HUGE_PHLOAT],
                is_string := [false] })
            (alloc_next st).2)) ∧
    (∀ e s, small_inv_r env ma cp st = some (e, s) → e ≠ ERR_NONE →
      s = st ∨ s = (alloc_next st).2) := by
  refine ⟨?_, ?_, ?_, ?_, ?_, ?_⟩
  · intro hx hs
    simp [small_inv_r, hr, hd, hx, hs]
  · intro hx hs ha
    simp [small_inv_r, hr, hd, hx, hs, ha, new_realmatrix]
  · intro hx hf ha
    rw [one_div] at hf
    simp [small_inv_r, hr, hd, hx, hf, ha, new_realmatrix]
  · intro hx hf h1 h2
    rw [one_div] at hf
    simp [small_inv_r, hr, hd, hx, hf, h1, h2]
  · intro hx hf h12 ha
    rw [one_div] at hf
    rcases h12 with h | h <;> simp [small_inv_r, hr, hd, hx, hf, h, ha, new_realmatrix]
  · intro e s h he
    simp only [small_inv_r, hr, if_true, hd] at h
    generalize (if x = 0 then
        if st.matrix_singularmatrix = true then (ERR_SINGULAR_MATRIX, x)
        else (ERR_NONE, env.POS_HUGE_PHLOAT)
      else
        let x := 1 / x
        let inf := env.p_isinf x
        if inf ≠ 0 then
          if (st.matrix_outofrange && !st.range_error_ignore) = true then (ERR_OUT_OF_RANGE, x)
          else (ERR_NONE, if inf > 0 then env.POS_HUGE_PHLOAT else env.NEG_HUGE_PHLOAT)
        else (ERR_NONE, x) : Err × phloat) = r at h
    split_ifs at h with h1 h2
    · left
      simp only [Option.some.injEq, Prod.mk.injEq] at h
      exact h.2.symm
    · right
      simp only [Option.some.injEq, Prod.mk.injEq] at h
      exact h.2.symm
    · simp only [Option.some.injEq, Prod.mk.injEq] at h
      exact absurd h.1.symm he

/-- C25, witness: the inverse of `[0]` with the singular-matrix setting off. -/
theorem small_inv_r_one_by_one_witness :
    small_inv_r env_exact mat_zero_1 completion_v_ref.caller st_fudge
      = some (ERR_NONE, call_completion_v completion_v_ref.caller
          (vartype.realmatrix
            { rows := 1, columns := 1, data := [env_exact.POS_HUGE_PHLOAT],
              is_string := [false] })
          (alloc_next st_fudge).2) :=
  (small_inv_r_one_by_one env_exact mat_zero_1 completion_v_ref.caller st_fudge 0
    rfl rfl).2.1 rfl rfl rfl

/-- C26. For a 2×2 matrix for which `small_det_r` (`small_det_c`) leaves exactly zero in
the determinant, whatever error code it returns: the small inverse returns
ERR_SINGULAR_MATRIX, without invoking the completion, when `matrix_singularmatrix` is
on; when it is off and the result can be allocated it returns ERR_NONE after passing to
the completion the 2×2 matrix of data `[POS_HUGE_PHLOAT, 0, 0, POS_HUGE_PHLOAT]`
(complex: `[POS_HUGE_PHLOAT, 0, 0, 0, 0, 0, POS_HUGE_PHLOAT, 0]`, i.e. `data[0]` and
`data[6]`), every other component being zero. -/
theorem small_inv_singular (env : phloat_env) (st : core_state) (cp : completion_v_ref) :
    (∀ (ma : vartype_realmatrix) (e : Err), ma.rows = 2 →
      small_det_r env st ma = some (e, 0) →
      (st.matrix_singularmatrix = true →
        small_inv_r env ma cp st = some (ERR_SINGULAR_MATRIX, st)) ∧
      (st.matrix_singularmatrix = false → (alloc_next st).1 = true →
        small_inv_r env ma cp st
          = some (ERR_NONE, call_completion_v cp
              (vartype.realmatrix
                { rows := 2, columns := 2,
                  data := [env.POS_HUGE_PHLOAT, 0, 0, env.POS_HUGE_PHLOAT],
                  is_string := [false, false, false, false] })
              (alloc_next st).2))) ∧
    (∀ (ma : vartype_complexmatrix) (e : Err), ma.rows = 2 →
      small_det_c env st ma = some (e, 0, 0) →
      (st.matrix_singularmatrix = true →
        small_inv_c env ma cp st = some (ERR_SINGULAR_MATRIX, st)) ∧
      (st.matrix_singularmatrix = false → (alloc_next st).1 = true →
        small_inv_c env ma cp st
          = some (ERR_NONE, call_completion_v cp
              (vartype.complexmatrix
                { rows := 2, columns := 2,
                  data := [env.POS_HUGE_PHLOAT, 0, 0, 0, 0, 0, env.POS_HUGE_PHLOAT, 0] })
              (alloc_next st).2))) := by
  constructor
  · intro ma e hr hdet
    have hr1 : ¬ ma.rows = 1 := by omega
    constructor
    · intro hs
      simp [small_inv_r, hr1, hdet, hs]
    · intro hs ha
      simp [small_inv_r, hr1, hdet, hs, ha, new_realmatrix]
  · intro ma e hr hdet
    have hr1 : ¬ ma.rows = 1 := by omega
    constructor
    · intro hs
      simp [small_inv_c, hr1, hdet, hs]
    · intro hs ha
      simp [small_inv_c, hr1, hdet, hs, ha, new_complexmatrix]

/-- C26, witness: the inverse of the singular `[[1, 2], [2, 4]]` with the
singular-matrix setting off. -/
theorem small_inv_singular_witness :
    small_inv_r env_exact mat_1224 completion_v_ref.caller st_fudge
      = some (ERR_NONE, call_completion_v completion_v_ref.caller
          (vartype.realmatrix
            { rows := 2, columns := 2,
              data := [env_exact.POS_HUGE_PHLOAT, 0, 0, env_exact.POS_HUGE_PHLOAT],
              is_string := [false, false, false, false] })
          (alloc_next st_fudge).2) :=
  ((small_inv_singular env_exact st_fudge completion_v_ref.caller).1 mat_1224 ERR_NONE rfl
    (by rw [small_det_r_two env_exact st_fudge mat_1224 1 2 2 4 (by decide) rfl rfl]
        norm_num)).2 rfl rfl

theorem call_completion_v_setting (c : completion_v_ref) (v : vartype) (st : core_state) :
    (call_completion_v c v st).matrix_singularmatrix = st.matrix_singularmatrix := by
  cases c <;> rfl

theorem det_r_completion_setting (env : phloat_env) (error : Err) (det : phloat)
    (s : core_state) (c : completion_v_ref) (hc : s.linalg_det_completion = some c) :
    ∃ e s1, det_r_completion env error det s = some (e, s1) ∧
      s1.matrix_singularmatrix = s.linalg_det_prev_sm_err := by
  have key : ∀ e2 : Err × phloat, ∃ e s1,
      (if e2.1 = ERR_NONE then
        let a := alloc_next (release obj.perm (release obj.lu
          { s with matrix_singularmatrix := s.linalg_det_prev_sm_err }))
        if !a.1 then some (ERR_INSUFFICIENT_MEMORY, a.2)
        else
          match a.2.linalg_det_completion with
          | none => none
          | some c => some (ERR_NONE, call_completion_v c (vartype.real e2.2) a.2)
      else some (e2.1, release obj.perm (release obj.lu
          { s with matrix_singularmatrix := s.linalg_det_prev_sm_err })))
        = some (e, s1) ∧ s1.matrix_singularmatrix = s.linalg_det_prev_sm_err := by
    intro e2
    have hc2 : (alloc_next (release obj.perm (release obj.lu
        { s with matrix_singularmatrix := s.linalg_det_prev_sm_err }))).2.linalg_det_completion
        = some c := hc
    by_cases h : e2.1 = ERR_NONE
    · rw [if_pos h]
      simp only [hc2]
      split_ifs
      · exact ⟨_, _, rfl, rfl⟩
      · exact ⟨_, _, rfl, call_completion_v_setting _ _ _⟩
    · rw [if_neg h]
      exact ⟨_, _, rfl, rfl⟩
  exact key _

theorem det_c_completion_setting (env : phloat_env) (error : Err) (det_re det_im : phloat)
    (s : core_state) (c : completion_v_ref) (hc : s.linalg_det_completion = some c) :
    ∃ e s1, det_c_completion env error det_re det_im s = some (e, s1) ∧
      s1.matrix_singularmatrix = s.linalg_det_prev_sm_err := by
  have key : ∀ e2 : Err × phloat × phloat, ∃ e s1,
      (if e2.1 = ERR_NONE then
        let a := alloc_next (release obj.perm (release obj.lu
          { s with matrix_singularmatrix := s.linalg_det_prev_sm_err }))
        if !a.1 then some (ERR_INSUFFICIENT_MEMORY, a.2)
        else
          match a.2.linalg_det_completion with
          | none => none
          | some c => some (ERR_NONE, call_completion_v c (vartype.complex e2.2.1 e2.2.2) a.2)
      else some (e2.1, release obj.perm (release obj.lu
          { s with matrix_singularmatrix := s.linalg_det_prev_sm_err })))
        = some (e, s1) ∧ s1.matrix_singularmatrix = s.linalg_det_prev_sm_err := by
    intro e2
    have hc2 : (alloc_next (release obj.perm (release obj.lu
        { s with matrix_singularmatrix := s.linalg_det_prev_sm_err }))).2.linalg_det_completion
        = some c := hc
    by_cases h : e2.1 = ERR_NONE
    · rw [if_pos h]
      simp only [hc2]
      split_ifs
      · exact ⟨_, _, rfl, rfl⟩
      · exact ⟨_, _, rfl, call_completion_v_setting _ _ _⟩
    · rw [if_neg h]
      exact ⟨_, _, rfl, rfl⟩
  exact key _

/-- C27. For a square numeric matrix of order above 2: if one of the three allocations
of `linalg_det` fails it returns ERR_INSUFFICIENT_MEMORY with the singular-matrix
setting untouched; otherwise it starts the LU decomposition in a state `st1` in which
the setting is true, `linalg_det_prev_sm_err` holds the value the setting had when
`linalg_det` was called and the caller's completion is saved; and whatever error and
determinant the decomposition reports, in whatever state `s` that has kept these two
saved variables, `det_r_completion` and `det_c_completion` return, in a state where the
setting again has the value it had before `linalg_det` was called. -/
theorem linalg_det_restores_setting (env : phloat_env) (L2 : linalg2) (src : vartype)
    (c : completion_v_ref) (st : core_state)
    (hw : mat_wf src) (hsq : mat_rows src = mat_columns src) (hbig : 2 < mat_rows src) :
    (∀ r, linalg_det_setup c st = Sum.inl r →
      linalg_det env L2 src c st = some r ∧ r.1 = ERR_INSUFFICIENT_MEMORY ∧
        r.2.matrix_singularmatrix = st.matrix_singularmatrix) ∧
    (∀ st1, linalg_det_setup c st = Sum.inr st1 →
      st1.matrix_singularmatrix = true ∧
      st1.linalg_det_prev_sm_err = st.matrix_singularmatrix ∧
      st1.linalg_det_completion = some c ∧
      (∀ ma, src = vartype.realmatrix ma →
        linalg_det env L2 src c st
          = L2.lu_decomp_r ma (fun error _ _ det s => det_r_completion env error det s) st1) ∧
      (∀ ma, src = vartype.complexmatrix ma →
        linalg_det env L2 src c st
          = L2.lu_decomp_c ma
              (fun error _ _ det_re det_im s => det_c_completion env error det_re det_im s)
              st1) ∧
      ∀ (error : Err) (det det_im : phloat) (s : core_state),
        s.linalg_det_prev_sm_err = st1.linalg_det_prev_sm_err →
        s.linalg_det_completion = st1.linalg_det_completion →
        (∃ e s1, det_r_completion env error det s = some (e, s1) ∧
          s1.matrix_singularmatrix = st.matrix_singularmatrix) ∧
        (∃ e s1, det_c_completion env error det det_im s = some (e, s1) ∧
          s1.matrix_singularmatrix = st.matrix_singularmatrix)) := by
  have hnot : ¬ mat_rows src ≤ 2 := by omega
  constructor
  · intro r hr
    have hdet : linalg_det env L2 src c st = some r := by
      cases src with
      | realmatrix ma =>
        obtain ⟨_, _, _, hs⟩ := hw
        simp only [mat_rows, mat_columns] at hsq hnot
        have hnot2 : ¬ ma.columns ≤ 2 := by omega
        simp [linalg_det, hsq, hs, hr, hnot2]
      | complexmatrix ma =>
        simp only [mat_rows, mat_columns] at hsq hnot
        have hnot2 : ¬ ma.columns ≤ 2 := by omega
        simp [linalg_det, hsq, hr, hnot2]
      | _ => exact hw.elim
    refine ⟨hdet, ?_⟩
    simp only [linalg_det_setup] at hr
    split_ifs at hr <;> simp only [Sum.inl.injEq, reduceCtorEq] at hr <;> subst hr <;>
      exact ⟨rfl, rfl⟩
  · intro st1 h1
    have hst1 : st1.matrix_singularmatrix = true ∧
        st1.linalg_det_prev_sm_err = st.matrix_singularmatrix ∧
        st1.linalg_det_completion = some c := by
      simp only [linalg_det_setup] at h1
      split_ifs at h1 <;> simp only [Sum.inr.injEq, reduceCtorEq] at h1
      subst h1
      exact ⟨rfl, rfl, rfl⟩
    refine ⟨hst1.1, hst1.2.1, hst1.2.2, ?_, ?_, ?_⟩
    · intro ma hma
      subst hma
      obtain ⟨_, _, _, hs⟩ := hw
      simp only [mat_rows, mat_columns] at hsq hnot
      have hnot2 : ¬ ma.columns ≤ 2 := by omega
      simp_all [linalg_det]
    · intro ma hma
      subst hma
      simp only [mat_rows, mat_columns] at hsq hnot
      have hnot2 : ¬ ma.columns ≤ 2 := by omega
      simp_all [linalg_det]
    · intro error det det_im s hs1 hs2
      rw [hst1.2.1] at hs1
      rw [hst1.2.2] at hs2
      rw [← hs1]
      exact ⟨det_r_completion_setting env error det s c hs2,
        det_c_completion_setting env error det det_im s c hs2⟩

/-- C27, witness: the determinant of a 3×3 matrix started with the singular-matrix
setting off. -/
theorem linalg_det_restores_setting_witness :
    ∃ st1, linalg_det_setup completion_v_ref.caller st_fudge = Sum.inr st1 ∧
      st_fudge.matrix_singularmatrix = false ∧
      st1.matrix_singularmatrix = true ∧
      ∀ (error : Err) (det : phloat),
        ∃ e s1, det_r_completion env_exact error det st1 = some (e, s1) ∧
          s1.matrix_singularmatrix = false :=
  ⟨_, rfl, rfl,
    ((linalg_det_restores_setting env_exact linalg2_none mat_pivot completion_v_ref.caller
      st_fudge ⟨by decide, by decide, rfl, rfl⟩ rfl (by decide)).2 _ rfl).1,
    fun error det =>
      (((linalg_det_restores_setting env_exact linalg2_none mat_pivot completion_v_ref.caller
        st_fudge ⟨by decide, by decide, rfl, rfl⟩ rfl (by decide)).2 _ rfl).2.2.2.2.2
          error det 0 _ rfl rfl).1⟩

theorem div_completion2_end_error (cb : Err → Option vartype → Err) (error : Err)
    (b : vartype) (s : core_state) (he : error ≠ ERR_NONE)
    (hc : s.linalg_div_completion = some completion_ref.caller) :
    div_completion2_end cb error b s
      = some (cb error (some b),
          { s with
            linalg_div_result := some b,
            log := s.log ++ [event.free obj.res, event.free obj.lu, event.free obj.perm,
              event.completion error (some b)] }) := by
  simp [div_completion2_end, he, release, hc, call_completion]

/-- What each failure path of `linalg_div` does with the caller's completion `cb`:
(1) a dimension mismatch and (2) a failed allocation of the order > 2 path end by one
call `cb(error, NULL)`, the only call of the completion, whose result is returned;
(3) an error of the small inverse (order ≤ 2) likewise;
(4) a decomposition failure reported to `div_*_completion1` is returned as the error
code after the release of the decomposed matrix, the permutation vector and the
result buffer, without any call of the completion;
(5) a back-substitution failure reported to `div_*_completion2` releases the result
buffer, the decomposed matrix and the permutation vector and then calls the completion
once, with the error code and the pointer to the result buffer just released. -/
theorem linalg_div_failure_paths (env : phloat_env) (L2 : linalg2)
    (cb : Err → Option vartype → Err) (st : core_state) (left right : vartype)
    (hl : (∃ m, left = vartype.realmatrix m) ∨ ∃ m, left = vartype.complexmatrix m)
    (hr : (∃ m, right = vartype.realmatrix m) ∨ ∃ m, right = vartype.complexmatrix m) :
    (mat_rows right ≠ mat_rows left ∨ mat_columns right ≠ mat_rows left →
      linalg_div env L2 cb left right completion_ref.caller st
        = some (cb ERR_DIMENSION_ERROR none,
            { st with log := st.log ++ [event.completion ERR_DIMENSION_ERROR none] })) ∧
    (mat_rows right = mat_rows left → mat_columns right = mat_rows left →
      2 < mat_rows right → ∀ st1, linalg_div_alloc st = Sum.inl st1 →
      linalg_div env L2 cb left right completion_ref.caller st
        = some (cb ERR_INSUFFICIENT_MEMORY none,
            { st1 with log := st1.log ++ [event.completion ERR_INSUFFICIENT_MEMORY none] }) ∧
      ∀ ev ∈ st1.log, ev ∈ st.log ∨ ∃ o, ev = event.free o) ∧
    (mat_rows right = mat_rows left → mat_columns right = mat_rows left →
      (mat_rows right = 1 ∨ mat_rows right = 2) →
      ∀ (e : Err) (s : core_state), e ≠ ERR_NONE →
        ((∃ m, right = vartype.realmatrix m ∧
            small_inv_r env m completion_v_ref.small_div_completion_1 st = some (e, s)) ∨
          (∃ m, right = vartype.complexmatrix m ∧
            small_inv_c env m completion_v_ref.small_div_completion_1 st = some (e, s))) →
        linalg_div env L2 cb left right completion_ref.caller st
          = some (cb e none, { s with log := s.log ++ [event.completion e none] }) ∧
        ∀ ev ∈ s.log, ev ∈ st.log ∨ ev = event.free obj.d) ∧
    (∀ (error : Err) (s : core_state), error ≠ ERR_NONE →
      (∀ a perm det, div_rr_completion1 L2 cb error a perm det s
        = some (error, { s with log := s.log ++
            [event.free obj.lu, event.free obj.perm, event.free obj.res] })) ∧
      (∀ a perm det det_im, div_rc_completion1 L2 cb error a perm det det_im s
        = some (error, { s with log := s.log ++
            [event.free obj.lu, event.free obj.perm, event.free obj.res] })) ∧
      (∀ a perm det, div_cr_completion1 L2 cb error a perm det s
        = some (error, { s with log := s.log ++
            [event.free obj.lu, event.free obj.perm, event.free obj.res] })) ∧
      (∀ a perm det det_im, div_cc_completion1 L2 cb error a perm det det_im s
        = some (error, { s with log := s.log ++
            [event.free obj.lu, event.free obj.perm, event.free obj.res] }))) ∧
    (∀ (error : Err) (s : core_state), error ≠ ERR_NONE →
      s.linalg_div_completion = some completion_ref.caller →
      (∀ a perm b, div_rr_completion2 cb error a perm b s
        = some (cb error (some (vartype.realmatrix b)),
            { s with
              linalg_div_result := some (vartype.realmatrix b),
              log := s.log ++ [event.free obj.res, event.free obj.lu, event.free obj.perm,
                event.completion error (some (vartype.realmatrix b))] })) ∧
      (∀ a perm b, div_rc_completion2 cb error a perm b s
        = some (cb error (some (vartype.complexmatrix b)),
            { s with
              linalg_div_result := some (vartype.complexmatrix b),
              log := s.log ++ [event.free obj.res, event.free obj.lu, event.free obj.perm,
                event.completion error (some (vartype.complexmatrix b))] })) ∧
      (∀ a perm b, div_cr_completion2 cb error a perm b s
        = some (cb error (some (vartype.complexmatrix b)),
            { s with
              linalg_div_result := some (vartype.complexmatrix b),
              log := s.log ++ [event.free obj.res, event.free obj.lu, event.free obj.perm,
                event.completion error (some (vartype.complexmatrix b))] })) ∧
      (∀ a perm b, div_cc_completion2 cb error a perm b s
        = some (cb error (some (vartype.complexmatrix b)),
            { s with
              linalg_div_result := some (vartype.complexmatrix b),
              log := s.log ++ [event.free obj.res, event.free obj.lu, event.free obj.perm,
                event.completion error (some (vartype.complexmatrix b))] }))) := by
  refine ⟨?_, ?_, ?_, ?_, ?_⟩
  · intro hdim
    rcases hl with ⟨l, rfl⟩ | ⟨l, rfl⟩ <;> rcases hr with ⟨r, rfl⟩ | ⟨r, rfl⟩ <;>
      simp only [mat_columns, mat_rows] at hdim <;>
      simp [linalg_div, hdim, call_completion]
  · intro hrows hcols hbig st1 h1
    constructor
    · rcases hl with ⟨l, rfl⟩ | ⟨l, rfl⟩ <;> rcases hr with ⟨r, rfl⟩ | ⟨r, rfl⟩ <;>
        simp only [mat_columns, mat_rows] at hrows hcols hbig <;>
        (have hb2 : ¬ l.rows ≤ 2 := by omega) <;>
        simp [linalg_div, hrows, hcols, hb2, h1, call_completion]
    · simp only [linalg_div_alloc] at h1
      split_ifs at h1 <;> simp only [Sum.inl.injEq, reduceCtorEq] at h1 <;> subst h1 <;>
        intro ev hev <;> simp only [release, alloc_next, List.mem_append, List.mem_singleton] at hev
      · exact Or.inl hev
      · rcases hev with h | h
        · exact Or.inl h
        · exact Or.inr ⟨_, h⟩
      · rcases hev with (h | h) | h
        · exact Or.inl h
        · exact Or.inr ⟨_, h⟩
        · exact Or.inr ⟨_, h⟩
  · intro hrows hcols h12 e s he hinv
    have hsmall : linalg_div env L2 cb left right completion_ref.caller st
        = small_div env cb left right completion_ref.caller st := by
      rcases hl with ⟨l, rfl⟩ | ⟨l, rfl⟩ <;> rcases hr with ⟨r, rfl⟩ | ⟨r, rfl⟩ <;>
        simp only [mat_columns, mat_rows] at hrows hcols h12 <;>
        (have hb2 : l.rows ≤ 2 := by omega) <;>
        simp [linalg_div, hrows, hcols, hb2]
    rw [hsmall]
    rcases hinv with ⟨m, rfl, hm⟩ | ⟨m, rfl, hm⟩
    · simp only [mat_columns, mat_rows] at hrows hcols h12
      refine ⟨?_, (small_inv_r_post env m st h12 (by omega) e s hm).2.1⟩
      simp [small_div, hm, he, call_completion]
    · simp only [mat_columns, mat_rows] at hrows hcols h12
      refine ⟨?_, (small_inv_c_post env m st h12 (by omega) e s hm).2.1⟩
      simp [small_div, hm, he, call_completion]
  · intro error s he
    refine ⟨?_, ?_, ?_, ?_⟩ <;> intros <;>
      simp [div_rr_completion1, div_rc_completion1, div_cr_completion1, div_cc_completion1, he,
        div_completion1_error, release]
  · intro error s he hc
    refine ⟨?_, ?_, ?_, ?_⟩ <;> intros <;>
      simp only [div_rr_completion2, div_rc_completion2, div_cr_completion2,
        div_cc_completion2] <;>
      exact div_completion2_end_error cb error _ s he hc

/-- C28, the divergence.  In the state `linalg_div` leaves for a divisor of order 3:
a dimension mismatch is reported by the call `cb(ERR_DIMENSION_ERROR, NULL)`, as every
failure found before the decomposition is; but a decomposition failure reported to
`div_rr_completion1` is returned after the three releases without any call of the
caller's completion, and a back-substitution failure reported to `div_rr_completion2`
reaches the caller's completion with the pointer to the result buffer it has just
released, not with a null result. -/
theorem linalg_div_failure_divergence :
    linalg_div env_exact linalg2_none cb_id (vartype.realmatrix mat_1234)
        (vartype.realmatrix mat_five) completion_ref.caller st_idle
      = some (ERR_DIMENSION_ERROR,
          { st_idle with log := [event.completion ERR_DIMENSION_ERROR none] }) ∧
    div_rr_completion1 linalg2_none cb_id ERR_SINGULAR_MATRIX (new_realmatrix 3 3) [] 0
        st_div_running
      = some (ERR_SINGULAR_MATRIX,
          { st_div_running with
            log := [event.free obj.lu, event.free obj.perm, event.free obj.res] }) ∧
    div_rr_completion2 cb_id ERR_OUT_OF_RANGE (new_realmatrix 3 3) [] (new_realmatrix 3 3)
        st_div_running
      = some (ERR_OUT_OF_RANGE,
          { st_div_running with
            log := [event.free obj.res, event.free obj.lu, event.free obj.perm,
              event.completion ERR_OUT_OF_RANGE
                (some (vartype.realmatrix (new_realmatrix 3 3)))] }) :=
  ⟨(linalg_div_failure_paths env_exact linalg2_none cb_id st_idle
      (vartype.realmatrix mat_1234) (vartype.realmatrix mat_five)
      (Or.inl ⟨_, rfl⟩) (Or.inl ⟨_, rfl⟩)).1 (Or.inl (by decide)),
    rfl, rfl⟩

theorem div_completion2_end_eq (cb : Err → Option vartype → Err) (e : Err) (b : vartype)
    (s : core_state) (hc : s.linalg_div_completion = some completion_ref.caller) :
    div_completion2_end cb e b s
      = some (cb e (some b),
          { s with
            linalg_div_result := some b,
            log := s.log ++ (if e = ERR_NONE
              then [event.free obj.lu, event.free obj.perm,
                event.completion ERR_NONE (some b)]
              else [event.free obj.res, event.free obj.lu, event.free obj.perm,
                event.completion e (some b)]) }) := by
  by_cases he : e = ERR_NONE
  · subst he
    simp [div_completion2_end, release, hc, call_completion]
  · rw [div_completion2_end_error cb e b s he hc]
    simp [he]

theorem inv_r_completion2_eq (e : Err) (a : vartype_realmatrix) (perm : List Nat)
    (b : vartype_realmatrix) (s : core_state)
    (hc : s.linalg_inv_completion = some completion_v_ref.caller) :
    inv_r_completion2 e a perm b s
      = some (e,
          { s with
            linalg_inv_result := some (vartype.realmatrix b),
            log := s.log ++ (if e = ERR_NONE
              then [event.completion_v (vartype.realmatrix b), event.free obj.lu,
                event.free obj.perm]
              else [event.free obj.inv, event.free obj.lu, event.free obj.perm]) }) := by
  by_cases he : e = ERR_NONE
  · subst he
    simp [inv_r_completion2, hc, release, call_completion_v]
  · simp [inv_r_completion2, he, release]

theorem inv_c_completion2_eq (e : Err) (a : vartype_complexmatrix) (perm : List Nat)
    (b : vartype_complexmatrix) (s : core_state)
    (hc : s.linalg_inv_completion = some completion_v_ref.caller) :
    inv_c_completion2 e a perm b s
      = some (e,
          { s with
            linalg_inv_result := some (vartype.complexmatrix b),
            log := s.log ++ (if e = ERR_NONE
              then [event.completion_v (vartype.complexmatrix b), event.free obj.lu,
                event.free obj.perm]
              else [event.free obj.inv, event.free obj.lu, event.free obj.perm]) }) := by
  by_cases he : e = ERR_NONE
  · subst he
    simp [inv_c_completion2, hc, release, call_completion_v]
  · simp [inv_c_completion2, he, release]

/-- C29. Exactly-once release in the order > 2 chains, for every implementation `L2`
of the back-substitution routines, suspending or not.  From any state `s`:
(1) decomposition failed: each of `div_rr/rc/cr/cc_completion1` returns the error with
exactly the releases of the LU copy, of the permutation vector and of the result
added to the log, and each of `inv_r/c_completion1` with exactly the releases of the
result, of the LU copy and of the permutation vector; no back-substitution is started
and no completion called;
(2) decomposition succeeded: each `*_completion1` is the call of the back-substitution
routine with the matching `*_completion2`, in a state whose log is that of `s`:
nothing is released on the way;
(3) whenever the back-substitution reports `e` to `div_*_completion2` in a state `s`
holding the caller's completion: if `e` is ERR_NONE the LU copy and the permutation
vector are released, the result is not, and the completion receives it; otherwise
the result, the LU copy and the permutation vector are released, once each, before
the completion is called;
(4) whenever it reports `e` to `inv_r/c_completion2`: if `e` is ERR_NONE the
completion receives the result, which is not released, and the LU copy and the
permutation vector are released; otherwise the result, the LU copy and the
permutation vector are released, once each, and no completion is called;
(5) hence, when the back-substitution started by `*_completion1` reports `e` from a
state with the log of `s`, the whole path adds to the log exactly the suffix of (3)
or (4) that belongs to `e`. -/
theorem completion_chain_releases (L2 : linalg2) (cb : Err → Option vartype → Err)
    (s : core_state) :
    (∀ error, error ≠ ERR_NONE →
      (∀ a perm det, div_rr_completion1 L2 cb error a perm det s
        = some (error, { s with log := s.log ++
            [event.free obj.lu, event.free obj.perm, event.free obj.res] })) ∧
      (∀ a perm det det_im, div_rc_completion1 L2 cb error a perm det det_im s
        = some (error, { s with log := s.log ++
            [event.free obj.lu, event.free obj.perm, event.free obj.res] })) ∧
      (∀ a perm det, div_cr_completion1 L2 cb error a perm det s
        = some (error, { s with log := s.log ++
            [event.free obj.lu, event.free obj.perm, event.free obj.res] })) ∧
      (∀ a perm det det_im, div_cc_completion1 L2 cb error a perm det det_im s
        = some (error, { s with log := s.log ++
            [event.free obj.lu, event.free obj.perm, event.free obj.res] })) ∧
      (∀ a perm det, inv_r_completion1 L2 error a perm det s
        = some (error, { s with log := s.log ++
            [event.free obj.inv, event.free obj.lu, event.free obj.perm] })) ∧
      (∀ a perm det det_im, inv_c_completion1 L2 error a perm det det_im s
        = some (error, { s with log := s.log ++
            [event.free obj.inv, event.free obj.lu, event.free obj.perm] }))) ∧
    (∀ a perm det res left, s.linalg_div_result = some (vartype.realmatrix res) →
      s.linalg_div_left = some (vartype.realmatrix left) →
      div_rr_completion1 L2 cb ERR_NONE a perm det s
        = L2.lu_backsubst_rr a perm (matrix_copy_rr res left) (div_rr_completion2 cb)
            { s with linalg_div_result := some (vartype.realmatrix (matrix_copy_rr res left)) }) ∧
    (∀ a perm det det_im res left, s.linalg_div_result = some (vartype.complexmatrix res) →
      s.linalg_div_left = some (vartype.realmatrix left) →
      div_rc_completion1 L2 cb ERR_NONE a perm det det_im s
        = L2.lu_backsubst_cc a perm (matrix_copy_cr res left) (div_rc_completion2 cb)
            { s with linalg_div_result := some (vartype.complexmatrix (matrix_copy_cr res left)) }) ∧
    (∀ a perm det res left, s.linalg_div_result = some (vartype.complexmatrix res) →
      s.linalg_div_left = some (vartype.complexmatrix left) →
      div_cr_completion1 L2 cb ERR_NONE a perm det s
        = L2.lu_backsubst_rc a perm (matrix_copy_cc res left) (div_cr_completion2 cb)
            { s with linalg_div_result := some (vartype.complexmatrix (matrix_copy_cc res left)) }) ∧
    (∀ a perm det det_im res left, s.linalg_div_result = some (vartype.complexmatrix res) →
      s.linalg_div_left = some (vartype.complexmatrix left) →
      div_cc_completion1 L2 cb ERR_NONE a perm det det_im s
        = L2.lu_backsubst_cc a perm (matrix_copy_cc res left) (div_cc_completion2 cb)
            { s with linalg_div_result := some (vartype.complexmatrix (matrix_copy_cc res left)) }) ∧
    (∀ a perm det inv, s.linalg_inv_result = some (vartype.realmatrix inv) →
      inv_r_completion1 L2 ERR_NONE a perm det s
        = L2.lu_backsubst_rr a perm { inv with data := set_diagonal_r a.rows inv.data }
            inv_r_completion2
            { s with linalg_inv_result := some (vartype.realmatrix
                { inv with data := set_diagonal_r a.rows inv.data }) }) ∧
    (∀ a perm det det_im inv, s.linalg_inv_result = some (vartype.complexmatrix inv) →
      inv_c_completion1 L2 ERR_NONE a perm det det_im s
        = L2.lu_backsubst_cc a perm { inv with data := set_diagonal_c a.rows inv.data }
            inv_c_completion2
            { s with linalg_inv_result := some (vartype.complexmatrix
                { inv with data := set_diagonal_c a.rows inv.data }) }) ∧
    (s.linalg_div_completion = some completion_ref.caller → ∀ e,
      (∀ a perm b, div_rr_completion2 cb e a perm b s
        = some (cb e (some (vartype.realmatrix b)),
            { s with
              linalg_div_result := some (vartype.realmatrix b),
              log := s.log ++ (if e = ERR_NONE
                then [event.free obj.lu, event.free obj.perm,
                  event.completion ERR_NONE (some (vartype.realmatrix b))]
                else [event.free obj.res, event.free obj.lu, event.free obj.perm,
                  event.completion e (some (vartype.realmatrix b))]) })) ∧
      (∀ a perm b, div_rc_completion2 cb e a perm b s
        = some (cb e (some (vartype.complexmatrix b)),
            { s with
              linalg_div_result := some (vartype.complexmatrix b),
              log := s.log ++ (if e = ERR_NONE
                then [event.free obj.lu, event.free obj.perm,
                  event.completion ERR_NONE (some (vartype.complexmatrix b))]
                else [event.free obj.res, event.free obj.lu, event.free obj.perm,
                  event.completion e (some (vartype.complexmatrix b))]) })) ∧
      (∀ a perm b, div_cr_completion2 cb e a perm b s
        = some (cb e (some (vartype.complexmatrix b)),
            { s with
              linalg_div_result := some (vartype.complexmatrix b),
              log := s.log ++ (if e = ERR_NONE
                then [event.free obj.lu, event.free obj.perm,
                  event.completion ERR_NONE (some (vartype.complexmatrix b))]
                else [event.free obj.res, event.free obj.lu, event.free obj.perm,
                  event.completion e (some (vartype.complexmatrix b))]) })) ∧
      (∀ a perm b, div_cc_completion2 cb e a perm b s
        = some (cb e (some (vartype.complexmatrix b)),
            { s with
              linalg_div_result := some (vartype.complexmatrix b),
              log := s.log ++ (if e = ERR_NONE
                then [event.free obj.lu, event.free obj.perm,
                  event.completion ERR_NONE (some (vartype.complexmatrix b))]
                else [event.free obj.res, event.free obj.lu, event.free obj.perm,
                  event.completion e (some (vartype.complexmatrix b))]) }))) ∧
    (s.linalg_inv_completion = some completion_v_ref.caller → ∀ e,
      (∀ a perm b, inv_r_completion2 e a perm b s
        = some (e,
            { s with
              linalg_inv_result := some (vartype.realmatrix b),
              log := s.log ++ (if e = ERR_NONE
                then [event.completion_v (vartype.realmatrix b), event.free obj.lu,
                  event.free obj.perm]
                else [event.free obj.inv, event.free obj.lu, event.free obj.perm]) })) ∧
      (∀ a perm b, inv_c_completion2 e a perm b s
        = some (e,
            { s with
              linalg_inv_result := some (vartype.complexmatrix b),
              log := s.log ++ (if e = ERR_NONE
                then [event.completion_v (vartype.complexmatrix b), event.free obj.lu,
                  event.free obj.perm]
                else [event.free obj.inv, event.free obj.lu, event.free obj.perm]) }))) ∧
    (∀ a perm det res left e b1 s1, s.linalg_div_completion = some completion_ref.caller →
      s.linalg_div_result = some (vartype.realmatrix res) →
      s.linalg_div_left = some (vartype.realmatrix left) →
      L2.lu_backsubst_rr a perm (matrix_copy_rr res left) (div_rr_completion2 cb)
          { s with linalg_div_result := some (vartype.realmatrix (matrix_copy_rr res left)) }
        = div_rr_completion2 cb e a perm b1 s1 →
      s1.log = s.log → s1.linalg_div_completion = s.linalg_div_completion →
      ∃ sE, div_rr_completion1 L2 cb ERR_NONE a perm det s
          = some (cb e (some (vartype.realmatrix b1)), sE) ∧
        sE.log = s.log ++ (if e = ERR_NONE
          then [event.free obj.lu, event.free obj.perm,
            event.completion ERR_NONE (some (vartype.realmatrix b1))]
          else [event.free obj.res, event.free obj.lu, event.free obj.perm,
            event.completion e (some (vartype.realmatrix b1))])) ∧
    (∀ a perm det det_im res left e b1 s1, s.linalg_div_completion = some completion_ref.caller →
      s.linalg_div_result = some (vartype.complexmatrix res) →
      s.linalg_div_left = some (vartype.realmatrix left) →
      L2.lu_backsubst_cc a perm (matrix_copy_cr res left) (div_rc_completion2 cb)
          { s with linalg_div_result := some (vartype.complexmatrix (matrix_copy_cr res left)) }
        = div_rc_completion2 cb e a perm b1 s1 →
      s1.log = s.log → s1.linalg_div_completion = s.linalg_div_completion →
      ∃ sE, div_rc_completion1 L2 cb ERR_NONE a perm det det_im s
          = some (cb e (some (vartype.complexmatrix b1)), sE) ∧
        sE.log = s.log ++ (if e = ERR_NONE
          then [event.free obj.lu, event.free obj.perm,
            event.completion ERR_NONE (some (vartype.complexmatrix b1))]
          else [event.free obj.res, event.free obj.lu, event.free obj.perm,
            event.completion e (some (vartype.complexmatrix b1))])) ∧
    (∀ a perm det res left e b1 s1, s.linalg_div_completion = some completion_ref.caller →
      s.linalg_div_result = some (vartype.complexmatrix res) →
      s.linalg_div_left = some (vartype.complexmatrix left) →
      L2.lu_backsubst_rc a perm (matrix_copy_cc res left) (div_cr_completion2 cb)
          { s with linalg_div_result := some (vartype.complexmatrix (matrix_copy_cc res left)) }
        = div_cr_completion2 cb e a perm b1 s1 →
      s1.log = s.log → s1.linalg_div_completion = s.linalg_div_completion →
      ∃ sE, div_cr_completion1 L2 cb ERR_NONE a perm det s
          = some (cb e (some (vartype.complexmatrix b1)), sE) ∧
        sE.log = s.log ++ (if e = ERR_NONE
          then [event.free obj.lu, event.free obj.perm,
            event.completion ERR_NONE (some (vartype.complexmatrix b1))]
          else [event.free obj.res, event.free obj.lu, event.free obj.perm,
            event.completion e (some (vartype.complexmatrix b1))])) ∧
    (∀ a perm det det_im res left e b1 s1, s.linalg_div_completion = some completion_ref.caller →
      s.linalg_div_result = some (vartype.complexmatrix res) →
      s.linalg_div_left = some (vartype.complexmatrix left) →
      L2.lu_backsubst_cc a perm (matrix_copy_cc res left) (div_cc_completion2 cb)
          { s with linalg_div_result := some (vartype.complexmatrix (matrix_copy_cc res left)) }
        = div_cc_completion2 cb e a perm b1 s1 →
      s1.log = s.log → s1.linalg_div_completion = s.linalg_div_completion →
      ∃ sE, div_cc_completion1 L2 cb ERR_NONE a perm det det_im s
          = some (cb e (some (vartype.complexmatrix b1)), sE) ∧
        sE.log = s.log ++ (if e = ERR_NONE
          then [event.free obj.lu, event.free obj.perm,
            event.completion ERR_NONE (some (vartype.complexmatrix b1))]
          else [event.free obj.res, event.free obj.lu, event.free obj.perm,
            event.completion e (some (vartype.complexmatrix b1))])) ∧
    (∀ a perm det inv e b1 s1, s.linalg_inv_completion = some completion_v_ref.caller →
      s.linalg_inv_result = some (vartype.realmatrix inv) →
      L2.lu_backsubst_rr a perm { inv with data := set_diagonal_r a.rows inv.data } inv_r_completion2
          { s with linalg_inv_result := some (vartype.realmatrix
              { inv with data := set_diagonal_r a.rows inv.data }) }
        = inv_r_completion2 e a perm b1 s1 →
      s1.log = s.log → s1.linalg_inv_completion = s.linalg_inv_completion →
      ∃ sE, inv_r_completion1 L2 ERR_NONE a perm det s = some (e, sE) ∧
        sE.log = s.log ++ (if e = ERR_NONE
          then [event.completion_v (vartype.realmatrix b1), event.free obj.lu,
            event.free obj.perm]
          else [event.free obj.inv, event.free obj.lu, event.free obj.perm])) ∧
    (∀ a perm det det_im inv e b1 s1, s.linalg_inv_completion = some completion_v_ref.caller →
      s.linalg_inv_result = some (vartype.complexmatrix inv) →
      L2.lu_backsubst_cc a perm { inv with data := set_diagonal_c a.rows inv.data } inv_c_completion2
          { s with linalg_inv_result := some (vartype.complexmatrix
              { inv with data := set_diagonal_c a.rows inv.data }) }
        = inv_c_completion2 e a perm b1 s1 →
      s1.log = s.log → s1.linalg_inv_completion = s.linalg_inv_completion →
      ∃ sE, inv_c_completion1 L2 ERR_NONE a perm det det_im s = some (e, sE) ∧
        sE.log = s.log ++ (if e = ERR_NONE
          then [event.completion_v (vartype.complexmatrix b1), event.free obj.lu,
            event.free obj.perm]
          else [event.free obj.inv, event.free obj.lu, event.free obj.perm])) := by
  refine ⟨?_, ?_, ?_, ?_, ?_, ?_, ?_, ?_, ?_, ?_, ?_, ?_, ?_, ?_, ?_⟩
  · intro error he
    refine ⟨?_, ?_, ?_, ?_, ?_, ?_⟩ <;> intros <;>
      simp [inv_r_completion1, inv_c_completion1, div_rr_completion1, div_rc_completion1,
        div_cr_completion1, div_cc_completion1, he, div_completion1_error, release]
  · intro a perm det res left hres hleft
    simp only [div_rr_completion1, ne_eq, not_true_eq_false, if_false, hres, hleft]
  · intro a perm det det_im res left hres hleft
    simp only [div_rc_completion1, ne_eq, not_true_eq_false, if_false, hres, hleft]
  · intro a perm det res left hres hleft
    simp only [div_cr_completion1, ne_eq, not_true_eq_false, if_false, hres, hleft]
  · intro a perm det det_im res left hres hleft
    simp only [div_cc_completion1, ne_eq, not_true_eq_false, if_false, hres, hleft]
  · intro a perm det inv hres
    simp only [inv_r_completion1, ne_eq, not_true_eq_false, if_false, hres]
  · intro a perm det det_im inv hres
    simp only [inv_c_completion1, ne_eq, not_true_eq_false, if_false, hres]
  · intro hc e
    refine ⟨?_, ?_, ?_, ?_⟩ <;> intro a perm b <;>
      simp only [div_rr_completion2, div_rc_completion2, div_cr_completion2,
        div_cc_completion2] <;>
      exact div_completion2_end_eq cb e _ s hc
  · intro hc e
    exact ⟨fun a perm b => inv_r_completion2_eq e a perm b s hc,
      fun a perm b => inv_c_completion2_eq e a perm b s hc⟩
  · intro a perm det res left e b1 s1 hc hres hleft hbs hlog hcomp
    have h := div_completion2_end_eq cb e (vartype.realmatrix b1) s1 (hcomp.trans hc)
    have h0 : div_rr_completion1 L2 cb ERR_NONE a perm det s
        = L2.lu_backsubst_rr a perm (matrix_copy_rr res left) (div_rr_completion2 cb)
            { s with linalg_div_result := some (vartype.realmatrix (matrix_copy_rr res left)) } := by
      simp only [div_rr_completion1, ne_eq, not_true_eq_false, if_false, hres, hleft]
    have h1 : div_rr_completion1 L2 cb ERR_NONE a perm det s
        = div_completion2_end cb e (vartype.realmatrix b1) s1 := h0.trans hbs
    exact ⟨_, h1.trans h, by simp only [hlog]⟩
  · intro a perm det det_im res left e b1 s1 hc hres hleft hbs hlog hcomp
    have h := div_completion2_end_eq cb e (vartype.complexmatrix b1) s1 (hcomp.trans hc)
    have h0 : div_rc_completion1 L2 cb ERR_NONE a perm det det_im s
        = L2.lu_backsubst_cc a perm (matrix_copy_cr res left) (div_rc_completion2 cb)
            { s with linalg_div_result := some (vartype.complexmatrix (matrix_copy_cr res left)) } := by
      simp only [div_rc_completion1, ne_eq, not_true_eq_false, if_false, hres, hleft]
    have h1 : div_rc_completion1 L2 cb ERR_NONE a perm det det_im s
        = div_completion2_end cb e (vartype.complexmatrix b1) s1 := h0.trans hbs
    exact ⟨_, h1.trans h, by simp only [hlog]⟩
  · intro a perm det res left e b1 s1 hc hres hleft hbs hlog hcomp
    have h := div_completion2_end_eq cb e (vartype.complexmatrix b1) s1 (hcomp.trans hc)
    have h0 : div_cr_completion1 L2 cb ERR_NONE a perm det s
        = L2.lu_backsubst_rc a perm (matrix_copy_cc res left) (div_cr_completion2 cb)
            { s with linalg_div_result := some (vartype.complexmatrix (matrix_copy_cc res left)) } := by
      simp only [div_cr_completion1, ne_eq, not_true_eq_false, if_false, hres, hleft]
    have h1 : div_cr_completion1 L2 cb ERR_NONE a perm det s
        = div_completion2_end cb e (vartype.complexmatrix b1) s1 := h0.trans hbs
    exact ⟨_, h1.trans h, by simp only [hlog]⟩
  · intro a perm det det_im res left e b1 s1 hc hres hleft hbs hlog hcomp
    have h := div_completion2_end_eq cb e (vartype.complexmatrix b1) s1 (hcomp.trans hc)
    have h0 : div_cc_completion1 L2 cb ERR_NONE a perm det det_im s
        = L2.lu_backsubst_cc a perm (matrix_copy_cc res left) (div_cc_completion2 cb)
            { s with linalg_div_result := some (vartype.complexmatrix (matrix_copy_cc res left)) } := by
      simp only [div_cc_completion1, ne_eq, not_true_eq_false, if_false, hres, hleft]
    have h1 : div_cc_completion1 L2 cb ERR_NONE a perm det det_im s
        = div_completion2_end cb e (vartype.complexmatrix b1) s1 := h0.trans hbs
    exact ⟨_, h1.trans h, by simp only [hlog]⟩
  · intro a perm det inv e b1 s1 hc hres hbs hlog hcomp
    have h := inv_r_completion2_eq e a perm b1 s1 (hcomp.trans hc)
    have h1 : inv_r_completion1 L2 ERR_NONE a perm det s
        = inv_r_completion2 e a perm b1 s1 := by
      simp only [inv_r_completion1, ne_eq, not_true_eq_false, if_false, hres]
      rw [hbs]
    exact ⟨_, h1.trans h, by simp only [hlog]⟩
  · intro a perm det det_im inv e b1 s1 hc hres hbs hlog hcomp
    have h := inv_c_completion2_eq e a perm b1 s1 (hcomp.trans hc)
    have h1 : inv_c_completion1 L2 ERR_NONE a perm det det_im s
        = inv_c_completion2 e a perm b1 s1 := by
      simp only [inv_c_completion1, ne_eq, not_true_eq_false, if_false, hres]
      rw [hbs]
    exact ⟨_, h1.trans h, by simp only [hlog]⟩

/-- C29, witness: in the state `linalg_div` leaves for a divisor of order 3, a
singular-matrix report to `div_rr_completion1` releases the LU copy, the permutation
vector and the result; a successful back-substitution reported to
`div_rr_completion2` releases the LU copy and the permutation vector and hands the
result to the completion; a failed one releases the result first. -/
theorem completion_chain_releases_witness :
    div_rr_completion1 linalg2_none cb_id ERR_SINGULAR_MATRIX (new_realmatrix 3 3) [] 0
        st_div_running
      = some (ERR_SINGULAR_MATRIX,
          { st_div_running with log := st_div_running.log ++
            [event.free obj.lu, event.free obj.perm, event.free obj.res] }) ∧
    div_rr_completion2 cb_id ERR_NONE (new_realmatrix 3 3) [] (new_realmatrix 3 3)
        st_div_running
      = some (ERR_NONE,
          { st_div_running with
            linalg_div_result := some (vartype.realmatrix (new_realmatrix 3 3)),
            log := [event.free obj.lu, event.free obj.perm,
              event.completion ERR_NONE
                (some (vartype.realmatrix (new_realmatrix 3 3)))] }) ∧
    div_rr_completion2 cb_id ERR_OUT_OF_RANGE (new_realmatrix 3 3) [] (new_realmatrix 3 3)
        st_div_running
      = some (ERR_OUT_OF_RANGE,
          { st_div_running with
            linalg_div_result := some (vartype.realmatrix (new_realmatrix 3 3)),
            log := [event.free obj.res, event.free obj.lu, event.free obj.perm,
              event.completion ERR_OUT_OF_RANGE
                (some (vartype.realmatrix (new_realmatrix 3 3)))] }) :=
  ⟨((completion_chain_releases linalg2_none cb_id st_div_running).1
      ERR_SINGULAR_MATRIX (by decide)).1 (new_realmatrix 3 3) [] 0,
    ((completion_chain_releases linalg2_none cb_id st_div_running).2.2.2.2.2.2.2.1 rfl
      ERR_NONE).1 (new_realmatrix 3 3) [] (new_realmatrix 3 3),
    ((completion_chain_releases linalg2_none cb_id st_div_running).2.2.2.2.2.2.2.1 rfl
      ERR_OUT_OF_RANGE).1 (new_realmatrix 3 3) [] (new_realmatrix 3 3)⟩

/-- C30 as stated fails: with the worker of a real multiplication installed
(`st_started`), `matrix_mul_cc` on conformable operands returns ERR_INTERRUPTIBLE
normally, having replaced the installed worker by its own; the progress record of the
task it displaced is still allocated and nothing has been reported or released. -/
theorem matrix_mul_replaces_worker_counterexample :
    st_started.mode_interruptible = some worker_ref.matrix_mul_rr_worker ∧
    ∃ st1, matrix_mul_cc cb_id cmat_12345678 cmat_12345678 completion_ref.caller st_started
        = some (ERR_INTERRUPTIBLE, st1) ∧
      st1.mode_interruptible = some worker_ref.matrix_mul_cc_worker ∧
      st1.mul_rr_data = some dat_started ∧ st1.log = st_started.log :=
  ⟨rfl, _, rfl, rfl, rfl, rfl⟩

/-- C30, amended. The current task is a single slot, `mode_interruptible`, and
`matrix_mul_rr/rc/cr/cc` do not test it: for conformable numeric operands and
successful allocation, whatever worker `w` is installed (or none), each of them
returns ERR_INTERRUPTIBLE normally with its own worker in the slot, without any report
or release; that no task is active when a new one is installed is left to the
callers. -/
theorem matrix_mul_overwrites_worker (cb : Err → Option vartype → Err)
    (completion : completion_ref) (st : core_state) (w : Option worker_ref)
    (ha1 : (alloc_next st).1 = true) (ha2 : (alloc_next (alloc_next st).2).1 = true) :
    (∀ (left right : vartype_realmatrix), left.columns = right.rows →
      contains_strings left = false → contains_strings right = false →
      ∃ st1, matrix_mul_rr cb left right completion { st with mode_interruptible := w }
          = some (ERR_INTERRUPTIBLE, st1) ∧
        st1.mode_interruptible = some worker_ref.matrix_mul_rr_worker ∧
        st1.log = st.log) ∧
    (∀ (left : vartype_realmatrix) (right : vartype_complexmatrix),
      left.columns = right.rows → contains_strings left = false →
      ∃ st1, matrix_mul_rc cb left right completion { st with mode_interruptible := w }
          = some (ERR_INTERRUPTIBLE, st1) ∧
        st1.mode_interruptible = some worker_ref.matrix_mul_rc_worker ∧
        st1.log = st.log) ∧
    (∀ (left : vartype_complexmatrix) (right : vartype_realmatrix),
      left.columns = right.rows → contains_strings right = false →
      ∃ st1, matrix_mul_cr cb left right completion { st with mode_interruptible := w }
          = some (ERR_INTERRUPTIBLE, st1) ∧
        st1.mode_interruptible = some worker_ref.matrix_mul_cr_worker ∧
        st1.log = st.log) ∧
    (∀ (left right : vartype_complexmatrix), left.columns = right.rows →
      ∃ st1, matrix_mul_cc cb left right completion { st with mode_interruptible := w }
          = some (ERR_INTERRUPTIBLE, st1) ∧
        st1.mode_interruptible = some worker_ref.matrix_mul_cc_worker ∧
        st1.log = st.log) := by
  have hb1 : (alloc_next { st with mode_interruptible := w }).1 = true := ha1
  have hb2 : (alloc_next (alloc_next { st with mode_interruptible := w }).2).1 = true := ha2
  refine ⟨?_, ?_, ?_, ?_⟩
  · intro left right hdim hs hs2
    simp only [matrix_mul_rr, hdim, ne_eq, not_true_eq_false, if_false, hs, hs2, Bool.or_self,
      hb1, hb2, Bool.not_true, Bool.false_eq_true]
    exact ⟨_, rfl, rfl, rfl⟩
  · intro left right hdim hs
    simp only [matrix_mul_rc, hdim, ne_eq, not_true_eq_false, if_false, hs,
      hb1, hb2, Bool.not_true, Bool.false_eq_true]
    exact ⟨_, rfl, rfl, rfl⟩
  · intro left right hdim hs
    simp only [matrix_mul_cr, hdim, ne_eq, not_true_eq_false, if_false, hs,
      hb1, hb2, Bool.not_true, Bool.false_eq_true]
    exact ⟨_, rfl, rfl, rfl⟩
  · intro left right hdim
    simp only [matrix_mul_cc, hdim, ne_eq, not_true_eq_false, if_false,
      hb1, hb2, Bool.not_true, Bool.false_eq_true]
    exact ⟨_, rfl, rfl, rfl⟩

/-- C30, witness of the amended claim: a complex multiplication started while the
worker of a real multiplication is installed. -/
theorem matrix_mul_overwrites_worker_witness :
    ∃ st1, matrix_mul_cc cb_id cmat_12345678 cmat_12345678 completion_ref.caller
        { st_started with mode_interruptible := some worker_ref.matrix_mul_rr_worker }
        = some (ERR_INTERRUPTIBLE, st1) ∧
      st1.mode_interruptible = some worker_ref.matrix_mul_cc_worker ∧
      st1.log = st_started.log :=
  (matrix_mul_overwrites_worker cb_id completion_ref.caller st_started
    (some worker_ref.matrix_mul_rr_worker) rfl rfl).2.2.2 cmat_12345678 cmat_12345678 rfl

set_option maxRecDepth 100000 in
/-- C31. The command table is dense: the initializer of `cmd_array` has exactly
CMD_SENTINEL = 572 descriptors; the non-negative opcode macros of core_tables.h are, in
their order of definition, exactly 0, 1, ..., 571, so that every index of the table is
an opcode and every opcode `0 ≤ CMD_x` indexes an existing descriptor; and no opcode
reaches CMD_SENTINEL, the first index past the end. -/
theorem cmd_array_dense :
    cmd_array_columns.length = CMD_SENTINEL ∧
    cmd_opcodes.filter (fun c => decide (0 ≤ c))
      = (List.range CMD_SENTINEL).map Int.ofNat ∧
    (∀ c ∈ cmd_opcodes, 0 ≤ c → ∃ d, cmd_array_columns[c.toNat]? = some d) ∧
    (∀ c ∈ cmd_opcodes, c < (CMD_SENTINEL : Int)) ∧
    cmd_array_columns[CMD_SENTINEL]? = none := by
  have hlen : cmd_array_columns.length = CMD_SENTINEL := by decide
  have hfil : cmd_opcodes.filter (fun c => decide (0 ≤ c))
      = (List.range CMD_SENTINEL).map Int.ofNat := by decide
  have hlt : ∀ c ∈ cmd_opcodes, c < (CMD_SENTINEL : Int) := by
    intro c hc
    by_cases h0 : 0 ≤ c
    · have hm : c ∈ cmd_opcodes.filter (fun c => decide (0 ≤ c)) := by
        simp [List.mem_filter, hc, h0]
      rw [hfil] at hm
      obtain ⟨i, hi, rfl⟩ := List.mem_map.1 hm
      have := List.mem_range.1 hi
      show (i : Int) < (CMD_SENTINEL : Int)
      exact_mod_cast this
    · have : (0 : Int) ≤ (CMD_SENTINEL : Int) := Int.natCast_nonneg _
      omega
  refine ⟨hlen, hfil, ?_, hlt, ?_⟩
  · intro c hc h0
    have h1 := hlt c hc
    have h2 : c.toNat < cmd_array_columns.length := by
      rw [hlen]
      omega
    exact ⟨_, List.getElem?_eq_getElem h2⟩
  · rw [List.getElem?_eq_none_iff, hlen]

set_option maxRecDepth 100000 in
/-- C31, witness: the last opcode, CMD_LIFE = 571, indexes the last descriptor. -/
theorem cmd_array_dense_witness :
    (571 : Int) ∈ cmd_opcodes ∧ ∃ d, cmd_array_columns[(571 : Int).toNat]? = some d :=
  ⟨by decide, cmd_array_dense.2.2.1 571 (by decide) (by decide)⟩

theorem check_types_append_pass (st : core_state) (rttypes : Nat) (l1 l2 : List Nat)
    (h : ∀ i ∈ l1, ∃ v, stack_at st (st.sp - (i : Int)) = some v ∧
      (1 <<< (v.type - 1)) &&& rttypes ≠ 0) :
    check_types st rttypes (l1 ++ l2) = check_types st rttypes l2 := by
  induction l1 with
  | nil => rfl
  | cons i rest ih =>
    obtain ⟨v, hv1, hv2⟩ := h i (List.mem_cons_self i rest)
    simp only [List.cons_append, check_types, hv1, if_neg hv2]
    exact ih (fun i hi => h i (List.mem_cons_of_mem _ hi))

theorem range_split (N i : Nat) (hi : i < N) :
    ∃ rest, List.range N = List.range i ++ i :: rest := by
  obtain ⟨k, rfl⟩ : ∃ k, N = i + (k + 1) := ⟨N - i - 1, by omega⟩
  rw [List.range_add, List.range_succ_eq_map]
  exact ⟨List.map (fun x => i + x) (List.map Nat.succ (List.range k)), by simp⟩

/-- C32. Order of the type check of `handle`, for a descriptor of arity `N ≥ 1` with a
mask other than 0xff, once the arity check has passed: the operands are examined from
`stack[sp]` downward; if the operand at depth `i < N` is the topmost one whose variant
bit is missing from the mask, `handle` returns ERR_ALPHA_DATA_IS_INVALID if that operand
is a String and ERR_INVALID_TYPE otherwise, whatever lies below it (a disallowed String
included); and if the `N` topmost operands are all allowed the handler is called,
whatever lies deeper: no slot below the `N`-th is read. -/
theorem handle_type_check_order (cmd_array : List command_spec) (st : core_state) (cmd : Int)
    (arg : arg_struct) (cs : command_spec)
    (hcs : cmd_array_at cmd_array cmd = some cs)
    (hN : 1 ≤ cs.argcount) (hmask : cs.rttypes ≠ 0xff)
    (harity : too_few_arguments cs st = some false) :
    (∀ (i : Nat) (v : vartype), (i : Int) < cs.argcount →
      (∀ j, j < i → ∃ w, stack_at st (st.sp - (j : Int)) = some w ∧
        (1 <<< (w.type - 1)) &&& cs.rttypes ≠ 0) →
      stack_at st (st.sp - (i : Int)) = some v →
      (1 <<< (v.type - 1)) &&& cs.rttypes = 0 →
      handle cmd_array st cmd arg
        = some (match v with
                | vartype.string _ => ERR_ALPHA_DATA_IS_INVALID
                | _ => ERR_INVALID_TYPE, st)) ∧
    (∀ h, cs.handler = some h →
      (∀ j : Nat, (j : Int) < cs.argcount → ∃ w, stack_at st (st.sp - (j : Int)) = some w ∧
        (1 <<< (w.type - 1)) &&& cs.rttypes ≠ 0) →
      handle cmd_array st cmd arg = some (h arg st)) := by
  have h0 : cs.argcount > 0 ∧ cs.rttypes ≠ ALLT := ⟨by omega, hmask⟩
  constructor
  · intro i v hi habove hv hbit
    obtain ⟨rest, hrest⟩ := range_split cs.argcount.toNat i (by omega)
    have htc : type_check cs st
        = some (some (if 1 <<< (v.type - 1) = 1 <<< (TYPE_STRING - 1)
            then ERR_ALPHA_DATA_IS_INVALID else ERR_INVALID_TYPE)) := by
      simp only [type_check, if_pos h0, hrest]
      rw [check_types_append_pass st cs.rttypes _ _
        (fun j hj => habove j (List.mem_range.1 hj))]
      simp only [check_types, hv, hbit, if_true]
      split_ifs <;> rfl
    simp only [handle, hcs, harity, htc]
    by_cases hs : 1 <<< (v.type - 1) = 1 <<< (TYPE_STRING - 1)
    · obtain ⟨txt, rfl⟩ := (string_bit v).1 hs
      simp [hs]
    · rw [if_neg hs]
      cases v <;> first | rfl | exact absurd ((string_bit _).2 ⟨_, rfl⟩) hs
  · intro h hh hall
    have htc : type_check cs st = some none := by
      simp only [type_check, if_pos h0]
      apply check_types_pass
      intro j hj
      exact hall j (by have := List.mem_range.1 hj; omega)
    simp only [handle, hcs, harity, htc, hh]

/-- C32, witness: arity 2, Real operands only, a Complex on top of a String: the error is
ERR_INVALID_TYPE, that of the Complex. -/
theorem handle_type_check_order_witness :
    handle [cs_two_real] st_complex_on_string 0 arg_none
      = some (ERR_INVALID_TYPE, st_complex_on_string) :=
  (handle_type_check_order [cs_two_real] st_complex_on_string 0 arg_none cs_two_real rfl
    (by decide) (by decide) rfl).1 0 (vartype.complex 2 3) (by decide)
    (fun j hj => absurd hj (Nat.not_lt_zero j)) rfl (by decide)

/-- C33. Right-hand side of the order > 2 path, for every implementation of the
back-substitution routines.  When the decomposition reports ERR_NONE:
`inv_r_completion1` (`inv_c_completion1`) calls the back-substitution with the freshly
zeroed `n × n` result in which the elements `(i, i)` have been set to 1 (for a complex
result the real parts), i.e. the identity matrix, and `div_rr/rc/cr/cc_completion1`
call it with the result buffer holding a copy of the numerator (each real element
paired with a zero imaginary part when the result is complex and the numerator real).
When the decomposition reports an error, the six completions return it after their
three releases whatever the back-substitution routines are: none is started. -/
theorem backsubst_right_hand_side (L2 : linalg2) (cb : Err → Option vartype → Err)
    (s : core_state) :
    (∀ a perm det n, a.rows = n →
      s.linalg_inv_result = some (vartype.realmatrix (new_realmatrix n n)) →
      ∃ b s1, inv_r_completion1 L2 ERR_NONE a perm det s
          = L2.lu_backsubst_rr a perm b inv_r_completion2 s1 ∧
        b.rows = n ∧ b.columns = n ∧ b.data.length = n * n ∧
        (∀ i j, i < n → j < n → b.data.getD (i * n + j) 0 = if i = j then 1 else 0) ∧
        s1.linalg_inv_result = some (vartype.realmatrix b) ∧ s1.log = s.log) ∧
    (∀ a perm det det_im n, a.rows = n →
      s.linalg_inv_result = some (vartype.complexmatrix (new_complexmatrix n n)) →
      ∃ b s1, inv_c_completion1 L2 ERR_NONE a perm det det_im s
          = L2.lu_backsubst_cc a perm b inv_c_completion2 s1 ∧
        b.rows = n ∧ b.columns = n ∧ b.data.length = 2 * (n * n) ∧
        (∀ i j, i < n → j < n →
          b.data.getD (2 * (i * n + j)) 0 = (if i = j then 1 else 0) ∧
          b.data.getD (2 * (i * n + j) + 1) 0 = 0) ∧
        s1.linalg_inv_result = some (vartype.complexmatrix b) ∧ s1.log = s.log) ∧
    (∀ a perm det res left, s.linalg_div_result = some (vartype.realmatrix res) →
      s.linalg_div_left = some (vartype.realmatrix left) →
      ∃ b s1, div_rr_completion1 L2 cb ERR_NONE a perm det s
          = L2.lu_backsubst_rr a perm b (div_rr_completion2 cb) s1 ∧
        b.rows = res.rows ∧ b.columns = res.columns ∧ b.data = left.data ∧
        s1.linalg_div_result = some (vartype.realmatrix b) ∧ s1.log = s.log) ∧
    (∀ a perm det det_im res left, s.linalg_div_result = some (vartype.complexmatrix res) →
      s.linalg_div_left = some (vartype.realmatrix left) →
      ∃ b s1, div_rc_completion1 L2 cb ERR_NONE a perm det det_im s
          = L2.lu_backsubst_cc a perm b (div_rc_completion2 cb) s1 ∧
        b.rows = res.rows ∧ b.columns = res.columns ∧
        (∀ k, b.data.getD (2 * k) 0 = left.data.getD k 0 ∧ b.data.getD (2 * k + 1) 0 = 0) ∧
        s1.linalg_div_result = some (vartype.complexmatrix b) ∧ s1.log = s.log) ∧
    (∀ a perm det res left, s.linalg_div_result = some (vartype.complexmatrix res) →
      s.linalg_div_left = some (vartype.complexmatrix left) →
      ∃ b s1, div_cr_completion1 L2 cb ERR_NONE a perm det s
          = L2.lu_backsubst_rc a perm b (div_cr_completion2 cb) s1 ∧
        b.rows = res.rows ∧ b.columns = res.columns ∧ b.data = left.data ∧
        s1.linalg_div_result = some (vartype.complexmatrix b) ∧ s1.log = s.log) ∧
    (∀ a perm det det_im res left, s.linalg_div_result = some (vartype.complexmatrix res) →
      s.linalg_div_left = some (vartype.complexmatrix left) →
      ∃ b s1, div_cc_completion1 L2 cb ERR_NONE a perm det det_im s
          = L2.lu_backsubst_cc a perm b (div_cc_completion2 cb) s1 ∧
        b.rows = res.rows ∧ b.columns = res.columns ∧ b.data = left.data ∧
        s1.linalg_div_result = some (vartype.complexmatrix b) ∧ s1.log = s.log) ∧
    (∀ error, error ≠ ERR_NONE →
      (∀ a perm det, inv_r_completion1 L2 error a perm det s
        = some (error, { s with log := s.log ++
            [event.free obj.inv, event.free obj.lu, event.free obj.perm] })) ∧
      (∀ a perm det det_im, inv_c_completion1 L2 error a perm det det_im s
        = some (error, { s with log := s.log ++
            [event.free obj.inv, event.free obj.lu, event.free obj.perm] })) ∧
      (∀ a perm det, div_rr_completion1 L2 cb error a perm det s
        = some (error, { s with log := s.log ++
            [event.free obj.lu, event.free obj.perm, event.free obj.res] })) ∧
      (∀ a perm det det_im, div_rc_completion1 L2 cb error a perm det det_im s
        = some (error, { s with log := s.log ++
            [event.free obj.lu, event.free obj.perm, event.free obj.res] })) ∧
      (∀ a perm det, div_cr_completion1 L2 cb error a perm det s
        = some (error, { s with log := s.log ++
            [event.free obj.lu, event.free obj.perm, event.free obj.res] })) ∧
      (∀ a perm det det_im, div_cc_completion1 L2 cb error a perm det det_im s
        = some (error, { s with log := s.log ++
            [event.free obj.lu, event.free obj.perm, event.free obj.res] }))) := by
  refine ⟨?_, ?_, ?_, ?_, ?_, ?_, ?_⟩
  · intro a perm det n hn hres
    refine ⟨{ new_realmatrix n n with data := set_diagonal_r n (new_realmatrix n n).data },
      { s with linalg_inv_result := some (vartype.realmatrix
          { new_realmatrix n n with data := set_diagonal_r n (new_realmatrix n n).data }) },
      ?_, rfl, rfl, ?_, ?_, rfl, rfl⟩
    · simp only [inv_r_completion1, ne_eq, not_true_eq_false, if_false, hres, hn]
    · simp [set_diagonal_r_length, new_realmatrix]
    · intro i j hi hj
      exact set_diagonal_r_getD n i j hi hj
  · intro a perm det det_im n hn hres
    refine ⟨{ new_complexmatrix n n with
        data := set_diagonal_c n (new_complexmatrix n n).data },
      { s with linalg_inv_result := some (vartype.complexmatrix
          { new_complexmatrix n n with
            data := set_diagonal_c n (new_complexmatrix n n).data }) },
      ?_, rfl, rfl, ?_, ?_, rfl, rfl⟩
    · simp only [inv_c_completion1, ne_eq, not_true_eq_false, if_false, hres, hn]
    · simp [set_diagonal_c_length, new_complexmatrix]
    · intro i j hi hj
      exact set_diagonal_c_getD n i j hi hj
  · intro a perm det res left hres hleft
    refine ⟨matrix_copy_rr res left,
      { s with linalg_div_result := some (vartype.realmatrix (matrix_copy_rr res left)) },
      ?_, rfl, rfl, rfl, rfl, rfl⟩
    simp only [div_rr_completion1, ne_eq, not_true_eq_false, if_false, hres, hleft]
  · intro a perm det det_im res left hres hleft
    refine ⟨matrix_copy_cr res left,
      { s with linalg_div_result := some (vartype.complexmatrix (matrix_copy_cr res left)) },
      ?_, rfl, rfl, ?_, rfl, rfl⟩
    · simp only [div_rc_completion1, ne_eq, not_true_eq_false, if_false, hres, hleft]
    · intro k
      exact flatMap_pair_getD left.data k
  · intro a perm det res left hres hleft
    refine ⟨matrix_copy_cc res left,
      { s with linalg_div_result := some (vartype.complexmatrix (matrix_copy_cc res left)) },
      ?_, rfl, rfl, rfl, rfl, rfl⟩
    simp only [div_cr_completion1, ne_eq, not_true_eq_false, if_false, hres, hleft]
  · intro a perm det det_im res left hres hleft
    refine ⟨matrix_copy_cc res left,
      { s with linalg_div_result := some (vartype.complexmatrix (matrix_copy_cc res left)) },
      ?_, rfl, rfl, rfl, rfl, rfl⟩
    simp only [div_cc_completion1, ne_eq, not_true_eq_false, if_false, hres, hleft]
  · intro error he
    refine ⟨?_, ?_, ?_, ?_, ?_, ?_⟩ <;> intros <;>
      simp [inv_r_completion1, inv_c_completion1, div_rr_completion1, div_rc_completion1,
        div_cr_completion1, div_cc_completion1, he, div_completion1_error, release]

/-- C33, witness: a division of order 3 whose decomposition succeeded: the
back-substitution gets the copy of the numerator. -/
theorem backsubst_right_hand_side_witness :
    ∃ b s1, div_rr_completion1 linalg2_none cb_id ERR_NONE (new_realmatrix 3 3) [] 0
        st_div_running
        = linalg2_none.lu_backsubst_rr (new_realmatrix 3 3) [] b (div_rr_completion2 cb_id) s1 ∧
      b.rows = 3 ∧ b.columns = 3 ∧ b.data = (new_realmatrix 3 3).data ∧
      s1.linalg_div_result = some (vartype.realmatrix b) ∧ s1.log = st_div_running.log :=
  (backsubst_right_hand_side linalg2_none cb_id st_div_running).2.2.1
    (new_realmatrix 3 3) [] 0 (new_realmatrix 3 3) (new_realmatrix 3 3) rfl rfl

/-- C34. Scaling invariance of `dot_2d` and `ssub`, with exact scalars and
`scalbn(x, e) = x·2^e`, for all inputs and whatever exponents `ilogb` and `p_isinf`
report: `dot_2d(a1, a2, a3, a4, add)` without a scale pointer is `a1·a3 + a2·a4` when
`add` is true and `a1·a3 − a2·a4` when it is false; with a scale pointer the returned
value times `2^scale` is that quantity; and `ssub(x1, s1, x2, s2)` is
`x1·2^s1 − x2·2^s2`. -/
theorem dot_2d_scaling_invariance (env : phloat_env) (a1 a2 a3 a4 x1 x2 : phloat)
    (add : Bool) (s1 s2 : Int) :
    dot_2d env a1 a2 a3 a4 add = (if add then a1 * a3 + a2 * a4 else a1 * a3 - a2 * a4) ∧
    (dot_2d_scale env a1 a2 a3 a4 add).1 * (2 : ℚ) ^ (dot_2d_scale env a1 a2 a3 a4 add).2
      = (if add then a1 * a3 + a2 * a4 else a1 * a3 - a2 * a4) ∧
    ssub x1 s1 x2 s2 = x1 * (2 : ℚ) ^ s1 - x2 * (2 : ℚ) ^ s2 :=
  ⟨dot_2d_exact env a1 a2 a3 a4 add, dot_2d_scale_exact env a1 a2 a3 a4 add,
    ssub_exact x1 s1 x2 s2⟩

/-- C35, the divergence. The divisor `mat_string_two` contains a String element and
`linalg_inv` rejects it with ERR_ALPHA_DATA_IS_INVALID, but `linalg_div` of `[5]` by it
computes the small inverse `[1/2]`, installs the multiply worker and, on the first
re-entry, passes the matrix `[5/2]` to the caller's completion with ERR_NONE: no
ERR_ALPHA_DATA_IS_INVALID is ever reported. -/
theorem linalg_div_string_divisor :
    contains_strings mat_string_two = true ∧
    linalg_inv env_exact linalg2_none (vartype.realmatrix mat_string_two)
      completion_v_ref.caller st_idle = some (ERR_ALPHA_DATA_IS_INVALID, st_idle) ∧
    ∃ st1 stE,
      linalg_div env_exact linalg2_none cb_id (vartype.realmatrix mat_five)
        (vartype.realmatrix mat_string_two) completion_ref.caller st_idle
        = some (ERR_INTERRUPTIBLE, st1) ∧
      st1.small_div_res
        = some (vartype.realmatrix
            { rows := 1, columns := 1, data := [1 / 2], is_string := [false] }) ∧
      reenter env_exact cb_id false st1 = some (ERR_NONE, stE) ∧
      stE.log = [event.free obj.small_div_res,
        event.completion ERR_NONE (some (vartype.realmatrix
          { rows := 1, columns := 1, data := [0 + 1 / 2 * 5], is_string := [false] })),
        event.free obj.dat] := by
  refine ⟨rfl, rfl, ?_⟩
  have h : linalg_div env_exact linalg2_none cb_id (vartype.realmatrix mat_five)
      (vartype.realmatrix mat_string_two) completion_ref.caller st_idle
      = some (ERR_INTERRUPTIBLE,
          { st_idle with
            small_div_res := some (vartype.realmatrix
              { rows := 1, columns := 1, data := [1 / 2], is_string := [false] }),
            small_div_completion := some completion_ref.caller,
            mul_rr_data := some
              { left := { rows := 1, columns := 1, data := [1 / 2], is_string := [false] },
                right := mat_five,
                result := new_realmatrix 1 1,
                i := 0, j := 0, k := 0, sum := 0,
                completion := completion_ref.small_div_completion_2 },
            mode_interruptible := some worker_ref.matrix_mul_rr_worker,
            mode_stoppable := false }) := by
    simp [linalg_div, small_div, small_inv_r, mat_five, mat_string_two, st_idle, env_exact,
      alloc_next, call_completion_v, new_realmatrix, matrix_mul_rr, contains_strings]
  have h2 : ∀ s : core_state, s.mode_interruptible = some worker_ref.matrix_mul_rr_worker →
      s.mul_rr_data = some
        { left := { rows := 1, columns := 1, data := [1 / 2], is_string := [false] },
          right := mat_five,
          result := new_realmatrix 1 1,
          i := 0, j := 0, k := 0, sum := 0,
          completion := completion_ref.small_div_completion_2 } →
      s.small_div_completion = some completion_ref.caller → s.log = [] →
      ∃ stE, reenter env_exact cb_id false s = some (ERR_NONE, stE) ∧
        stE.log = [event.free obj.small_div_res,
          event.completion ERR_NONE (some (vartype.realmatrix
            { rows := 1, columns := 1, data := [0 + 1 / 2 * 5], is_string := [false] })),
          event.free obj.dat] := by
    intro s hm hd hc hl
    have hz : (0 : xphloat) = xphloat.num 0 := rfl
    simp [reenter, hm, matrix_mul_rr_worker, hd, matrix_mul_rr_loop, mat_five, new_realmatrix,
      check_acc, check_sum, xadd, xnum, hz, env_exact, call_completion, release, hc, hl, cb_id]
  have h3 : ∃ st1, linalg_div env_exact linalg2_none cb_id (vartype.realmatrix mat_five)
        (vartype.realmatrix mat_string_two) completion_ref.caller st_idle
        = some (ERR_INTERRUPTIBLE, st1) ∧
      st1.mode_interruptible = some worker_ref.matrix_mul_rr_worker ∧
      st1.mul_rr_data = some
        { left := { rows := 1, columns := 1, data := [1 / 2], is_string := [false] },
          right := mat_five,
          result := new_realmatrix 1 1,
          i := 0, j := 0, k := 0, sum := 0,
          completion := completion_ref.small_div_completion_2 } ∧
      st1.small_div_completion = some completion_ref.caller ∧ st1.log = [] ∧
      st1.small_div_res
        = some (vartype.realmatrix
            { rows := 1, columns := 1, data := [1 / 2], is_string := [false] }) :=
    ⟨_, h, rfl, rfl, rfl, rfl, rfl⟩
  obtain ⟨st1, g1, g2, g3, g4, g5, g6⟩ := h3
  obtain ⟨stE, e1, e2⟩ := h2 st1 g2 g3 g4 g5
  exact ⟨st1, stE, g1, g6, e1, e2⟩

theorem call_small_div_completion_2 (cb : Err → Option vartype → Err) (e : Err)
    (v : Option vartype) (st : core_state)
    (hc : st.small_div_completion = some completion_ref.caller) :
    call_completion cb completion_ref.small_div_completion_2 e v st
      = some (cb e v,
          { st with log := st.log ++ [event.free obj.small_div_res, event.completion e v] }) := by
  simp [call_completion, release, hc]

theorem task_concluded_reenter (env : phloat_env) (cb : Err → Option vartype → Err)
    (interrupted : Bool) (st : core_state) (h : task_concluded st) :
    reenter env cb interrupted st = none := by
  unfold task_concluded at h
  unfold reenter
  rcases hm : st.mode_interruptible with _ | w
  · rfl
  · cases w <;> simp only [hm] at h <;>
      simp [matrix_mul_rr_worker, matrix_mul_rc_worker, matrix_mul_cr_worker,
        matrix_mul_cc_worker, h]

theorem small_div_task_step (env : phloat_env) (cb : Err → Option vartype → Err)
    (interrupted : Bool) (st : core_state) (r : Err × core_state)
    (h : small_div_task st) (hr : reenter env cb interrupted st = some r) :
    (interrupted = false ∧ r.1 = ERR_INTERRUPTIBLE ∧ r.2.log = st.log ∧ small_div_task r.2) ∨
    (task_concluded r.2 ∧ ∃ e v, r.1 = cb e v ∧ small_div_concluded st.log r.2.log e v) := by
  obtain ⟨hc, ht⟩ := h
  have hconc : ∀ (e : Err) (v : Option vartype) (s : core_state) (post : List event),
      (∀ ev, ev ∈ post → ev = event.free obj.dat ∨ ev = event.free obj.dat_result) →
      s.log = st.log ++ [event.free obj.small_div_res, event.completion e v] ++ post →
      small_div_concluded st.log s.log e v := by
    intro e v s post hpost hs
    exact ⟨[], post, by simpa using hs, by simpa using hpost⟩
  unfold reenter at hr
  rcases hm : st.mode_interruptible with _ | w
  · simp [hm] at ht
  cases w
  · simp only [hm] at ht hr
    obtain ⟨dat, hd, hcp⟩ := ht
    simp only [matrix_mul_rr_worker, hd, hcp] at hr
    cases interrupted
    · simp only [Bool.false_eq_true, if_false] at hr
      rcases hloop : matrix_mul_rr_loop env st dat 1000 dat.i dat.j dat.k dat.sum
          dat.result.data with _ | ex
      · simp [hloop] at hr
      rcases ex with ⟨i, j, k, sum, p⟩ | p | p
      · simp only [hloop, Option.some.injEq] at hr
        subst hr
        left
        exact ⟨rfl, rfl, rfl, hc, by simp only [hm]; exact ⟨_, rfl, rfl⟩⟩
      · simp only [hloop] at hr
        simp only [call_small_div_completion_2, hc, Option.some.injEq] at hr
        subst hr
        right
        exact ⟨by simp only [task_concluded, release, hm], _, _, rfl,
          hconc _ _ _ [event.free obj.dat_result, event.free obj.dat] (by simp)
            (by simp [release])⟩
      · simp only [hloop] at hr
        simp only [call_small_div_completion_2, hc, Option.some.injEq] at hr
        subst hr
        right
        exact ⟨by simp only [task_concluded, release, hm], _, _, rfl,
          hconc _ _ _ [event.free obj.dat] (by simp) (by simp [release])⟩
    · simp only [if_true] at hr
      simp only [call_small_div_completion_2, hc, Option.some.injEq] at hr
      subst hr
      right
      exact ⟨by simp only [task_concluded, release, hm], _, _, rfl,
        hconc _ _ _ [event.free obj.dat_result, event.free obj.dat] (by simp)
          (by simp [release])⟩
  · simp only [hm] at ht hr
    obtain ⟨dat, hd, hcp⟩ := ht
    simp only [matrix_mul_rc_worker, hd, hcp] at hr
    cases interrupted
    · simp only [Bool.false_eq_true, if_false] at hr
      rcases hloop : matrix_mul_rc_loop env st dat 1000 dat.i dat.j dat.k dat.sum_re
          dat.sum_im dat.result.data with _ | ex
      · simp [hloop] at hr
      rcases ex with ⟨i, j, k, sum, p⟩ | p | p
      · simp only [hloop, Option.some.injEq] at hr
        subst hr
        left
        exact ⟨rfl, rfl, rfl, hc, by simp only [hm]; exact ⟨_, rfl, rfl⟩⟩
      · simp only [hloop] at hr
        simp only [call_small_div_completion_2, hc, Option.some.injEq] at hr
        subst hr
        right
        exact ⟨by simp only [task_concluded, release, hm], _, _, rfl,
          hconc _ _ _ [event.free obj.dat_result, event.free obj.dat] (by simp)
            (by simp [release])⟩
      · simp only [hloop] at hr
        simp only [call_small_div_completion_2, hc, Option.some.injEq] at hr
        subst hr
        right
        exact ⟨by simp only [task_concluded, release, hm], _, _, rfl,
          hconc _ _ _ [event.free obj.dat] (by simp) (by simp [release])⟩
    · simp only [if_true] at hr
      simp only [call_small_div_completion_2, hc, Option.some.injEq] at hr
      subst hr
      right
      exact ⟨by simp only [task_concluded, release, hm], _, _, rfl,
        hconc _ _ _ [event.free obj.dat_result, event.free obj.dat] (by simp)
          (by simp [release])⟩
  · simp only [hm] at ht hr
    obtain ⟨dat, hd, hcp⟩ := ht
    simp only [matrix_mul_cr_worker, hd, hcp] at hr
    cases interrupted
    · simp only [Bool.false_eq_true, if_false] at hr
      rcases hloop : matrix_mul_cr_loop env st dat 1000 dat.i dat.j dat.k dat.sum_re
          dat.sum_im dat.result.data with _ | ex
      · simp [hloop] at hr
      rcases ex with ⟨i, j, k, sum, p⟩ | p | p
      · simp only [hloop, Option.some.injEq] at hr
        subst hr
        left
        exact ⟨rfl, rfl, rfl, hc, by simp only [hm]; exact ⟨_, rfl, rfl⟩⟩
      · simp only [hloop] at hr
        simp only [call_small_div_completion_2, hc, Option.some.injEq] at hr
        subst hr
        right
        exact ⟨by simp only [task_concluded, release, hm], _, _, rfl,
          hconc _ _ _ [event.free obj.dat_result, event.free obj.dat] (by simp)
            (by simp [release])⟩
      · simp only [hloop] at hr
        simp only [call_small_div_completion_2, hc, Option.some.injEq] at hr
        subst hr
        right
        exact ⟨by simp only [task_concluded, release, hm], _, _, rfl,
          hconc _ _ _ [event.free obj.dat] (by simp) (by simp [release])⟩
    · simp only [if_true] at hr
      simp only [call_small_div_completion_2, hc, Option.some.injEq] at hr
      subst hr
      right
      exact ⟨by simp only [task_concluded, release, hm], _, _, rfl,
        hconc _ _ _ [event.free obj.dat_result, event.free obj.dat] (by simp)
          (by simp [release])⟩
  · simp only [hm] at ht hr
    obtain ⟨dat, hd, hcp⟩ := ht
    simp only [matrix_mul_cc_worker, hd, hcp] at hr
    cases interrupted
    · simp only [Bool.false_eq_true, if_false] at hr
      rcases hloop : matrix_mul_cc_loop env st dat 1000 dat.i dat.j dat.k dat.sum_re
          dat.sum_im dat.result.data with _ | ex
      · simp [hloop] at hr
      rcases ex with ⟨i, j, k, sum, p⟩ | p | p
      · simp only [hloop, Option.some.injEq] at hr
        subst hr
        left
        exact ⟨rfl, rfl, rfl, hc, by simp only [hm]; exact ⟨_, rfl, rfl⟩⟩
      · simp only [hloop] at hr
        simp only [call_small_div_completion_2, hc, Option.some.injEq] at hr
        subst hr
        right
        exact ⟨by simp only [task_concluded, release, hm], _, _, rfl,
          hconc _ _ _ [event.free obj.dat_result, event.free obj.dat] (by simp)
            (by simp [release])⟩
      · simp only [hloop] at hr
        simp only [call_small_div_completion_2, hc, Option.some.injEq] at hr
        subst hr
        right
        exact ⟨by simp only [task_concluded, release, hm], _, _, rfl,
          hconc _ _ _ [event.free obj.dat] (by simp) (by simp [release])⟩
    · simp only [if_true] at hr
      simp only [call_small_div_completion_2, hc, Option.some.injEq] at hr
      subst hr
      right
      exact ⟨by simp only [task_concluded, release, hm], _, _, rfl,
        hconc _ _ _ [event.free obj.dat_result, event.free obj.dat] (by simp)
          (by simp [release])⟩

theorem small_div_task_run (env : phloat_env) (cb : Err → Option vartype → Err) (t : Nat) :
    ∀ (st stt : core_state) (interrupted : Bool) (r : Err × core_state),
      small_div_task st → suspended_after env cb t st = some stt →
      reenter env cb interrupted stt = some r →
      (interrupted = false ∧ r.1 = ERR_INTERRUPTIBLE ∧ r.2.log = st.log) ∨
      (∃ e v, r.1 = cb e v ∧ small_div_concluded st.log r.2.log e v) := by
  induction t with
  | zero =>
    intro st stt interrupted r hst hs hr
    simp only [suspended_after, Option.some.injEq] at hs
    subst hs
    rcases small_div_task_step env cb interrupted st r hst hr with ⟨a, b, c, _⟩ | ⟨_, h⟩
    · exact Or.inl ⟨a, b, c⟩
    · exact Or.inr h
  | succ t ih =>
    intro st stt interrupted r hst hs hr
    simp only [suspended_after] at hs
    rcases h1 : reenter env cb false st with _ | ⟨e1, st1⟩
    · simp [h1] at hs
    · by_cases he : e1 = ERR_INTERRUPTIBLE
      · subst he
        simp only [h1] at hs
        rcases small_div_task_step env cb false st _ hst h1 with ⟨_, _, c, d⟩ | ⟨hdead, _⟩
        · have := ih st1 stt interrupted r d hs hr
          rw [show st1.log = st.log from c] at this
          exact this
        · have hnone := task_concluded_reenter env cb
          cases t with
          | zero =>
            simp only [suspended_after, Option.some.injEq] at hs
            subst hs
            rw [hnone interrupted st1 hdead] at hr
            cases hr
          | succ t =>
            simp only [suspended_after, hnone false st1 hdead] at hs
            cases hs
      · cases e1 <;> first | exact absurd rfl he | simp [h1] at hs

theorem linalg_mul_small_div_start (cb : Err → Option vartype → Err) (X left : vartype)
    (s : core_state) (r : Err × core_state)
    (hc : s.small_div_completion = some completion_ref.caller)
    (hr : linalg_mul cb X left completion_ref.small_div_completion_2 s = some r) :
    (r.1 = ERR_INTERRUPTIBLE ∧ r.2.log = s.log ∧ small_div_task r.2) ∨
    (∃ e, r.1 = cb e none ∧ small_div_concluded s.log r.2.log e none) := by
  have hfail : ∀ (e : Err) (s1 : core_state),
      call_completion cb completion_ref.small_div_completion_2 e none s1 = some r →
      ∀ (pre : List event),
      s1.small_div_completion = some completion_ref.caller → s1.log = s.log ++ pre →
      (∀ ev, ev ∈ pre → ev = event.free obj.dat ∨ ev = event.free obj.dat_result) →
      (r.1 = ERR_INTERRUPTIBLE ∧ r.2.log = s.log ∧ small_div_task r.2) ∨
      (∃ e, r.1 = cb e none ∧ small_div_concluded s.log r.2.log e none) := by
    intro e s1 h4 pre h1 h2 h3
    rw [call_small_div_completion_2 cb e none s1 h1, Option.some.injEq] at h4
    subst h4
    right
    exact ⟨e, rfl, pre, [], by simp [h2], by simpa using h3⟩
  unfold linalg_mul at hr
  split at hr
  · simp only [matrix_mul_rr] at hr
    split_ifs at hr
    · exact hfail _ _ hr [] hc (by simp) (by simp)
    · exact hfail _ _ hr [] hc (by simp) (by simp)
    · exact hfail _ _ hr [] hc (by simp [alloc_next]) (by simp)
    · exact hfail _ _ hr [event.free obj.dat] hc (by simp [alloc_next, release]) (by simp)
    · simp only [Option.some.injEq] at hr
      subst hr
      exact Or.inl ⟨rfl, rfl, hc, ⟨_, rfl, rfl⟩⟩
  · simp only [matrix_mul_rc] at hr
    split_ifs at hr
    · exact hfail _ _ hr [] hc (by simp) (by simp)
    · exact hfail _ _ hr [] hc (by simp) (by simp)
    · exact hfail _ _ hr [] hc (by simp [alloc_next]) (by simp)
    · exact hfail _ _ hr [event.free obj.dat] hc (by simp [alloc_next, release]) (by simp)
    · simp only [Option.some.injEq] at hr
      subst hr
      exact Or.inl ⟨rfl, rfl, hc, ⟨_, rfl, rfl⟩⟩
  · simp only [matrix_mul_cr] at hr
    split_ifs at hr
    · exact hfail _ _ hr [] hc (by simp) (by simp)
    · exact hfail _ _ hr [] hc (by simp) (by simp)
    · exact hfail _ _ hr [] hc (by simp [alloc_next]) (by simp)
    · exact hfail _ _ hr [event.free obj.dat] hc (by simp [alloc_next, release]) (by simp)
    · simp only [Option.some.injEq] at hr
      subst hr
      exact Or.inl ⟨rfl, rfl, hc, ⟨_, rfl, rfl⟩⟩
  · simp only [matrix_mul_cc] at hr
    split_ifs at hr
    · exact hfail _ _ hr [] hc (by simp) (by simp)
    · exact hfail _ _ hr [] hc (by simp [alloc_next]) (by simp)
    · exact hfail _ _ hr [event.free obj.dat] hc (by simp [alloc_next, release]) (by simp)
    · simp only [Option.some.injEq] at hr
      subst hr
      exact Or.inl ⟨rfl, rfl, hc, ⟨_, rfl, rfl⟩⟩
  · cases hr

/-- C36. Operand order of the small division.  Let the divisor `right` be a square
matrix of order `left.rows ≤ 2` whose small inverse has handed the matrix `X` to
`small_div_completion_1`, in the state `s0`.  Then
(1) `linalg_div(left, right, completion)` is the multiplication `X × left`, the inverse
being the left factor, started with the completion `small_div_completion_2`;
(2) if it does not suspend, it has concluded by releasing the temporary inverse once
and calling the caller's completion once, with a null result;
(3) while the worker is suspended every further invocation, interrupted or not, either
suspends again with nothing released or reported, or concludes (success, range error
or cancellation) by releasing the temporary inverse exactly once and calling the
caller's completion exactly once;
(4) for a well-formed numeric numerator, exact scalars and successful allocation the
worker finishes and the caller's completion receives a `left.rows × left.columns`
matrix whose entries are those of `X × left`, the log gaining exactly the release of
the temporary inverse, that call and the release of the progress record. -/
theorem small_div_operand_order (env : phloat_env) (cb : Err → Option vartype → Err)
    (L2 : linalg2) (st : core_state) (left right X : vartype) (s0 : core_state)
    (hl : (∃ m, left = vartype.realmatrix m) ∨ ∃ m, left = vartype.complexmatrix m)
    (hrows : mat_rows right = mat_rows left) (hcols : mat_columns right = mat_rows left)
    (h12 : mat_rows right ≤ 2)
    (hinv : (∃ ma Xr, right = vartype.realmatrix ma ∧ X = vartype.realmatrix Xr ∧
        small_inv_r env ma completion_v_ref.small_div_completion_1 st
          = some (ERR_NONE, call_completion_v completion_v_ref.small_div_completion_1 X s0)) ∨
      (∃ ma Xc, right = vartype.complexmatrix ma ∧ X = vartype.complexmatrix Xc ∧
        small_inv_c env ma completion_v_ref.small_div_completion_1 st
          = some (ERR_NONE, call_completion_v completion_v_ref.small_div_completion_1 X s0))) :
    linalg_div env L2 cb left right completion_ref.caller st
      = linalg_mul cb X left completion_ref.small_div_completion_2
          { s0 with small_div_res := some X,
                    small_div_completion := some completion_ref.caller } ∧
    (∀ r, linalg_div env L2 cb left right completion_ref.caller st = some r →
      (r.1 = ERR_INTERRUPTIBLE ∧ r.2.log = s0.log) ∨
      (∃ e, r.1 = cb e none ∧ small_div_concluded s0.log r.2.log e none)) ∧
    (∀ st1, linalg_div env L2 cb left right completion_ref.caller st
        = some (ERR_INTERRUPTIBLE, st1) → st1.log = s0.log →
      ∀ (t : Nat) (stt : core_state) (interrupted : Bool) (r : Err × core_state),
        suspended_after env cb t st1 = some stt →
        reenter env cb interrupted stt = some r →
        (interrupted = false ∧ r.1 = ERR_INTERRUPTIBLE ∧ r.2.log = s0.log) ∨
        (∃ e v, r.1 = cb e v ∧ small_div_concluded s0.log r.2.log e v)) ∧
    (mat_wf left → mat_wf X → mat_rows X = mat_rows left → mat_columns X = mat_rows left →
      (∀ b, b ∈ s0.alloc → b = true) → (∀ x, env.p_isinf x = 0) →
      ∃ st1 N stN D stE,
        linalg_div env L2 cb left right completion_ref.caller st
          = some (ERR_INTERRUPTIBLE, st1) ∧
        suspended_after env cb N st1 = some stN ∧
        reenter env cb false stN = some (cb ERR_NONE (some D), stE) ∧
        mat_rows D = mat_rows left ∧ mat_columns D = mat_columns left ∧
        (∀ i j, i < mat_rows left → j < mat_columns left →
          mat_entry D i j = product_entry X left i j) ∧
        stE.log = s0.log ++ [event.free obj.small_div_res,
          event.completion ERR_NONE (some D), event.free obj.dat]) := by
  have hsmall : linalg_div env L2 cb left right completion_ref.caller st
      = small_div env cb left right completion_ref.caller st := by
    rcases hl with ⟨l, rfl⟩ | ⟨l, rfl⟩ <;>
      rcases hinv with ⟨r, _, rfl, _, _⟩ | ⟨r, _, rfl, _, _⟩ <;>
      simp only [mat_columns, mat_rows] at hrows hcols h12 <;>
      (have hb2 : l.rows ≤ 2 := by omega) <;>
      simp [linalg_div, hrows, hcols, hb2]
  have hmul := small_div_eq_mul env cb left right X s0 hl st hinv
  have hdiv := hsmall.trans hmul
  have hstart := fun r => linalg_mul_small_div_start cb X left
    { s0 with small_div_res := some X, small_div_completion := some completion_ref.caller }
    r rfl
  refine ⟨hdiv, ?_, ?_, ?_⟩
  · intro r hr
    rw [hdiv] at hr
    rcases hstart r hr with ⟨a, b, _⟩ | h
    · exact Or.inl ⟨a, b⟩
    · exact Or.inr h
  · intro st1 h1 hlog t stt interrupted r hs hr
    rw [hdiv] at h1
    rcases hstart _ h1 with ⟨_, _, htask⟩ | ⟨e, _, pre, post, hp, _⟩
    · have := small_div_task_run env cb t st1 stt interrupted r htask hs hr
      rw [hlog] at this
      exact this
    · exfalso
      have hlen := congrArg List.length hp
      have hlog2 : st1.log = s0.log := hlog
      simp only [hlog2, List.length_append, List.length_cons, List.length_nil] at hlen
      omega
  · intro hwl hX hXr hXc hall hfin
    obtain ⟨st1, N, stN, D, stF, m1, m2, m3, m4, m5, m6, m7, m8, m9⟩ :=
      linalg_mul_run env cb
        { s0 with small_div_res := some X, small_div_completion := some completion_ref.caller }
        X left completion_ref.small_div_completion_2 hX hwl hXc hall hfin
    obtain ⟨stE, n1, n2⟩ := m4 _ (call_small_div_completion_2 cb ERR_NONE (some D) stF m6)
    refine ⟨st1, N, stN, D, stE, by rw [hdiv, m1], m2, n1, by rw [m7, hXr], m8,
      fun i j hi hj => m9 i j (by rw [hXr]; exact hi) hj, ?_⟩
    rw [n2]
    simp [m5]

/-- C36, witness: `[[1, 2], [3, 4]]` divided by `[[1, 1], [0, 1]]`, whose small inverse
is `[[1, -1], [0, 1]]`. -/
theorem small_div_operand_order_witness :
    linalg_div env_exact linalg2_none cb_id (vartype.realmatrix mat_1234)
        (vartype.realmatrix mat_1101) completion_ref.caller st_idle
      = linalg_mul cb_id (vartype.realmatrix mat_1101_inv) (vartype.realmatrix mat_1234)
          completion_ref.small_div_completion_2
          { st_small_inverted with
            small_div_res := some (vartype.realmatrix mat_1101_inv),
            small_div_completion := some completion_ref.caller } :=
  (small_div_operand_order env_exact cb_id linalg2_none st_idle (vartype.realmatrix mat_1234)
    (vartype.realmatrix mat_1101) (vartype.realmatrix mat_1101_inv) st_small_inverted
    (Or.inl ⟨_, rfl⟩) rfl rfl (by decide)
    (Or.inl ⟨mat_1101, mat_1101_inv, rfl, rfl,
      small_inv_r_two_state env_exact mat_1101 st_idle 1 1 0 1 rfl rfl rfl (by norm_num)
        (fun _ => rfl) (by simp [st_idle]) completion_v_ref.small_div_completion_1⟩)).1

theorem det_range_eq (env : phloat_env) (st : core_state) (x : phloat) :
    det_range env st x
      = if env.p_isinf x ≠ 0 ∧ st.range_error_ignore = false then (ERR_OUT_OF_RANGE, x)
        else (ERR_NONE, clamp env x) := by
  simp only [det_range, clamp]
  by_cases h : env.p_isinf x = 0
  · simp [h]
  · cases hi : st.range_error_ignore <;> simp [h]

/-- C37. The overflow handling of the determinant reads `flags.f.range_error_ignore`
only.  With exact scalars, for a real 2×2 matrix of data `[a, b, c, d]`, `small_det_r`
returns ERR_OUT_OF_RANGE, with the unclamped value, when `a·d − b·c` is infinite and
`range_error_ignore` is off, and otherwise ERR_NONE with the value clamped to
POS_HUGE_PHLOAT or NEG_HUGE_PHLOAT by sign; `small_det_c` does the same for the two
components, the real part first; `det_r_completion` and `det_c_completion`, given
ERR_NONE by the decomposition, return ERR_OUT_OF_RANGE without calling the completion
when a component is infinite and the flag is off, and otherwise pass the clamped
determinant to the completion.  None of the four outcomes changes when
`core_settings.matrix_outofrange` is changed. -/
theorem det_overflow_policy (env : phloat_env) (st : core_state) :
    (∀ (m : vartype_realmatrix) (a b c d : phloat), m.rows = 2 → m.data = [a, b, c, d] →
      small_det_r env st m
        = some (if env.p_isinf (a * d - b * c) ≠ 0 ∧ st.range_error_ignore = false
            then (ERR_OUT_OF_RANGE, a * d - b * c)
            else (ERR_NONE, clamp env (a * d - b * c)))) ∧
    (∀ (m : vartype_complexmatrix) (a0 a1 a2 a3 a4 a5 a6 a7 : phloat), m.rows = 2 →
      m.data = [a0, a1, a2, a3, a4, a5, a6, a7] →
      small_det_c env st m
        = some (
            if env.p_isinf ((a0 * a6 - a1 * a7) - (a2 * a4 - a3 * a5)) ≠ 0 ∧
                st.range_error_ignore = false
            then (ERR_OUT_OF_RANGE, (a0 * a6 - a1 * a7) - (a2 * a4 - a3 * a5),
              (a0 * a7 + a1 * a6) - (a2 * a5 + a3 * a4))
            else if env.p_isinf ((a0 * a7 + a1 * a6) - (a2 * a5 + a3 * a4)) ≠ 0 ∧
                st.range_error_ignore = false
            then (ERR_OUT_OF_RANGE, clamp env ((a0 * a6 - a1 * a7) - (a2 * a4 - a3 * a5)),
              (a0 * a7 + a1 * a6) - (a2 * a5 + a3 * a4))
            else (ERR_NONE, clamp env ((a0 * a6 - a1 * a7) - (a2 * a4 - a3 * a5)),
              clamp env ((a0 * a7 + a1 * a6) - (a2 * a5 + a3 * a4))))) ∧
    (∀ (det : phloat) (c : completion_v_ref), st.linalg_det_completion = some c →
      (alloc_next st).1 = true →
      ∃ st2, st2.log = st.log ++ [event.free obj.lu, event.free obj.perm] ∧
        det_r_completion env ERR_NONE det st
          = some (if env.p_isinf det ≠ 0 ∧ st.range_error_ignore = false
              then (ERR_OUT_OF_RANGE, st2)
              else (ERR_NONE,
                call_completion_v c (vartype.real (clamp env det)) (alloc_next st2).2))) ∧
    (∀ (det_re det_im : phloat) (c : completion_v_ref), st.linalg_det_completion = some c →
      (alloc_next st).1 = true →
      ∃ st2, st2.log = st.log ++ [event.free obj.lu, event.free obj.perm] ∧
        det_c_completion env ERR_NONE det_re det_im st
          = some (if (env.p_isinf det_re ≠ 0 ∨ env.p_isinf det_im ≠ 0) ∧
                st.range_error_ignore = false
              then (ERR_OUT_OF_RANGE, st2)
              else (ERR_NONE,
                call_completion_v c (vartype.complex (clamp env det_re) (clamp env det_im))
                  (alloc_next st2).2))) ∧
    (∀ (b : Bool),
      (∀ m, small_det_r env { st with matrix_outofrange := b } m = small_det_r env st m) ∧
      (∀ m, small_det_c env { st with matrix_outofrange := b } m = small_det_c env st m) ∧
      (∀ error det, det_r_completion env error det { st with matrix_outofrange := b }
        = (det_r_completion env error det st).map
            (fun r => (r.1, { r.2 with matrix_outofrange := b }))) ∧
      (∀ error det_re det_im,
        det_c_completion env error det_re det_im { st with matrix_outofrange := b }
        = (det_c_completion env error det_re det_im st).map
            (fun r => (r.1, { r.2 with matrix_outofrange := b })))) := by
  refine ⟨?_, ?_, ?_, ?_, ?_⟩
  · intro m a b c d hr hd
    have hr1 : ¬ m.rows = 1 := by omega
    simp only [small_det_r, hr1, if_false, hd, List.getElem?_cons_zero,
      List.getElem?_cons_succ, dot_2d_exact, Bool.false_eq_true, det_range_eq]
  · intro m a0 a1 a2 a3 a4 a5 a6 a7 hr hd
    have hr1 : ¬ m.rows = 1 := by omega
    have e1 := dot_2d_scale_exact env a0 a1 a6 a7 false
    have e2 := dot_2d_scale_exact env a0 a1 a7 a6 true
    have e3 := dot_2d_scale_exact env a2 a3 a4 a5 false
    have e4 := dot_2d_scale_exact env a2 a3 a5 a4 true
    simp only [Bool.false_eq_true, if_false, if_true] at e1 e2 e3 e4
    simp only [small_det_c, hr1, if_false, hd, List.getElem?_cons_zero,
      List.getElem?_cons_succ, ssub_exact, e1, e2, e3, e4, det_range_eq]
    generalize (a0 * a6 - a1 * a7) - (a2 * a4 - a3 * a5) = dre
    generalize (a0 * a7 + a1 * a6) - (a2 * a5 + a3 * a4) = dim
    by_cases h1 : env.p_isinf dre ≠ 0 ∧ st.range_error_ignore = false
    · simp [h1]
    · by_cases h2 : env.p_isinf dim ≠ 0 ∧ st.range_error_ignore = false
      · have h3 : env.p_isinf dre = 0 := by
          by_contra hh
          exact h1 ⟨hh, h2.2⟩
        simp [h2, h3]
      · simp [h1, h2]
  · intro det c hc ha
    refine ⟨release obj.perm (release obj.lu
      { st with matrix_singularmatrix := st.linalg_det_prev_sm_err }), by simp [release], ?_⟩
    have hc2 : (alloc_next (release obj.perm (release obj.lu
        { st with matrix_singularmatrix := st.linalg_det_prev_sm_err }))).2.linalg_det_completion
        = some c := hc
    have ha2 : (alloc_next (release obj.perm (release obj.lu
        { st with matrix_singularmatrix := st.linalg_det_prev_sm_err }))).1 = true := ha
    have hi : (release obj.perm (release obj.lu
        { st with matrix_singularmatrix := st.linalg_det_prev_sm_err })).range_error_ignore
        = st.range_error_ignore := rfl
    simp only [det_r_completion, hc2, ha2, hi, clamp]
    by_cases h : env.p_isinf det = 0
    · simp [h]
    · cases hr : st.range_error_ignore <;> simp [h]
  · intro det_re det_im c hc ha
    refine ⟨release obj.perm (release obj.lu
      { st with matrix_singularmatrix := st.linalg_det_prev_sm_err }), by simp [release], ?_⟩
    have hc2 : (alloc_next (release obj.perm (release obj.lu
        { st with matrix_singularmatrix := st.linalg_det_prev_sm_err }))).2.linalg_det_completion
        = some c := hc
    have ha2 : (alloc_next (release obj.perm (release obj.lu
        { st with matrix_singularmatrix := st.linalg_det_prev_sm_err }))).1 = true := ha
    have hi : (release obj.perm (release obj.lu
        { st with matrix_singularmatrix := st.linalg_det_prev_sm_err })).range_error_ignore
        = st.range_error_ignore := rfl
    simp only [det_c_completion, hc2, ha2, hi, clamp]
    by_cases h : env.p_isinf det_re = 0 <;> by_cases h2 : env.p_isinf det_im = 0 <;>
      cases hr : st.range_error_ignore <;> simp [h, h2]
  · intro b
    refine ⟨fun m => rfl, fun m => rfl, ?_, ?_⟩
    · intro error det
      have key : ∀ e2 : Err × phloat,
          (if e2.1 = ERR_NONE then
            let a := alloc_next (release obj.perm (release obj.lu
              { ({ st with matrix_outofrange := b } : core_state) with
                matrix_singularmatrix := st.linalg_det_prev_sm_err }))
            if !a.1 then some (ERR_INSUFFICIENT_MEMORY, a.2)
            else
              match a.2.linalg_det_completion with
              | none => none
              | some c => some (ERR_NONE, call_completion_v c (vartype.real e2.2) a.2)
          else some (e2.1, release obj.perm (release obj.lu
              { ({ st with matrix_outofrange := b } : core_state) with
                matrix_singularmatrix := st.linalg_det_prev_sm_err })))
          = (if e2.1 = ERR_NONE then
            let a := alloc_next (release obj.perm (release obj.lu
              { st with matrix_singularmatrix := st.linalg_det_prev_sm_err }))
            if !a.1 then some (ERR_INSUFFICIENT_MEMORY, a.2)
            else
              match a.2.linalg_det_completion with
              | none => none
              | some c => some (ERR_NONE, call_completion_v c (vartype.real e2.2) a.2)
          else some (e2.1, release obj.perm (release obj.lu
              { st with matrix_singularmatrix := st.linalg_det_prev_sm_err }))).map
            (fun r => (r.1, { r.2 with matrix_outofrange := b })) := by
        intro e2
        by_cases h : e2.1 = ERR_NONE
        · simp only [if_pos h, alloc_next, release]
          rcases st.alloc.headD true with _ | _
          · rfl
          · rcases hc : st.linalg_det_completion with _ | c
            · simp [hc]
            · cases c <;> simp [hc, call_completion_v]
        · simp only [if_neg h]
          rfl
      exact key _
    · intro error det_re det_im
      have key : ∀ e2 : Err × phloat × phloat,
          (if e2.1 = ERR_NONE then
            let a := alloc_next (release obj.perm (release obj.lu
              { ({ st with matrix_outofrange := b } : core_state) with
                matrix_singularmatrix := st.linalg_det_prev_sm_err }))
            if !a.1 then some (ERR_INSUFFICIENT_MEMORY, a.2)
            else
              match a.2.linalg_det_completion with
              | none => none
              | some c =>
                some (ERR_NONE, call_completion_v c (vartype.complex e2.2.1 e2.2.2) a.2)
          else some (e2.1, release obj.perm (release obj.lu
              { ({ st with matrix_outofrange := b } : core_state) with
                matrix_singularmatrix := st.linalg_det_prev_sm_err })))
          = (if e2.1 = ERR_NONE then
            let a := alloc_next (release obj.perm (release obj.lu
              { st with matrix_singularmatrix := st.linalg_det_prev_sm_err }))
            if !a.1 then some (ERR_INSUFFICIENT_MEMORY, a.2)
            else
              match a.2.linalg_det_completion with
              | none => none
              | some c =>
                some (ERR_NONE, call_completion_v c (vartype.complex e2.2.1 e2.2.2) a.2)
          else some (e2.1, release obj.perm (release obj.lu
              { st with matrix_singularmatrix := st.linalg_det_prev_sm_err }))).map
            (fun r => (r.1, { r.2 with matrix_outofrange := b })) := by
        intro e2
        by_cases h : e2.1 = ERR_NONE
        · simp only [if_pos h, alloc_next, release]
          rcases st.alloc.headD true with _ | _
          · rfl
          · rcases hc : st.linalg_det_completion with _ | c
            · simp [hc]
            · cases c <;> simp [hc, call_completion_v]
        · simp only [if_neg h]
          rfl
      exact key _

/-- C37, witness: with `matrix_outofrange` off and `range_error_ignore` off, the
determinant 400 of `[[20, 0], [0, 20]]`, infinite in `env_small`, is reported as
ERR_OUT_OF_RANGE by `small_det_r`. -/
theorem det_overflow_policy_witness :
    st_no_range_error.matrix_outofrange = false ∧
    small_det_r env_small st_no_range_error mat_twenty
      = some (if env_small.p_isinf (20 * 20 - 0 * 0) ≠ 0 ∧
            st_no_range_error.range_error_ignore = false
          then (ERR_OUT_OF_RANGE, 20 * 20 - 0 * 0)
          else (ERR_NONE, clamp env_small (20 * 20 - 0 * 0))) ∧
    env_small.p_isinf (20 * 20 - 0 * 0) = 1 :=
  ⟨rfl, (det_overflow_policy env_small st_no_range_error).1 mat_twenty 20 0 0 20 rfl rfl,
    by norm_num [env_small]⟩

/-- The control flow of the 2×2 small inverse after the determinant routine has
returned: only the determinant value is tested, the outcome is that of the division. -/
theorem small_inv_flow (env : phloat_env) (cp : completion_v_ref)
    (st : core_state) (e : Err) :
    (∀ (ma : vartype_realmatrix) (det : phloat), ma.rows = 2 →
      small_det_r env st ma = some (e, det) →
      (det = 0 → st.matrix_singularmatrix = true →
        small_inv_r env ma cp st = some (ERR_SINGULAR_MATRIX, st)) ∧
      (det ≠ 0 → (alloc_next st).1 = true →
        ∀ g, generic_div env (vartype.real det) (vartype.realmatrix ma)
            { (alloc_next st).2 with
              range_error_ignore := inv_range_error_ignore (alloc_next st).2 } = some g →
          (g.1 ≠ ERR_NONE → ∃ s, small_inv_r env ma cp st = some (g.1, s)) ∧
          (g.1 = ERR_NONE → ∀ r d0 d1 d2 d3, g.2.1 = some (vartype.realmatrix r) →
            r.data = [d0, d1, d2, d3] →
            ∃ s, small_inv_r env ma cp st
              = some (ERR_NONE, call_completion_v cp
                  (vartype.realmatrix { r with data := [d3, -d1, -d2, d0] }) s)))) ∧
    (∀ (ma : vartype_complexmatrix) (dre dim : phloat), ma.rows = 2 →
      small_det_c env st ma = some (e, dre, dim) →
      (dre = 0 ∧ dim = 0 → st.matrix_singularmatrix = true →
        small_inv_c env ma cp st = some (ERR_SINGULAR_MATRIX, st)) ∧
      (¬ (dre = 0 ∧ dim = 0) → (alloc_next st).1 = true →
        ∀ g, generic_div env (vartype.complex dre dim) (vartype.complexmatrix ma)
            { (alloc_next st).2 with
              range_error_ignore := inv_range_error_ignore (alloc_next st).2 } = some g →
          (g.1 ≠ ERR_NONE → ∃ s, small_inv_c env ma cp st = some (g.1, s)) ∧
          (g.1 = ERR_NONE → ∀ r d0 d1 d2 d3 d4 d5 d6 d7,
            g.2.1 = some (vartype.complexmatrix r) →
            r.data = [d0, d1, d2, d3, d4, d5, d6, d7] →
            ∃ s, small_inv_c env ma cp st
              = some (ERR_NONE, call_completion_v cp
                  (vartype.complexmatrix
                    { r with data := [d6, d7, -d2, -d3, -d4, -d5, d0, d1] }) s)))) := by
  constructor
  · intro ma det hr hdet
    have hr1 : ¬ ma.rows = 1 := by omega
    refine ⟨?_, ?_⟩
    · intro h0 hs
      simp [small_inv_r, hr1, hdet, h0, hs]
    · intro h0 ha g hg
      refine ⟨?_, ?_⟩
      · intro hg1
        refine ⟨release obj.d
          { ({ g.2.2 with small_inv_res := g.2.1 } : core_state) with
            range_error_ignore := (alloc_next st).2.range_error_ignore }, ?_⟩
        simp only [small_inv_r, hr1, if_false, hdet, h0, ha, Bool.not_true, Bool.false_eq_true,
          hg, hg1, ne_eq, not_false_eq_true, if_true]
      · intro hg1 r d0 d1 d2 d3 hres hd
        exact ⟨_, by
          simp only [small_inv_r, hr1, if_false, hdet, h0, ha, Bool.not_true, Bool.false_eq_true,
            hg, hg1, ne_eq, not_true_eq_false, hres, hd, List.getElem?_cons_zero,
            List.getElem?_cons_succ]
          rfl⟩
  · intro ma dre dim hr hdet
    have hr1 : ¬ ma.rows = 1 := by omega
    refine ⟨?_, ?_⟩
    · intro h0 hs
      simp [small_inv_c, hr1, hdet, h0, hs]
    · intro h0 ha g hg
      refine ⟨?_, ?_⟩
      · intro hg1
        refine ⟨release obj.d
          { ({ g.2.2 with small_inv_res := g.2.1 } : core_state) with
            range_error_ignore := (alloc_next st).2.range_error_ignore }, ?_⟩
        simp only [small_inv_c, hr1, if_false, hdet, h0, ha, Bool.not_true, Bool.false_eq_true,
          hg, hg1, ne_eq, not_false_eq_true, if_true]
      · intro hg1 r d0 d1 d2 d3 d4 d5 d6 d7 hres hd
        exact ⟨_, by
          simp only [small_inv_c, hr1, if_false, hdet, h0, ha, Bool.not_true, Bool.false_eq_true,
            hg, hg1, ne_eq, not_true_eq_false, hres, hd, List.getElem?_cons_zero,
            List.getElem?_cons_succ]
          rfl⟩


theorem det_range_err (env : phloat_env) (st : core_state) (r : phloat)
    (h : (det_range env st r).1 ≠ ERR_NONE) :
    env.p_isinf r ≠ 0 ∧ det_range env st r = (ERR_OUT_OF_RANGE, r) := by
  unfold det_range at h ⊢
  by_cases h0 : env.p_isinf r = 0
  · simp [h0] at h
  · cases hrei : st.range_error_ignore
    · simp [h0, hrei]
    · simp [h0, hrei] at h

theorem xnum_of_infinite (env : phloat_env) (x : phloat) (h : env.p_isinf x ≠ 0) :
    ∃ s, xnum env x = xphloat.inf s := by
  unfold xnum
  by_cases h1 : 0 < env.p_isinf x
  · exact ⟨false, by simp [h1]⟩
  · have h2 : env.p_isinf x < 0 := by omega
    exact ⟨true, by simp [h1, h2]⟩

theorem xnum_cases (env : phloat_env) (x : phloat) :
    xnum env x = xphloat.num x ∨ ∃ s, xnum env x = xphloat.inf s := by
  by_cases h : env.p_isinf x = 0
  · exact Or.inl (xnum_of_finite env x h)
  · exact Or.inr (xnum_of_infinite env x h)

theorem x_range_div_inf (env : phloat_env) (st : core_state) (e : phloat) (s : Bool)
    (h0 : env.p_isinf 0 = 0) :
    x_range env st (xdiv env (xphloat.num e) (xphloat.inf s)) = (ERR_NONE, 0) := by
  simp [xdiv, x_range, det_range, h0]

theorem xden_inf (env : phloat_env) (dre dim : phloat)
    (h : env.p_isinf dre ≠ 0 ∨ env.p_isinf dim ≠ 0) :
    (∃ s, xadd env (xmul env (xnum env dre) (xnum env dre))
        (xmul env (xnum env dim) (xnum env dim)) = xphloat.inf s) ∨
      xadd env (xmul env (xnum env dre) (xnum env dre))
        (xmul env (xnum env dim) (xnum env dim)) = xphloat.nan := by
  have hsq : ∀ x : phloat, (∃ y, xmul env (xnum env x) (xnum env x) = xphloat.num y) ∨
      ∃ s, xmul env (xnum env x) (xnum env x) = xphloat.inf s := by
    intro x
    rcases xnum_cases env x with hx | ⟨s, hx⟩
    · rw [hx]
      simp only [xmul]
      rcases xnum_cases env (x * x) with hy | hy
      · exact Or.inl ⟨_, hy⟩
      · exact Or.inr hy
    · rw [hx]
      exact Or.inr ⟨_, rfl⟩
  have hsq_inf : ∀ x : phloat, env.p_isinf x ≠ 0 →
      ∃ s, xmul env (xnum env x) (xnum env x) = xphloat.inf s := by
    intro x hx
    obtain ⟨s, hs⟩ := xnum_of_infinite env x hx
    rw [hs]
    exact ⟨_, rfl⟩
  rcases h with h | h
  · obtain ⟨s, hs⟩ := hsq_inf dre h
    rw [hs]
    rcases hsq dim with ⟨y, hy⟩ | ⟨t, ht⟩
    · rw [hy]
      exact Or.inl ⟨s, rfl⟩
    · rw [ht]
      simp only [xadd]
      split_ifs
      · exact Or.inl ⟨s, rfl⟩
      · exact Or.inr rfl
  · obtain ⟨s, hs⟩ := hsq_inf dim h
    rw [hs]
    rcases hsq dre with ⟨y, hy⟩ | ⟨t, ht⟩
    · rw [hy]
      exact Or.inl ⟨s, rfl⟩
    · rw [ht]
      simp only [xadd]
      split_ifs
      · exact Or.inl ⟨t, rfl⟩
      · exact Or.inr rfl

theorem x_range_div_den (env : phloat_env) (st : core_state) (x den : xphloat)
    (hden : (∃ s, den = xphloat.inf s) ∨ den = xphloat.nan) (h0 : env.p_isinf 0 = 0) :
    (x_range env st (xdiv env x den)).1 = ERR_NONE := by
  rcases hden with ⟨s, rfl⟩ | rfl
  · cases x with
    | num a => simp [xdiv, x_range, det_range, h0]
    | inf t => simp [xdiv, x_range]
    | nan => simp [xdiv, x_range]
  · cases x with
    | num a => simp [xdiv, x_range]
    | inf t => simp [xdiv, x_range]
    | nan => simp [xdiv, x_range]

theorem generic_div_c_inf (env : phloat_env) (s : core_state) (dre dim : phloat)
    (ma : vartype_complexmatrix) (hne : ¬ (dre = 0 ∧ dim = 0))
    (hinf : env.p_isinf dre ≠ 0 ∨ env.p_isinf dim ≠ 0) (h0 : env.p_isinf 0 = 0)
    (ha : (alloc_next s).1 = true) :
    ∃ data : List phloat, data.length = ma.data.length ∧
      generic_div env (vartype.complex dre dim) (vartype.complexmatrix ma) s
        = some (ERR_NONE, some (vartype.complexmatrix { ma with data := data }),
            (alloc_next s).2) := by
  have hden := xden_inf env dre dim hinf
  simp only [generic_div, hne, if_false]
  rw [if_neg]
  · simp only [ha, Bool.not_true, Bool.false_eq_true, if_false]
    exact ⟨_, by simp, rfl⟩
  · simp only [List.any_eq_true, not_exists, not_and, List.mem_map, List.mem_range,
      bne_iff_ne, ne_eq, not_not]
    rintro r ⟨idx, _, rfl⟩
    split_ifs
    · exact x_range_div_den env s _ _ hden h0
    · exact x_range_div_den env s _ _ hden h0

/-- C38. The 2×2 small inverse discards the error code of the determinant.  Let
`small_det_r` (`small_det_c`) return the code `e`, whatever it is, with the value
`det` (`dre`, `dim`) for a matrix of two rows.  (1), (2): if the value is zero and the
singular-matrix setting is on the inverse returns ERR_SINGULAR_MATRIX; if it is not
zero and the scalar is allocated, the inverse calls `generic_div(det, ma)` with
`range_error_ignore` set to `!matrix_outofrange || range_error_ignore`; when that
division succeeds the inverse returns ERR_NONE after passing the swapped and negated
quotient to its completion, and when it fails the inverse returns the error of the
division: in no case is `e` returned or tested.  (3) When `small_det_r` reports
ERR_OUT_OF_RANGE the value it has left is infinite, and the inverse of a numeric 2×2
real matrix divides every element by that infinity: with both allocations succeeding
it returns ERR_NONE and passes the zero matrix to its completion.  (4) When
`small_det_c` reports ERR_OUT_OF_RANGE one of the two parts it has left is infinite,
and the inverse of a 2×2 complex matrix returns ERR_NONE and passes a matrix to its
completion. -/
theorem small_inv_ignores_det_error (env : phloat_env) (cp : completion_v_ref)
    (st : core_state) (e : Err) :
    (∀ (ma : vartype_realmatrix) (det : phloat), ma.rows = 2 →
      small_det_r env st ma = some (e, det) →
      (det = 0 → st.matrix_singularmatrix = true →
        small_inv_r env ma cp st = some (ERR_SINGULAR_MATRIX, st)) ∧
      (det ≠ 0 → (alloc_next st).1 = true →
        ∀ g, generic_div env (vartype.real det) (vartype.realmatrix ma)
            { (alloc_next st).2 with
              range_error_ignore := inv_range_error_ignore (alloc_next st).2 } = some g →
          (g.1 ≠ ERR_NONE → ∃ s, small_inv_r env ma cp st = some (g.1, s)) ∧
          (g.1 = ERR_NONE → ∀ r d0 d1 d2 d3, g.2.1 = some (vartype.realmatrix r) →
            r.data = [d0, d1, d2, d3] →
            ∃ s, small_inv_r env ma cp st
              = some (ERR_NONE, call_completion_v cp
                  (vartype.realmatrix { r with data := [d3, -d1, -d2, d0] }) s)))) ∧
    (∀ (ma : vartype_complexmatrix) (dre dim : phloat), ma.rows = 2 →
      small_det_c env st ma = some (e, dre, dim) →
      (dre = 0 ∧ dim = 0 → st.matrix_singularmatrix = true →
        small_inv_c env ma cp st = some (ERR_SINGULAR_MATRIX, st)) ∧
      (¬ (dre = 0 ∧ dim = 0) → (alloc_next st).1 = true →
        ∀ g, generic_div env (vartype.complex dre dim) (vartype.complexmatrix ma)
            { (alloc_next st).2 with
              range_error_ignore := inv_range_error_ignore (alloc_next st).2 } = some g →
          (g.1 ≠ ERR_NONE → ∃ s, small_inv_c env ma cp st = some (g.1, s)) ∧
          (g.1 = ERR_NONE → ∀ r d0 d1 d2 d3 d4 d5 d6 d7,
            g.2.1 = some (vartype.complexmatrix r) →
            r.data = [d0, d1, d2, d3, d4, d5, d6, d7] →
            ∃ s, small_inv_c env ma cp st
              = some (ERR_NONE, call_completion_v cp
                  (vartype.complexmatrix
                    { r with data := [d6, d7, -d2, -d3, -d4, -d5, d0, d1] }) s)))) ∧
    (∀ (ma : vartype_realmatrix) (a b c d det : phloat), ma.rows = 2 →
      ma.data = [a, b, c, d] → contains_strings ma = false →
      small_det_r env st ma = some (ERR_OUT_OF_RANGE, det) →
      env.p_isinf 0 = 0 →
      (alloc_next st).1 = true → (alloc_next (alloc_next st).2).1 = true →
      env.p_isinf det ≠ 0 ∧
      ∃ s, small_inv_r env ma cp st
        = some (ERR_NONE, call_completion_v cp
            (vartype.realmatrix { ma with data := [0, 0, 0, 0] }) s)) ∧
    (∀ (ma : vartype_complexmatrix) (dre dim : phloat), ma.rows = 2 →
      ma.data.length = 8 →
      small_det_c env st ma = some (ERR_OUT_OF_RANGE, dre, dim) →
      env.p_isinf 0 = 0 →
      (alloc_next st).1 = true → (alloc_next (alloc_next st).2).1 = true →
      (env.p_isinf dre ≠ 0 ∨ env.p_isinf dim ≠ 0) ∧
      ∃ v s, small_inv_c env ma cp st
        = some (ERR_NONE, call_completion_v cp (vartype.complexmatrix v) s)) := by
  refine ⟨(small_inv_flow env cp st e).1, (small_inv_flow env cp st e).2, ?_, ?_⟩
  · intro ma a b c d det hr hd hs hdet h0 ha1 ha2
    have hr1 : ¬ ma.rows = 1 := by omega
    have hinf : env.p_isinf det ≠ 0 := by
      simp only [small_det_r, hr1, if_false, hd, List.getElem?_cons_zero,
        List.getElem?_cons_succ, Option.some.injEq] at hdet
      by_cases hf : (det_range env st (dot_2d env a b d c false)).1 = ERR_NONE
      · rw [hdet] at hf
        cases hf
      · obtain ⟨h1, h2⟩ := det_range_err env st _ hf
        rw [h2, Prod.mk.injEq] at hdet
        rw [← hdet.2]
        exact h1
    refine ⟨hinf, ?_⟩
    have hne : det ≠ 0 := by
      intro h
      rw [h] at hinf
      exact hinf h0
    obtain ⟨sg, hsg⟩ := xnum_of_infinite env det hinf
    have hg : generic_div env (vartype.real det) (vartype.realmatrix ma)
        { (alloc_next st).2 with
          range_error_ignore := inv_range_error_ignore (alloc_next st).2 }
        = some (ERR_NONE, some (vartype.realmatrix { ma with data := [0, 0, 0, 0] }),
            (alloc_next { (alloc_next st).2 with
              range_error_ignore := inv_range_error_ignore (alloc_next st).2 }).2) := by
      have ha : (alloc_next { (alloc_next st).2 with
          range_error_ignore := inv_range_error_ignore (alloc_next st).2 }).1 = true := ha2
      simp only [generic_div, hs, Bool.false_eq_true, if_false, hne, hd, hsg, List.map,
        x_range_div_inf env _ _ _ h0, List.any, bne_self_eq_false, Bool.or_self, ha,
        Bool.not_true]
    obtain ⟨s, hs2⟩ := (((small_inv_flow env cp st ERR_OUT_OF_RANGE).1 ma det hr hdet).2 hne ha1
      _ hg).2 rfl { ma with data := [0, 0, 0, 0] } 0 0 0 0 rfl rfl
    refine ⟨s, ?_⟩
    rw [hs2]
    simp
  · intro ma dre dim hr hlen hdet h0 ha1 ha2
    have hr1 : ¬ ma.rows = 1 := by omega
    obtain ⟨a0, a1, a2, a3, a4, a5, a6, a7, hd⟩ := list_length_eight ma.data hlen
    have hinf : env.p_isinf dre ≠ 0 ∨ env.p_isinf dim ≠ 0 := by
      simp only [small_det_c, hr1, if_false, hd, List.getElem?_cons_zero,
        List.getElem?_cons_succ] at hdet
      split_ifs at hdet with hc1 hc2
      · simp only [Option.some.injEq, Prod.mk.injEq, true_and] at hdet
        rw [← hdet.1]
        exact Or.inl (det_range_err env st _ hc1).1
      · simp only [Option.some.injEq, Prod.mk.injEq, true_and] at hdet
        rw [← hdet.2]
        exact Or.inr (det_range_err env st _ hc2).1
      · simp only [Option.some.injEq, Prod.mk.injEq] at hdet
        exact absurd hdet.1 (by decide)
    refine ⟨hinf, ?_⟩
    have hne : ¬ (dre = 0 ∧ dim = 0) := by
      rintro ⟨h1, h2⟩
      rw [h1, h2] at hinf
      rcases hinf with h | h <;> exact h h0
    obtain ⟨data, hlen2, hg⟩ := generic_div_c_inf env
      { (alloc_next st).2 with
        range_error_ignore := inv_range_error_ignore (alloc_next st).2 }
      dre dim ma hne hinf h0 ha2
    obtain ⟨d0, d1, d2, d3, d4, d5, d6, d7, hdata⟩ :=
      list_length_eight data (by rw [hlen2, hlen])
    obtain ⟨s, hs2⟩ := (((small_inv_flow env cp st ERR_OUT_OF_RANGE).2 ma dre dim hr hdet).2 hne
      ha1 _ hg).2 rfl { ma with data := data } d0 d1 d2 d3 d4 d5 d6 d7 rfl hdata
    exact ⟨_, s, hs2⟩

theorem small_det_r_twenty :
    small_det_r env_small st_idle mat_twenty = some (ERR_OUT_OF_RANGE, 400) := by
  have h : env_small.p_isinf (20 * 20 - 0 * 0) = 1 := by norm_num [env_small]
  have h2 : (20 : ℚ) * 20 - 0 * 0 = 400 := by norm_num
  simp only [small_det_r, mat_twenty, List.getElem?_cons_zero, List.getElem?_cons_succ,
    dot_2d_exact, Bool.false_eq_true, if_false, det_range_eq, h]
  simp [st_idle]
  norm_num

/-- C38, witness: in `env_small` the determinant 400 of `[[20, 0], [0, 20]]` is
infinite and `small_det_r` reports ERR_OUT_OF_RANGE, yet `small_inv_r` divides the
matrix by the infinity and returns ERR_NONE with the zero matrix. -/
theorem small_inv_ignores_det_error_witness :
    small_det_r env_small st_idle mat_twenty = some (ERR_OUT_OF_RANGE, 400) ∧
    env_small.p_isinf 400 ≠ 0 ∧
    ∃ s, small_inv_r env_small mat_twenty completion_v_ref.caller st_idle
      = some (ERR_NONE, call_completion_v completion_v_ref.caller
          (vartype.realmatrix { mat_twenty with data := [0, 0, 0, 0] }) s) :=
  ⟨small_det_r_twenty,
    (small_inv_ignores_det_error env_small completion_v_ref.caller st_idle
      ERR_OUT_OF_RANGE).2.2.1 mat_twenty 20 0 0 20 400 rfl rfl rfl small_det_r_twenty
        (by norm_num [env_small]) rfl rfl⟩

theorem check_types_total (st : core_state) (rttypes : Nat) (l : List Nat)
    (h : ∀ i ∈ l, ∃ v, stack_at st (st.sp - (i : Int)) = some v) :
    ∃ r, check_types st rttypes l = some r := by
  induction l with
  | nil => exact ⟨_, rfl⟩
  | cons i rest ih =>
    obtain ⟨v, hv⟩ := h i (List.mem_cons_self i rest)
    simp only [check_types, hv]
    split_ifs
    · exact ⟨_, rfl⟩
    · exact ⟨_, rfl⟩
    · exact ih (fun i hi => h i (List.mem_cons_of_mem _ hi))

/-- C39. Index safety of the type check of `handle`: for a descriptor of arity `N ≥ 1`,
once the arity check has passed, in big-stack mode or in 4-level mode with `sp = 3`,
every index `sp − i` with `0 ≤ i < N` that the type check reads lies within `0 .. sp`;
hence, the stack holding `sp + 1` values, every such slot holds a value and the type
check returns (with an error or without), reading nothing outside the stack. -/
theorem type_check_index_safety (cs : command_spec) (st : core_state)
    (hN : 1 ≤ cs.argcount)
    (harity : too_few_arguments cs st = some false)
    (h4 : st.big_stack = false → st.sp = 3)
    (hlen : (st.stack.length : Int) = st.sp + 1) :
    (st.big_stack = true → cs.argcount ≤ st.sp + 1) ∧
    (st.big_stack = false → cs.argcount ≤ 4) ∧
    (∀ i : Nat, (i : Int) < cs.argcount →
      0 ≤ st.sp - (i : Int) ∧ st.sp - (i : Int) ≤ st.sp ∧
      ∃ v, stack_at st (st.sp - (i : Int)) = some v) ∧
    ∃ r, type_check cs st = some r := by
  have hbig : st.big_stack = true → cs.argcount ≤ st.sp + 1 := by
    intro hb
    have hne : cs.argcount ≠ -1 := by omega
    simp only [too_few_arguments, hb, if_true, hne, if_false, Option.some.injEq,
      decide_eq_false_iff_not] at harity
    omega
  have hsmall : st.big_stack = false → cs.argcount ≤ 4 := by
    intro hb
    simp only [too_few_arguments, hb, Bool.false_eq_true, if_false] at harity
    split_ifs at harity with h
    · simp at harity
    · omega
  have hle : cs.argcount ≤ st.sp + 1 := by
    cases hb : st.big_stack
    · have := hsmall hb
      have := h4 hb
      omega
    · exact hbig hb
  have hslot : ∀ i : Nat, (i : Int) < cs.argcount →
      0 ≤ st.sp - (i : Int) ∧ st.sp - (i : Int) ≤ st.sp ∧
      ∃ v, stack_at st (st.sp - (i : Int)) = some v := by
    intro i hi
    have h0 : 0 ≤ st.sp - (i : Int) := by omega
    refine ⟨h0, by omega, ?_⟩
    have hlt : (st.sp - (i : Int)).toNat < st.stack.length := by
      have : ((st.sp - (i : Int)).toNat : Int) = st.sp - (i : Int) := Int.toNat_of_nonneg h0
      omega
    refine ⟨st.stack[(st.sp - (i : Int)).toNat], ?_⟩
    simp only [stack_at, not_lt.2 h0, if_false]
    exact List.getElem?_eq_getElem hlt
  refine ⟨hbig, hsmall, hslot, ?_⟩
  simp only [type_check]
  split_ifs
  · apply check_types_total
    intro i hi
    have := List.mem_range.1 hi
    exact (hslot i (by omega)).2.2
  · exact ⟨_, rfl⟩

/-- C39, witness: arity 2 against a big stack of depth 3. -/
theorem type_check_index_safety_witness :
    (∀ i : Nat, (i : Int) < cs_two_real.argcount →
      0 ≤ st_complex_on_string.sp - (i : Int) ∧
      st_complex_on_string.sp - (i : Int) ≤ st_complex_on_string.sp ∧
      ∃ v, stack_at st_complex_on_string (st_complex_on_string.sp - (i : Int)) = some v) ∧
    ∃ r, type_check cs_two_real st_complex_on_string = some r :=
  (type_check_index_safety cs_two_real st_complex_on_string (by decide) rfl
    (fun h => absurd h (by decide)) rfl).2.2

theorem call_completion_v_flag (c : completion_v_ref) (v : vartype) (st : core_state) :
    (call_completion_v c v st).range_error_ignore = st.range_error_ignore := by
  cases c <;> rfl

theorem generic_div_returns_data (env : phloat_env) (x y : vartype) (st : core_state)
    (g : Err × Option vartype × core_state) (h : generic_div env x y st = some g)
    (hg : g.1 = ERR_NONE) :
    (∀ ma, y = vartype.realmatrix ma →
      ∃ r, g.2.1 = some (vartype.realmatrix r) ∧ r.data.length = ma.data.length) ∧
    (∀ ma, y = vartype.complexmatrix ma →
      ∃ r, g.2.1 = some (vartype.complexmatrix r) ∧ r.data.length = ma.data.length) := by
  unfold generic_div at h
  split at h
  · dsimp only at h
    split_ifs at h
    all_goals (simp only [Option.some.injEq] at h; subst h; simp_all)
  · dsimp only at h
    split_ifs at h
    all_goals (simp only [Option.some.injEq] at h; subst h; simp_all)
  · cases h

theorem small_inv_r_flag (env : phloat_env) (ma : vartype_realmatrix) (cp : completion_v_ref)
    (st : core_state) (e : Err) (s : core_state)
    (h : small_inv_r env ma cp st = some (e, s)) :
    s.range_error_ignore = st.range_error_ignore := by
  unfold small_inv_r at h
  by_cases h1 : ma.rows = 1
  · simp only [h1, if_true] at h
    split at h
    · cases h
    · split_ifs at h <;> simp only [Option.some.injEq, Prod.mk.injEq] at h <;>
        obtain ⟨rfl, rfl⟩ := h <;>
        simp [call_completion_v_flag, alloc_next]
  · simp only [h1, if_false] at h
    split at h
    · cases h
    · split_ifs at h
      · simp only [Option.some.injEq, Prod.mk.injEq] at h
        obtain ⟨rfl, rfl⟩ := h
        rfl
      · simp only [Option.some.injEq, Prod.mk.injEq] at h
        obtain ⟨rfl, rfl⟩ := h
        simp [alloc_next]
      · simp only [Option.some.injEq, Prod.mk.injEq] at h
        obtain ⟨rfl, rfl⟩ := h
        simp [alloc_next, call_completion_v_flag]
      · simp only [Option.some.injEq, Prod.mk.injEq] at h
        obtain ⟨rfl, rfl⟩ := h
        simp [alloc_next]
      · split at h
        · cases h
        · split_ifs at h with hg1
          · simp only [Option.some.injEq, Prod.mk.injEq] at h
            obtain ⟨rfl, rfl⟩ := h
            simp [release, alloc_next]
          · split at h
            · split at h
              · simp only [Option.some.injEq, Prod.mk.injEq] at h
                obtain ⟨rfl, rfl⟩ := h
                simp [release, alloc_next, call_completion_v_flag]
              · cases h
            · cases h

theorem small_inv_c_flag (env : phloat_env) (ma : vartype_complexmatrix)
    (cp : completion_v_ref) (st : core_state) (e : Err) (s : core_state)
    (h : small_inv_c env ma cp st = some (e, s)) :
    s.range_error_ignore = st.range_error_ignore := by
  unfold small_inv_c at h
  by_cases h1 : ma.rows = 1
  · simp only [h1, if_true] at h
    split at h
    · split_ifs at h <;> simp only [Option.some.injEq, Prod.mk.injEq] at h <;>
        obtain ⟨rfl, rfl⟩ := h <;>
        simp [call_completion_v_flag, alloc_next]
    · cases h
  · simp only [h1, if_false] at h
    split at h
    · cases h
    · split_ifs at h
      · simp only [Option.some.injEq, Prod.mk.injEq] at h
        obtain ⟨rfl, rfl⟩ := h
        rfl
      · simp only [Option.some.injEq, Prod.mk.injEq] at h
        obtain ⟨rfl, rfl⟩ := h
        simp [alloc_next]
      · simp only [Option.some.injEq, Prod.mk.injEq] at h
        obtain ⟨rfl, rfl⟩ := h
        simp [alloc_next, call_completion_v_flag]
      · simp only [Option.some.injEq, Prod.mk.injEq] at h
        obtain ⟨rfl, rfl⟩ := h
        simp [alloc_next]
      · split at h
        · cases h
        · split_ifs at h with hg1
          · simp only [Option.some.injEq, Prod.mk.injEq] at h
            obtain ⟨rfl, rfl⟩ := h
            simp [release, alloc_next]
          · split at h
            · split at h
              · simp only [Option.some.injEq, Prod.mk.injEq] at h
                obtain ⟨rfl, rfl⟩ := h
                simp [release, alloc_next, call_completion_v_flag]
              · cases h
            · cases h

theorem small_inv_r_returns (env : phloat_env) (ma : vartype_realmatrix)
    (cp : completion_v_ref) (st : core_state) (hr : ma.rows = 1 ∨ ma.rows = 2)
    (hlen : ma.rows * ma.rows ≤ ma.data.length) :
    ∃ e s, small_inv_r env ma cp st = some (e, s) := by
  have hsome : ∀ o : Option (Err × core_state), (∃ r, o = some r) → ∃ e s, o = some (e, s) := by
    rintro o ⟨⟨e, s⟩, h⟩
    exact ⟨e, s, h⟩
  apply hsome
  unfold small_inv_r
  rcases hr with h1 | h2
  · rw [h1] at hlen
    obtain ⟨x0, hx0⟩ : ∃ x0, ma.data[0]? = some x0 :=
      ⟨ma.data[0], List.getElem?_eq_getElem (by omega)⟩
    simp only [h1, if_true, hx0]
    split_ifs <;> exact ⟨_, rfl⟩
  · rw [h2] at hlen
    have h2n : ¬ ma.rows = 1 := by omega
    obtain ⟨a0, ha0⟩ : ∃ x, ma.data[0]? = some x :=
      ⟨ma.data[0], List.getElem?_eq_getElem (by omega)⟩
    obtain ⟨a1, ha1⟩ : ∃ x, ma.data[1]? = some x :=
      ⟨ma.data[1], List.getElem?_eq_getElem (by omega)⟩
    obtain ⟨a2, ha2⟩ : ∃ x, ma.data[2]? = some x :=
      ⟨ma.data[2], List.getElem?_eq_getElem (by omega)⟩
    obtain ⟨a3, ha3⟩ : ∃ x, ma.data[3]? = some x :=
      ⟨ma.data[3], List.getElem?_eq_getElem (by omega)⟩
    have hdet : small_det_r env st ma
        = some (det_range env st (dot_2d env a0 a1 a3 a2 false)) := by
      simp [small_det_r, h2n, ha0, ha1, ha2, ha3]
    simp only [h2n, if_false, hdet]
    split_ifs
    · exact ⟨_, rfl⟩
    · exact ⟨_, rfl⟩
    · exact ⟨_, rfl⟩
    · exact ⟨_, rfl⟩
    · rename_i hd0 ha
      rcases hg : generic_div env (vartype.real (det_range env st (dot_2d env a0 a1 a3 a2 false)).2)
          (vartype.realmatrix ma)
          { (alloc_next st).2 with
            range_error_ignore := inv_range_error_ignore (alloc_next st).2 } with _ | g
      · simp [generic_div] at hg
        split_ifs at hg
      · dsimp only
        by_cases hg1 : g.1 = ERR_NONE
        · obtain ⟨r, hr1, hr2⟩ := (generic_div_returns_data env _ _ _ _ hg hg1).1 ma rfl
          obtain ⟨d0, hd0⟩ : ∃ x, r.data[0]? = some x :=
            ⟨r.data[0], List.getElem?_eq_getElem (by omega)⟩
          obtain ⟨d1, hd1⟩ : ∃ x, r.data[1]? = some x :=
            ⟨r.data[1], List.getElem?_eq_getElem (by omega)⟩
          obtain ⟨d2, hd2⟩ : ∃ x, r.data[2]? = some x :=
            ⟨r.data[2], List.getElem?_eq_getElem (by omega)⟩
          obtain ⟨d3, hd3⟩ : ∃ x, r.data[3]? = some x :=
            ⟨r.data[3], List.getElem?_eq_getElem (by omega)⟩
          simp only [hg1, ne_eq, not_true_eq_false, if_false, hr1, hd0, hd1, hd2, hd3]
          exact ⟨_, rfl⟩
        · simp only [ne_eq, hg1, not_false_eq_true, if_true]
          exact ⟨_, rfl⟩

theorem small_inv_c_returns (env : phloat_env) (ma : vartype_complexmatrix)
    (cp : completion_v_ref) (st : core_state) (hr : ma.rows = 1 ∨ ma.rows = 2)
    (hlen : 2 * (ma.rows * ma.rows) ≤ ma.data.length) :
    ∃ e s, small_inv_c env ma cp st = some (e, s) := by
  have hsome : ∀ o : Option (Err × core_state), (∃ r, o = some r) → ∃ e s, o = some (e, s) := by
    rintro o ⟨⟨e, s⟩, h⟩
    exact ⟨e, s, h⟩
  have hget : ∀ (l : List phloat) (i : Nat), i < l.length → ∃ x, l[i]? = some x :=
    fun l i h => ⟨l[i], List.getElem?_eq_getElem h⟩
  apply hsome
  unfold small_inv_c
  rcases hr with h1 | h2
  · rw [h1] at hlen
    obtain ⟨x0, hx0⟩ := hget ma.data 0 (by omega)
    obtain ⟨x1, hx1⟩ := hget ma.data 1 (by omega)
    simp only [h1, if_true, hx0, hx1]
    split_ifs <;> exact ⟨_, rfl⟩
  · rw [h2] at hlen
    have h2n : ¬ ma.rows = 1 := by omega
    obtain ⟨a0, ha0⟩ := hget ma.data 0 (by omega)
    obtain ⟨a1, ha1⟩ := hget ma.data 1 (by omega)
    obtain ⟨a2, ha2⟩ := hget ma.data 2 (by omega)
    obtain ⟨a3, ha3⟩ := hget ma.data 3 (by omega)
    obtain ⟨a4, ha4⟩ := hget ma.data 4 (by omega)
    obtain ⟨a5, ha5⟩ := hget ma.data 5 (by omega)
    obtain ⟨a6, ha6⟩ := hget ma.data 6 (by omega)
    obtain ⟨a7, ha7⟩ := hget ma.data 7 (by omega)
    obtain ⟨dr, hdet⟩ : ∃ dr, small_det_c env st ma = some dr := by
      simp only [small_det_c, h2n, if_false, ha0, ha1, ha2, ha3, ha4, ha5, ha6, ha7]
      split_ifs <;> exact ⟨_, rfl⟩
    simp only [h2n, if_false, hdet]
    split_ifs
    · exact ⟨_, rfl⟩
    · exact ⟨_, rfl⟩
    · exact ⟨_, rfl⟩
    · exact ⟨_, rfl⟩
    · rename_i hd0 ha
      rcases hg : generic_div env (vartype.complex dr.2.1 dr.2.2) (vartype.complexmatrix ma)
          { (alloc_next st).2 with
            range_error_ignore := inv_range_error_ignore (alloc_next st).2 } with _ | g
      · simp [generic_div] at hg
        split_ifs at hg
      · dsimp only
        by_cases hg1 : g.1 = ERR_NONE
        · obtain ⟨r, hr1, hr2⟩ := (generic_div_returns_data env _ _ _ _ hg hg1).2 ma rfl
          obtain ⟨d0, hd0⟩ := hget r.data 0 (by omega)
          obtain ⟨d1, hd1⟩ := hget r.data 1 (by omega)
          obtain ⟨d2, hd2⟩ := hget r.data 2 (by omega)
          obtain ⟨d3, hd3⟩ := hget r.data 3 (by omega)
          obtain ⟨d4, hd4⟩ := hget r.data 4 (by omega)
          obtain ⟨d5, hd5⟩ := hget r.data 5 (by omega)
          obtain ⟨d6, hd6⟩ := hget r.data 6 (by omega)
          obtain ⟨d7, hd7⟩ := hget r.data 7 (by omega)
          simp only [hg1, ne_eq, not_true_eq_false, if_false, hr1, hd0, hd1, hd2, hd3, hd4,
            hd5, hd6, hd7]
          exact ⟨_, rfl⟩
        · simp only [ne_eq, hg1, not_false_eq_true, if_true]
          exact ⟨_, rfl⟩

/-- C40: the small inverse preserves `flags.f.range_error_ignore`.  Whenever
`small_inv_r` or `small_inv_c` returns, with ERR_NONE or with any error code, the flag
has the value it had on entry; both return for every 1×1 or 2×2 matrix that has its
elements.  The flag is changed only for the duration of the inner call: in the 2×2 path
`generic_div` runs, and in the complex 1×1 path `math_inv` runs, with the flag set to
`!matrix_outofrange || range_error_ignore`, an error of that call is the error returned,
and the flag is back at its entry value in the state returned with it. -/
theorem small_inv_preserves_range_error_ignore (env : phloat_env) (cp : completion_v_ref)
    (st : core_state) :
    (∀ (ma : vartype_realmatrix) (e : Err) (s : core_state),
      small_inv_r env ma cp st = some (e, s) →
      s.range_error_ignore = st.range_error_ignore) ∧
    (∀ (ma : vartype_complexmatrix) (e : Err) (s : core_state),
      small_inv_c env ma cp st = some (e, s) →
      s.range_error_ignore = st.range_error_ignore) ∧
    (∀ ma : vartype_realmatrix, (ma.rows = 1 ∨ ma.rows = 2) →
      ma.rows * ma.rows ≤ ma.data.length →
      ∃ e s, small_inv_r env ma cp st = some (e, s)) ∧
    (∀ ma : vartype_complexmatrix, (ma.rows = 1 ∨ ma.rows = 2) →
      2 * (ma.rows * ma.rows) ≤ ma.data.length →
      ∃ e s, small_inv_c env ma cp st = some (e, s)) ∧
    (∀ (ma : vartype_realmatrix) (e0 : Err) (det : phloat), ma.rows = 2 →
      small_det_r env st ma = some (e0, det) → det ≠ 0 → (alloc_next st).1 = true →
      ∀ g, generic_div env (vartype.real det) (vartype.realmatrix ma)
          { (alloc_next st).2 with
            range_error_ignore := !st.matrix_outofrange || st.range_error_ignore } = some g →
        g.1 ≠ ERR_NONE →
        ∃ s, small_inv_r env ma cp st = some (g.1, s) ∧
          s.range_error_ignore = st.range_error_ignore) ∧
    (∀ (ma : vartype_complexmatrix) (e0 : Err) (dre dim : phloat), ma.rows = 2 →
      small_det_c env st ma = some (e0, dre, dim) → ¬ (dre = 0 ∧ dim = 0) →
      (alloc_next st).1 = true →
      ∀ g, generic_div env (vartype.complex dre dim) (vartype.complexmatrix ma)
          { (alloc_next st).2 with
            range_error_ignore := !st.matrix_outofrange || st.range_error_ignore } = some g →
        g.1 ≠ ERR_NONE →
        ∃ s, small_inv_c env ma cp st = some (g.1, s) ∧
          s.range_error_ignore = st.range_error_ignore) ∧
    (∀ (ma : vartype_complexmatrix) (xre xim : phloat), ma.rows = 1 →
      ma.data[0]? = some xre → ma.data[1]? = some xim → ¬ (xre = 0 ∧ xim = 0) →
      (math_inv env { st with
          range_error_ignore := !st.matrix_outofrange || st.range_error_ignore }
        xre xim).1 ≠ ERR_NONE →
      small_inv_c env ma cp st
        = some ((math_inv env { st with
            range_error_ignore := !st.matrix_outofrange || st.range_error_ignore }
          xre xim).1, st)) := by
  refine ⟨fun ma e s h => small_inv_r_flag env ma cp st e s h,
    fun ma e s h => small_inv_c_flag env ma cp st e s h,
    fun ma hr hlen => small_inv_r_returns env ma cp st hr hlen,
    fun ma hr hlen => small_inv_c_returns env ma cp st hr hlen, ?_, ?_, ?_⟩
  · intro ma e0 det hr hdet h0 ha g hg hg1
    have hr1 : ¬ ma.rows = 1 := by omega
    have hflag : inv_range_error_ignore (alloc_next st).2
        = (!st.matrix_outofrange || st.range_error_ignore) := by
      simp [inv_range_error_ignore, alloc_next]
    rw [← hflag] at hg
    have h : small_inv_r env ma cp st
        = some (g.1, release obj.d
            { ({ g.2.2 with small_inv_res := g.2.1 } : core_state) with
              range_error_ignore := (alloc_next st).2.range_error_ignore }) := by
      simp [small_inv_r, hr1, hdet, h0, ha, hg, hg1]
    exact ⟨_, h, small_inv_r_flag env ma cp st _ _ h⟩
  · intro ma e0 dre dim hr hdet h0 ha g hg hg1
    have hr1 : ¬ ma.rows = 1 := by omega
    have hflag : inv_range_error_ignore (alloc_next st).2
        = (!st.matrix_outofrange || st.range_error_ignore) := by
      simp [inv_range_error_ignore, alloc_next]
    rw [← hflag] at hg
    have h : small_inv_c env ma cp st
        = some (g.1, release obj.d
            { ({ g.2.2 with small_inv_res := g.2.1 } : core_state) with
              range_error_ignore := (alloc_next st).2.range_error_ignore }) := by
      simp [small_inv_c, hr1, hdet, h0, ha, hg, hg1]
    exact ⟨_, h, small_inv_c_flag env ma cp st _ _ h⟩
  · intro ma xre xim hr hx0 hx1 h0 hm
    have hflag : inv_range_error_ignore st
        = (!st.matrix_outofrange || st.range_error_ignore) := rfl
    rw [← hflag] at hm ⊢
    simp [small_inv_c, hr, hx0, hx1, h0, hm]

/-- With `core_settings.matrix_outofrange` off and the flag clear, the inner call of
the inverse of `[[20, 0], [0, 20]]` runs with the flag set, and the inverse returns
with the flag clear again. -/
theorem small_inv_preserves_range_error_ignore_witness :
    inv_range_error_ignore st_no_range_error = true ∧
    st_no_range_error.range_error_ignore = false ∧
    ∃ e s, small_inv_r env_small mat_twenty completion_v_ref.caller st_no_range_error
        = some (e, s) ∧ s.range_error_ignore = false := by
  refine ⟨by decide, by decide, ?_⟩
  obtain ⟨e, s, h⟩ :=
    (small_inv_preserves_range_error_ignore env_small completion_v_ref.caller
      st_no_range_error).2.2.1 mat_twenty (Or.inr rfl) (by decide)
  exact ⟨e, s, h,
    ((small_inv_preserves_range_error_ignore env_small completion_v_ref.caller
      st_no_range_error).1 mat_twenty e s h).trans rfl⟩

end Plus42
